import Mathlib

/-!
# libsmfm thumbnail loader: a shallow embedding of `src/base/fm-thumbnail-loader.c`

(The second part of the file, namespace `FileInfo`, embeds `src/base/fm-file-info.c`.)

The C translation unit keeps its whole state in file-scope statics guarded by one
recursive mutex (`queue_lock`).  The embedding below turns those statics into one
record (`State`), each C function into a Lean function on that record, and the
pieces of the outside world the code talks to (the image backend vtable, the disk,
the external helpers, the user callbacks) into explicit parameters.

Conventions

* Heap objects (`FmThumbnailLoader`, `ThumbnailTask`) live in list-indexed heaps;
  a pointer is the index of its cell, `none` in a cell means the cell was freed.
* `GObject*` image pointers are natural numbers (object identity); everything
  one can observe of an image goes through the backend vtable.
* C integers are `Int`/`Nat` with the conversions written out (`toGshort`,
  `toGuint`); `double` arithmetic is IEEE-754 binary64 round-to-nearest-even,
  computed exactly on integers (`fdiv`, `fmul_trunc`).
* Code that runs with `queue_lock` released is embedded at the granularity of the
  worker's three phases (pop, process, requeue-or-free).
-/

namespace ThumbLoader

/-! ## C integer conversions -/

/-- Conversion `guint -> gshort` as done by `req->size = size` (two's complement,
keeps the low 16 bits). -/
def toGshort (n : Nat) : Int :=
  if n % 65536 < 32768 then ((n % 65536 : Nat) : Int) else ((n % 65536 : Nat) : Int) - 65536

/-- Conversion `int -> guint` (32 bit), as done when a `gshort`/`gint` is returned or
passed where a `guint` is expected. -/
def toGuint (i : Int) : Nat := (i % 4294967296).toNat

/-! ## IEEE-754 binary64 arithmetic used by `scale_pix` -/

/-- Nearest integer to `n / d`, ties to even. -/
def roundNE (n d : Nat) : Nat :=
  if 2 * (n % d) < d then n / d
  else if d < 2 * (n % d) then n / d + 1
  else if (n / d) % 2 = 0 then n / d else n / d + 1

/-- Number of binary digits of `n` (with fuel). -/
def bitlen : Nat → Nat → Nat
  | 0, _ => 0
  | fuel + 1, n => if n = 0 then 0 else bitlen fuel (n / 2) + 1

/-- The quotient `(gdouble)a / b` of two non-negative C `int`s, `b > 0`: the pair
`(m, k)` stands for the double `m / 2^k`, where `m` is the 53-bit significand
obtained by rounding to nearest, ties to even. -/
def fdiv (a b : Nat) : Nat × Nat :=
  let k0 := 52 + bitlen 64 b - bitlen 64 a
  let k := if b * 2 ^ 52 ≤ a * 2 ^ k0 then k0 else k0 + 1
  (roundNE (a * 2 ^ k) b, k)

/-- The C expression `(int)(s * q)` for a non-negative `int s` and a double
`q = m / 2^k`: the product is rounded to a 53-bit significand, then truncated. -/
def fmul_trunc (s : Nat) (q : Nat × Nat) : Nat :=
  if bitlen 128 (s * q.1) ≤ 53 then (s * q.1) / 2 ^ q.2
  else
    (roundNE (s * q.1) (2 ^ (bitlen 128 (s * q.1) - 53)) * 2 ^ (bitlen 128 (s * q.1) - 53)) / 2 ^ q.2

/-- The C computation `gdouble aspect = (gdouble)num / den; (int)(size * aspect)` on
`int`s.  Signs are handled by sign-magnitude (rounding to nearest is symmetric and
the conversion truncates toward zero).  For `den = 0` the C conversion is
undefined; the embedding returns 0 there. -/
def scaled_side (size num den : Int) : Int :=
  if den = 0 then 0
  else
    let mag : Int := (fmul_trunc size.natAbs (fdiv num.natAbs den.natAbs) : Nat)
    if (decide (size < 0) != decide (num < 0)) != decide (den < 0) then -mag else mag

/-! ## The image backend -/

/-- An image object (`GObject*`), identified by its address. -/
abbrev GObject := Nat

/-- The part of the `FmThumbnailLoaderBackend` vtable that acts on images in
memory.  `get_image_text` is the lookup of the key `"tEXt::Thumb::MTime"` (the only
key the loader asks for); a `NULL` result is `none`.  The vtable's file and stream
readers and its writer act on the disk and appear as environment inputs of the
worker instead (`WorkerEnv`). -/
structure FmThumbnailLoaderBackend where
  get_image_width : GObject → Int
  get_image_height : GObject → Int
  get_image_text : GObject → Option (List Char)
  scale_image : GObject → Int → Int → Option GObject
  rotate_image : Option GObject → Int → Option GObject

/-- The statics `backend_loaded` and `backend`; the all-`NULL` initial vtable is
`none`. -/
structure BackendSlot where
  backend_loaded : Bool
  backend : Option FmThumbnailLoaderBackend

/-- Static initialisers: `backend_loaded = FALSE`, `backend = {NULL}`. -/
def BackendSlot.initial : BackendSlot := ⟨false, none⟩

/-- The C function `fm_thumbnail_loader_set_backend`. -/
def fm_thumbnail_loader_set_backend (s : BackendSlot) (_backend : FmThumbnailLoaderBackend) :
    BackendSlot × Bool :=
  if s.backend_loaded then (s, false)
  else ({ backend := some _backend, backend_loaded := true }, true)

/-- A run of successive `fm_thumbnail_loader_set_backend` calls: final slot and the
list of return values. -/
def set_backend_calls : BackendSlot → List FmThumbnailLoaderBackend → BackendSlot × List Bool
  | s, [] => (s, [])
  | s, b :: bs =>
    let r := fm_thumbnail_loader_set_backend s b
    let rest := set_backend_calls r.1 bs
    (rest.1, r.2 :: rest.2)

/-! ## `scale_pix` -/

/-- The target dimensions `(new_width, new_height)` computed by `scale_pix`. -/
def scale_dims (width height size : Int) : Int × Int :=
  if width > height then (size, scaled_side size height width)
  else if width < height then (scaled_side size width height, size)
  else (size, size)

/-- The C function `scale_pix`: the original image (a new reference to it) when the
size is unchanged or the original is smaller, otherwise what the backend's
`scale_image` returns. -/
def scale_pix (B : FmThumbnailLoaderBackend) (ori_pix : GObject) (size : Int) : Option GObject :=
  let width := B.get_image_width ori_pix
  let height := B.get_image_height ori_pix
  let d := scale_dims width height size
  if (d.1 = width ∧ d.2 = height) ∨ (size > width ∧ size > height) then some ori_pix
  else B.scale_image ori_pix d.1 d.2

/-! ## Freshness of an on-disk thumbnail -/

/-- Value of a decimal digit character, if it is one. -/
def digitVal (c : Char) : Option Nat :=
  if '0' ≤ c ∧ c ≤ '9' then some (c.toNat - 48) else none

/-- Characters skipped by `isspace` in the C locale. -/
def isSpaceC (c : Char) : Bool :=
  c = ' ' || c = '\t' || c = '\n' || c = '\x0b' || c = '\x0c' || c = '\r'

/-- Leading decimal digits of a string, accumulated left to right. -/
def parseDigits : Nat → List Char → Nat
  | acc, [] => acc
  | acc, c :: cs =>
    match digitVal c with
    | some d => parseDigits (acc * 10 + d) cs
    | none => acc

/-- The libc function `atol` for a 64-bit `long`, as glibc implements it
(`strtol (s, NULL, 10)`): leading white space, an optional sign, decimal digits up
to the first other character; a value outside `long` saturates at `LONG_MAX` /
`LONG_MIN`. -/
def atol (s : List Char) : Int :=
  match s.dropWhile isSpaceC with
  | '-' :: cs => max (-(parseDigits 0 cs : Int)) (-9223372036854775808)
  | '+' :: cs => min (parseDigits 0 cs : Int) 9223372036854775807
  | cs => min (parseDigits 0 cs : Int) 9223372036854775807

/-- Decimal digits of `n`, least significant first (with fuel). -/
def digitsRev : Nat → Nat → List Char
  | 0, _ => []
  | fuel + 1, n =>
    Nat.digitChar (n % 10) :: (if n / 10 = 0 then [] else digitsRev fuel (n / 10))

/-- The string `g_snprintf (mtime_str, 100, "%lu", mtime)` of
`save_thumbnail_to_disk`: the `time_t` (a 64-bit `long`) is read as an
`unsigned long` and printed in decimal (at most 20 digits). -/
def mtime_str (mtime : Int) : List Char :=
  (digitsRev 20 (mtime % 18446744073709551616).toNat).reverse

/-- The C function `is_thumbnail_outdated`.  `st_mtime` is the outcome of
`stat (thumbnail_path)`: `none` when the call fails.  The result is the pair
(return value, whether `unlink (thumbnail_path)` was called). -/
def is_thumbnail_outdated (B : FmThumbnailLoaderBackend) (thumb_pix : GObject)
    (st_mtime : Option Int) (mtime : Int) : Bool × Bool :=
  let outdated : Bool :=
    match B.get_image_text thumb_pix with
    | some thumb_mtime => decide (atol thumb_mtime ≠ mtime)
    | none =>
      match st_mtime with
      | some t => decide (mtime > t)
      | none => false
  (outdated, outdated)

/-! ## Data model -/

/-- A path (`FmPath*`), compared with `fm_path_equal`. -/
abbrev FmPath := String

/-- What the loader reads of a `FmFileInfo` through its getters: path, mtime, size,
`fm_file_info_is_image` and whether `fm_file_info_get_mime_type` is non-`NULL`. -/
structure FmFileInfo where
  path : FmPath
  mtime : Int
  size : Nat
  is_image : Bool
  has_mime_type : Bool
deriving DecidableEq, Repr

/-- The bit set `ThumbnailTaskFlags` (`LOAD_NORMAL`, `LOAD_LARGE`, `GENERATE_NORMAL`,
`GENERATE_LARGE`), one boolean per bit. -/
structure ThumbnailTaskFlags where
  load_normal : Bool
  load_large : Bool
  generate_normal : Bool
  generate_large : Bool
deriving DecidableEq, Repr

/-- The two thumbnail files of a task: `<thumb_dir>/normal/<md5 of uri>.png` and
`<thumb_dir>/large/<md5 of uri>.png`. -/
inductive ThumbFile where
  | normal
  | large
deriving DecidableEq, Repr

/-- The C struct `_ThumbnailTask`; `requests` holds request pointers.  (`uri` is
set whenever the paths are and is not read by the embedded code.) -/
structure ThumbnailTask where
  fi : FmFileInfo
  flags : ThumbnailTaskFlags
  cancelled : Bool
  locked : Bool
  normal_path : Option ThumbFile
  large_path : Option ThumbFile
  requests : List Nat
deriving DecidableEq, Repr

/-- The C struct `_FmThumbnailLoader` (a request handle); `task` is a task pointer,
`callback` identifies the user's callback function, `size` is a `gshort`. -/
structure FmThumbnailLoader where
  fi : FmFileInfo
  task : Option Nat
  callback : Nat
  user_data : Nat
  pix : Option GObject
  cancelled : Bool
  size : Int
  done : Bool
deriving DecidableEq, Repr

/-- The C struct `_ThumbnailCacheItem`; `size` is a `guint`. -/
structure ThumbnailCacheItem where
  size : Nat
  pix : GObject
deriving DecidableEq, Repr

/-- The C struct `_ThumbnailCache`: one bucket of the hash table. -/
structure ThumbnailCache where
  path : FmPath
  items : List ThumbnailCacheItem
deriving DecidableEq, Repr

/-- Where the loader thread stands in the body of its `for(;;)` loop: about to pop
a task, about to process the popped task, about to requeue or free it. -/
inductive WorkerPc where
  | pop
  | run
  | requeue
deriving DecidableEq, Repr

/-- The file-scope statics of the translation unit, the two heaps, the position of
the loader thread, the number of pending `fm_thumbnail_loader_cleanup` timers, and
the log of callback invocations (request pointer and the request as the callback
saw it). -/
structure State where
  hash : Option (List ThumbnailCache)
  reqs : List (Option FmThumbnailLoader)
  tasks : List (Option ThumbnailTask)
  loader_queue : List Nat
  loader_thread_id : Bool
  cur_loading : Option Nat
  generator_cancellable : Option Bool
  ready_queue : List Nat
  ready_idle_handler : Nat
  thumbnailer_pid : Int
  thumbnailer_timeout_id : Nat
  worker_pc : WorkerPc
  cleanup_timers : Nat
  fired : List (Nat × FmThumbnailLoader)
deriving DecidableEq, Repr

/-- The statics as initialised at program start. -/
def State.initial : State :=
  { hash := none, reqs := [], tasks := [], loader_queue := [], loader_thread_id := false,
    cur_loading := none, generator_cancellable := none, ready_queue := [],
    ready_idle_handler := 0, thumbnailer_pid := -1, thumbnailer_timeout_id := 0,
    worker_pc := WorkerPc.pop, cleanup_timers := 0, fired := [] }

/-- The C function `_fm_thumbnail_loader_init`: creates the hash table and the
generator cancellable. -/
def _fm_thumbnail_loader_init (s : State) : State :=
  { s with hash := some [], generator_cancellable := some false }

/-! ## Heaps -/

/-- Dereference a pointer: the cell's content, `none` for a freed or invalid cell. -/
def heapGet {α : Type} (h : List (Option α)) (i : Nat) : Option α := h.getD i none

/-- Update the object a pointer refers to (no effect on a freed or invalid cell). -/
def heapMod {α : Type} (h : List (Option α)) (i : Nat) (f : α → α) : List (Option α) :=
  h.set i ((heapGet h i).map f)

/-- Free a cell. -/
def heapFree {α : Type} (h : List (Option α)) (i : Nat) : List (Option α) := h.set i none

/-- Identifier returned by `g_idle_add_full` when `ready_idle_handler` is 0; only
zero or non-zero is ever tested. -/
def arm_idle (ready_idle_handler : Nat) : Nat :=
  if ready_idle_handler = 0 then 1 else ready_idle_handler

/-! ## The in-memory cache -/

/-- The C function `find_thumbnail_in_hash`. -/
def find_thumbnail_in_hash (hash : List ThumbnailCache) (path : FmPath) (size : Nat) :
    Option GObject :=
  match hash.find? (fun c => decide (c.path = path)) with
  | some cache => (cache.items.find? (fun item => decide (item.size = size))).map (·.pix)
  | none => none

/-- A well-formed cache: one bucket per path (the hash table's keys are distinct)
and at most one item per size in each bucket. -/
def cache_wf (hash : List ThumbnailCache) : Prop :=
  (hash.map (·.path)).Nodup ∧ ∀ c ∈ hash, (c.items.map (·.size)).Nodup

/-- The C function `cache_thumbnail_in_hash`: the bucket of `path` gets a new item at
its head unless it has one of that size; a missing bucket is created. -/
def cache_thumbnail_in_hash : List ThumbnailCache → FmPath → GObject → Nat → List ThumbnailCache
  | [], path, pix, size => [{ path := path, items := [{ size := size, pix := pix }] }]
  | c :: cs, path, pix, size =>
    if c.path = path then
      (if c.items.any (fun item => decide (item.size = size)) then c
       else { c with items := { size := size, pix := pix } :: c.items }) :: cs
    else c :: cache_thumbnail_in_hash cs path pix size

/-- The C function `on_pixbuf_destroy` for the bucket of `path`: the first item
holding `pix` is unlinked; a bucket left empty is removed from the hash table. -/
def on_pixbuf_destroy : List ThumbnailCache → FmPath → GObject → List ThumbnailCache
  | [], _, _ => []
  | c :: cs, path, pix =>
    if c.path = path then
      if c.items.any (fun item => decide (item.pix = pix)) then
        (if c.items.eraseP (fun item => decide (item.pix = pix)) = [] then cs
         else { c with items := c.items.eraseP (fun item => decide (item.pix = pix)) } :: cs)
      else c :: cs
    else c :: on_pixbuf_destroy cs path pix

/-! ## Requests: `load`, `cancel`, the getters -/

/-- The test in the loop of `find_queued_task`: the task is neither cancelled nor
locked and `task->fi == fi || fm_path_equal (...)` holds. -/
def queued_task_matches (tasks : List (Option ThumbnailTask)) (fi : FmFileInfo) (t : Nat) : Bool :=
  match heapGet tasks t with
  | some task =>
    if task.cancelled || task.locked then false
    else decide (task.fi = fi) || decide (task.fi.path = fi.path)
  | none => false

/-- The C function `find_queued_task`: the first task of the queue that passes the
test. -/
def find_queued_task (tasks : List (Option ThumbnailTask)) (queue : List Nat) (fi : FmFileInfo) :
    Option Nat :=
  queue.find? (queued_task_matches tasks fi)

/-- An open task for `path`: a live task that is neither cancelled nor locked and
whose file has that path. -/
def open_task (tasks : List (Option ThumbnailTask)) (path : FmPath) (t : Nat) : Prop :=
  ∃ task, heapGet tasks t = some task ∧ task.cancelled = false ∧ task.locked = false ∧
    task.fi.path = path

/-- A task as `g_slice_new0` and `task->fi = fm_file_info_ref (src_file)` leave it. -/
def new_task (src_file : FmFileInfo) : ThumbnailTask :=
  { fi := src_file, flags := ⟨false, false, false, false⟩, cancelled := false, locked := false,
    normal_path := none, large_path := none, requests := [] }

/-- The flag `fm_thumbnail_loader_load` raises on the task: `LOAD_LARGE` when the
`guint size` exceeds 128, else `LOAD_NORMAL`. -/
def add_load_flag (size : Nat) (flags : ThumbnailTaskFlags) : ThumbnailTaskFlags :=
  if size > 128 then { flags with load_large := true } else { flags with load_normal := true }

/-- What `fm_thumbnail_loader_load` does to the task it found or created: raise the
load flag for `size` and append the request `req` to `task->requests`. -/
def attach_request (size : Nat) (req : Nat) (t : ThumbnailTask) : ThumbnailTask :=
  { t with flags := add_load_flag size t.flags, requests := t.requests ++ [req] }

/-- The C function `fm_thumbnail_loader_load`; the result is the new state and the
returned request pointer (`none` for the `NULL` of `g_return_val_if_fail`). -/
def fm_thumbnail_loader_load (s : State) (src_file : FmFileInfo) (size : Nat)
    (callback user_data : Nat) : State × Option Nat :=
  match s.hash with
  | none => (s, none)
  | some hash =>
    let req : FmThumbnailLoader :=
      { fi := src_file, size := toGshort size, callback := callback, user_data := user_data,
        pix := none, task := none, done := false, cancelled := false }
    match find_thumbnail_in_hash hash src_file.path size with
    | some pix =>
      ({ s with reqs := s.reqs ++ [some { req with pix := some pix }],
                ready_queue := s.ready_queue ++ [s.reqs.length],
                ready_idle_handler := arm_idle s.ready_idle_handler }, some s.reqs.length)
    | none =>
      let found := find_queued_task s.tasks s.loader_queue src_file
      let task := found.getD s.tasks.length
      let tasks1 := if found.isSome then s.tasks else s.tasks ++ [some (new_task src_file)]
      let queue1 := if found.isSome then s.loader_queue else s.loader_queue ++ [s.tasks.length]
      ({ s with reqs := s.reqs ++ [some { req with task := some task }],
                tasks := heapMod tasks1 task (attach_request size s.reqs.length),
                loader_queue := queue1,
                loader_thread_id := true,
                worker_pc := if s.loader_thread_id then s.worker_pc else WorkerPc.pop },
       some s.reqs.length)

/-- The C function `fm_thumbnail_loader_cancel`.  The loop over the task's requests
reuses the variable `req`, so when every request is cancelled the task that gets
marked is the task of the last request of the list. -/
def fm_thumbnail_loader_cancel (s : State) (req : Nat) : State :=
  match heapGet s.reqs req with
  | none => s
  | some r =>
    let s1 := { s with reqs := heapMod s.reqs req (fun q => { q with cancelled := true }) }
    match r.task with
    | none => s1
    | some t =>
      match heapGet s1.tasks t with
      | none => s1
      | some task =>
        if task.requests.all (fun q => ((heapGet s1.reqs q).map (·.cancelled)).getD true) then
          match (heapGet s1.reqs (task.requests.getLast?.getD req)).bind (·.task) with
          | none => s1
          | some t1 =>
            let s2 := { s1 with tasks := heapMod s1.tasks t1 (fun k => { k with cancelled := true }) }
            if s2.cur_loading = some t1 ∧ s2.generator_cancellable.isSome then
              { s2 with generator_cancellable := some true,
                        thumbnailer_pid := -1,
                        thumbnailer_timeout_id := 0 }
            else s2
        else s1

/-- The C function `fm_thumbnail_loader_get_data`. -/
def fm_thumbnail_loader_get_data (req : FmThumbnailLoader) : Option GObject := req.pix

/-- The C function `fm_thumbnail_loader_get_file_info`. -/
def fm_thumbnail_loader_get_file_info (req : FmThumbnailLoader) : FmFileInfo := req.fi

/-- The C function `fm_thumbnail_loader_get_size`: the `gshort` field returned as
a `guint`. -/
def fm_thumbnail_loader_get_size (req : FmThumbnailLoader) : Nat := toGuint req.size

/-! ## Finishing and freeing a task -/

/-- The C function `thumbnail_task_free`: every request of the task loses its task
pointer and goes to the tail of the ready queue, arming the idle handler; then the
task is freed. -/
def thumbnail_task_free (s : State) (task : Nat) : State :=
  match heapGet s.tasks task with
  | none => s
  | some t =>
    let s1 := t.requests.foldl (fun (st : State) (req : Nat) =>
      { st with reqs := heapMod st.reqs req (fun q => { q with task := none }),
                ready_queue := st.ready_queue ++ [req],
                ready_idle_handler := arm_idle st.ready_idle_handler }) s
    { s1 with tasks := heapFree s1.tasks task }

/-- The order `comp_request (a, b) <= 0` on request pointers. -/
def comp_request (reqs : List (Option FmThumbnailLoader)) (a b : Nat) : Prop :=
  ((heapGet reqs a).map (·.size)).getD 0 - ((heapGet reqs b).map (·.size)).getD 0 ≤ 0

instance (reqs : List (Option FmThumbnailLoader)) : DecidableRel (comp_request reqs) :=
  fun _ _ => by unfold comp_request; exact inferInstance

/-- The image `thumbnail_task_finish` scales for a request of `gshort` size `size`:
the normal one up to 128, the large one above. -/
def class_pix (size : Int) (normal_pix large_pix : Option GObject) : Option GObject :=
  if size ≤ 128 then normal_pix else large_pix

/-- The locals `cached_pix`, `cached_size` of `thumbnail_task_finish` together with
the state. -/
structure FinishLoop where
  st : State
  cached_pix : Option GObject
  cached_size : Int

/-- One iteration of the loop of `thumbnail_task_finish`, for the request `r`. -/
def finish_request (B : FmThumbnailLoaderBackend) (normal_pix large_pix : Option GObject)
    (a : FinishLoop) (r : Nat) : FinishLoop :=
  match heapGet a.st.reqs r with
  | none => a
  | some req =>
    if req.done then a
    else if req.cancelled then a
    else if req.size = a.cached_size then
      { a with st := { a.st with reqs := heapMod a.st.reqs r (fun q =>
          { q with pix := a.cached_pix, done := true }) } }
    else
      match (class_pix req.size normal_pix large_pix).bind (fun p => scale_pix B p req.size) with
      | some p =>
        { st := { a.st with
                    reqs := heapMod a.st.reqs r (fun q => { q with pix := some p, done := true }),
                    hash := a.st.hash.map (fun h =>
                      cache_thumbnail_in_hash h req.fi.path p (toGuint req.size)) },
          cached_pix := some p, cached_size := req.size }
      | none =>
        { st := { a.st with reqs := heapMod a.st.reqs r (fun q => { q with pix := none }) },
          cached_pix := none, cached_size := req.size }

/-- The C function `thumbnail_task_finish`: the task's requests are sorted by size
(`g_list_sort` is a stable sort, as is insertion sort) and walked in that order. -/
def thumbnail_task_finish (B : FmThumbnailLoaderBackend) (s : State) (task : Nat)
    (normal_pix large_pix : Option GObject) : State :=
  match heapGet s.tasks task with
  | none => s
  | some t =>
    let sorted := t.requests.insertionSort (comp_request s.reqs)
    let s1 := { s with tasks := heapMod s.tasks task (fun k => { k with requests := sorted }) }
    (sorted.foldl (finish_request B normal_pix large_pix)
      { st := s1, cached_pix := none, cached_size := 0 }).st

/-! ## The loader thread -/

/-- One registered external thumbnailer, as the worker experiences it: the return
values of `run_thumbnailer` for the sizes 128 and 256. -/
structure ThumbnailerRun where
  ok_normal : Bool
  ok_large : Bool

/-- What the outside world answers while the worker processes one task:
`backend.read_image_from_file` on the task's paths (`none` is the `NULL` path),
`stat` on the thumbnail files, `fm_config->thumbnail_max`, the outcome of
`load_picture_object` (decoded source image, EXIF rotation) and the thumbnailers
registered for the file's MIME type. -/
structure WorkerEnv where
  read_image_from_file : Option ThumbFile → Option GObject
  stat_mtime : ThumbFile → Option Int
  thumbnail_max : Nat
  ori_pix : Option GObject
  rotate_degrees : Int
  thumbnailers : List ThumbnailerRun

/-- One of the two blocks of `load_thumbnails`: read the thumbnail at `path`; the
result is the image to use (if read and not outdated) and whether the matching
`GENERATE_*` flag is raised. -/
def load_one (B : FmThumbnailLoaderBackend) (env : WorkerEnv) (path : Option ThumbFile)
    (file : ThumbFile) (mtime : Int) : Option GObject × Bool :=
  match env.read_image_from_file path with
  | none => (none, true)
  | some pix =>
    if (is_thumbnail_outdated B pix (env.stat_mtime file) mtime).1 then (none, true)
    else (some pix, false)

/-- The C function `load_thumbnails` (first cycle) for the task `task`. -/
def load_thumbnails (B : FmThumbnailLoaderBackend) (env : WorkerEnv) (s : State) (task : Nat) :
    State :=
  match heapGet s.tasks task with
  | none => s
  | some t =>
    if t.cancelled then s
    else
      let n := if t.flags.load_normal then
          load_one B env t.normal_path ThumbFile.normal t.fi.mtime else (none, false)
      let l := if t.flags.load_large then
          load_one B env t.large_path ThumbFile.large t.fi.mtime else (none, false)
      let s1 := { s with tasks := heapMod s.tasks task (fun k =>
        { k with flags := { k.flags with
            generate_normal := k.flags.generate_normal || n.2,
            generate_large := k.flags.generate_large || l.2 } }) }
      if t.requests = [] then s1 else thumbnail_task_finish B s1 task n.1 l.1

/-- One of the two blocks of `generate_thumbnails_with_builtin`: the class image for
the class of edge `edge` (128 or 256) made from the decoded source image.  The
call of `save_thumbnail_to_disk` under `need_save` writes to the disk only and
leaves the statics and the images alone, so it does not appear. -/
def builtin_one (B : FmThumbnailLoaderBackend) (ori_pix : GObject) (rotate_degrees : Int)
    (edge : Int) : Option GObject :=
  let pix :=
    if B.get_image_width ori_pix ≤ edge ∧ B.get_image_height ori_pix ≤ edge then some ori_pix
    else scale_pix B ori_pix edge
  if rotate_degrees ≠ 0 then B.rotate_image pix rotate_degrees else pix

/-- The C function `generate_thumbnails_with_builtin`. -/
def generate_thumbnails_with_builtin (B : FmThumbnailLoaderBackend) (env : WorkerEnv)
    (s : State) (task : Nat) : State :=
  match heapGet s.tasks task with
  | none => s
  | some t =>
    match env.ori_pix with
    | none => thumbnail_task_finish B s task none none
    | some ori_pix =>
      thumbnail_task_finish B s task
        (if t.flags.generate_normal then builtin_one B ori_pix env.rotate_degrees 128 else none)
        (if t.flags.generate_large then builtin_one B ori_pix env.rotate_degrees 256 else none)

/-- The locals of the loop of `generate_thumbnails_with_thumbnailers`. -/
structure HelperLoop where
  generated : ThumbnailTaskFlags
  normal_pix : Option GObject
  large_pix : Option GObject

/-- The loop over the thumbnailers in `generate_thumbnails_with_thumbnailers`.  After
a successful run for size 256 the image is read from `task->normal_path`, as in the
source. -/
def run_thumbnailers (env : WorkerEnv) (t : ThumbnailTask) : List ThumbnailerRun → HelperLoop →
    HelperLoop
  | [], a => a
  | h :: hs, a =>
    let a1 : HelperLoop :=
      if t.flags.generate_normal ∧ ¬ a.generated.generate_normal ∧ h.ok_normal then
        { a with generated := { a.generated with generate_normal := true },
                 normal_pix := env.read_image_from_file t.normal_path }
      else a
    let a2 : HelperLoop :=
      if t.flags.generate_large ∧ ¬ a1.generated.generate_large ∧ h.ok_large then
        { a1 with generated := { a1.generated with generate_large := true },
                  large_pix := env.read_image_from_file t.normal_path }
      else a1
    if a2.generated = t.flags then a2 else run_thumbnailers env t hs a2

/-- The C function `generate_thumbnails_with_thumbnailers`. -/
def generate_thumbnails_with_thumbnailers (B : FmThumbnailLoaderBackend) (env : WorkerEnv)
    (s : State) (task : Nat) : State :=
  match heapGet s.tasks task with
  | none => s
  | some t =>
    let a := if t.fi.has_mime_type then
        run_thumbnailers env t env.thumbnailers ⟨⟨false, false, false, false⟩, none, none⟩
      else ⟨⟨false, false, false, false⟩, none, none⟩
    thumbnail_task_finish B s task a.normal_pix a.large_pix

/-- The C function `generate_thumbnails` (second cycle). -/
def generate_thumbnails (B : FmThumbnailLoaderBackend) (env : WorkerEnv) (s : State)
    (task : Nat) : State :=
  match heapGet s.tasks task with
  | none => s
  | some t =>
    let s1 :=
      if t.fi.is_image then
        if env.thumbnail_max = 0 ∨ t.fi.size ≤ env.thumbnail_max * 1024 then
          generate_thumbnails_with_builtin B env s task
        else s
      else generate_thumbnails_with_thumbnailers B env s task
    { s1 with tasks := heapMod s1.tasks task (fun k => { k with cancelled := true }) }

/-- Loop body of `load_thumbnail_thread`, first part: pop the head of the loader
queue into `cur_loading` and lock it; with an empty queue the thread ends. -/
def worker_pop (s : State) : State :=
  match s.loader_queue with
  | [] => { s with cur_loading := none, loader_thread_id := false }
  | task :: rest =>
    { s with loader_queue := rest, cur_loading := some task,
             tasks := heapMod s.tasks task (fun k => { k with locked := true }),
             worker_pc := WorkerPc.run }

/-- Loop body of `load_thumbnail_thread`, middle part (queue lock released): set the
paths, run the second cycle if a `GENERATE_*` flag is set and the first otherwise,
reset the paths. -/
def worker_run (B : FmThumbnailLoaderBackend) (env : WorkerEnv) (s : State) : State :=
  match s.cur_loading with
  | none => s
  | some task =>
    match heapGet s.tasks task with
    | none => s
    | some t =>
      let s1 := { s with tasks := heapMod s.tasks task (fun k =>
        { k with normal_path := if k.flags.load_normal then some ThumbFile.normal else k.normal_path,
                 large_path := if k.flags.load_large then some ThumbFile.large else k.large_path }) }
      let s2 :=
        if t.flags.generate_normal ∨ t.flags.generate_large then generate_thumbnails B env s1 task
        else load_thumbnails B env s1 task
      { s2 with tasks := heapMod s2.tasks task (fun k =>
                  { k with normal_path := none, large_path := none }),
                worker_pc := WorkerPc.requeue }

/-- Loop body of `load_thumbnail_thread`, last part (queue lock held): clear
`cur_loading`, reset a cancelled generator cancellable, then free the task if it
is cancelled or has no `GENERATE_*` flag, else push it back for regeneration. -/
def worker_requeue (s : State) : State :=
  match s.cur_loading with
  | none => s
  | some task =>
    let s1 := { s with cur_loading := none,
                       generator_cancellable := s.generator_cancellable.map (fun _ => false),
                       worker_pc := WorkerPc.pop }
    match heapGet s1.tasks task with
    | none => s1
    | some t =>
      if t.cancelled ∨ (¬ t.flags.generate_normal ∧ ¬ t.flags.generate_large) then
        thumbnail_task_free s1 task
      else { s1 with loader_queue := s1.loader_queue ++ [task] }

/-! ## Main-thread delivery and shutdown -/

/-- A call a user callback makes back into the loader while it runs. -/
inductive Call where
  | load (src_file : FmFileInfo) (size : Nat) (callback user_data : Nat)
  | cancel (req : Nat)

/-- Perform the calls of a callback in order. -/
def run_calls : List Call → State → State
  | [], s => s
  | Call.load f size cb ud :: cs, s => run_calls cs (fm_thumbnail_loader_load s f size cb ud).1
  | Call.cancel r :: cs, s => run_calls cs (fm_thumbnail_loader_cancel s r)

/-- The middle of an iteration of the loop of `on_ready_idle`, run with the queue
lock released: unless the popped request `r` is cancelled its callback is invoked
(logged, then the calls the callback makes are performed); `prog` gives, for each
callback identifier, the calls that callback makes. -/
def deliver (prog : Nat → List Call) (s : State) (r : Nat) : State :=
  match heapGet s.reqs r with
  | none => s
  | some req =>
    if req.cancelled then s
    else run_calls (prog req.callback) { s with fired := s.fired ++ [(r, req)] }

/-- One iteration of the loop of `on_ready_idle`: the head `r` of the ready queue
is popped (leaving `rest`), delivered, and freed. -/
def idle_iteration (prog : Nat → List Call) (s : State) (r : Nat) (rest : List Nat) : State :=
  { (deliver prog { s with ready_queue := rest } r) with
    reqs := heapFree (deliver prog { s with ready_queue := rest } r).reqs r }

/-- The loop of `on_ready_idle` with `n` iterations left.  The result is the state
and the return value. -/
def on_ready_idle_loop (prog : Nat → List Call) : Nat → State → State × Bool
  | 0, s => (s, true)
  | n + 1, s =>
    match s.ready_queue with
    | [] => ({ s with ready_idle_handler := 0 }, false)
    | r :: rest =>
      if n = 0 then (idle_iteration prog s r rest, true)
      else on_ready_idle_loop prog n (idle_iteration prog s r rest)

/-- The C function `on_ready_idle` (`int n = 200`). -/
def on_ready_idle (prog : Nat → List Call) (s : State) : State × Bool :=
  on_ready_idle_loop prog 200 s

/-- The C function `_fm_thumbnail_loader_finalize`. -/
def _fm_thumbnail_loader_finalize (s : State) : State :=
  let s1 := match s.cur_loading with
    | some task => { s with tasks := heapMod s.tasks task (fun k => { k with cancelled := true }) }
    | none => s
  let s2 := { s1 with generator_cancellable := s1.generator_cancellable.map (fun _ => true) }
  let s3 := s2.loader_queue.foldl thumbnail_task_free { s2 with loader_queue := [] }
  { s3 with cleanup_timers := s3.cleanup_timers + 1 }

/-- The C function `fm_thumbnail_loader_cleanup`; the result is the state and the
return value (`TRUE` keeps the timer). -/
def fm_thumbnail_loader_cleanup (s : State) : State × Bool :=
  if s.loader_thread_id then (s, true)
  else
    ({ s with reqs := s.ready_queue.foldl heapFree s.reqs,
              ready_queue := [], hash := none, generator_cancellable := none }, false)

/-! ## Interleavings -/

/-- The events of the engine: API calls of the main thread, the three phases of the
loader thread, the idle handler, the destruction of a cached image, shutdown and
its clean-up timer. -/
inductive Event where
  | load (src_file : FmFileInfo) (size : Nat) (callback user_data : Nat)
  | cancel (req : Nat)
  | worker_pop
  | worker_run (env : WorkerEnv)
  | worker_requeue
  | idle
  | pixbuf_destroy (path : FmPath) (pix : GObject)
  | finalize
  | cleanup

/-- One event.  The worker phases happen only while the loader thread exists and in
program order, the idle handler and the clean-up timer only while scheduled. -/
def step (B : FmThumbnailLoaderBackend) (prog : Nat → List Call) (s : State) : Event → State
  | Event.load f size cb ud => (fm_thumbnail_loader_load s f size cb ud).1
  | Event.cancel r => fm_thumbnail_loader_cancel s r
  | Event.worker_pop =>
    if s.loader_thread_id ∧ s.worker_pc = WorkerPc.pop then worker_pop s else s
  | Event.worker_run env =>
    if s.loader_thread_id ∧ s.worker_pc = WorkerPc.run then worker_run B env s else s
  | Event.worker_requeue =>
    if s.loader_thread_id ∧ s.worker_pc = WorkerPc.requeue then worker_requeue s else s
  | Event.idle => if s.ready_idle_handler = 0 then s else (on_ready_idle prog s).1
  | Event.pixbuf_destroy path pix =>
    { s with hash := s.hash.map (fun h => on_pixbuf_destroy h path pix) }
  | Event.finalize => _fm_thumbnail_loader_finalize s
  | Event.cleanup =>
    if s.cleanup_timers = 0 then s
    else
      let r := fm_thumbnail_loader_cleanup s
      if r.2 then r.1 else { r.1 with cleanup_timers := r.1.cleanup_timers - 1 }

/-- A sequence of events. -/
def run (B : FmThumbnailLoaderBackend) (prog : Nat → List Call) (s : State) (es : List Event) :
    State :=
  es.foldl (step B prog) s

/-! ## Predicates used in the statements and proofs -/

/-- Loop invariant of `thumbnail_task_finish` for a pending request `h` of size
`sz`: the scale cache is either still empty (size 0, no image) or holds what
scaling the class image of its size gives; `h` is live, not cancelled, of size
`sz`, and if done it holds the scaled class image of `sz`. -/
def FinishInv (B : FmThumbnailLoaderBackend) (n l : Option GObject) (h : Nat) (sz : Int)
    (a : FinishLoop) : Prop :=
  ((a.cached_pix = none ∧ a.cached_size = 0) ∨
    a.cached_pix = (class_pix a.cached_size n l).bind (fun p => scale_pix B p a.cached_size)) ∧
  ∃ r, heapGet a.st.reqs h = some r ∧ r.size = sz ∧ r.cancelled = false ∧
    (r.done = true → r.pix = (class_pix sz n l).bind (fun p => scale_pix B p sz))

/-- The request `h` holds the scaled class image of `sz`. -/
def FinishDone (B : FmThumbnailLoaderBackend) (n l : Option GObject) (h : Nat) (sz : Int)
    (a : FinishLoop) : Prop :=
  ∃ r, heapGet a.st.reqs h = some r ∧
    r.pix = (class_pix sz n l).bind (fun p => scale_pix B p sz)

/-- Request heaps only grow, a freed cell stays freed, and a cancelled request stays
cancelled as long as it lives. -/
def ReqsMono (a b : List (Option FmThumbnailLoader)) : Prop :=
  a.length ≤ b.length ∧
  ∀ i r1, i < a.length → heapGet b i = some r1 →
    ∃ r, heapGet a i = some r ∧ (r.cancelled = true → r1.cancelled = true)

/-- A transition that invokes no callback. -/
def Calm (s s1 : State) : Prop := ReqsMono s.reqs s1.reqs ∧ s1.fired = s.fired

/-- The request `h` exists and is freed or cancelled. -/
def Quiet (h : Nat) (s : State) : Prop :=
  h < s.reqs.length ∧ ∀ r, heapGet s.reqs h = some r → r.cancelled = true

/-- A transition that invokes callbacks only of requests that exist, and not the
callback of `h` if `h` was freed or cancelled before; `h` then remains so. -/
def Silent (h : Nat) (s s1 : State) : Prop :=
  s.reqs.length ≤ s1.reqs.length ∧
  (∃ d, s1.fired = s.fired ++ d ∧ (∀ e ∈ d, e.1 < s1.reqs.length) ∧
    (Quiet h s → ∀ e ∈ d, e.1 ≠ h)) ∧
  (Quiet h s → Quiet h s1)

/-- The backend's `scale_image`, when it returns an image, returns one of exactly
the requested dimensions. -/
def ScalesExactly (B : FmThumbnailLoaderBackend) : Prop :=
  ∀ ori w h p, B.scale_image ori w h = some p →
    B.get_image_width p = w ∧ B.get_image_height p = h

/-- No image has a negative width or height. -/
def DimsNonneg (B : FmThumbnailLoaderBackend) : Prop :=
  ∀ p, 0 ≤ B.get_image_width p ∧ 0 ≤ B.get_image_height p

/-- The image `p` is what `scale_pix` returned for some image at size `sz`. -/
def ScaledFor (B : FmThumbnailLoaderBackend) (p : GObject) (sz : Int) : Prop :=
  ∃ ori, scale_pix B ori sz = some p

/-- The range of a `gshort`. -/
def GshortRange (k : Int) : Prop := -32768 ≤ k ∧ k ≤ 32767

/-- A request whose size is a `gshort` and whose image, if any, was scaled for that
size. -/
def GoodReq (B : FmThumbnailLoaderBackend) (r : FmThumbnailLoader) : Prop :=
  GshortRange r.size ∧ ∀ p, r.pix = some p → ScaledFor B p r.size

/-- A cache item whose size is a `gshort` passed as `guint` and whose image was
scaled for that size. -/
def GoodItem (B : FmThumbnailLoaderBackend) (item : ThumbnailCacheItem) : Prop :=
  ∃ k : Int, GshortRange k ∧ item.size = toGuint k ∧ ScaledFor B item.pix k

/-- Invariant of the engine: every live request, every cache item and every
request a callback was invoked with holds only images scaled for its size. -/
def Good (B : FmThumbnailLoaderBackend) (s : State) : Prop :=
  (∀ i r, heapGet s.reqs i = some r → GoodReq B r) ∧
  (∀ hash, s.hash = some hash → ∀ c ∈ hash, ∀ item ∈ c.items, GoodItem B item) ∧
  (∀ e ∈ s.fired, GoodReq B e.2)

/-- A transition that changes neither the image nor the size of a request, nor the
cache, nor the callback log. -/
def Still (s s1 : State) : Prop :=
  (∀ i r1, heapGet s1.reqs i = some r1 →
    ∃ r, heapGet s.reqs i = some r ∧ r1.pix = r.pix ∧ r1.size = r.size) ∧
  s1.hash = s.hash ∧ s1.fired = s.fired

/-! ## Concrete inputs for the closed examples -/

/-- The engine after `_fm_thumbnail_loader_init` on the initial statics. -/
def initialised : State := _fm_thumbnail_loader_init State.initial

/-- A backend whose image `p` is `(p / 100000 + 1)` pixels wide and
`(p % 100000 + 1)` pixels high, has no text tag, scales to exactly the requested
dimensions (refusing non-positive ones, as GdkPixbuf does) and swaps the sides
when rotating by 90 or 270 degrees. -/
def gridBackend : FmThumbnailLoaderBackend where
  get_image_width := fun p => ((p / 100000 : Nat) : Int) + 1
  get_image_height := fun p => ((p % 100000 : Nat) : Int) + 1
  get_image_text := fun _ => none
  scale_image := fun _ w h =>
    if 1 ≤ w ∧ w ≤ 100000 ∧ 1 ≤ h ∧ h ≤ 100000 then
      some ((w - 1).toNat * 100000 + (h - 1).toNat)
    else none
  rotate_image := fun p deg =>
    p.map (fun q => if deg = 90 ∨ deg = 270 then (q % 100000) * 100000 + q / 100000 else q)

/-- The image of `gridBackend` that is `w` by `h` pixels. -/
def gridImage (w h : Nat) : GObject := (w - 1) * 100000 + (h - 1)

/-- A backend all of whose images carry the `Thumb::MTime` text `tag`. -/
def taggedBackend (tag : List Char) : FmThumbnailLoaderBackend :=
  { gridBackend with get_image_text := fun _ => some tag }

/-- An image file `/tmp/a.png` with mtime 1000 and 5000 bytes. -/
def fileA : FmFileInfo :=
  { path := "/tmp/a.png", mtime := 1000, size := 5000, is_image := true, has_mime_type := true }

/-- Callbacks that call nothing back. -/
def noCalls : Nat → List Call := fun _ => []

/-- A worker environment with empty thumbnail directories in which decoding the
source file yields `ori_pix`, unrotated. -/
def envDecode (ori_pix : Option GObject) : WorkerEnv :=
  { read_image_from_file := fun _ => none, stat_mtime := fun _ => none, thumbnail_max := 0,
    ori_pix := ori_pix, rotate_degrees := 0, thumbnailers := [] }

/-- The events of one complete service of a task by the loader thread (both cycles)
in the environment `env`, followed by an idle drain. -/
def serveEvents (env : WorkerEnv) : List Event :=
  [Event.worker_pop, Event.worker_run env, Event.worker_requeue,
   Event.worker_pop, Event.worker_run env, Event.worker_requeue, Event.idle]

/-- The engine after a request of size 64 for `fileA` (a 1000 x 1000 image) has been
served and delivered: the cache holds the 64 x 64 thumbnail. -/
def cachedState : State :=
  run gridBackend noCalls initialised
    (Event.load fileA 64 7 0 :: serveEvents (envDecode (some (gridImage 1000 1000))))

/-- The events of a request of size 300 for `fileA`, a 1000 x 1000 image, served by
the loader thread and delivered. -/
def largeRequestEvents : List Event :=
  Event.load fileA 300 7 0 :: serveEvents (envDecode (some (gridImage 1000 1000)))

/-! ## Predicates and inputs for the idle hook -/

/-- Request heaps in which every request that is live and not cancelled afterwards
was there before, unchanged. -/
def Kept (a b : List (Option FmThumbnailLoader)) : Prop :=
  ∀ i q1, heapGet b i = some q1 → ∃ q, heapGet a i = some q ∧ (q1.cancelled = false → q1 = q)

/-- The callbacks call `fm_thumbnail_loader_cancel` at most: none of them requests a
thumbnail, so none puts a request on a queue. -/
def OnlyCancels (prog : Nat → List Call) : Prop :=
  ∀ cb, ∀ c ∈ prog cb, ∃ r, c = Call.cancel r

/-- Callbacks of which the one numbered 11 cancels the request 2 and the others
call nothing back. -/
def cancelsNext : Nat → List Call := fun cb => if cb = 11 then [Call.cancel 2] else []

/-- The engine of `cachedState` after three more requests of size 64 for `fileA`,
with the callbacks 11, 12 and 13: all three hit the cache, so the requests 1, 2 and
3 stand in the ready queue. -/
def threeReady : State :=
  run gridBackend cancelsNext cachedState
    [Event.load fileA 64 11 0, Event.load fileA 64 12 0, Event.load fileA 64 13 0]

/-- The engine of `cachedState` after 200 more requests of size 64 for `fileA`: all
hit the cache, so exactly 200 requests stand in the ready queue. -/
def fullQueue : State :=
  run gridBackend noCalls cachedState ((List.range 200).map (fun i => Event.load fileA 64 i 0))

/-- The engine after three requests for `fileA`, of the sizes 96, 48 and 64 (handles
0, 1, 2, all attached to task 0), when the loader thread has popped the task. -/
def mixedSizes : State :=
  run gridBackend noCalls initialised
    [Event.load fileA 96 7 0, Event.load fileA 48 8 0, Event.load fileA 64 9 0, Event.worker_pop]

/-- Two requests of size 48 for `fileA`, a 1000 x 1000 image without thumbnails on
disk, then one complete service by the loader thread (load cycle, generate cycle)
and an idle drain. -/
def twinEvents : List Event :=
  Event.load fileA 48 7 0 :: Event.load fileA 48 8 0 ::
    serveEvents (envDecode (some (gridImage 1000 1000)))

/-- The engine after two requests for `fileA` (handles 0 and 1, attached to task 0),
when the loader thread has popped the task. -/
def twoAttached : State :=
  run gridBackend noCalls initialised
    [Event.load fileA 48 7 0, Event.load fileA 96 8 0, Event.worker_pop]

/-- The engine of `twoAttached` after handle 0 was cancelled, while an external
thumbnailer runs for task 0 (pid 4242, timeout source 5). -/
def helperRunning : State :=
  { fm_thumbnail_loader_cancel twoAttached 0 with
    thumbnailer_pid := 4242, thumbnailer_timeout_id := 5 }

/-- The sizes 96, 48 and 64 with which the handles 0, 1 and 2 of `mixedSizes` were
requested. -/
def threeSizes (h : Nat) : Nat := if h = 0 then 96 else if h = 1 then 48 else 64

/-- The engine after two requests for `fileA`, of the sizes 48 and 40000 (handles 0
and 1, both attached to task 0), when the loader thread has popped the task. -/
def wideSizes : State :=
  run gridBackend noCalls initialised
    [Event.load fileA 48 7 0, Event.load fileA 40000 8 0, Event.worker_pop]

/-! ## Predicates for the tasks of a path -/

/-- Task heaps only grow, a freed cell stays freed, and a task keeps its file and,
once cancelled or locked, stays so as long as it lives. -/
def TasksMono (a b : List (Option ThumbnailTask)) : Prop :=
  a.length ≤ b.length ∧
  ∀ i t1, i < a.length → heapGet b i = some t1 →
    ∃ t, heapGet a i = some t ∧ t1.fi = t.fi ∧ (t.cancelled = true → t1.cancelled = true) ∧
      (t.locked = true → t1.locked = true)

/-- A transition that leaves the loader queue and the processing slot as they are. -/
def Tame (s s1 : State) : Prop :=
  TasksMono s.tasks s1.tasks ∧ s1.loader_queue = s.loader_queue ∧
    s1.cur_loading = s.cur_loading

/-- The tasks `a` and `b` are not both open for one path. -/
def NotBothOpen (tasks : List (Option ThumbnailTask)) (a b : Nat) : Prop :=
  ∀ path, open_task tasks path a → ¬ open_task tasks path b

/-- Invariant of the engine: the loader queue holds allocated tasks, no two entries
of it are open for the same path, and the task in the processing slot is locked. -/
def OneOpen (s : State) : Prop :=
  (∀ t ∈ s.loader_queue, t < s.tasks.length) ∧
  List.Pairwise (NotBothOpen s.tasks) s.loader_queue ∧
  (∀ t, s.cur_loading = some t → t < s.tasks.length ∧
    ∀ task, heapGet s.tasks t = some task → task.locked = true)

/-! ## Inputs for the external thumbnailers and for shutdown -/

/-- A file `/tmp/b.pdf` that is not an image, with mtime 1000 and 5000 bytes. -/
def fileB : FmFileInfo :=
  { path := "/tmp/b.pdf", mtime := 1000, size := 5000, is_image := false, has_mime_type := true }

/-- A worker environment for the generate cycle of a large thumbnail: one external
thumbnailer is registered, its run for the size 256 succeeds, and afterwards the
file at the large path decodes to a 256 x 256 image; nothing is at the normal
path. -/
def envHelper : WorkerEnv :=
  { read_image_from_file := fun p =>
      match p with
      | some ThumbFile.large => some (gridImage 256 256)
      | some ThumbFile.normal => none
      | none => none,
    stat_mtime := fun _ => none, thumbnail_max := 0, ori_pix := none, rotate_degrees := 0,
    thumbnailers := [⟨false, true⟩] }

/-- The task of a request of size 256 for `fileB` as the generate cycle sees it:
`LOAD_LARGE` and `GENERATE_LARGE` are set, so only `large_path` is. -/
def largeTask : ThumbnailTask :=
  { fi := fileB, flags := ⟨false, true, false, true⟩, cancelled := false, locked := true,
    normal_path := none, large_path := some ThumbFile.large, requests := [0] }

/-- A request of size 256 for `fileB`: the load cycle finds no thumbnail on disk,
the generate cycle runs in `envHelper`, then the idle handler delivers. -/
def helperEvents : List Event :=
  [Event.load fileB 256 7 0, Event.worker_pop, Event.worker_run (envDecode none),
   Event.worker_requeue, Event.worker_pop, Event.worker_run envHelper, Event.worker_requeue,
   Event.idle]

/-- A request for `fileA` that is still queued when the loader is shut down, and
the idle drain that follows. -/
def shutdownQueued : List Event :=
  [Event.load fileA 48 7 0, Event.finalize, Event.idle]

/-- A request for `fileA` whose task the loader thread is processing when the
loader is shut down; the thread finishes its cycle and the idle handler drains. -/
def shutdownInFlight : List Event :=
  [Event.load fileA 48 7 0, Event.worker_pop, Event.finalize,
   Event.worker_run (envDecode (some (gridImage 1000 1000))), Event.worker_requeue, Event.idle]

/-! ## Predicates on every request of the heap -/

/-- Every live request of the heap satisfies `P`. -/
def HeapAll (P : FmThumbnailLoader → Prop) (reqs : List (Option FmThumbnailLoader)) : Prop :=
  ∀ i r, heapGet reqs i = some r → P r

/-- A predicate on requests that holds of the two requests `fm_thumbnail_loader_load`
creates (attached to a task without an image, or detached with the cached image)
and is kept by the four ways the engine writes to a request: marking it cancelled,
detaching it from its task, storing an image or `NULL` together with `done`, and
storing `NULL` alone. -/
def RequestClosed (P : FmThumbnailLoader → Prop) : Prop :=
  (∀ fi size cb ud t, P
    { fi := fi, size := size, callback := cb, user_data := ud, pix := none,
      task := some t, done := false, cancelled := false }) ∧
  (∀ fi size cb ud pix, P
    { fi := fi, size := size, callback := cb, user_data := ud, pix := some pix,
      task := none, done := false, cancelled := false }) ∧
  (∀ q, P q → P { q with cancelled := true }) ∧
  (∀ q, P q → P { q with task := none }) ∧
  (∀ q p, P q → P { q with pix := p, done := true }) ∧
  (∀ q, P q → P { q with pix := none })

/-- A request that holds an image is done, unless it is detached from any task. -/
def ImageDone (q : FmThumbnailLoader) : Prop :=
  q.pix ≠ none → q.done = true ∨ q.task = none

/-! ## Histories of the in-memory cache -/

/-- The C function `on_thumbnailer_timeout`; `destroyed` is the answer of
`g_source_is_destroyed (g_main_current_source ())`. -/
def on_thumbnailer_timeout (s : State) (destroyed : Bool) : State :=
  if destroyed then s
  else
    { s with thumbnailer_pid := if s.thumbnailer_pid > 0 then -1 else s.thumbnailer_pid,
             thumbnailer_timeout_id := 0 }

/-- What happens in the main thread while the loader thread is blocked in the
`waitpid` of `run_thumbnailer`: an event of the engine, or the timeout handler. -/
inductive HelperEvent where
  | main (e : Event)
  | timeout (destroyed : Bool)

/-- One event during the `waitpid`.  The loader thread is blocked, so its own phases
do not happen. -/
def helper_step (B : FmThumbnailLoaderBackend) (prog : Nat → List Call) (s : State) :
    HelperEvent → State
  | HelperEvent.main Event.worker_pop => s
  | HelperEvent.main (Event.worker_run _) => s
  | HelperEvent.main Event.worker_requeue => s
  | HelperEvent.main e => step B prog s e
  | HelperEvent.timeout destroyed => on_thumbnailer_timeout s destroyed

/-- The C function `run_thumbnailer`.  The environment supplies `_pid`, the result
of `fm_thumbnailer_launch_for_uri_async`; `timer`, the identifier returned by
`g_timeout_add_seconds`; `during`, what the main thread does until `waitpid`
returns; and `exit_ok`, whether the child exited with status 0.  The result is the
state and the return value. -/
def run_thumbnailer (B : FmThumbnailLoaderBackend) (prog : Nat → List Call) (s : State)
    (_pid : Int) (timer : Nat) (during : List HelperEvent) (exit_ok : Bool) : State × Bool :=
  if _pid ≤ 0 then (s, false)
  else if s.thumbnailer_pid ≠ -1 then (s, false)
  else
    let s1 := { s with thumbnailer_pid := _pid, thumbnailer_timeout_id := timer }
    let s2 := during.foldl (helper_step B prog) s1
    let s3 :=
      if s2.thumbnailer_pid = _pid then
        { s2 with thumbnailer_pid := -1,
                  thumbnailer_timeout_id :=
                    if s2.thumbnailer_timeout_id ≠ 0 then 0 else s2.thumbnailer_timeout_id }
      else s2
    (s3, exit_ok)

/-- The pid slot holds `p` or is empty with the timer identifier cleared. -/
def SlotHeld (p : Int) (s : State) : Prop :=
  s.thumbnailer_pid = p ∨ (s.thumbnailer_pid = -1 ∧ s.thumbnailer_timeout_id = 0)

/-! ## Counting the pops of a task -/

/-- Whether a `GENERATE_*` flag of the task `t` is set (no for a freed task). -/
def gen_flag (tasks : List (Option ThumbnailTask)) (t : Nat) : Bool :=
  match heapGet tasks t with
  | some k => k.flags.generate_normal || k.flags.generate_large
  | none => false

/-- Whether the task `t` is cancelled (a freed task counts as cancelled). -/
def task_cancelled (tasks : List (Option ThumbnailTask)) (t : Nat) : Bool :=
  match heapGet tasks t with
  | some k => k.cancelled
  | none => true

/-- How often the loader thread can still pop the task `t`: twice if it is not yet
allocated or queued for its first cycle, once if it is queued for regeneration or
in its first cycle, not at all otherwise. -/
def pops_left (s : State) (t : Nat) : Nat :=
  if t ∈ s.loader_queue then (if gen_flag s.tasks t then 1 else 2)
  else if s.cur_loading = some t then
    (match s.worker_pc with
     | WorkerPc.pop => 0
     | WorkerPc.run => if gen_flag s.tasks t then 0 else 1
     | WorkerPc.requeue => if !task_cancelled s.tasks t && gen_flag s.tasks t then 1 else 0)
  else if t < s.tasks.length then 0 else 2

/-- The loader queue holds allocated tasks, each once, and not the task in the
processing slot, which is allocated too. -/
def QueueOk (s : State) : Prop :=
  s.loader_queue.Nodup ∧ (∀ t ∈ s.loader_queue, t < s.tasks.length) ∧
  ∀ t, s.cur_loading = some t → t < s.tasks.length ∧ t ∉ s.loader_queue

/-- With `k t` pops of each task `t` so far, no task can exceed two pops. -/
def Budget (k : Nat → Nat) (s : State) : Prop :=
  QueueOk s ∧ ∀ t, k t + pops_left s t ≤ 2

/-- The task an event pops from the loader queue, if any. -/
def popped (s : State) : Event → Option Nat
  | Event.worker_pop =>
    if s.loader_thread_id ∧ s.worker_pc = WorkerPc.pop then s.loader_queue.head? else none
  | _ => none

/-- The tasks popped by the loader thread during a sequence of events, in order. -/
def pop_trace (B : FmThumbnailLoaderBackend) (prog : Nat → List Call) : State → List Event →
    List Nat
  | _, [] => []
  | s, e :: es => (popped s e).toList ++ pop_trace B prog (step B prog s e) es

/-- A transition that leaves the loader queue and the processing slot alone,
changes no task but `t`, and neither frees nor allocates `t`. -/
def TouchesOnly (t : Nat) (s s1 : State) : Prop :=
  s1.loader_queue = s.loader_queue ∧ s1.cur_loading = s.cur_loading ∧
  s1.tasks.length = s.tasks.length ∧ (∀ i, i ≠ t → heapGet s1.tasks i = heapGet s.tasks i) ∧
  (heapGet s1.tasks t).isSome = (heapGet s.tasks t).isSome

/-! ## Conservation of request handles -/

/-- Every live request is in exactly one place: a request without a task is in the
ready queue (or is the request `x` that `on_ready_idle` has popped and not yet
freed), once; a request with a task is in the request list of that task, once; and
the ready queue and the request lists hold nothing else. -/
def Conserving (x : Option Nat) (ready : List Nat) (reqs : List (Option FmThumbnailLoader))
    (tasks : List (Option ThumbnailTask)) : Prop :=
  ready.Nodup ∧
  (∀ h ∈ ready, x ≠ some h ∧ ∃ r, heapGet reqs h = some r ∧ r.task = none) ∧
  (∀ t task, heapGet tasks t = some task →
    task.requests.Nodup ∧ ∀ h ∈ task.requests, ∃ r, heapGet reqs h = some r ∧ r.task = some t) ∧
  (∀ h r, heapGet reqs h = some r →
    (r.task = none → x = some h ∨ h ∈ ready) ∧
    (∀ t, r.task = some t → ∃ task, heapGet tasks t = some task ∧ h ∈ task.requests)) ∧
  (∀ h, x = some h → ∃ r, heapGet reqs h = some r ∧ r.task = none)

/-- Conservation of handles in a state, but for the popped request `x`. -/
def ConservedBut (x : Option Nat) (s : State) : Prop :=
  Conserving x s.ready_queue s.reqs s.tasks

/-- Conservation of handles in a state. -/
def Conserved (s : State) : Prop := ConservedBut none s

/-- A transition that keeps the ready queue, the task pointer of every request and,
up to order, the request list of every task. -/
def Reshapes (s s1 : State) : Prop :=
  s1.ready_queue = s.ready_queue ∧
  (∀ h, (heapGet s1.reqs h).map (·.task) = (heapGet s.reqs h).map (·.task)) ∧
  (∀ t task1, heapGet s1.tasks t = some task1 →
    ∃ task, heapGet s.tasks t = some task ∧ task1.requests.Perm task.requests) ∧
  (∀ t task, heapGet s.tasks t = some task →
    ∃ task1, heapGet s1.tasks t = some task1 ∧ task1.requests.Perm task.requests)

/-! ## Inputs and notions for the `done` flag -/

/-- The image `thumbnail_task_finish` makes for a request of `gshort` size `sz`:
`scale_pix` of the class image of that size, if there is one. -/
def scaled_class (B : FmThumbnailLoaderBackend) (n l : Option GObject) (sz : Int) :
    Option GObject :=
  (class_pix sz n l).bind (fun p => scale_pix B p sz)

/-- The engine after two requests of size 48 for `fileA` (handles 0 and 1, both
attached to task 0), when the loader thread has popped the task. -/
def twinAttached : State :=
  run gridBackend noCalls initialised
    [Event.load fileA 48 7 0, Event.load fileA 48 8 0, Event.worker_pop]

end ThumbLoader

/-!
# libsmfm file information: a shallow embedding of `src/base/fm-file-info.c`

An `FmFileInfo` is a record of plain values; the functions of the C file that
change the object they are given return the changed record.  C strings are lists of
characters, a `NULL` pointer is `none`.  Reference counts and the locks around the
lazily filled fields are not part of the record.  What the code asks of the world
outside the file (GLib, the MIME database, `fm_config`, the file system) is passed
in as a parameter (`Env`, `NativeFile`).  A function in which the C code would
dereference `NULL` has no result (`none`) there.
-/

namespace FileInfo

/-! ## File modes -/

/-- The file-type mask `S_IFMT` of `<sys/stat.h>` (Linux). -/
def S_IFMT : Nat := 0o170000

/-- File type: socket. -/
def S_IFSOCK : Nat := 0o140000

/-- File type: symbolic link. -/
def S_IFLNK : Nat := 0o120000

/-- File type: regular file. -/
def S_IFREG : Nat := 0o100000

/-- File type: block device. -/
def S_IFBLK : Nat := 0o060000

/-- File type: directory. -/
def S_IFDIR : Nat := 0o040000

/-- File type: character device. -/
def S_IFCHR : Nat := 0o020000

/-- File type: FIFO. -/
def S_IFIFO : Nat := 0o010000

/-- The macro `S_ISREG`. -/
def S_ISREG (mode : Nat) : Bool := mode &&& S_IFMT == S_IFREG

/-- The macro `S_ISDIR`. -/
def S_ISDIR (mode : Nat) : Bool := mode &&& S_IFMT == S_IFDIR

/-- The macro `S_ISLNK`. -/
def S_ISLNK (mode : Nat) : Bool := mode &&& S_IFMT == S_IFLNK

/-- The macro `S_ISSOCK`. -/
def S_ISSOCK (mode : Nat) : Bool := mode &&& S_IFMT == S_IFSOCK

/-! ## The objects a file info refers to -/

/-- Modelled from the spec: an `FmPath` (`fm-path.c` is not among the sources), of
which the code here uses what `fm_path_get_basename` and `fm_path_is_native`
return. -/
structure FmPath where
  basename : List Char
  is_native : Bool
  deriving DecidableEq, Repr

/-- Modelled from the spec: an `FmMimeType` (`fm-mime-type.c` is not among the
sources).  MIME type objects are interned, one per type name, so comparing two
pointers compares the names. -/
structure FmMimeType where
  type : List Char
  deriving DecidableEq, Repr

/-- Modelled from the spec: an `FmIcon` (`fm-icon.c` is not among the sources),
interned by name like the MIME types. -/
structure FmIcon where
  name : List Char
  deriving DecidableEq, Repr

/-- The interned MIME type `_fm_mime_type_get_application_x_desktop ()`. -/
def application_x_desktop : FmMimeType := ⟨"application/x-desktop".toList⟩

/-- A collate key field: `NULL`, the sentinel `COLLATE_USING_DISPLAY_NAME`
(`(char*)-1`), or a string of its own. -/
inductive CollateKey where
  | null
  | using_display_name
  | key (s : List Char)
  deriving DecidableEq, Repr

/-- The C struct `_FmFileInfo`.  The union of `fs_id` and `dev` is the one field
`dev`: it holds the bits of the union (both members cover all of it on LP64). -/
structure FmFileInfo where
  path : Option FmPath
  mode : Nat
  dev : Nat
  uid : Nat
  gid : Nat
  size : Int
  mtime : Int
  atime : Int
  blksize : Nat
  blocks : Int
  disp_name : Option (List Char)
  collate_key : CollateKey
  collate_key_case : CollateKey
  disp_size : Option (List Char)
  disp_mtime : Option (List Char)
  mime_type : Option FmMimeType
  icon : Option FmIcon
  target : Option (List Char)
  color : Nat
  accessible : Bool
  hidden : Bool
  backup : Bool
  color_loaded : Bool
  from_native_file : Bool
  deferred_icon_load : Bool
  deferred_mime_type_load : Bool
  native_path : Option (List Char)
  deriving DecidableEq, Repr

/-- The C function `fm_file_info_new`: `g_slice_new0`, every field zero. -/
def fm_file_info_new : FmFileInfo :=
  { path := none, mode := 0, dev := 0, uid := 0, gid := 0, size := 0, mtime := 0, atime := 0,
    blksize := 0, blocks := 0, disp_name := none, collate_key := CollateKey.null,
    collate_key_case := CollateKey.null, disp_size := none, disp_mtime := none,
    mime_type := none, icon := none, target := none, color := 0, accessible := false,
    hidden := false, backup := false, color_loaded := false, from_native_file := false,
    deferred_icon_load := false, deferred_mime_type_load := false, native_path := none }

/-! ## The world outside -/

/-- The C struct `stat`, the members the code reads. -/
structure Stat where
  st_mode : Nat
  st_mtime : Int
  st_atime : Int
  st_size : Int
  st_dev : Nat
  st_uid : Nat
  st_gid : Nat
  deriving DecidableEq, Repr

/-- What the code asks of `fm_config`, the MIME database and GLib. -/
structure Env where
  /-- The setting `fm_config->backup_as_hidden`. -/
  backup_as_hidden : Bool
  /-- The setting `fm_config->deferred_mime_type_loading`. -/
  deferred_mime_type_loading : Bool
  /-- The function `fm_mime_type_from_native_file (path, disp_name, st)`. -/
  fm_mime_type_from_native_file :
    Option (List Char) → Option (List Char) → Option Stat → Option FmMimeType
  /-- The function `g_content_type_is_unknown`. -/
  g_content_type_is_unknown : List Char → Bool
  /-- The function `g_utf8_casefold`. -/
  g_utf8_casefold : List Char → List Char
  /-- The function `g_utf8_collate_key_for_filename`. -/
  g_utf8_collate_key_for_filename : List Char → List Char

/-- What the file system answers for the path handed to
`fm_file_info_set_from_native_file`. -/
structure NativeFile where
  /-- The result of `lstat (path, &st)`, `none` on failure. -/
  lstat : Option Stat
  /-- The result of `stat (path, &st)`, `none` on failure (`st` then keeps what
  `lstat` wrote). -/
  stat : Option Stat
  /-- The result of `g_file_read_link (path, NULL)`. -/
  read_link : Option (List Char)
  /-- Whether `g_access (path, R_OK) == 0`. -/
  access_ok : Bool
  /-- The values of `Icon` and `Name` in the group `Desktop Entry`, if
  `g_key_file_load_from_file` succeeds. -/
  key_file : Option (Option (List Char) × Option (List Char))
  /-- The result of `g_filename_display_basename (path)`. -/
  display_basename : List Char

/-! ## Clearing and copying -/

/-- The C function `fm_file_info_clear`. -/
def fm_file_info_clear (fi : FmFileInfo) : FmFileInfo :=
  { fi with collate_key := CollateKey.null, collate_key_case := CollateKey.null,
            path := none, disp_name := none, disp_size := none, disp_mtime := none,
            target := none, mime_type := none, icon := none, native_path := none,
            from_native_file := false, deferred_icon_load := false,
            deferred_mime_type_load := false }

/-- The C function `fm_file_info_update (fi, src)` for two different objects; the
result is the new content of `fi`. -/
def fm_file_info_update (fi src : FmFileInfo) : FmFileInfo :=
  { fm_file_info_clear fi with
    path := src.path, mime_type := src.mime_type, icon := src.icon,
    mode := src.mode, dev := src.dev, uid := src.uid, gid := src.gid, size := src.size,
    mtime := src.mtime, atime := src.atime, blksize := src.blksize, blocks := src.blocks,
    disp_name := src.disp_name, collate_key := src.collate_key,
    collate_key_case := src.collate_key_case, disp_size := src.disp_size,
    disp_mtime := src.disp_mtime, from_native_file := src.from_native_file,
    deferred_icon_load := src.deferred_icon_load,
    deferred_mime_type_load := src.deferred_mime_type_load, native_path := src.native_path }

/-! ## Getters and predicates -/

/-- The C function `fm_file_info_get_disp_name`: `disp_name`, or the base name of
the path when `disp_name` is `NULL`. -/
def fm_file_info_get_disp_name (fi : FmFileInfo) : Option (List Char) :=
  match fi.disp_name with
  | some d => some d
  | none => fi.path.map (·.basename)

/-- The C function `deferred_mime_type_load`. -/
def deferred_mime_type_load (env : Env) (fi : FmFileInfo) : FmFileInfo :=
  if fi.mime_type.isSome ∨ fi.deferred_mime_type_load ∨ ¬ fi.from_native_file then fi
  else
    { fi with deferred_mime_type_load := true,
              mime_type :=
                (env.fm_mime_type_from_native_file fi.native_path
                  (fm_file_info_get_disp_name fi) none) }

/-- The C function `fm_file_info_get_mime_type`; the result is the file info after
the call and the returned pointer. -/
def fm_file_info_get_mime_type (env : Env) (fi : FmFileInfo) : FmFileInfo × Option FmMimeType :=
  if fi.mime_type.isSome then (fi, fi.mime_type)
  else ((deferred_mime_type_load env fi), (deferred_mime_type_load env fi).mime_type)

/-- The function `g_str_has_suffix`, which answers `FALSE` for a `NULL` string. -/
def g_str_has_suffix (str : Option (List Char)) (suffix : List Char) : Bool :=
  match str with
  | some s => suffix.isSuffixOf s
  | none => false

/-- The C function `fm_file_info_is_desktop_entry`. -/
def fm_file_info_is_desktop_entry (env : Env) (fi : FmFileInfo) : FmFileInfo × Bool :=
  if fi.from_native_file ∧
      ¬ g_str_has_suffix (if fi.target.isSome then fi.target else fi.native_path)
          ".desktop".toList then
    (fi, false)
  else
    ((fm_file_info_get_mime_type env fi).1,
     decide ((fm_file_info_get_mime_type env fi).2 = some application_x_desktop))

/-- The C function `fm_file_info_is_unknown_type`; no result when the file has no
MIME type (`fm_mime_type_get_type (NULL)`). -/
def fm_file_info_is_unknown_type (env : Env) (fi : FmFileInfo) : FmFileInfo × Option Bool :=
  ((fm_file_info_get_mime_type env fi).1,
   (fm_file_info_get_mime_type env fi).2.map (fun m => env.g_content_type_is_unknown m.type))

/-- The C function `fm_file_info_is_accessible`. -/
def fm_file_info_is_accessible (fi : FmFileInfo) : Bool := fi.accessible

/-- The C function `fm_file_info_is_hidden`. -/
def fm_file_info_is_hidden (env : Env) (fi : FmFileInfo) : Bool :=
  fi.hidden || (env.backup_as_hidden && fi.backup)

/-- The C function `fm_file_info_can_thumbnail`. -/
def fm_file_info_can_thumbnail (env : Env) (fi : FmFileInfo) : FmFileInfo × Option Bool :=
  if fi.size = 0 ∨ fi.mode &&& S_IFREG = 0 then (fi, some false)
  else if (fm_file_info_is_desktop_entry env fi).2 then
    ((fm_file_info_is_desktop_entry env fi).1, some false)
  else
    ((fm_file_info_is_unknown_type env (fm_file_info_is_desktop_entry env fi).1).1,
     (fm_file_info_is_unknown_type env (fm_file_info_is_desktop_entry env fi).1).2.map
       (fun unknown => ! unknown))

/-- The C function `fm_file_info_get_target`. -/
def fm_file_info_get_target (fi : FmFileInfo) : Option (List Char) := fi.target

/-- The value both collate key getters hand out for the cache field `key`: the
display name for the sentinel, else the stored string (the field is not `NULL`
when they return). -/
def collate_key_value (fi : FmFileInfo) (key : CollateKey) : Option (List Char) :=
  match key with
  | CollateKey.using_display_name => fm_file_info_get_disp_name fi
  | CollateKey.key s => some s
  | CollateKey.null => none

/-- The C function `fm_file_info_get_collate_key`; the result is the file info
after the call and the returned string.  No result when the file has neither a
display name nor a path. -/
def fm_file_info_get_collate_key (env : Env) (fi : FmFileInfo) :
    Option (FmFileInfo × List Char) :=
  if fi.collate_key = CollateKey.null then
    match fm_file_info_get_disp_name fi with
    | none => none
    | some disp_name =>
      if env.g_utf8_collate_key_for_filename (env.g_utf8_casefold disp_name) ≠ disp_name then
        some ({ fi with collate_key :=
                  (CollateKey.key
                    (env.g_utf8_collate_key_for_filename (env.g_utf8_casefold disp_name))) },
              env.g_utf8_collate_key_for_filename (env.g_utf8_casefold disp_name))
      else
        some ({ fi with collate_key := CollateKey.using_display_name }, disp_name)
  else (collate_key_value fi fi.collate_key).map (fun k => (fi, k))

/-- The C function `fm_file_info_get_collate_key_nocasefold`.  It tests and fills
the field `collate_key`, as the source does. -/
def fm_file_info_get_collate_key_nocasefold (env : Env) (fi : FmFileInfo) :
    Option (FmFileInfo × List Char) :=
  if fi.collate_key = CollateKey.null then
    match fm_file_info_get_disp_name fi with
    | none => none
    | some disp_name =>
      if env.g_utf8_collate_key_for_filename disp_name ≠ disp_name then
        some ({ fi with collate_key :=
                  (CollateKey.key (env.g_utf8_collate_key_for_filename disp_name)) },
              env.g_utf8_collate_key_for_filename disp_name)
      else
        some ({ fi with collate_key := CollateKey.using_display_name }, disp_name)
  else (collate_key_value fi fi.collate_key).map (fun k => (fi, k))

/-! ## Construction from a native file -/

/-- The function `strrchr`: the position of the last occurrence of `c`. -/
def strrchr (s : List Char) (c : Char) : Option Nat :=
  (s.reverse.indexOf? c).map (fun k => s.length - 1 - k)

/-- The treatment of the `Icon` value of a desktop entry in
`fm_file_info_set_from_native_file` and `fm_file_info_set_from_menu_cache_item`:
unless the value is a full path, a trailing `.png`, `.svg` or `.xpm` is cut off. -/
def strip_icon_extension (icon_name : List Char) : List Char :=
  if icon_name.head? ≠ some '/' then
    match strrchr icon_name '.' with
    | some dot =>
      if icon_name.drop (dot + 1) = "png".toList ∨ icon_name.drop (dot + 1) = "svg".toList ∨
          icon_name.drop (dot + 1) = "xpm".toList then
        icon_name.take dot
      else icon_name
    | none => icon_name
  else icon_name

/-- The content of `st` after the optional `stat` for a symbolic link. -/
def followed_stat (file : NativeFile) (st : Stat) : Stat :=
  if S_ISLNK st.st_mode then file.stat.getD st else st

/-- The block of `fm_file_info_set_from_native_file` for desktop entry files: icon
and title come from the key file. -/
def desktop_entry_fields (file : NativeFile) (fi : FmFileInfo) : FmFileInfo :=
  match file.key_file with
  | none => fi
  | some (icon_name, title) =>
    { fi with icon := match icon_name with
                | some n => some ⟨strip_icon_extension n⟩
                | none => fi.icon,
              disp_name := match title with
                | some t => some t
                | none => fi.disp_name }

/-- The body of `fm_file_info_set_from_native_file` after a successful `lstat` that
gave `st0`, up to and including the choice of the display name. -/
def native_file_fields (env : Env) (file : NativeFile) (fi : FmFileInfo) (path : List Char)
    (st0 : Stat) : FmFileInfo :=
  let fi1 : FmFileInfo :=
    { fi with from_native_file := true, native_path := some path, disp_name := none,
              mode := st0.st_mode, mtime := st0.st_mtime, atime := st0.st_atime,
              size := st0.st_size, dev := st0.st_dev, uid := st0.st_uid, gid := st0.st_gid }
  let fi2 : FmFileInfo :=
    if S_ISLNK st0.st_mode then { fi1 with target := file.read_link } else fi1
  let fi3 : FmFileInfo :=
    if ¬ env.deferred_mime_type_loading then
      { fi2 with mime_type :=
          (env.fm_mime_type_from_native_file (some path) (fm_file_info_get_disp_name fi2)
            (some (followed_stat file st0))) }
    else fi2
  let fi4 : FmFileInfo := { fi3 with accessible := file.access_ok }
  let de := fm_file_info_is_desktop_entry env fi4
  let fi5 : FmFileInfo := if de.2 then desktop_entry_fields file de.1 else de.1
  if fi5.disp_name.isNone ∧ some file.display_basename ≠ fi5.path.map (·.basename) then
    { fi5 with disp_name := some file.display_basename }
  else fi5

/-- The C function `fm_file_info_set_from_native_file (fi, path, err)`; the result
is the file info after the call and the return value.  With `fm_config`'s deferred
loading the call `fm_file_info_deferred_load_add` only queues the file info, which
changes no field.  No result when `fi` has no path (`dname[0]` on `NULL`). -/
def fm_file_info_set_from_native_file (env : Env) (file : NativeFile) (fi : FmFileInfo)
    (path : List Char) : Option (FmFileInfo × Bool) :=
  match file.lstat with
  | none => some (fi, false)
  | some st0 =>
    match (native_file_fields env file fi path st0).path with
    | none => none
    | some p =>
      some ({ native_file_fields env file fi path st0 with
                hidden := decide (p.basename.head? = some '.'),
                backup := ! S_ISDIR (followed_stat file st0).st_mode
                  && g_str_has_suffix (some p.basename) ['~'] },
            true)

/-! ## Construction from a menu-cache item -/

/-- The function `g_strndup (str, n)`: the first `n` characters of `str`. -/
def g_strndup (str : List Char) (n : Nat) : List Char := str.take n

/-- The treatment of the icon name in `fm_file_info_set_from_menu_cache_item`, which
copies instead of writing into the string: with `dot` one past the last `.`, the
name becomes `g_strndup (icon_name, dot - icon_name - 1)` when a `png`, `svg` or
`xpm` follows. -/
def menu_cache_icon_name (icon_name : List Char) : List Char :=
  if icon_name.head? ≠ some '/' then
    match strrchr icon_name '.' with
    | some dot =>
      if icon_name.drop (dot + 1) = "png".toList ∨ icon_name.drop (dot + 1) = "svg".toList ∨
          icon_name.drop (dot + 1) = "xpm".toList then
        g_strndup icon_name (dot + 1 - 0 - 1)
      else icon_name
    | none => icon_name
  else icon_name

/-- The type of a menu-cache item, as far as the code tells them apart. -/
inductive MenuCacheType where
  | dir
  | app
  | other
  deriving DecidableEq, Repr

/-- What the code reads of a `MenuCacheItem` (menu-cache is a library of its own):
the results of `menu_cache_item_get_icon`, `_get_name`, `_get_type` and
`_get_file_path`. -/
structure MenuCacheItem where
  icon : Option (List Char)
  name : List Char
  type : MenuCacheType
  file_path : Option (List Char)

/-- The interned MIME type `_fm_mime_type_get_inode_x_shortcut ()`. -/
def inode_x_shortcut : FmMimeType := ⟨"inode/x-shortcut".toList⟩

/-- The C function `fm_file_info_set_from_menu_cache_item`. -/
def fm_file_info_set_from_menu_cache_item (fi : FmFileInfo) (item : MenuCacheItem) :
    FmFileInfo :=
  let fi1 : FmFileInfo := { fi with disp_name := some item.name }
  let fi2 : FmFileInfo :=
    match item.icon with
    | some icon_name => { fi1 with icon := some ⟨menu_cache_icon_name icon_name⟩ }
    | none => fi1
  let fi3 : FmFileInfo :=
    if item.type = MenuCacheType.dir then { fi2 with mode := fi2.mode ||| S_IFDIR }
    else if item.type = MenuCacheType.app then
      { fi2 with mode := fi2.mode ||| S_IFREG, target := item.file_path }
    else fi2
  { fi3 with mime_type := some inode_x_shortcut }

/-! ## Concrete inputs for the closed examples -/

/-- A configuration with `backup_as_hidden` set and MIME types loaded at once; the
MIME database knows `.png` files as `image/png` and everything else as
`application/octet-stream`, which alone is the unknown type; case folding lowers
the letter `R`, and the collation key of a name is the name after a `k`. -/
def sampleEnv : Env :=
  { backup_as_hidden := true,
    deferred_mime_type_loading := false,
    fm_mime_type_from_native_file := fun path _ _ =>
      if g_str_has_suffix path ".png".toList then some ⟨"image/png".toList⟩
      else some ⟨"application/octet-stream".toList⟩,
    g_content_type_is_unknown := fun t => decide (t = "application/octet-stream".toList),
    g_utf8_casefold := fun s => s.map (fun c => if c = 'R' then 'r' else c),
    g_utf8_collate_key_for_filename := fun s => 'k' :: s }

/-- The file system's answers for `/home/u/pic.png`, a symbolic link of 9 bytes to
the regular file `photo.png` of 5000 bytes. -/
def linkToImage : NativeFile :=
  { lstat := some ⟨0o120777, 1000, 1000, 9, 2049, 1000, 1000⟩,
    stat := some ⟨0o100644, 900, 900, 5000, 2049, 1000, 1000⟩,
    read_link := some "photo.png".toList,
    access_ok := true,
    key_file := none,
    display_basename := "pic.png".toList }

/-- A fresh file info with the path of `pic.png`. -/
def picInfo : FmFileInfo :=
  { fm_file_info_new with path := some ⟨"pic.png".toList, true⟩ }

/-- The file system's answers for `/home/u/cache~`, a directory. -/
def backupDir : NativeFile :=
  { lstat := some ⟨0o040755, 1000, 1000, 4096, 2049, 1000, 1000⟩,
    stat := none,
    read_link := none,
    access_ok := true,
    key_file := none,
    display_basename := "cache~".toList }

/-- A fresh file info with the path of `cache~`. -/
def cacheInfo : FmFileInfo :=
  { fm_file_info_new with path := some ⟨"cache~".toList, true⟩ }

/-- The file info of `.profile`, a hidden, readable symbolic link to
`/etc/profile`, as `fm_file_info_set_from_native_file` fills it. -/
def hiddenLink : FmFileInfo :=
  { fm_file_info_new with
    path := some ⟨".profile".toList, true⟩, mode := 0o120777, size := 12, mtime := 1000,
    atime := 1000, mime_type := some ⟨"text/plain".toList⟩, target := some "/etc/profile".toList,
    accessible := true, hidden := true, from_native_file := true,
    native_path := some "/home/u/.profile".toList }

/-- A fresh file info named `Readme`. -/
def readmeInfo : FmFileInfo :=
  { fm_file_info_new with path := some ⟨"Readme".toList, true⟩ }

end FileInfo

/-! # Theorems -/

namespace ThumbLoader

/-! ## Backend installation -/

/-- C2: `fm_thumbnail_loader_set_backend` succeeds only once.  From the initial
statics the first call returns `TRUE` and installs the given vtable; every later
call, whatever vtables `bs` it is given, returns `FALSE`, and the slot stays
exactly as the first call left it. -/
theorem set_backend_only_once (b0 : FmThumbnailLoaderBackend)
    (bs : List FmThumbnailLoaderBackend) :
    (fm_thumbnail_loader_set_backend BackendSlot.initial b0).2 = true ∧
    (fm_thumbnail_loader_set_backend BackendSlot.initial b0).1.backend = some b0 ∧
    (set_backend_calls (fm_thumbnail_loader_set_backend BackendSlot.initial b0).1 bs).2
      = List.replicate bs.length false ∧
    (set_backend_calls (fm_thumbnail_loader_set_backend BackendSlot.initial b0).1 bs).1
      = (fm_thumbnail_loader_set_backend BackendSlot.initial b0).1 := by
  have key : ∀ (s : BackendSlot) (l : List FmThumbnailLoaderBackend), s.backend_loaded = true →
      (set_backend_calls s l).2 = List.replicate l.length false ∧ (set_backend_calls s l).1 = s := by
    intro s l hs
    induction l with
    | nil => simp [set_backend_calls]
    | cons b l ih =>
      simp [set_backend_calls, fm_thumbnail_loader_set_backend, hs, ih, List.replicate_succ]
  refine ⟨rfl, rfl, ?_⟩
  exact key _ bs rfl

/-! ## Freshness of on-disk thumbnails -/

/-- C3: for every thumbnail image, whatever its `Thumb::MTime` tag (the backend's
answer, present or absent), the PNG file's mtime and the source mtime,
`is_thumbnail_outdated` returns `FALSE` without unlinking exactly when the tag is
present and its value (read with `atol`) equals the source mtime, or the tag is
absent and the PNG's mtime is at least the source mtime. -/
theorem thumbnail_valid_iff (B : FmThumbnailLoaderBackend) (thumb_pix : GObject)
    (png_mtime mtime : Int) :
    is_thumbnail_outdated B thumb_pix (some png_mtime) mtime = (false, false) ↔
      ((∃ tag, B.get_image_text thumb_pix = some tag ∧ atol tag = mtime) ∨
       (B.get_image_text thumb_pix = none ∧ png_mtime ≥ mtime)) := by
  unfold is_thumbnail_outdated
  cases h : B.get_image_text thumb_pix with
  | none => simp
  | some tag => simp

theorem digitVal_digitChar (d : Nat) (h : d < 10) : digitVal (Nat.digitChar d) = some d := by
  interval_cases d <;> decide

theorem parseDigits_append_digit (l : List Char) (acc d : Nat) (hd : d < 10)
    (hl : ∀ c ∈ l, (digitVal c).isSome) :
    parseDigits acc (l ++ [Nat.digitChar d]) = parseDigits acc l * 10 + d := by
  induction l generalizing acc with
  | nil => simp [parseDigits, digitVal_digitChar d hd]
  | cons c cs ih =>
    have hc := hl c (by simp)
    obtain ⟨v, hv⟩ := Option.isSome_iff_exists.mp hc
    simp only [List.cons_append, parseDigits, hv]
    exact ih _ (fun c hc => hl c (by simp [hc]))

theorem digitsRev_isDigit (fuel n : Nat) : ∀ c ∈ digitsRev fuel n, (digitVal c).isSome := by
  induction fuel generalizing n with
  | zero => simp [digitsRev]
  | succ f ih =>
    intro c hc
    simp only [digitsRev, List.mem_cons] at hc
    rcases hc with rfl | hc
    · rw [digitVal_digitChar _ (Nat.mod_lt _ (by norm_num))]; rfl
    · split at hc
      · simp at hc
      · exact ih _ c hc

theorem parseDigits_digitsRev (fuel n : Nat) (h : n < 10 ^ fuel) :
    parseDigits 0 (digitsRev fuel n).reverse = n := by
  induction fuel generalizing n with
  | zero => simp at h; subst h; simp [digitsRev, parseDigits]
  | succ f ih =>
    simp only [digitsRev, List.reverse_cons]
    rw [parseDigits_append_digit _ _ _ (Nat.mod_lt _ (by norm_num))]
    · split
      · simp [parseDigits]; omega
      · rw [ih (n / 10) (by rw [Nat.div_lt_iff_lt_mul (by norm_num)]; rw [pow_succ] at h; exact h)]
        omega
    · intro c hc
      rw [List.mem_reverse] at hc
      split at hc
      · simp at hc
      · exact digitsRev_isDigit _ _ c hc

theorem digit_not_special (c : Char) (h : (digitVal c).isSome) :
    isSpaceC c = false ∧ c ≠ '-' ∧ c ≠ '+' := by
  have h1 : '0' ≤ c ∧ c ≤ '9' := by
    unfold digitVal at h
    split at h
    · assumption
    · simp at h
  refine ⟨?_, ?_, ?_⟩
  · simp only [isSpaceC, Bool.or_eq_false_iff, decide_eq_false_iff_not]
    refine ⟨⟨⟨⟨⟨?_, ?_⟩, ?_⟩, ?_⟩, ?_⟩, ?_⟩ <;> (rintro rfl; exact absurd h1.1 (by decide))
  · rintro rfl; exact absurd h1.1 (by decide)
  · rintro rfl; exact absurd h1.1 (by decide)

theorem atol_digits (l : List Char) (hl : ∀ c ∈ l, (digitVal c).isSome) :
    atol l = min (parseDigits 0 l : Int) 9223372036854775807 := by
  cases l with
  | nil => rfl
  | cons c cs =>
    obtain ⟨h1, h2, h3⟩ := digit_not_special c (hl c (by simp))
    unfold atol
    rw [List.dropWhile_cons, h1]
    simp only [Bool.false_eq_true, if_false]
    split
    · rename_i heq; simp at heq; exact absurd heq.1 h2
    · rename_i heq; simp at heq; exact absurd heq.1 h3
    · rfl

/-- What `atol` reads back from the string `save_thumbnail_to_disk` writes: the
mtime itself when it is not negative, `LONG_MAX` when it is. -/
theorem atol_mtime_str (mtime : Int) (h : -9223372036854775808 ≤ mtime ∧ mtime ≤ 9223372036854775807) :
    atol (mtime_str mtime) = if 0 ≤ mtime then mtime else 9223372036854775807 := by
  unfold mtime_str
  rw [atol_digits _ (fun c hc => digitsRev_isDigit _ _ c (List.mem_reverse.mp hc)),
    parseDigits_digitsRev _ _ (by omega)]
  split <;> omega

/-- C4: reading back the `Thumb::MTime` string that `save_thumbnail_to_disk` writes.
For every source mtime of the `time_t` range and every thumbnail carrying the
written string, `is_thumbnail_outdated` against the same mtime returns `FALSE` (and
keeps the file) when the mtime is not negative, but returns `TRUE` and unlinks the
file when the mtime is negative: `"%lu"` prints a negative mtime as a number above
`LONG_MAX`, which `atol` cannot read back. -/
theorem saved_thumbnail_fresh_iff (B : FmThumbnailLoaderBackend) (thumb_pix : GObject)
    (st_mtime : Option Int) (mtime : Int)
    (hrange : -9223372036854775808 ≤ mtime ∧ mtime ≤ 9223372036854775807)
    (htag : B.get_image_text thumb_pix = some (mtime_str mtime)) :
    is_thumbnail_outdated B thumb_pix st_mtime mtime
      = if 0 ≤ mtime then (false, false) else (true, true) := by
  unfold is_thumbnail_outdated
  simp only [htag, atol_mtime_str mtime hrange]
  split
  · simp
  · have : (9223372036854775807 : Int) ≠ mtime := by omega
    simp [this]

/-- C4 at the failing input: a thumbnail saved for a source with mtime -1 carries
the tag `18446744073709551615` and is reported outdated (and unlinked) against
that same mtime. -/
theorem saved_thumbnail_fresh_iff_witness :
    mtime_str (-1) = "18446744073709551615".toList ∧
    is_thumbnail_outdated (taggedBackend (mtime_str (-1))) 0 none (-1) = (true, true) :=
  ⟨by decide,
   saved_thumbnail_fresh_iff (taggedBackend (mtime_str (-1))) 0 none (-1) (by decide) rfl⟩

/-! ## Heaps and integer conversions -/

theorem heapGet_eq {α : Type} (l : List (Option α)) (i : Nat) : heapGet l i = (l[i]?).join := by
  unfold heapGet
  rw [List.getD_eq_getElem?_getD]
  cases l[i]? <;> rfl

theorem heapGet_append_length {α : Type} (l : List (Option α)) (x : Option α) :
    heapGet (l ++ [x]) l.length = x := by
  simp [heapGet_eq]

theorem heapGet_append_of_lt {α : Type} (l : List (Option α)) (x : Option α) (i : Nat)
    (h : i < l.length) : heapGet (l ++ [x]) i = heapGet l i := by
  simp [heapGet_eq, List.getElem?_append_left h]

theorem heapGet_of_length_le {α : Type} (l : List (Option α)) (i : Nat) (h : l.length ≤ i) :
    heapGet l i = none := by
  simp [heapGet_eq, List.getElem?_eq_none h]

theorem heapGet_lt {α : Type} (l : List (Option α)) (i : Nat) (a : α) (h : heapGet l i = some a) :
    i < l.length := by
  by_contra hc
  rw [heapGet_of_length_le l i (by omega)] at h
  cases h

theorem heapGet_heapMod {α : Type} (l : List (Option α)) (i j : Nat) (f : α → α) :
    heapGet (heapMod l i f) j = if j = i then (heapGet l i).map f else heapGet l j := by
  unfold heapMod
  by_cases hij : j = i
  · subst hij
    simp only [if_true]
    by_cases hl : j < l.length
    · simp [heapGet_eq, List.getElem?_set, hl]
    · rw [heapGet_of_length_le _ _ (by simpa using hl), heapGet_of_length_le _ _ (by omega)]; rfl
  · simp only [hij, if_false]
    simp only [heapGet_eq, List.getElem?_set_ne (Ne.symm hij)]

theorem heapGet_heapFree {α : Type} (l : List (Option α)) (i j : Nat) :
    heapGet (heapFree l i) j = if j = i then none else heapGet l j := by
  unfold heapFree
  by_cases hij : j = i
  · subst hij
    by_cases hl : j < l.length
    · simp [heapGet_eq, List.getElem?_set, hl]
    · simp only [if_true]; rw [heapGet_of_length_le _ _ (by simpa using hl)]
  · simp only [hij, if_false]
    simp only [heapGet_eq, List.getElem?_set_ne (Ne.symm hij)]

theorem length_heapMod {α : Type} (l : List (Option α)) (i : Nat) (f : α → α) :
    (heapMod l i f).length = l.length := by simp [heapMod]

theorem length_heapFree {α : Type} (l : List (Option α)) (i : Nat) :
    (heapFree l i).length = l.length := by simp [heapFree]

theorem toGuint_toGshort (n : Nat) (h : n ≤ 32767) : toGuint (toGshort n) = n := by
  unfold toGuint toGshort
  have h1 : n % 65536 = n := Nat.mod_eq_of_lt (by omega)
  rw [h1, if_pos (by omega)]
  omega

theorem toGshort_toGuint (i : Int) (h : -32768 ≤ i ∧ i ≤ 32767) : toGshort (toGuint i) = i := by
  unfold toGuint toGshort
  split <;> omega

theorem toGshort_range (n : Nat) : -32768 ≤ toGshort n ∧ toGshort n ≤ 32767 := by
  unfold toGshort
  split <;> omega

/-! ## Loading: size of a handle, cache hit -/

/-- C7 (amended): the size field of a handle is a `gshort`.  For every request size
from 0 to 32767, `fm_thumbnail_loader_load` on an initialised loader returns a
handle on which `fm_thumbnail_loader_get_size` gives back exactly that size. -/
theorem get_size_of_loaded (s : State) (src_file : FmFileInfo) (size callback user_data : Nat)
    (hinit : s.hash.isSome = true) (hsize : size ≤ 32767) :
    ∃ s1 h req, fm_thumbnail_loader_load s src_file size callback user_data = (s1, some h) ∧
      heapGet s1.reqs h = some req ∧ fm_thumbnail_loader_get_size req = size := by
  obtain ⟨hash, hh⟩ := Option.isSome_iff_exists.mp hinit
  unfold fm_thumbnail_loader_load
  simp only [hh]
  cases hf : find_thumbnail_in_hash hash src_file.path size with
  | some pix =>
    exact ⟨_, _, _, rfl, heapGet_append_length _ _, toGuint_toGshort size hsize⟩
  | none =>
    exact ⟨_, _, _, rfl, heapGet_append_length _ _, toGuint_toGshort size hsize⟩

/-- C7 (amended) at size 48 on the freshly initialised loader. -/
theorem get_size_of_loaded_witness :
    ∃ s1 h req, fm_thumbnail_loader_load initialised fileA 48 7 0 = (s1, some h) ∧
      heapGet s1.reqs h = some req ∧ fm_thumbnail_loader_get_size req = 48 :=
  get_size_of_loaded initialised fileA 48 7 0 rfl (by decide)

/-- C7 as stated fails at size 40000, inside the range 0..65535: the handle stores
the `gshort` -25536 and `fm_thumbnail_loader_get_size` returns 4294941760. -/
theorem get_size_of_loaded_40000 :
    40000 ≤ 65535 ∧ ((fm_thumbnail_loader_load initialised fileA 40000 7 0).2.bind
        (heapGet (fm_thumbnail_loader_load initialised fileA 40000 7 0).1.reqs)).map
      fm_thumbnail_loader_get_size = some 4294941760 := by decide

theorem find?_of_nodup_key {α β : Type} [DecidableEq β] (k : α → β) (l : List α) (x : α)
    (hx : x ∈ l) (hn : (l.map k).Nodup) :
    l.find? (fun y => decide (k y = k x)) = some x := by
  induction l with
  | nil => cases hx
  | cons a l ih =>
    rw [List.map_cons, List.nodup_cons] at hn
    rcases List.mem_cons.mp hx with rfl | hx1
    · simp
    · have hne : k a ≠ k x := by
        intro h
        exact hn.1 (h ▸ List.mem_map_of_mem k hx1)
      rw [List.find?_cons_of_neg _ (by simpa using hne)]
      exact ih hx1 hn.2

theorem find_thumbnail_of_mem (hash : List ThumbnailCache) (cache : ThumbnailCache)
    (item : ThumbnailCacheItem) (hw : cache_wf hash) (hc : cache ∈ hash) (hi : item ∈ cache.items) :
    find_thumbnail_in_hash hash cache.path item.size = some item.pix := by
  unfold find_thumbnail_in_hash
  rw [find?_of_nodup_key (fun c : ThumbnailCache => c.path) hash cache hc hw.1]
  simp only
  rw [find?_of_nodup_key (fun i : ThumbnailCacheItem => i.size) cache.items item hi (hw.2 cache hc)]
  rfl

/-- C5: a cache hit.  Whenever the cache (one bucket per path, one item per size)
holds an item `(size, p)` in the bucket of the file's path,
`fm_thumbnail_loader_load` returns a new handle whose data is `p`, appends it at
the tail of the ready queue, arms the idle handler, and changes neither the
loader queue, nor any task, nor the loader thread or its current task, nor the
cache, nor any other request. -/
theorem load_cache_hit (s : State) (src_file : FmFileInfo) (size callback user_data : Nat)
    (hash : List ThumbnailCache) (cache : ThumbnailCache) (p : GObject)
    (hh : s.hash = some hash) (hw : cache_wf hash) (hc : cache ∈ hash)
    (hp : cache.path = src_file.path) (hi : { size := size, pix := p } ∈ cache.items) :
    ∃ s1 h req, fm_thumbnail_loader_load s src_file size callback user_data = (s1, some h) ∧
      heapGet s1.reqs h = some req ∧ fm_thumbnail_loader_get_data req = some p ∧
      s1.ready_queue = s.ready_queue ++ [h] ∧ s1.ready_idle_handler ≠ 0 ∧
      s1.loader_queue = s.loader_queue ∧ s1.tasks = s.tasks ∧ s1.cur_loading = s.cur_loading ∧
      s1.loader_thread_id = s.loader_thread_id ∧ s1.worker_pc = s.worker_pc ∧
      s1.hash = s.hash ∧ ∀ i, i ≠ h → heapGet s1.reqs i = heapGet s.reqs i := by
  have hf := find_thumbnail_of_mem hash cache _ hw hc hi
  simp only [hp] at hf
  unfold fm_thumbnail_loader_load
  simp only [hh, hf]
  refine ⟨_, _, _, rfl, heapGet_append_length _ _, rfl, rfl, ?_, rfl, rfl, rfl, rfl, rfl, rfl, ?_⟩
  · show arm_idle s.ready_idle_handler ≠ 0
    unfold arm_idle
    split
    · decide
    · assumption
  · intro i hi
    by_cases hlt : i < s.reqs.length
    · exact heapGet_append_of_lt _ _ _ hlt
    · rw [heapGet_of_length_le s.reqs _ (by omega)]
      exact heapGet_of_length_le _ _ (by rw [List.length_append, List.length_singleton]; omega)

/-! ## Loading: cache miss -/

theorem queued_task_matches_iff (tasks : List (Option ThumbnailTask)) (fi : FmFileInfo) (t : Nat) :
    queued_task_matches tasks fi t = true ↔ open_task tasks fi.path t := by
  unfold queued_task_matches open_task
  cases h : heapGet tasks t with
  | none => simp
  | some task =>
    simp only [Option.some.injEq, exists_eq_left']
    cases hc : task.cancelled <;> cases hl : task.locked <;> simp
    intro h; rw [h]

theorem find_queued_task_eq_none (tasks : List (Option ThumbnailTask)) (q : List Nat)
    (fi : FmFileInfo) :
    find_queued_task tasks q fi = none ↔ ∀ u ∈ q, ¬ open_task tasks fi.path u := by
  unfold find_queued_task
  rw [List.find?_eq_none]
  simp only [queued_task_matches_iff]

theorem find_queued_task_eq_some (tasks : List (Option ThumbnailTask)) (q : List Nat)
    (fi : FmFileInfo) (t : Nat) :
    find_queued_task tasks q fi = some t ↔
      open_task tasks fi.path t ∧ ∃ pre post, q = pre ++ t :: post ∧
        ∀ u ∈ pre, ¬ open_task tasks fi.path u := by
  unfold find_queued_task
  rw [List.find?_eq_some]
  simp only [queued_task_matches_iff, Bool.not_eq_true', ← Bool.not_eq_true]

/-- The first open task of a queue is determined by the queue and the open tasks. -/
theorem first_open_unique (tasks : List (Option ThumbnailTask)) (path : FmPath)
    (pre post pre1 post1 : List Nat) (t t1 : Nat)
    (h : pre ++ t :: post = pre1 ++ t1 :: post1)
    (ht : open_task tasks path t) (hpre : ∀ u ∈ pre, ¬ open_task tasks path u)
    (ht1 : open_task tasks path t1) (hpre1 : ∀ u ∈ pre1, ¬ open_task tasks path u) : t = t1 := by
  induction pre generalizing pre1 with
  | nil =>
    cases pre1 with
    | nil => simp at h; exact h.1
    | cons a l =>
      simp at h
      exact absurd (h.1 ▸ ht) (hpre1 a (by simp))
  | cons a l ih =>
    cases pre1 with
    | nil =>
      simp at h
      exact absurd (h.1 ▸ ht1) (hpre a (by simp))
    | cons b l1 =>
      simp at h
      exact ih l1 h.2 (fun u hu => hpre u (by simp [hu])) (fun u hu => hpre1 u (by simp [hu]))

theorem find?_eq_some_of_forall {α : Type} (p : α → Bool) (l : List α) (a : α)
    (h : ∀ u ∈ l, p u = true → u = a) (hex : ∃ u ∈ l, p u = true) : l.find? p = some a := by
  cases hf : l.find? p with
  | none =>
    rw [List.find?_eq_none] at hf
    obtain ⟨u, hu, hp⟩ := hex
    exact absurd hp (hf u hu)
  | some b =>
    have hb := List.find?_some hf
    have hm := List.mem_of_find?_eq_some hf
    rw [h b hm hb]

/-- The task the request is attached to keeps what `find_queued_task` looks at. -/
theorem open_task_attach (tasks : List (Option ThumbnailTask)) (path : FmPath) (t u : Nat)
    (size req : Nat) :
    open_task (heapMod tasks t (attach_request size req)) path u ↔ open_task tasks path u := by
  unfold open_task
  rw [heapGet_heapMod]
  by_cases hut : u = t
  · subst hut
    simp only [if_true]
    cases h : heapGet tasks u with
    | none => simp
    | some task => simp [attach_request]
  · simp only [hut, if_false]

/-- C6: a cache miss.  `fm_thumbnail_loader_load` returns a new handle attached to a
task `t` and leaves every other task as it was.  If the loader queue has an open
task for the path (live, not cancelled, not locked), `t` is the first such task,
the handle is appended to its request list (and its load flag raised) and the
queue is unchanged; if it has none, `t` is a new task holding only the new handle,
appended at the tail of the queue.  A second load for the same path right after
(again a cache miss) attaches to the same task `t` and leaves the queue as the
first load left it: the two requests share one task. -/
theorem load_cache_miss (s : State) (src_file : FmFileInfo) (size callback user_data : Nat)
    (hash : List ThumbnailCache) (hh : s.hash = some hash)
    (hmiss : find_thumbnail_in_hash hash src_file.path size = none) :
    ∃ s1 h req t task1,
      fm_thumbnail_loader_load s src_file size callback user_data = (s1, some h) ∧
      heapGet s1.reqs h = some req ∧ req.task = some t ∧ heapGet s1.tasks t = some task1 ∧
      (∀ i, i ≠ t → heapGet s1.tasks i = heapGet s.tasks i) ∧
      (∀ pre t0 post, s.loader_queue = pre ++ t0 :: post →
          open_task s.tasks src_file.path t0 →
          (∀ u ∈ pre, ¬ open_task s.tasks src_file.path u) →
          t = t0 ∧ s1.loader_queue = s.loader_queue ∧
          ∃ task0, heapGet s.tasks t0 = some task0 ∧
            task1 = attach_request size h task0) ∧
      ((∀ u ∈ s.loader_queue, ¬ open_task s.tasks src_file.path u) →
          t = s.tasks.length ∧ s1.loader_queue = s.loader_queue ++ [t] ∧
          task1 = attach_request size h (new_task src_file)) ∧
      (∀ (f2 : FmFileInfo) (size2 cb2 ud2 : Nat), f2.path = src_file.path →
          find_thumbnail_in_hash hash f2.path size2 = none →
          ∃ s2 h2 req2 task2,
            fm_thumbnail_loader_load s1 f2 size2 cb2 ud2 = (s2, some h2) ∧
            heapGet s2.reqs h2 = some req2 ∧ req2.task = some t ∧
            s2.loader_queue = s1.loader_queue ∧
            heapGet s2.tasks t = some task2 ∧ task2.requests = task1.requests ++ [h2]) := by
  unfold fm_thumbnail_loader_load
  simp only [hh, hmiss]
  cases hfq : find_queued_task s.tasks s.loader_queue src_file with
  | some t0 =>
    obtain ⟨hopen, pre0, post0, hq0, hpre0⟩ := (find_queued_task_eq_some _ _ _ _).mp hfq
    obtain ⟨task0, hg0, hc0, hl0, hp0⟩ := hopen
    simp only [Option.getD_some, Option.isSome_some, if_true]
    refine ⟨_, _, _, t0, attach_request size s.reqs.length task0, rfl, heapGet_append_length _ _, rfl,
      ?_, ?_, ?_, ?_, ?_⟩
    · rw [heapGet_heapMod, if_pos rfl, hg0]; rfl
    · intro i hi
      rw [heapGet_heapMod, if_neg hi]
    · intro pre t1 post hq hopen1 hpre
      have ht : t0 = t1 := first_open_unique s.tasks src_file.path pre0 post0 pre post t0 t1
        (hq0 ▸ hq) ⟨task0, hg0, hc0, hl0, hp0⟩ hpre0 hopen1 hpre
      subst ht
      exact ⟨rfl, rfl, task0, hg0, rfl⟩
    · intro hnone
      exact absurd ⟨task0, hg0, hc0, hl0, hp0⟩ (hnone t0 (by rw [hq0]; simp))
    · intro f2 size2 cb2 ud2 hpath hmiss2
      have hfq2 : find_queued_task (heapMod s.tasks t0 (attach_request size s.reqs.length))
          s.loader_queue f2 = some t0 := by
        rw [find_queued_task_eq_some]
        simp only [open_task_attach, hpath]
        exact ⟨⟨task0, hg0, hc0, hl0, hp0⟩, pre0, post0, hq0, hpre0⟩
      simp only [hmiss2, hfq2, Option.getD_some, Option.isSome_some, if_true]
      refine ⟨_, _, _, attach_request size2 (s.reqs.length + 1)
        (attach_request size s.reqs.length task0), rfl, heapGet_append_length _ _, rfl, rfl, ?_, ?_⟩
      · rw [heapGet_heapMod, if_pos rfl, heapGet_heapMod, if_pos rfl, hg0]
        simp [List.length_append, attach_request]
      · simp [List.length_append, attach_request]
  | none =>
    have hnone := (find_queued_task_eq_none _ _ _).mp hfq
    simp only [Option.getD_none, Option.isSome_none, Bool.false_eq_true, if_false]
    refine ⟨_, _, _, s.tasks.length, attach_request size s.reqs.length (new_task src_file), rfl,
      heapGet_append_length _ _, rfl, ?_, ?_, ?_, ?_, ?_⟩
    · rw [heapGet_heapMod, if_pos rfl, heapGet_append_length]; rfl
    · intro i hi
      rw [heapGet_heapMod, if_neg hi]
      by_cases hlt : i < s.tasks.length
      · exact heapGet_append_of_lt _ _ _ hlt
      · rw [heapGet_of_length_le s.tasks _ (by omega)]
        exact heapGet_of_length_le _ _ (by rw [List.length_append, List.length_singleton]; omega)
    · intro pre t1 post hq hopen1 _
      exact absurd hopen1 (hnone t1 (by rw [hq]; simp))
    · intro _
      exact ⟨rfl, rfl, rfl⟩
    · intro f2 size2 cb2 ud2 hpath hmiss2
      have hfq2 : find_queued_task
          (heapMod (s.tasks ++ [some (new_task src_file)]) s.tasks.length
            (attach_request size s.reqs.length))
          (s.loader_queue ++ [s.tasks.length]) f2 = some s.tasks.length := by
        unfold find_queued_task
        apply find?_eq_some_of_forall
        · intro u _ hp
          by_contra hne
          rw [queued_task_matches_iff, open_task_attach, hpath] at hp
          obtain ⟨task, hg, hc, hl, hpp⟩ := hp
          have hlt : u < s.tasks.length := by
            have := heapGet_lt _ _ _ hg
            rw [List.length_append, List.length_singleton] at this
            omega
          rw [heapGet_append_of_lt _ _ _ hlt] at hg
          have hu : u ∈ s.loader_queue ∨ u = s.tasks.length := by
            rename_i hmem
            simpa using hmem
          rcases hu with hu | hu
          · exact hnone u hu ⟨task, hg, hc, hl, hpp⟩
          · exact hne hu
        · refine ⟨s.tasks.length, by simp, ?_⟩
          rw [queued_task_matches_iff, open_task_attach, hpath]
          exact ⟨new_task src_file, heapGet_append_length _ _, rfl, rfl, rfl⟩
      simp only [hmiss2, hfq2, Option.getD_some, Option.isSome_some, if_true]
      refine ⟨_, _, _, attach_request size2 (s.reqs.length + 1)
        (attach_request size s.reqs.length (new_task src_file)), rfl, heapGet_append_length _ _,
        rfl, rfl, ?_, ?_⟩
      · rw [heapGet_heapMod, if_pos rfl, heapGet_heapMod, if_pos rfl, heapGet_append_length]
        simp [List.length_append, new_task, attach_request]
      · simp [List.length_append, attach_request]

/-- C5 on the engine that has just delivered the 64-pixel thumbnail of `fileA`: a
second request of size 64 is answered from the cache through the ready queue, and
no task is created. -/
theorem load_cache_hit_witness :
    ∃ s1 h req, fm_thumbnail_loader_load cachedState fileA 64 8 0 = (s1, some h) ∧
      heapGet s1.reqs h = some req ∧
      fm_thumbnail_loader_get_data req = some (gridImage 64 64) ∧
      s1.ready_queue = [h] ∧ s1.tasks = cachedState.tasks := by
  obtain ⟨s1, h, req, h1, h2, h3, h4, -, -, h7, -⟩ :=
    load_cache_hit cachedState fileA 64 8 0
      [{ path := "/tmp/a.png", items := [{ size := 64, pix := gridImage 64 64 }] }]
      { path := "/tmp/a.png", items := [{ size := 64, pix := gridImage 64 64 }] }
      (gridImage 64 64) (by decide) (by unfold cache_wf; decide) (by decide) (by decide) (by decide)
  exact ⟨s1, h, req, h1, h2, h3, h4, h7⟩

/-- C6 on the freshly initialised engine: requests of sizes 48 and 96 for `fileA`
end up on one task, the only one in the loader queue. -/
theorem load_cache_miss_witness :
    ∃ s1 h t, fm_thumbnail_loader_load initialised fileA 48 7 0 = (s1, some h) ∧
      s1.loader_queue = [t] ∧
      ∃ s2 h2, fm_thumbnail_loader_load s1 fileA 96 7 0 = (s2, some h2) ∧ s2.loader_queue = [t] := by
  obtain ⟨s1, h, req, t, task1, h1, -, -, -, -, -, hb, hc⟩ :=
    load_cache_miss initialised fileA 48 7 0 [] rfl rfl
  obtain ⟨-, hq, -⟩ := hb (by intro u hu; cases hu)
  obtain ⟨s2, h2, req2, task2, g1, -, -, g4, -⟩ := hc fileA 96 7 0 rfl rfl
  exact ⟨s1, h, t, h1, hq, s2, h2, g1, g4.trans hq⟩

/-! ## The loop of `thumbnail_task_finish` -/

theorem finish_request_dead (B : FmThumbnailLoaderBackend) (n l : Option GObject)
    (a : FinishLoop) (r : Nat) (h : heapGet a.st.reqs r = none) :
    finish_request B n l a r = a := by
  unfold finish_request; simp only [h]

theorem finish_request_skip (B : FmThumbnailLoaderBackend) (n l : Option GObject)
    (a : FinishLoop) (r : Nat) (req : FmThumbnailLoader) (h : heapGet a.st.reqs r = some req)
    (hs : req.done = true ∨ req.cancelled = true) : finish_request B n l a r = a := by
  unfold finish_request; simp only [h]
  rcases hs with hs | hs
  · simp only [hs, if_true]
  · simp only [hs, if_true, ite_self]

theorem finish_request_hit (B : FmThumbnailLoaderBackend) (n l : Option GObject)
    (a : FinishLoop) (r : Nat) (req : FmThumbnailLoader) (h : heapGet a.st.reqs r = some req)
    (hd : req.done = false) (hc : req.cancelled = false) (hs : req.size = a.cached_size) :
    finish_request B n l a r =
      { a with st := { a.st with reqs := heapMod a.st.reqs r (fun q =>
          { q with pix := a.cached_pix, done := true }) } } := by
  unfold finish_request; simp only [h, hd, hc, hs, Bool.false_eq_true, if_false, if_true]

theorem finish_request_scaled (B : FmThumbnailLoaderBackend) (n l : Option GObject)
    (a : FinishLoop) (r : Nat) (req : FmThumbnailLoader) (p : GObject)
    (h : heapGet a.st.reqs r = some req)
    (hd : req.done = false) (hc : req.cancelled = false) (hs : req.size ≠ a.cached_size)
    (hp : (class_pix req.size n l).bind (fun p => scale_pix B p req.size) = some p) :
    finish_request B n l a r =
      { st := { a.st with
                  reqs := heapMod a.st.reqs r (fun q => { q with pix := some p, done := true }),
                  hash := a.st.hash.map (fun h =>
                    cache_thumbnail_in_hash h req.fi.path p (toGuint req.size)) },
        cached_pix := some p, cached_size := req.size } := by
  unfold finish_request; simp only [h, hd, hc, hs, hp, Bool.false_eq_true, if_false]

theorem finish_request_failed (B : FmThumbnailLoaderBackend) (n l : Option GObject)
    (a : FinishLoop) (r : Nat) (req : FmThumbnailLoader)
    (h : heapGet a.st.reqs r = some req)
    (hd : req.done = false) (hc : req.cancelled = false) (hs : req.size ≠ a.cached_size)
    (hp : (class_pix req.size n l).bind (fun p => scale_pix B p req.size) = none) :
    finish_request B n l a r =
      { st := { a.st with reqs := heapMod a.st.reqs r (fun q => { q with pix := none }) },
        cached_pix := none, cached_size := req.size } := by
  unfold finish_request; simp only [h, hd, hc, hs, hp, Bool.false_eq_true, if_false]

/-- The five ways an iteration of the loop of `thumbnail_task_finish` can go. -/
theorem finish_request_cases (B : FmThumbnailLoaderBackend) (n l : Option GObject)
    (a : FinishLoop) (r : Nat) :
    finish_request B n l a r = a ∨
    (∃ req, heapGet a.st.reqs r = some req ∧ req.done = false ∧ req.cancelled = false ∧
      ((req.size = a.cached_size ∧
        finish_request B n l a r =
          { a with st := { a.st with reqs := heapMod a.st.reqs r (fun q =>
              { q with pix := a.cached_pix, done := true }) } }) ∨
       (∃ p, (class_pix req.size n l).bind (fun p => scale_pix B p req.size) = some p ∧
        finish_request B n l a r =
          { st := { a.st with
                      reqs := heapMod a.st.reqs r (fun q => { q with pix := some p, done := true }),
                      hash := a.st.hash.map (fun h =>
                        cache_thumbnail_in_hash h req.fi.path p (toGuint req.size)) },
            cached_pix := some p, cached_size := req.size }) ∨
       ((class_pix req.size n l).bind (fun p => scale_pix B p req.size) = none ∧
        finish_request B n l a r =
          { st := { a.st with reqs := heapMod a.st.reqs r (fun q => { q with pix := none }) },
            cached_pix := none, cached_size := req.size }))) := by
  cases h : heapGet a.st.reqs r with
  | none => exact Or.inl (finish_request_dead B n l a r h)
  | some req =>
    by_cases hd : req.done = true
    · exact Or.inl (finish_request_skip B n l a r req h (Or.inl hd))
    · by_cases hc : req.cancelled = true
      · exact Or.inl (finish_request_skip B n l a r req h (Or.inr hc))
      · have hd1 : req.done = false := by simpa using hd
        have hc1 : req.cancelled = false := by simpa using hc
        refine Or.inr ⟨req, rfl, hd1, hc1, ?_⟩
        by_cases hs : req.size = a.cached_size
        · exact Or.inl ⟨hs, finish_request_hit B n l a r req h hd1 hc1 hs⟩
        · cases hp : (class_pix req.size n l).bind (fun p => scale_pix B p req.size) with
          | some p => exact Or.inr (Or.inl ⟨p, rfl, finish_request_scaled B n l a r req p h hd1 hc1 hs hp⟩)
          | none => exact Or.inr (Or.inr ⟨rfl, finish_request_failed B n l a r req h hd1 hc1 hs hp⟩)

theorem finish_request_other (B : FmThumbnailLoaderBackend) (n l : Option GObject)
    (a : FinishLoop) (r j : Nat) (hj : j ≠ r) :
    heapGet (finish_request B n l a r).st.reqs j = heapGet a.st.reqs j := by
  rcases finish_request_cases B n l a r with e | ⟨req, _, _, _, ⟨_, e⟩ | ⟨p, _, e⟩ | ⟨_, e⟩⟩ <;>
    rw [e] <;> simp only [heapGet_heapMod, if_neg hj]

theorem finish_request_inv (B : FmThumbnailLoaderBackend) (n l : Option GObject) (h : Nat)
    (sz : Int) (hz : sz ≠ 0) (a : FinishLoop) (r : Nat) (hinv : FinishInv B n l h sz a) :
    FinishInv B n l h sz (finish_request B n l a r) ∧
    (FinishDone B n l h sz a → FinishDone B n l h sz (finish_request B n l a r)) ∧
    (r = h → FinishDone B n l h sz (finish_request B n l a r)) := by
  obtain ⟨hcache, q, hq, hqs, hqc, hqd⟩ := hinv
  by_cases hrh : r = h
  · subst hrh
    by_cases hd : q.done = true
    · rw [finish_request_skip B n l a r q hq (Or.inl hd)]
      exact ⟨⟨hcache, q, hq, hqs, hqc, hqd⟩, fun x => x, fun _ => ⟨q, hq, hqd hd⟩⟩
    · have hd1 : q.done = false := by simpa using hd
      by_cases hs : q.size = a.cached_size
      · have hcp : a.cached_pix = (class_pix sz n l).bind (fun p => scale_pix B p sz) := by
          rcases hcache with ⟨_, h0⟩ | h1
          · exact absurd (hqs ▸ hs.trans h0) hz
          · rw [h1, ← hs, hqs]
        rw [finish_request_hit B n l a r q hq hd1 hqc hs]
        have hcell : heapGet (heapMod a.st.reqs r (fun q : FmThumbnailLoader =>
            { q with pix := a.cached_pix, done := true })) r
            = some { q with pix := a.cached_pix, done := true } := by
          rw [heapGet_heapMod, if_pos rfl, hq]; rfl
        exact ⟨⟨hcache, _, hcell, hqs, hqc, fun _ => hcp⟩, fun _ => ⟨_, hcell, hcp⟩,
          fun _ => ⟨_, hcell, hcp⟩⟩
      · cases hp : (class_pix q.size n l).bind (fun p => scale_pix B p q.size) with
        | some p =>
          rw [finish_request_scaled B n l a r q p hq hd1 hqc hs hp]
          have hcell : heapGet (heapMod a.st.reqs r (fun q : FmThumbnailLoader =>
              { q with pix := some p, done := true })) r
              = some { q with pix := some p, done := true } := by
            rw [heapGet_heapMod, if_pos rfl, hq]; rfl
          rw [hqs] at hp
          exact ⟨⟨Or.inr (by rw [hqs]; exact hp.symm), _, hcell, hqs, hqc, fun _ => hp.symm⟩,
            fun _ => ⟨_, hcell, hp.symm⟩, fun _ => ⟨_, hcell, hp.symm⟩⟩
        | none =>
          rw [finish_request_failed B n l a r q hq hd1 hqc hs hp]
          have hcell : heapGet (heapMod a.st.reqs r (fun q : FmThumbnailLoader =>
              { q with pix := none })) r = some { q with pix := none } := by
            rw [heapGet_heapMod, if_pos rfl, hq]; rfl
          rw [hqs] at hp
          exact ⟨⟨Or.inr (by rw [hqs]; exact hp.symm), _, hcell, hqs, hqc, fun _ => hp.symm⟩,
            fun _ => ⟨_, hcell, hp.symm⟩, fun _ => ⟨_, hcell, hp.symm⟩⟩
  · have hother := finish_request_other B n l a r h (Ne.symm hrh)
    refine ⟨⟨?_, q, hother ▸ hq, hqs, hqc, hqd⟩, ?_, fun e => absurd e hrh⟩
    · rcases finish_request_cases B n l a r with e | ⟨req, _, _, _, ⟨_, e⟩ | ⟨p, hp, e⟩ | ⟨hp, e⟩⟩
      · rw [e]; exact hcache
      · rw [e]; exact hcache
      · rw [e]; exact Or.inr hp.symm
      · rw [e]; exact Or.inr hp.symm
    · rintro ⟨r1, hr1, hp1⟩
      exact ⟨r1, hother ▸ hr1, hp1⟩

theorem finish_fold_inv (B : FmThumbnailLoaderBackend) (n l : Option GObject) (h : Nat)
    (sz : Int) (hz : sz ≠ 0) (rs : List Nat) :
    ∀ a : FinishLoop, FinishInv B n l h sz a → (h ∈ rs ∨ FinishDone B n l h sz a) →
      FinishDone B n l h sz (rs.foldl (finish_request B n l) a) := by
  induction rs with
  | nil =>
    intro a _ hd
    rcases hd with hd | hd
    · cases hd
    · exact hd
  | cons r rs ih =>
    intro a hinv hd
    obtain ⟨h1, h2, h3⟩ := finish_request_inv B n l h sz hz a r hinv
    rw [List.foldl_cons]
    apply ih _ h1
    rcases hd with hd | hd
    · rcases List.mem_cons.mp hd with e | e
      · exact Or.inr (h3 e.symm)
      · exact Or.inl e
    · exact Or.inr (h2 hd)

/-- A pending request of non-zero size is filled by `thumbnail_task_finish` with the
scaled image of the class of its (`gshort`) size. -/
theorem finish_fills_from_class (B : FmThumbnailLoaderBackend) (s : State) (t : Nat)
    (n l : Option GObject) (h : Nat) (req : FmThumbnailLoader) (task : ThumbnailTask)
    (ht : heapGet s.tasks t = some task) (hmem : h ∈ task.requests)
    (hreq : heapGet s.reqs h = some req) (hd : req.done = false) (hc : req.cancelled = false)
    (hz : req.size ≠ 0) :
    ∃ r, heapGet (thumbnail_task_finish B s t n l).reqs h = some r ∧
      r.pix = (class_pix req.size n l).bind (fun p => scale_pix B p req.size) := by
  unfold thumbnail_task_finish
  simp only [ht]
  apply finish_fold_inv B n l h req.size hz
  · exact ⟨Or.inl ⟨rfl, rfl⟩, req, hreq, rfl, hc, fun hd1 => by rw [hd] at hd1; cases hd1⟩
  · exact Or.inl ((List.mem_insertionSort _).mpr hmem)

/-! ## Size classes -/

theorem toGshort_of_le (n : Nat) (h : n ≤ 32767) : toGshort n = (n : Int) := by
  unfold toGshort
  have h1 : n % 65536 = n := Nat.mod_eq_of_lt (by omega)
  rw [h1, if_pos (by omega)]

/-- C8 (amended): the class boundary 128 is applied consistently for sizes that fit
the handle's `gshort` field and are not 0.  For every requested size from 1 to
32767, on a cache miss `fm_thumbnail_loader_load` returns a pending handle on a
task whose `LOAD_NORMAL` flag is raised iff the size is at most 128 and whose
`LOAD_LARGE` flag is raised iff it is above 128 (the other flags stay as they
were on that task, or clear on a new one); and whenever `thumbnail_task_finish`
later runs on that task while the handle is still pending, it fills the handle
with `scale_pix` of the normal image when the size is at most 128 and of the
large image when it is above. -/
theorem load_and_finish_same_class (B : FmThumbnailLoaderBackend) (s : State)
    (src_file : FmFileInfo) (size callback user_data : Nat) (hash : List ThumbnailCache)
    (hh : s.hash = some hash) (hmiss : find_thumbnail_in_hash hash src_file.path size = none)
    (hsize : 1 ≤ size ∧ size ≤ 32767) :
    ∃ s1 h req t task1,
      fm_thumbnail_loader_load s src_file size callback user_data = (s1, some h) ∧
      heapGet s1.reqs h = some req ∧ req.task = some t ∧ req.done = false ∧
      req.cancelled = false ∧ heapGet s1.tasks t = some task1 ∧ h ∈ task1.requests ∧
      task1.flags.load_normal
        = (((heapGet s.tasks t).map (·.flags.load_normal)).getD false || decide (size ≤ 128)) ∧
      task1.flags.load_large
        = (((heapGet s.tasks t).map (·.flags.load_large)).getD false || decide (size > 128)) ∧
      task1.flags.generate_normal
        = ((heapGet s.tasks t).map (·.flags.generate_normal)).getD false ∧
      task1.flags.generate_large
        = ((heapGet s.tasks t).map (·.flags.generate_large)).getD false ∧
      ∀ (s2 : State) (req2 : FmThumbnailLoader) (task2 : ThumbnailTask) (n l : Option GObject),
        heapGet s2.reqs h = some req2 → req2.size = req.size → req2.done = false →
        req2.cancelled = false → heapGet s2.tasks t = some task2 → h ∈ task2.requests →
        ∃ r, heapGet (thumbnail_task_finish B s2 t n l).reqs h = some r ∧
          r.pix = (if size ≤ 128 then n else l).bind (fun p => scale_pix B p (size : Int)) := by
  have hfin : ∀ (t h : Nat) (s2 : State) (req2 : FmThumbnailLoader) (task2 : ThumbnailTask)
      (n l : Option GObject),
      heapGet s2.reqs h = some req2 → req2.size = toGshort size → req2.done = false →
      req2.cancelled = false → heapGet s2.tasks t = some task2 → h ∈ task2.requests →
      ∃ r, heapGet (thumbnail_task_finish B s2 t n l).reqs h = some r ∧
        r.pix = (if size ≤ 128 then n else l).bind (fun p => scale_pix B p (size : Int)) := by
    intro t h s2 req2 task2 n l h1 h2 h3 h4 h5 h6
    rw [toGshort_of_le size hsize.2] at h2
    obtain ⟨r, hr, hp⟩ := finish_fills_from_class B s2 t n l h req2 task2 h5 h6 h1 h3 h4
      (by rw [h2]; omega)
    refine ⟨r, hr, ?_⟩
    rw [hp, h2]
    unfold class_pix
    by_cases hle : size ≤ 128
    · rw [if_pos hle, if_pos (by omega)]
    · rw [if_neg hle, if_neg (by omega)]
  unfold fm_thumbnail_loader_load
  simp only [hh, hmiss]
  cases hfq : find_queued_task s.tasks s.loader_queue src_file with
  | some t0 =>
    obtain ⟨⟨task0, hg0, -, -, -⟩, -⟩ := (find_queued_task_eq_some _ _ _ _).mp hfq
    simp only [Option.getD_some, Option.isSome_some, if_true]
    refine ⟨_, _, _, t0, attach_request size s.reqs.length task0, rfl, heapGet_append_length _ _,
      rfl, rfl, rfl, ?_, ?_, ?_, ?_, ?_, ?_, hfin t0 s.reqs.length⟩
    · rw [heapGet_heapMod, if_pos rfl, hg0]; rfl
    · simp [attach_request]
    · simp only [hg0, attach_request, add_load_flag]
      split <;> simp <;> omega
    · simp only [hg0, attach_request, add_load_flag]
      split <;> simp <;> omega
    · simp only [hg0, attach_request, add_load_flag]
      split <;> rfl
    · simp only [hg0, attach_request, add_load_flag]
      split <;> rfl
  | none =>
    simp only [Option.getD_none, Option.isSome_none, Bool.false_eq_true, if_false]
    have hnone : heapGet s.tasks s.tasks.length = none := heapGet_of_length_le _ _ (le_refl _)
    refine ⟨_, _, _, s.tasks.length, attach_request size s.reqs.length (new_task src_file), rfl,
      heapGet_append_length _ _, rfl, rfl, rfl, ?_, ?_, ?_, ?_, ?_, ?_,
      hfin s.tasks.length s.reqs.length⟩
    · rw [heapGet_heapMod, if_pos rfl, heapGet_append_length]; rfl
    · simp [attach_request, new_task]
    · simp only [hnone, attach_request, add_load_flag, new_task]
      split <;> simp <;> omega
    · simp only [hnone, attach_request, add_load_flag, new_task]
      split <;> simp <;> omega
    · simp only [hnone, attach_request, add_load_flag, new_task]
      split <;> rfl
    · simp only [hnone, attach_request, add_load_flag, new_task]
      split <;> rfl

/-- C8 as stated fails at size 65636 (stored as the `gshort` 100): the load raises
`LOAD_LARGE` only, but `thumbnail_task_finish` looks at the normal image: with
only the large image present the handle gets no image (although scaling the large
one to 100 would succeed), and with only a normal image present it is filled from
that one. -/
theorem load_and_finish_65636 :
    ((heapGet (fm_thumbnail_loader_load initialised fileA 65636 7 0).1.tasks 0).map (·.flags))
      = some ⟨false, true, false, false⟩ ∧
    (heapGet (thumbnail_task_finish gridBackend
        (fm_thumbnail_loader_load initialised fileA 65636 7 0).1 0
        none (some (gridImage 256 256))).reqs 0).map (·.pix) = some none ∧
    (heapGet (thumbnail_task_finish gridBackend
        (fm_thumbnail_loader_load initialised fileA 65636 7 0).1 0
        (some (gridImage 128 128)) none).reqs 0).map (·.pix) = some (some (gridImage 100 100)) ∧
    scale_pix gridBackend (gridImage 256 256) (toGshort 65636) = some (gridImage 100 100) := by
  decide

/-- C8 (amended) for a request of size 200 on the freshly initialised engine: it is
filled from the large image. -/
theorem load_and_finish_same_class_witness :
    ∃ s1 h t, fm_thumbnail_loader_load initialised fileA 200 7 0 = (s1, some h) ∧
      ∃ r, heapGet (thumbnail_task_finish gridBackend s1 t (some (gridImage 128 128))
          (some (gridImage 256 256))).reqs h = some r ∧
        r.pix = scale_pix gridBackend (gridImage 256 256) 200 := by
  obtain ⟨s1, h, req, t, task1, h1, h2, -, h3, h4, h5, h6, -, -, -, -, h10⟩ :=
    load_and_finish_same_class gridBackend initialised fileA 200 7 0 [] rfl rfl (by decide)
  exact ⟨s1, h, t, h1, h10 s1 req task1 _ _ h2 rfl h3 h4 h5 h6⟩

/-! ## Cancelled requests stay cancelled -/

theorem reqsMono_refl (a : List (Option FmThumbnailLoader)) : ReqsMono a a :=
  ⟨le_refl _, fun _ r1 _ h => ⟨r1, h, fun x => x⟩⟩

theorem reqsMono_trans {a b c : List (Option FmThumbnailLoader)} (h1 : ReqsMono a b)
    (h2 : ReqsMono b c) : ReqsMono a c := by
  refine ⟨le_trans h1.1 h2.1, fun i r2 hi hc => ?_⟩
  obtain ⟨r1, hr1, hc1⟩ := h2.2 i r2 (lt_of_lt_of_le hi h1.1) hc
  obtain ⟨r, hr, hc0⟩ := h1.2 i r1 hi hr1
  exact ⟨r, hr, fun x => hc1 (hc0 x)⟩

theorem reqsMono_heapMod (a : List (Option FmThumbnailLoader)) (i : Nat)
    (f : FmThumbnailLoader → FmThumbnailLoader)
    (hf : ∀ r, r.cancelled = true → (f r).cancelled = true) : ReqsMono a (heapMod a i f) := by
  refine ⟨le_of_eq (length_heapMod a i f).symm, fun j r1 _ hj => ?_⟩
  rw [heapGet_heapMod] at hj
  by_cases hji : j = i
  · subst hji
    rw [if_pos rfl] at hj
    cases hg : heapGet a j with
    | none => rw [hg] at hj; cases hj
    | some r =>
      rw [hg] at hj
      simp only [Option.map_some', Option.some.injEq] at hj
      exact ⟨r, rfl, fun x => hj ▸ hf r x⟩
  · rw [if_neg hji] at hj
    exact ⟨r1, hj, fun x => x⟩

theorem reqsMono_heapFree (a : List (Option FmThumbnailLoader)) (i : Nat) :
    ReqsMono a (heapFree a i) := by
  refine ⟨le_of_eq (length_heapFree a i).symm, fun j r1 _ hj => ?_⟩
  rw [heapGet_heapFree] at hj
  by_cases hji : j = i
  · rw [if_pos hji] at hj; cases hj
  · rw [if_neg hji] at hj
    exact ⟨r1, hj, fun x => x⟩

theorem reqsMono_append (a : List (Option FmThumbnailLoader)) (x : Option FmThumbnailLoader) :
    ReqsMono a (a ++ [x]) := by
  refine ⟨by simp, fun j r1 hlt hj => ?_⟩
  rw [heapGet_append_of_lt _ _ _ hlt] at hj
  exact ⟨r1, hj, fun x => x⟩

theorem calm_refl (s : State) : Calm s s := ⟨reqsMono_refl _, rfl⟩

theorem calm_trans {a b c : State} (h1 : Calm a b) (h2 : Calm b c) : Calm a c :=
  ⟨reqsMono_trans h1.1 h2.1, h2.2.trans h1.2⟩

theorem calm_of_eq {s s1 : State} (hr : s1.reqs = s.reqs) (hf : s1.fired = s.fired) : Calm s s1 :=
  ⟨hr ▸ reqsMono_refl _, hf⟩

theorem quiet_mono {h : Nat} {s s1 : State} (hm : ReqsMono s.reqs s1.reqs) (hq : Quiet h s) :
    Quiet h s1 := by
  refine ⟨lt_of_lt_of_le hq.1 hm.1, fun r1 hr1 => ?_⟩
  obtain ⟨r, hr, hc⟩ := hm.2 h r1 hq.1 hr1
  exact hc (hq.2 r hr)

theorem calm_silent {s s1 : State} (h : Nat) (hc : Calm s s1) : Silent h s s1 := by
  refine ⟨hc.1.1, ⟨[], ?_, ?_, ?_⟩, fun hq => quiet_mono hc.1 hq⟩
  · rw [hc.2, List.append_nil]
  · intro e he; cases he
  · intro _ e he; cases he

theorem silent_refl (h : Nat) (s : State) : Silent h s s := calm_silent h (calm_refl s)

theorem silent_trans {h : Nat} {a b c : State} (h1 : Silent h a b) (h2 : Silent h b c) :
    Silent h a c := by
  obtain ⟨l1, ⟨d1, e1, b1, n1⟩, q1⟩ := h1
  obtain ⟨l2, ⟨d2, e2, b2, n2⟩, q2⟩ := h2
  refine ⟨le_trans l1 l2, ⟨d1 ++ d2, by rw [e2, e1, List.append_assoc], ?_, ?_⟩,
    fun hq => q2 (q1 hq)⟩
  · intro e he
    rcases List.mem_append.mp he with he | he
    · exact lt_of_lt_of_le (b1 e he) l2
    · exact b2 e he
  · intro hq e he
    rcases List.mem_append.mp he with he | he
    · exact n1 hq e he
    · exact n2 (q1 hq) e he

/-! ### Every function of the engine but the idle handler is calm -/

theorem load_calm (s : State) (f : FmFileInfo) (size cb ud : Nat) :
    Calm s (fm_thumbnail_loader_load s f size cb ud).1 := by
  unfold fm_thumbnail_loader_load
  cases s.hash with
  | none => exact calm_refl s
  | some hash =>
    simp only
    cases find_thumbnail_in_hash hash f.path size with
    | some pix => exact ⟨reqsMono_append _ _, rfl⟩
    | none => exact ⟨reqsMono_append _ _, rfl⟩

theorem cancel_calm (s : State) (req : Nat) : Calm s (fm_thumbnail_loader_cancel s req) := by
  have hm : ReqsMono s.reqs (heapMod s.reqs req (fun q => { q with cancelled := true })) :=
    reqsMono_heapMod _ _ _ (fun _ _ => rfl)
  unfold fm_thumbnail_loader_cancel
  split
  · exact calm_refl s
  · dsimp only
    split
    · exact ⟨hm, rfl⟩
    · split
      · exact ⟨hm, rfl⟩
      · split
        · split
          · exact ⟨hm, rfl⟩
          · split
            · exact ⟨hm, rfl⟩
            · exact ⟨hm, rfl⟩
        · exact ⟨hm, rfl⟩

theorem task_free_fold_calm (rs : List Nat) : ∀ s : State,
    Calm s (rs.foldl (fun (st : State) (req : Nat) =>
      { st with reqs := heapMod st.reqs req (fun q => { q with task := none }),
                ready_queue := st.ready_queue ++ [req],
                ready_idle_handler := arm_idle st.ready_idle_handler }) s) := by
  induction rs with
  | nil => exact fun s => calm_refl s
  | cons r rs ih =>
    intro s
    rw [List.foldl_cons]
    refine calm_trans ?_ (ih _)
    exact ⟨reqsMono_heapMod _ _ _ (fun _ x => x), rfl⟩

theorem thumbnail_task_free_calm (s : State) (task : Nat) : Calm s (thumbnail_task_free s task) := by
  unfold thumbnail_task_free
  split
  · exact calm_refl s
  · exact calm_trans (task_free_fold_calm _ s) (calm_of_eq rfl rfl)

theorem finish_request_calm (B : FmThumbnailLoaderBackend) (n l : Option GObject)
    (a : FinishLoop) (r : Nat) : Calm a.st (finish_request B n l a r).st := by
  rcases finish_request_cases B n l a r with e | ⟨req, _, _, _, ⟨_, e⟩ | ⟨p, _, e⟩ | ⟨_, e⟩⟩
  · rw [e]; exact calm_refl _
  · rw [e]; exact ⟨reqsMono_heapMod _ _ _ (fun _ x => x), rfl⟩
  · rw [e]; exact ⟨reqsMono_heapMod _ _ _ (fun _ x => x), rfl⟩
  · rw [e]; exact ⟨reqsMono_heapMod _ _ _ (fun _ x => x), rfl⟩

theorem finish_fold_calm (B : FmThumbnailLoaderBackend) (n l : Option GObject) (rs : List Nat) :
    ∀ a : FinishLoop, Calm a.st (rs.foldl (finish_request B n l) a).st := by
  induction rs with
  | nil => exact fun a => calm_refl _
  | cons r rs ih =>
    intro a
    rw [List.foldl_cons]
    exact calm_trans (finish_request_calm B n l a r) (ih _)

theorem thumbnail_task_finish_calm (B : FmThumbnailLoaderBackend) (s : State) (task : Nat)
    (n l : Option GObject) : Calm s (thumbnail_task_finish B s task n l) := by
  unfold thumbnail_task_finish
  split
  · exact calm_refl s
  · dsimp only
    refine calm_trans ?_ (finish_fold_calm B n l _ _)
    exact calm_of_eq rfl rfl

theorem load_thumbnails_calm (B : FmThumbnailLoaderBackend) (env : WorkerEnv) (s : State)
    (task : Nat) : Calm s (load_thumbnails B env s task) := by
  unfold load_thumbnails
  split
  · exact calm_refl s
  · split
    · exact calm_refl s
    · simp only
      split
      · exact calm_of_eq rfl rfl
      · refine calm_trans ?_ (thumbnail_task_finish_calm B _ _ _ _)
        exact calm_of_eq rfl rfl

theorem generate_thumbnails_calm (B : FmThumbnailLoaderBackend) (env : WorkerEnv) (s : State)
    (task : Nat) : Calm s (generate_thumbnails B env s task) := by
  unfold generate_thumbnails
  split
  · exact calm_refl s
  · refine calm_trans ?_ (calm_of_eq rfl rfl)
    split
    · split
      · unfold generate_thumbnails_with_builtin
        split
        · exact calm_refl s
        · split <;> exact thumbnail_task_finish_calm B _ _ _ _
      · exact calm_refl s
    · unfold generate_thumbnails_with_thumbnailers
      split
      · exact calm_refl s
      · exact thumbnail_task_finish_calm B _ _ _ _

theorem worker_pop_calm (s : State) : Calm s (worker_pop s) := by
  unfold worker_pop
  split <;> exact calm_of_eq rfl rfl

theorem worker_run_calm (B : FmThumbnailLoaderBackend) (env : WorkerEnv) (s : State) :
    Calm s (worker_run B env s) := by
  unfold worker_run
  split
  · exact calm_refl s
  · split
    · exact calm_refl s
    · dsimp only
      refine calm_trans ?_ (calm_of_eq rfl rfl)
      split
      · refine calm_trans ?_ (generate_thumbnails_calm B env _ _)
        exact calm_of_eq rfl rfl
      · refine calm_trans ?_ (load_thumbnails_calm B env _ _)
        exact calm_of_eq rfl rfl

theorem worker_requeue_calm (s : State) : Calm s (worker_requeue s) := by
  unfold worker_requeue
  split
  · exact calm_refl s
  · simp only
    split
    · exact calm_of_eq rfl rfl
    · split
      · refine calm_trans ?_ (thumbnail_task_free_calm _ _)
        exact calm_of_eq rfl rfl
      · exact calm_of_eq rfl rfl

theorem finalize_fold_calm (q : List Nat) : ∀ s : State, Calm s (q.foldl thumbnail_task_free s) := by
  induction q with
  | nil => exact fun s => calm_refl s
  | cons t q ih =>
    intro s
    rw [List.foldl_cons]
    exact calm_trans (thumbnail_task_free_calm s t) (ih _)

theorem finalize_calm (s : State) : Calm s (_fm_thumbnail_loader_finalize s) := by
  unfold _fm_thumbnail_loader_finalize
  refine calm_trans ?_ (calm_of_eq rfl rfl)
  refine calm_trans ?_ (finalize_fold_calm _ _)
  split <;> exact calm_of_eq rfl rfl

theorem heapFree_fold_mono (q : List Nat) : ∀ a : List (Option FmThumbnailLoader),
    ReqsMono a (q.foldl heapFree a) := by
  induction q with
  | nil => exact fun a => reqsMono_refl a
  | cons t q ih =>
    intro a
    rw [List.foldl_cons]
    exact reqsMono_trans (reqsMono_heapFree a t) (ih _)

theorem cleanup_calm (s : State) : Calm s (fm_thumbnail_loader_cleanup s).1 := by
  unfold fm_thumbnail_loader_cleanup
  split
  · exact calm_refl s
  · exact ⟨heapFree_fold_mono _ _, rfl⟩

theorem run_calls_calm (cs : List Call) : ∀ s : State, Calm s (run_calls cs s) := by
  induction cs with
  | nil => exact fun s => calm_refl s
  | cons c cs ih =>
    intro s
    cases c with
    | load f size cb ud => exact calm_trans (load_calm s f size cb ud) (ih _)
    | cancel r => exact calm_trans (cancel_calm s r) (ih _)

theorem heapMod_dead {α : Type} (l : List (Option α)) (i : Nat) (f : α → α)
    (h : heapGet l i = none) : heapMod l i f = l := by
  unfold heapMod
  rw [h, Option.map_none']
  apply List.ext_getElem?
  intro j
  by_cases hj : i = j
  · subst hj
    by_cases hl : i < l.length
    · rw [List.getElem?_set_self hl]
      rw [heapGet_eq] at h
      cases hx : l[i]? with
      | none => rw [List.getElem?_eq_none_iff] at hx; omega
      | some v =>
        rw [hx] at h
        cases v with
        | none => rfl
        | some w => cases h
    · rw [List.set_eq_of_length_le (by omega)]
  · rw [List.getElem?_set_ne hj]

theorem cancel_reqs (s : State) (req : Nat) :
    (fm_thumbnail_loader_cancel s req).reqs
      = heapMod s.reqs req (fun q => { q with cancelled := true }) := by
  unfold fm_thumbnail_loader_cancel
  split
  · rename_i h; rw [heapMod_dead _ _ _ h]
  · dsimp only
    split
    · rfl
    · split
      · rfl
      · split
        · split
          · rfl
          · split <;> rfl
        · rfl

theorem cancel_quiet (s : State) (h : Nat) (hh : h < s.reqs.length) :
    Quiet h (fm_thumbnail_loader_cancel s h) := by
  unfold Quiet
  rw [cancel_reqs, length_heapMod, heapGet_heapMod, if_pos rfl]
  refine ⟨hh, fun r hr => ?_⟩
  cases hg : heapGet s.reqs h with
  | none => rw [hg] at hr; cases hr
  | some q =>
    rw [hg] at hr
    simp only [Option.map_some', Option.some.injEq] at hr
    rw [← hr]

theorem deliver_silent (prog : Nat → List Call) (h : Nat) (s : State) (r : Nat) :
    Silent h s (deliver prog s r) := by
  unfold deliver
  cases hg : heapGet s.reqs r with
  | none => exact silent_refl h s
  | some req =>
    dsimp only
    by_cases hc : req.cancelled = true
    · rw [if_pos hc]; exact silent_refl h s
    · rw [if_neg hc]
      refine silent_trans ?_ (calm_silent h (run_calls_calm _ _))
      refine ⟨le_refl _, ⟨[(r, req)], rfl, ?_, ?_⟩, fun hq => hq⟩
      · intro e he
        rw [List.mem_singleton] at he
        rw [he]
        exact heapGet_lt _ _ _ hg
      · intro hq e he
        rw [List.mem_singleton] at he
        rw [he]
        intro e1
        exact hc (hq.2 req (e1 ▸ hg))

theorem free_calm (s : State) (r : Nat) : Calm s { s with reqs := heapFree s.reqs r } :=
  ⟨reqsMono_heapFree _ _, rfl⟩

theorem idle_iteration_silent (prog : Nat → List Call) (h : Nat) (s : State) (r : Nat)
    (rest : List Nat) : Silent h s (idle_iteration prog s r rest) := by
  unfold idle_iteration
  refine silent_trans ?_ (calm_silent h (free_calm _ r))
  refine silent_trans ?_ (deliver_silent prog h _ r)
  exact calm_silent h (calm_of_eq rfl rfl)

theorem on_ready_idle_loop_silent (prog : Nat → List Call) (h : Nat) (n : Nat) :
    ∀ s : State, Silent h s (on_ready_idle_loop prog n s).1 := by
  induction n with
  | zero => exact fun s => silent_refl h s
  | succ n ih =>
    intro s
    unfold on_ready_idle_loop
    cases hq : s.ready_queue with
    | nil => exact calm_silent h (calm_of_eq rfl rfl)
    | cons r rest =>
      dsimp only
      by_cases hn : n = 0
      · rw [if_pos hn]; exact idle_iteration_silent prog h s r rest
      · rw [if_neg hn]; exact silent_trans (idle_iteration_silent prog h s r rest) (ih _)

theorem step_silent (B : FmThumbnailLoaderBackend) (prog : Nat → List Call) (h : Nat) (s : State)
    (e : Event) : Silent h s (step B prog s e) := by
  cases e with
  | load f size cb ud => exact calm_silent h (load_calm s f size cb ud)
  | cancel r => exact calm_silent h (cancel_calm s r)
  | worker_pop =>
    simp only [step]; split
    · exact calm_silent h (worker_pop_calm s)
    · exact silent_refl h s
  | worker_run env =>
    simp only [step]; split
    · exact calm_silent h (worker_run_calm B env s)
    · exact silent_refl h s
  | worker_requeue =>
    simp only [step]; split
    · exact calm_silent h (worker_requeue_calm s)
    · exact silent_refl h s
  | idle =>
    simp only [step]; split
    · exact silent_refl h s
    · exact on_ready_idle_loop_silent prog h 200 s
  | pixbuf_destroy path pix => exact calm_silent h (calm_of_eq rfl rfl)
  | finalize => exact calm_silent h (finalize_calm s)
  | cleanup =>
    simp only [step]; split
    · exact silent_refl h s
    · split
      · exact calm_silent h (cleanup_calm s)
      · exact silent_trans (calm_silent h (cleanup_calm s)) (calm_silent h (calm_of_eq rfl rfl))

theorem run_silent (B : FmThumbnailLoaderBackend) (prog : Nat → List Call) (h : Nat)
    (es : List Event) : ∀ s : State, Silent h s (run B prog s es) := by
  induction es with
  | nil => exact fun s => silent_refl h s
  | cons e es ih =>
    intro s
    unfold run
    rw [List.foldl_cons]
    exact silent_trans (step_silent B prog h s e) (ih _)

theorem load_fresh (s s1 : State) (f : FmFileInfo) (size cb ud h : Nat)
    (hl : fm_thumbnail_loader_load s f size cb ud = (s1, some h)) :
    h = s.reqs.length ∧ h < s1.reqs.length ∧ s1.fired = s.fired := by
  unfold fm_thumbnail_loader_load at hl
  cases hh : s.hash with
  | none => rw [hh] at hl; simp at hl
  | some hash =>
    rw [hh] at hl
    dsimp only at hl
    cases hf : find_thumbnail_in_hash hash f.path size with
    | some pix =>
      rw [hf] at hl
      simp only [Prod.mk.injEq, Option.some.injEq] at hl
      obtain ⟨rfl, rfl⟩ := hl
      exact ⟨rfl, by simp, rfl⟩
    | none =>
      rw [hf] at hl
      simp only [Prod.mk.injEq, Option.some.injEq] at hl
      obtain ⟨rfl, rfl⟩ := hl
      exact ⟨rfl, by simp, rfl⟩

/-- C1: no callback after `cancel`.  Whatever the backend and whatever calls the user
callbacks make (`prog`): for every state, every existing request handle `h` and
every sequence `es` of later events (loads, other cancels, the phases of the loader
thread, idle drains, destruction of cached images, shutdown and clean-up), the
callbacks invoked after `fm_thumbnail_loader_cancel (h)` has returned do not
include the callback of `h`.  In particular, in every state reachable from the
initialised engine, a load immediately followed by the cancel of the returned
handle never has its callback invoked. -/
theorem no_callback_after_cancel (B : FmThumbnailLoaderBackend) (prog : Nat → List Call) :
    (∀ (s : State) (h : Nat) (es : List Event), h < s.reqs.length →
      ∃ d, (run B prog (fm_thumbnail_loader_cancel s h) es).fired
          = (fm_thumbnail_loader_cancel s h).fired ++ d ∧ ∀ e ∈ d, e.1 ≠ h) ∧
    (∀ (es0 : List Event) (f : FmFileInfo) (size cb ud : Nat) (s1 : State) (h : Nat)
        (es : List Event),
      fm_thumbnail_loader_load (run B prog initialised es0) f size cb ud = (s1, some h) →
      ∀ e ∈ (run B prog (fm_thumbnail_loader_cancel s1 h) es).fired, e.1 ≠ h) := by
  constructor
  · intro s h es hh
    obtain ⟨-, ⟨d, hd, -, hn⟩, -⟩ := run_silent B prog h es (fm_thumbnail_loader_cancel s h)
    exact ⟨d, hd, hn (cancel_quiet s h hh)⟩
  · intro es0 f size cb ud s1 h es hl e he
    obtain ⟨hfresh, hlt, hfired⟩ := load_fresh _ _ _ _ _ _ _ hl
    obtain ⟨-, ⟨d0, hd0, hb0, -⟩, -⟩ := run_silent B prog h es0 initialised
    obtain ⟨-, ⟨d, hd, -, hn⟩, -⟩ := run_silent B prog h es (fm_thumbnail_loader_cancel s1 h)
    rw [hd, (cancel_calm s1 h).2, hfired, hd0] at he
    rcases List.mem_append.mp he with he | he
    · rcases List.mem_append.mp he with he | he
      · cases he
      · have := hb0 e he
        omega
    · exact hn (cancel_quiet s1 h hlt) e he

/-- C1 on a concrete run: a request of size 64 for `fileA` that is cancelled right
after the load is served by the loader thread and drained without any callback
for it, while the same run without the cancel (`cachedState`) invokes it. -/
theorem no_callback_after_cancel_witness :
    (∀ e ∈ (run gridBackend noCalls
        (fm_thumbnail_loader_cancel (fm_thumbnail_loader_load initialised fileA 64 7 0).1 0)
        (serveEvents (envDecode (some (gridImage 1000 1000))))).fired, e.1 ≠ 0) ∧
    cachedState.fired.map (·.1) = [0] :=
  ⟨(no_callback_after_cancel gridBackend noCalls).2 [] fileA 64 7 0 _ 0 _ rfl, by decide⟩

/-! ## Bounds on the dimensions computed by `scale_pix` -/

theorem roundNE_le (n d K : Nat) (hd : 0 < d) (h : n ≤ K * d) : roundNE n d ≤ K := by
  have hq : n / d ≤ K := by
    rw [Nat.div_le_iff_le_mul_add_pred hd]
    have : K * d ≤ d * K + (d - 1) := by rw [Nat.mul_comm]; omega
    omega
  unfold roundNE
  rcases Nat.lt_or_ge (n / d) K with hlt | hge
  · split
    · omega
    · split
      · omega
      · split <;> omega
  · have hqe : n / d = K := le_antisymm hq hge
    have hmod : n % d = 0 := by
      have h1 := Nat.div_add_mod n d
      rw [hqe] at h1
      have h2 : d * K = K * d := Nat.mul_comm _ _
      omega
    rw [hmod, if_pos (by omega)]
    exact hq

theorem bitlen_le (fuel n : Nat) (hn : 1 ≤ n) : 2 ^ bitlen fuel n ≤ 2 * n := by
  induction fuel generalizing n with
  | zero => simp [bitlen]; omega
  | succ f ih =>
    unfold bitlen
    rw [if_neg (by omega)]
    rcases Nat.lt_or_ge (n / 2) 1 with h0 | h1
    · have hz : n / 2 = 0 := by omega
      rw [hz]
      have : bitlen f 0 = 0 := by cases f <;> simp [bitlen]
      rw [this]
      omega
    · have := ih (n / 2) h1
      rw [pow_succ]
      omega

theorem fdiv_le (a b : Nat) (hb : 0 < b) (hab : a ≤ b) : (fdiv a b).1 ≤ 2 ^ (fdiv a b).2 := by
  unfold fdiv
  simp only
  apply roundNE_le _ _ _ hb
  rw [Nat.mul_comm]
  exact Nat.mul_le_mul_left _ hab

theorem fmul_trunc_le (s : Nat) (q : Nat × Nat) (hs : s < 2 ^ 53) (hq : q.1 ≤ 2 ^ q.2) :
    fmul_trunc s q ≤ s := by
  have hP : s * q.1 ≤ s * 2 ^ q.2 := Nat.mul_le_mul_left _ hq
  unfold fmul_trunc
  split
  · exact Nat.div_le_of_le_mul (by rw [Nat.mul_comm (2 ^ q.2)]; exact hP)
  · rename_i hbits
    have hP1 : 1 ≤ s * q.1 := by
      by_contra hc
      have hz : s * q.1 = 0 := by omega
      rw [hz] at hbits
      exact hbits (by decide)
    have hb := bitlen_le 128 (s * q.1) hP1
    generalize bitlen 128 (s * q.1) = bits at hb hbits
    have hsh : bits - 53 ≤ q.2 := by
      by_contra hc
      have h1 : q.2 + 54 ≤ bits := by omega
      have h2 : 2 ^ (q.2 + 54) ≤ 2 ^ bits := Nat.pow_le_pow_right (by norm_num) h1
      have h3 : 2 * (s * 2 ^ q.2) < 2 ^ (q.2 + 54) := by
        rw [pow_add]
        have : 2 * (s * 2 ^ q.2) = 2 ^ q.2 * (2 * s) := by ring
        rw [this]
        exact Nat.mul_lt_mul_of_pos_left (by omega) (Nat.pow_pos (by norm_num))
      omega
    apply Nat.div_le_of_le_mul
    have hsplit : 2 ^ q.2 = 2 ^ (q.2 - (bits - 53)) * 2 ^ (bits - 53) := by
      rw [← pow_add]; congr 1; omega
    have hr := roundNE_le (s * q.1) (2 ^ (bits - 53)) (s * 2 ^ (q.2 - (bits - 53)))
      (Nat.pow_pos (by norm_num)) (by rw [Nat.mul_assoc, ← hsplit]; exact hP)
    calc roundNE (s * q.1) (2 ^ (bits - 53)) * 2 ^ (bits - 53)
        ≤ s * 2 ^ (q.2 - (bits - 53)) * 2 ^ (bits - 53) := Nat.mul_le_mul_right _ hr
      _ = 2 ^ q.2 * s := by rw [Nat.mul_assoc, ← hsplit, Nat.mul_comm]

theorem scaled_side_le (size num den : Int) (hs : 0 ≤ size) (hs2 : size < 2 ^ 53)
    (hn : 0 ≤ num) (hd : num < den) : scaled_side size num den ≤ size := by
  unfold scaled_side
  rw [if_neg (by omega)]
  have h1 : decide (size < 0) = false := by simp; omega
  have h2 : decide (num < 0) = false := by simp; omega
  have h3 : decide (den < 0) = false := by simp; omega
  simp only [h1, h2, h3, bne_self_eq_false, Bool.false_eq_true, if_false]
  have hle := fmul_trunc_le size.natAbs (fdiv num.natAbs den.natAbs) (by omega)
    (fdiv_le _ _ (by omega) (by omega))
  omega

theorem scale_dims_le (w h size : Int) (hw : 0 ≤ w) (hh : 0 ≤ h) (hs : 0 ≤ size)
    (hs2 : size < 2 ^ 53) : (scale_dims w h size).1 ≤ size ∧ (scale_dims w h size).2 ≤ size := by
  unfold scale_dims
  split
  · exact ⟨le_refl _, scaled_side_le size h w hs hs2 hh (by omega)⟩
  · split
    · exact ⟨scaled_side_le size w h hs hs2 hw (by omega), le_refl _⟩
    · exact ⟨le_refl _, le_refl _⟩

/-- One of the target dimensions of `scale_pix` is the requested size. -/
theorem scale_dims_side (w h size : Int) :
    (scale_dims w h size).1 = size ∨ (scale_dims w h size).2 = size := by
  unfold scale_dims
  split
  · exact Or.inl rfl
  · split
    · exact Or.inr rfl
    · exact Or.inl rfl

theorem scale_pix_bound (B : FmThumbnailLoaderBackend) (hexact : ScalesExactly B)
    (hdims : DimsNonneg B) (ori p : GObject) (sz : Int) (hs : sz < 2 ^ 53)
    (h : scale_pix B ori sz = some p) :
    B.get_image_width p ≤ sz ∧ B.get_image_height p ≤ sz := by
  unfold scale_pix at h
  simp only at h
  have hside := scale_dims_side (B.get_image_width ori) (B.get_image_height ori) sz
  have hle := scale_dims_le (B.get_image_width ori) (B.get_image_height ori) sz
    (hdims ori).1 (hdims ori).2
  split at h
  · rename_i hc
    simp only [Option.some.injEq] at h
    subst h
    rcases hc with ⟨h1, h2⟩ | ⟨h1, h2⟩
    · have hs0 : 0 ≤ sz := by
        rcases hside with e | e
        · rw [← e, h1]; exact (hdims ori).1
        · rw [← e, h2]; exact (hdims ori).2
      have := hle hs0 hs
      rw [h1, h2] at this
      exact this
    · exact ⟨le_of_lt h1, le_of_lt h2⟩
  · obtain ⟨e1, e2⟩ := hexact _ _ _ _ h
    have hs0 : 0 ≤ sz := by
      rcases hside with e | e
      · rw [← e, ← e1]; exact (hdims p).1
      · rw [← e, ← e2]; exact (hdims p).2
    rw [e1, e2]
    exact hle hs0 hs

theorem scale_pix_side (B : FmThumbnailLoaderBackend) (hexact : ScalesExactly B)
    (ori p : GObject) (sz : Int) (h : scale_pix B ori sz = some p) :
    (B.get_image_width p = sz ∨ B.get_image_height p = sz) ∨
    (p = ori ∧ B.get_image_width ori < sz ∧ B.get_image_height ori < sz) := by
  unfold scale_pix at h
  simp only at h
  have hside := scale_dims_side (B.get_image_width ori) (B.get_image_height ori) sz
  split at h
  · rename_i hc
    simp only [Option.some.injEq] at h
    subst h
    rcases hc with ⟨h1, h2⟩ | ⟨h1, h2⟩
    · left
      rcases hside with e | e
      · exact Or.inl (h1 ▸ e)
      · exact Or.inr (h2 ▸ e)
    · exact Or.inr ⟨rfl, h1, h2⟩
  · obtain ⟨e1, e2⟩ := hexact _ _ _ _ h
    left
    rcases hside with e | e
    · exact Or.inl (e1.trans e)
    · exact Or.inr (e2.trans e)

theorem still_refl (s : State) : Still s s := ⟨fun _ r1 h => ⟨r1, h, rfl, rfl⟩, rfl, rfl⟩

theorem still_trans {a b c : State} (h1 : Still a b) (h2 : Still b c) : Still a c := by
  refine ⟨fun i r2 hc => ?_, h2.2.1.trans h1.2.1, h2.2.2.trans h1.2.2⟩
  obtain ⟨r1, hr1, p1, s1⟩ := h2.1 i r2 hc
  obtain ⟨r, hr, p0, s0⟩ := h1.1 i r1 hr1
  exact ⟨r, hr, p1.trans p0, s1.trans s0⟩

theorem still_of_eq {s s1 : State} (hr : s1.reqs = s.reqs) (hh : s1.hash = s.hash)
    (hf : s1.fired = s.fired) : Still s s1 :=
  ⟨fun _ r1 h => ⟨r1, hr ▸ h, rfl, rfl⟩, hh, hf⟩

theorem still_of_heapMod {s s1 : State} (i : Nat) (f : FmThumbnailLoader → FmThumbnailLoader)
    (hr : s1.reqs = heapMod s.reqs i f) (hh : s1.hash = s.hash) (hfi : s1.fired = s.fired)
    (hf : ∀ r, (f r).pix = r.pix ∧ (f r).size = r.size) : Still s s1 := by
  refine ⟨fun j r1 hj => ?_, hh, hfi⟩
  rw [hr, heapGet_heapMod] at hj
  by_cases hji : j = i
  · subst hji
    rw [if_pos rfl] at hj
    cases hg : heapGet s.reqs j with
    | none => rw [hg] at hj; cases hj
    | some r =>
      rw [hg] at hj
      simp only [Option.map_some', Option.some.injEq] at hj
      exact ⟨r, rfl, hj ▸ (hf r).1, hj ▸ (hf r).2⟩
  · rw [if_neg hji] at hj
    exact ⟨r1, hj, rfl, rfl⟩

theorem still_of_heapFree {s s1 : State} (i : Nat)
    (hr : s1.reqs = heapFree s.reqs i) (hh : s1.hash = s.hash) (hfi : s1.fired = s.fired) :
    Still s s1 := by
  refine ⟨fun j r1 hj => ?_, hh, hfi⟩
  rw [hr, heapGet_heapFree] at hj
  by_cases hji : j = i
  · rw [if_pos hji] at hj; cases hj
  · rw [if_neg hji] at hj
    exact ⟨r1, hj, rfl, rfl⟩

theorem good_still {B : FmThumbnailLoaderBackend} {s s1 : State} (hg : Good B s)
    (hs : Still s s1) : Good B s1 := by
  refine ⟨fun i r1 h1 => ?_, fun hash hh => hg.2.1 hash (hs.2.1 ▸ hh), fun e he => ?_⟩
  · obtain ⟨r, hr, hp, hsz⟩ := hs.1 i r1 h1
    have := hg.1 i r hr
    unfold GoodReq at this ⊢
    rw [hp, hsz]
    exact this
  · exact hg.2.2 e (hs.2.2 ▸ he)

theorem cancel_still (s : State) (req : Nat) : Still s (fm_thumbnail_loader_cancel s req) := by
  refine still_of_heapMod req _ (cancel_reqs s req) ?_ (cancel_calm s req).2 (fun _ => ⟨rfl, rfl⟩)
  unfold fm_thumbnail_loader_cancel
  split
  · rfl
  · dsimp only
    split
    · rfl
    · split
      · rfl
      · split
        · split
          · rfl
          · split <;> rfl
        · rfl

theorem task_free_fold_still (rs : List Nat) : ∀ s : State,
    Still s (rs.foldl (fun (st : State) (req : Nat) =>
      { st with reqs := heapMod st.reqs req (fun q => { q with task := none }),
                ready_queue := st.ready_queue ++ [req],
                ready_idle_handler := arm_idle st.ready_idle_handler }) s) := by
  induction rs with
  | nil => exact fun s => still_refl s
  | cons r rs ih =>
    intro s
    rw [List.foldl_cons]
    refine still_trans ?_ (ih _)
    exact still_of_heapMod r _ rfl rfl rfl (fun _ => ⟨rfl, rfl⟩)

theorem thumbnail_task_free_still (s : State) (task : Nat) :
    Still s (thumbnail_task_free s task) := by
  unfold thumbnail_task_free
  split
  · exact still_refl s
  · exact still_trans (task_free_fold_still _ s) (still_of_eq rfl rfl rfl)

theorem worker_pop_still (s : State) : Still s (worker_pop s) := by
  unfold worker_pop
  split <;> exact still_of_eq rfl rfl rfl

theorem worker_requeue_still (s : State) : Still s (worker_requeue s) := by
  unfold worker_requeue
  split
  · exact still_refl s
  · simp only
    split
    · exact still_of_eq rfl rfl rfl
    · split
      · refine still_trans ?_ (thumbnail_task_free_still _ _)
        exact still_of_eq rfl rfl rfl
      · exact still_of_eq rfl rfl rfl

theorem finalize_fold_still (q : List Nat) : ∀ s : State,
    Still s (q.foldl thumbnail_task_free s) := by
  induction q with
  | nil => exact fun s => still_refl s
  | cons t q ih =>
    intro s
    rw [List.foldl_cons]
    exact still_trans (thumbnail_task_free_still s t) (ih _)

theorem finalize_still (s : State) : Still s (_fm_thumbnail_loader_finalize s) := by
  unfold _fm_thumbnail_loader_finalize
  refine still_trans ?_ (still_of_eq rfl rfl rfl)
  refine still_trans ?_ (finalize_fold_still _ _)
  split <;> exact still_of_eq rfl rfl rfl

/-! ## Every delivered image was scaled for the size of its request -/

theorem find_thumbnail_some (hash : List ThumbnailCache) (path : FmPath) (size : Nat)
    (pix : GObject) (h : find_thumbnail_in_hash hash path size = some pix) :
    ∃ c ∈ hash, ∃ item ∈ c.items, item.size = size ∧ item.pix = pix := by
  unfold find_thumbnail_in_hash at h
  cases hc : hash.find? (fun c => decide (c.path = path)) with
  | none => rw [hc] at h; cases h
  | some cache =>
    rw [hc] at h
    simp only at h
    cases hi : cache.items.find? (fun item => decide (item.size = size)) with
    | none => rw [hi] at h; cases h
    | some item =>
      rw [hi] at h
      simp only [Option.map_some', Option.some.injEq] at h
      refine ⟨cache, List.mem_of_find?_eq_some hc, item, List.mem_of_find?_eq_some hi, ?_, h⟩
      simpa using List.find?_some hi

theorem mem_cache_thumbnail_in_hash (hash : List ThumbnailCache) (path : FmPath) (pix : GObject)
    (size : Nat) (c1 : ThumbnailCache) (item : ThumbnailCacheItem)
    (hc : c1 ∈ cache_thumbnail_in_hash hash path pix size) (hi : item ∈ c1.items) :
    (∃ c ∈ hash, item ∈ c.items) ∨ item = { size := size, pix := pix } := by
  induction hash with
  | nil =>
    simp only [cache_thumbnail_in_hash, List.mem_singleton] at hc
    subst hc
    simp only [List.mem_singleton] at hi
    exact Or.inr hi
  | cons c cs ih =>
    unfold cache_thumbnail_in_hash at hc
    by_cases hp : c.path = path
    · rw [if_pos hp] at hc
      rcases List.mem_cons.mp hc with e | e
      · split at e
        · subst e
          exact Or.inl ⟨c1, List.mem_cons_self _ _, hi⟩
        · subst e
          simp only [List.mem_cons] at hi
          rcases hi with e1 | e1
          · exact Or.inr e1
          · exact Or.inl ⟨c, List.mem_cons_self _ _, e1⟩
      · exact Or.inl ⟨c1, List.mem_cons_of_mem _ e, hi⟩
    · rw [if_neg hp] at hc
      rcases List.mem_cons.mp hc with e | e
      · subst e
        exact Or.inl ⟨c1, List.mem_cons_self _ _, hi⟩
      · rcases ih e with ⟨c2, hc2, hi2⟩ | e1
        · exact Or.inl ⟨c2, List.mem_cons_of_mem _ hc2, hi2⟩
        · exact Or.inr e1

theorem mem_on_pixbuf_destroy (hash : List ThumbnailCache) (path : FmPath) (pix : GObject)
    (c1 : ThumbnailCache) (item : ThumbnailCacheItem)
    (hc : c1 ∈ on_pixbuf_destroy hash path pix) (hi : item ∈ c1.items) :
    ∃ c ∈ hash, item ∈ c.items := by
  induction hash with
  | nil => simp [on_pixbuf_destroy] at hc
  | cons c cs ih =>
    unfold on_pixbuf_destroy at hc
    by_cases hp : c.path = path
    · rw [if_pos hp] at hc
      split at hc
      · split at hc
        · exact ⟨c1, List.mem_cons_of_mem _ hc, hi⟩
        · rcases List.mem_cons.mp hc with e | e
          · subst e
            exact ⟨c, List.mem_cons_self _ _, List.mem_of_mem_eraseP hi⟩
          · exact ⟨c1, List.mem_cons_of_mem _ e, hi⟩
      · exact ⟨c1, hc, hi⟩
    · rw [if_neg hp] at hc
      rcases List.mem_cons.mp hc with e | e
      · subst e
        exact ⟨c1, List.mem_cons_self _ _, hi⟩
      · obtain ⟨c2, hc2, hi2⟩ := ih e
        exact ⟨c2, List.mem_cons_of_mem _ hc2, hi2⟩

theorem heapGet_append_some {α : Type} (l : List (Option α)) (x : Option α) (i : Nat) (a : α)
    (h : heapGet (l ++ [x]) i = some a) : heapGet l i = some a ∨ x = some a := by
  by_cases hlt : i < l.length
  · rw [heapGet_append_of_lt _ _ _ hlt] at h; exact Or.inl h
  · by_cases he : i = l.length
    · subst he
      rw [heapGet_append_length] at h
      exact Or.inr h
    · rw [heapGet_of_length_le _ _ (by rw [List.length_append, List.length_singleton]; omega)] at h
      cases h

theorem load_good (B : FmThumbnailLoaderBackend) (s : State) (f : FmFileInfo)
    (size cb ud : Nat) (hg : Good B s) : Good B (fm_thumbnail_loader_load s f size cb ud).1 := by
  unfold fm_thumbnail_loader_load
  cases hh : s.hash with
  | none => exact hg
  | some hash =>
    dsimp only
    cases hf : find_thumbnail_in_hash hash f.path size with
    | some pix =>
      dsimp only
      obtain ⟨c, hc, item, hi, hsz, hpx⟩ := find_thumbnail_some hash f.path size pix hf
      obtain ⟨k, hk, hks, hsc⟩ := hg.2.1 hash hh c hc item hi
      refine ⟨fun i r hr => ?_, fun hash1 hh1 => hg.2.1 hash1 (hh ▸ hh1), hg.2.2⟩
      rcases heapGet_append_some _ _ _ _ hr with h1 | h1
      · exact hg.1 i r h1
      · simp only [Option.some.injEq] at h1
        subst h1
        have hkk : toGshort size = k := by
          rw [← hsz, hks]; exact toGshort_toGuint k hk
        refine ⟨toGshort_range size, fun p hp => ?_⟩
        simp only [Option.some.injEq] at hp
        subst hp
        show ScaledFor B pix (toGshort size)
        rw [hkk, ← hpx]
        exact hsc
    | none =>
      dsimp only
      refine ⟨fun i r hr => ?_, fun hash1 hh1 => hg.2.1 hash1 (hh ▸ hh1), hg.2.2⟩
      rcases heapGet_append_some _ _ _ _ hr with h1 | h1
      · exact hg.1 i r h1
      · simp only [Option.some.injEq] at h1
        subst h1
        exact ⟨toGshort_range size, fun p hp => by cases hp⟩

theorem run_calls_good (B : FmThumbnailLoaderBackend) (cs : List Call) :
    ∀ s : State, Good B s → Good B (run_calls cs s) := by
  induction cs with
  | nil => exact fun s h => h
  | cons c cs ih =>
    intro s hg
    cases c with
    | load f size cb ud => exact ih _ (load_good B s f size cb ud hg)
    | cancel r => exact ih _ (good_still hg (cancel_still s r))

theorem good_heapMod_pix (B : FmThumbnailLoaderBackend) (reqs : List (Option FmThumbnailLoader))
    (r : Nat) (f : FmThumbnailLoader → FmThumbnailLoader)
    (hg : ∀ i q, heapGet reqs i = some q → GoodReq B q)
    (hf : ∀ q, heapGet reqs r = some q → GoodReq B (f q)) :
    ∀ i q, heapGet (heapMod reqs r f) i = some q → GoodReq B q := by
  intro i q hq
  rw [heapGet_heapMod] at hq
  by_cases hir : i = r
  · subst hir
    rw [if_pos rfl] at hq
    cases hc : heapGet reqs i with
    | none => rw [hc] at hq; cases hq
    | some q0 =>
      rw [hc] at hq
      simp only [Option.map_some', Option.some.injEq] at hq
      exact hq ▸ hf q0 hc
  · rw [if_neg hir] at hq
    exact hg i q hq

theorem finish_request_good (B : FmThumbnailLoaderBackend) (n l : Option GObject)
    (a : FinishLoop) (r : Nat) (hg : Good B a.st)
    (hc : ∀ p, a.cached_pix = some p → ScaledFor B p a.cached_size) :
    Good B (finish_request B n l a r).st ∧
    ∀ p, (finish_request B n l a r).cached_pix = some p →
      ScaledFor B p (finish_request B n l a r).cached_size := by
  rcases finish_request_cases B n l a r with e | ⟨req, hreq, _, _, ⟨hs, e⟩ | ⟨p, hp, e⟩ | ⟨hp, e⟩⟩
  · rw [e]; exact ⟨hg, hc⟩
  · rw [e]
    refine ⟨⟨?_, hg.2.1, hg.2.2⟩, hc⟩
    apply good_heapMod_pix B _ _ _ hg.1
    intro q hq
    have hq0 := hg.1 r q hq
    rw [hreq] at hq
    simp only [Option.some.injEq] at hq
    subst hq
    exact ⟨hq0.1, fun p hp => by rw [hs]; exact hc p hp⟩
  · rw [e]
    have hsc : ScaledFor B p req.size := by
      cases hcl : class_pix req.size n l with
      | none => rw [hcl] at hp; cases hp
      | some ori => rw [hcl] at hp; exact ⟨ori, hp⟩
    have hreq0 := hg.1 r req hreq
    refine ⟨⟨?_, ?_, hg.2.2⟩, fun p1 hp1 => ?_⟩
    · apply good_heapMod_pix B _ _ _ hg.1
      intro q hq
      rw [hreq] at hq
      simp only [Option.some.injEq] at hq
      subst hq
      exact ⟨hreq0.1, fun p1 hp1 => by
        simp only [Option.some.injEq] at hp1
        subst hp1
        exact hsc⟩
    · intro hash hh c hcm item hi
      cases hh0 : a.st.hash with
      | none => simp [hh0] at hh
      | some hash0 =>
        simp only [hh0, Option.map_some', Option.some.injEq] at hh
        subst hh
        rcases mem_cache_thumbnail_in_hash _ _ _ _ _ _ hcm hi with ⟨c0, hc0, hi0⟩ | e1
        · exact hg.2.1 hash0 hh0 c0 hc0 item hi0
        · subst e1
          exact ⟨req.size, hreq0.1, rfl, hsc⟩
    · simp only [Option.some.injEq] at hp1
      subst hp1
      exact hsc
  · rw [e]
    have hreq0 := hg.1 r req hreq
    refine ⟨⟨?_, hg.2.1, hg.2.2⟩, fun p1 hp1 => by cases hp1⟩
    apply good_heapMod_pix B _ _ _ hg.1
    intro q hq
    rw [hreq] at hq
    simp only [Option.some.injEq] at hq
    subst hq
    exact ⟨hreq0.1, fun p1 hp1 => by cases hp1⟩

theorem finish_fold_good (B : FmThumbnailLoaderBackend) (n l : Option GObject) (rs : List Nat) :
    ∀ a : FinishLoop, Good B a.st → (∀ p, a.cached_pix = some p → ScaledFor B p a.cached_size) →
      Good B (rs.foldl (finish_request B n l) a).st := by
  induction rs with
  | nil => exact fun a h _ => h
  | cons r rs ih =>
    intro a hg hc
    rw [List.foldl_cons]
    obtain ⟨h1, h2⟩ := finish_request_good B n l a r hg hc
    exact ih _ h1 h2

theorem good_of_eq {B : FmThumbnailLoaderBackend} {s s1 : State} (hg : Good B s)
    (hr : s1.reqs = s.reqs) (hh : s1.hash = s.hash) (hf : s1.fired = s.fired) : Good B s1 :=
  good_still hg (still_of_eq hr hh hf)

theorem thumbnail_task_finish_good (B : FmThumbnailLoaderBackend) (s : State) (task : Nat)
    (n l : Option GObject) (hg : Good B s) : Good B (thumbnail_task_finish B s task n l) := by
  unfold thumbnail_task_finish
  split
  · exact hg
  · dsimp only
    apply finish_fold_good
    · exact good_of_eq hg rfl rfl rfl
    · intro p hp; cases hp

theorem load_thumbnails_good (B : FmThumbnailLoaderBackend) (env : WorkerEnv) (s : State)
    (task : Nat) (hg : Good B s) : Good B (load_thumbnails B env s task) := by
  unfold load_thumbnails
  split
  · exact hg
  · split
    · exact hg
    · simp only
      split
      · exact good_of_eq hg rfl rfl rfl
      · exact thumbnail_task_finish_good B _ _ _ _ (good_of_eq hg rfl rfl rfl)

theorem generate_thumbnails_good (B : FmThumbnailLoaderBackend) (env : WorkerEnv) (s : State)
    (task : Nat) (hg : Good B s) : Good B (generate_thumbnails B env s task) := by
  unfold generate_thumbnails
  split
  · exact hg
  · refine good_of_eq ?_ rfl rfl rfl
    split
    · split
      · unfold generate_thumbnails_with_builtin
        split
        · exact hg
        · split <;> exact thumbnail_task_finish_good B _ _ _ _ hg
      · exact hg
    · unfold generate_thumbnails_with_thumbnailers
      split
      · exact hg
      · exact thumbnail_task_finish_good B _ _ _ _ hg

theorem worker_run_good (B : FmThumbnailLoaderBackend) (env : WorkerEnv) (s : State)
    (hg : Good B s) : Good B (worker_run B env s) := by
  unfold worker_run
  split
  · exact hg
  · split
    · exact hg
    · dsimp only
      refine good_of_eq ?_ rfl rfl rfl
      split
      · exact generate_thumbnails_good B env _ _ (good_of_eq hg rfl rfl rfl)
      · exact load_thumbnails_good B env _ _ (good_of_eq hg rfl rfl rfl)

theorem heapFree_fold_some (q : List Nat) : ∀ (a : List (Option FmThumbnailLoader)) (i : Nat)
    (r : FmThumbnailLoader), heapGet (q.foldl heapFree a) i = some r → heapGet a i = some r := by
  induction q with
  | nil => exact fun _ _ _ h => h
  | cons t q ih =>
    intro a i r h
    rw [List.foldl_cons] at h
    have h1 := ih _ i r h
    rw [heapGet_heapFree] at h1
    by_cases hit : i = t
    · rw [if_pos hit] at h1; cases h1
    · rw [if_neg hit] at h1; exact h1

theorem cleanup_good (B : FmThumbnailLoaderBackend) (s : State) (hg : Good B s) :
    Good B (fm_thumbnail_loader_cleanup s).1 := by
  unfold fm_thumbnail_loader_cleanup
  split
  · exact hg
  · refine ⟨fun i r hr => hg.1 i r (heapFree_fold_some _ _ i r hr), ?_, hg.2.2⟩
    intro hash hh
    cases hh

theorem deliver_good (B : FmThumbnailLoaderBackend) (prog : Nat → List Call) (s : State) (r : Nat)
    (hg : Good B s) : Good B (deliver prog s r) := by
  unfold deliver
  cases hq : heapGet s.reqs r with
  | none => exact hg
  | some req =>
    dsimp only
    split
    · exact hg
    · apply run_calls_good
      refine ⟨hg.1, hg.2.1, fun e he => ?_⟩
      rcases List.mem_append.mp he with h1 | h1
      · exact hg.2.2 e h1
      · rw [List.mem_singleton] at h1
        subst h1
        exact hg.1 r req hq

theorem idle_iteration_good (B : FmThumbnailLoaderBackend) (prog : Nat → List Call) (s : State)
    (r : Nat) (rest : List Nat) (hg : Good B s) : Good B (idle_iteration prog s r rest) := by
  unfold idle_iteration
  have h1 : Good B (deliver prog { s with ready_queue := rest } r) :=
    deliver_good B prog _ r (good_of_eq hg rfl rfl rfl)
  exact good_still h1 (still_of_heapFree r rfl rfl rfl)

theorem on_ready_idle_loop_good (B : FmThumbnailLoaderBackend) (prog : Nat → List Call) (n : Nat) :
    ∀ s : State, Good B s → Good B (on_ready_idle_loop prog n s).1 := by
  induction n with
  | zero => exact fun s h => h
  | succ n ih =>
    intro s hg
    unfold on_ready_idle_loop
    cases hq : s.ready_queue with
    | nil => exact good_of_eq hg rfl rfl rfl
    | cons r rest =>
      dsimp only
      by_cases hn : n = 0
      · rw [if_pos hn]; exact idle_iteration_good B prog s r rest hg
      · rw [if_neg hn]; exact ih _ (idle_iteration_good B prog s r rest hg)

theorem step_good (B : FmThumbnailLoaderBackend) (prog : Nat → List Call) (s : State)
    (e : Event) (hg : Good B s) : Good B (step B prog s e) := by
  cases e with
  | load f size cb ud => exact load_good B s f size cb ud hg
  | cancel r => exact good_still hg (cancel_still s r)
  | worker_pop =>
    simp only [step]; split
    · exact good_still hg (worker_pop_still s)
    · exact hg
  | worker_run env =>
    simp only [step]; split
    · exact worker_run_good B env s hg
    · exact hg
  | worker_requeue =>
    simp only [step]; split
    · exact good_still hg (worker_requeue_still s)
    · exact hg
  | idle =>
    simp only [step]; split
    · exact hg
    · exact on_ready_idle_loop_good B prog 200 s hg
  | pixbuf_destroy path pix =>
    refine ⟨hg.1, fun hash hh c hc item hi => ?_, hg.2.2⟩
    cases hh0 : s.hash with
    | none => simp [step, hh0] at hh
    | some hash0 =>
      simp only [step, hh0, Option.map_some', Option.some.injEq] at hh
      subst hh
      obtain ⟨c0, hc0, hi0⟩ := mem_on_pixbuf_destroy _ _ _ _ _ hc hi
      exact hg.2.1 hash0 hh0 c0 hc0 item hi0
  | finalize => exact good_still hg (finalize_still s)
  | cleanup =>
    simp only [step]; split
    · exact hg
    · split
      · exact cleanup_good B s hg
      · exact good_of_eq (cleanup_good B s hg) rfl rfl rfl

theorem run_good (B : FmThumbnailLoaderBackend) (prog : Nat → List Call) (es : List Event) :
    ∀ s : State, Good B s → Good B (run B prog s es) := by
  induction es with
  | nil => exact fun s h => h
  | cons e es ih =>
    intro s hg
    unfold run
    rw [List.foldl_cons]
    exact ih _ (step_good B prog s e hg)

theorem initialised_good (B : FmThumbnailLoaderBackend) : Good B initialised := by
  refine ⟨fun i r h => ?_, fun hash hh c hc => ?_, fun e he => by cases he⟩
  · have := heapGet_lt _ _ _ h
    simp [initialised, _fm_thumbnail_loader_init, State.initial] at this
  · simp [initialised, _fm_thumbnail_loader_init, State.initial] at hh
    subst hh
    cases hc

theorem gridBackend_exact : ScalesExactly gridBackend := by
  intro ori w h p hp
  simp only [gridBackend] at hp ⊢
  split at hp
  · simp only [Option.some.injEq] at hp
    subst hp
    constructor <;> omega
  · cases hp

theorem gridBackend_dims : DimsNonneg gridBackend := by
  intro p
  simp only [gridBackend]
  constructor <;> omega

/-- C9: a delivered image fits the requested box.  Given a backend whose
`scale_image` returns exactly the requested dimensions (and whose images have no
negative dimension), whatever `rotate_image` does: in every run of the engine from
its initialised state, every callback invocation whose handle carries an image
`p` has `width p <= size` and `height p <= size`, where `size` is the handle's
size field, which then is also what `fm_thumbnail_loader_get_size` returns. -/
theorem delivered_image_fits (B : FmThumbnailLoaderBackend) (hexact : ScalesExactly B)
    (hdims : DimsNonneg B) (prog : Nat → List Call) (es : List Event)
    (e : Nat × FmThumbnailLoader) (he : e ∈ (run B prog initialised es).fired)
    (p : GObject) (hp : fm_thumbnail_loader_get_data e.2 = some p) :
    B.get_image_width p ≤ e.2.size ∧ B.get_image_height p ≤ e.2.size ∧
    (fm_thumbnail_loader_get_size e.2 : Int) = e.2.size := by
  obtain ⟨hrange, hsc⟩ := (run_good B prog es initialised (initialised_good B)).2.2 e he
  obtain ⟨ori, hori⟩ := hsc p hp
  have hb := scale_pix_bound B hexact hdims ori p e.2.size
    (lt_of_le_of_lt hrange.2 (by norm_num)) hori
  refine ⟨hb.1, hb.2, ?_⟩
  have h0 : 0 ≤ e.2.size := le_trans (hdims p).1 hb.1
  unfold fm_thumbnail_loader_get_size toGuint
  have := hrange.2
  omega

/-- C9 on the run `largeRequestEvents`: the callback of the request of size 300 is
invoked with a 256 x 256 image. -/
theorem delivered_image_fits_witness :
    gridBackend.get_image_width (gridImage 256 256) ≤ 300 ∧
    gridBackend.get_image_height (gridImage 256 256) ≤ 300 ∧
    (fm_thumbnail_loader_get_size
      { fi := fileA, task := none, callback := 7, user_data := 0,
        pix := some (gridImage 256 256), cancelled := false, size := 300, done := true } : Int)
      = 300 :=
  delivered_image_fits gridBackend gridBackend_exact gridBackend_dims noCalls largeRequestEvents
    (0, { fi := fileA, task := none, callback := 7, user_data := 0,
          pix := some (gridImage 256 256), cancelled := false, size := 300, done := true })
    (by decide) (gridImage 256 256) rfl

/-- C10 (amended): one side of a delivered image equals the requested size unless
the class image it was made from is smaller.  Given a backend whose `scale_image`
returns exactly the requested dimensions: (1) whenever `thumbnail_task_finish`
fills a pending handle of non-zero size with an image `p`, the class image `ori`
of that size (the normal image up to 128, the large one above) is present, and
either the width or the height of `p` equals the handle's size, or `p` is `ori`
itself and `ori` is smaller than the size in both dimensions; (2) in every run
from the initialised engine, every image `p` a callback is invoked with is what
`scale_pix` returned for the handle's size from some image `ori`, with the same
alternative. -/
theorem delivered_image_side (B : FmThumbnailLoaderBackend) (hexact : ScalesExactly B) :
    (∀ (s : State) (t : Nat) (n l : Option GObject) (h : Nat) (req : FmThumbnailLoader)
        (task : ThumbnailTask),
      heapGet s.tasks t = some task → h ∈ task.requests → heapGet s.reqs h = some req →
      req.done = false → req.cancelled = false → req.size ≠ 0 →
      ∃ r, heapGet (thumbnail_task_finish B s t n l).reqs h = some r ∧
        ∀ p, fm_thumbnail_loader_get_data r = some p →
          ∃ ori, (if req.size ≤ 128 then n else l) = some ori ∧
            ((B.get_image_width p = req.size ∨ B.get_image_height p = req.size) ∨
             (p = ori ∧ B.get_image_width ori < req.size ∧ B.get_image_height ori < req.size))) ∧
    (∀ (prog : Nat → List Call) (es : List Event),
      ∀ e ∈ (run B prog initialised es).fired, ∀ p, fm_thumbnail_loader_get_data e.2 = some p →
        ∃ ori, scale_pix B ori e.2.size = some p ∧
          ((B.get_image_width p = e.2.size ∨ B.get_image_height p = e.2.size) ∨
           (p = ori ∧ B.get_image_width ori < e.2.size ∧ B.get_image_height ori < e.2.size))) := by
  constructor
  · intro s t n l h req task ht hmem hreq hd hc hz
    obtain ⟨r, hr, hpix⟩ := finish_fills_from_class B s t n l h req task ht hmem hreq hd hc hz
    refine ⟨r, hr, fun p hp => ?_⟩
    have hp1 : r.pix = some p := hp
    rw [hpix] at hp1
    unfold class_pix at hp1
    cases hcl : (if req.size ≤ 128 then n else l) with
    | none => rw [hcl] at hp1; cases hp1
    | some ori =>
      rw [hcl] at hp1
      exact ⟨ori, rfl, scale_pix_side B hexact ori p req.size hp1⟩
  · intro prog es e he p hp
    obtain ⟨_, hsc⟩ := (run_good B prog es initialised (initialised_good B)).2.2 e he
    obtain ⟨ori, hori⟩ := hsc p hp
    exact ⟨ori, hori, scale_pix_side B hexact ori p e.2.size hori⟩

/-- C10 as stated fails for a request of size 300 on a 1000 x 1000 source: the
callback gets a 256 x 256 image (the large class image, not scaled up), so neither
side equals 300 although the source is not smaller than 300. -/
theorem delivered_image_side_300 :
    (run gridBackend noCalls initialised largeRequestEvents).fired.map
        (fun e => (e.2.size, e.2.pix.map (fun p =>
          (gridBackend.get_image_width p, gridBackend.get_image_height p))))
      = [(300, some (256, 256))] ∧
    gridBackend.get_image_width (gridImage 1000 1000) = 1000 ∧
    gridBackend.get_image_height (gridImage 1000 1000) = 1000 := by
  decide

/-- C10 (amended) on the run `largeRequestEvents`: the 256 x 256 image delivered
for size 300 is an unscaled image smaller than 300 in both dimensions. -/
theorem delivered_image_side_witness :
    ∃ ori, scale_pix gridBackend ori 300 = some (gridImage 256 256) ∧
      ((gridBackend.get_image_width (gridImage 256 256) = 300 ∨
        gridBackend.get_image_height (gridImage 256 256) = 300) ∨
       (gridImage 256 256 = ori ∧ gridBackend.get_image_width ori < 300 ∧
        gridBackend.get_image_height ori < 300)) :=
  (delivered_image_side gridBackend gridBackend_exact).2 noCalls largeRequestEvents
    (0, { fi := fileA, task := none, callback := 7, user_data := 0,
          pix := some (gridImage 256 256), cancelled := false, size := 300, done := true })
    (by decide) (gridImage 256 256) rfl

/-! ## The idle hook (C11, C12) -/

theorem kept_refl (a : List (Option FmThumbnailLoader)) : Kept a a :=
  fun _ q1 h => ⟨q1, h, fun _ => rfl⟩

theorem kept_trans {a b c : List (Option FmThumbnailLoader)} (h1 : Kept a b) (h2 : Kept b c) :
    Kept a c := by
  intro i q2 hq2
  obtain ⟨q1, hq1, e1⟩ := h2 i q2 hq2
  obtain ⟨q, hq, e⟩ := h1 i q1 hq1
  refine ⟨q, hq, fun hc => ?_⟩
  have := e1 hc
  subst this
  exact e hc

theorem kept_cancel (a : List (Option FmThumbnailLoader)) (r : Nat) :
    Kept a (heapMod a r (fun q => { q with cancelled := true })) := by
  intro i q1 hq1
  rw [heapGet_heapMod] at hq1
  by_cases hi : i = r
  · rw [if_pos hi] at hq1
    subst hi
    cases hg : heapGet a i with
    | none => rw [hg] at hq1; cases hq1
    | some q =>
      rw [hg] at hq1
      simp only [Option.map_some', Option.some.injEq] at hq1
      refine ⟨q, rfl, fun hc => ?_⟩
      rw [← hq1] at hc
      cases hc
  · rw [if_neg hi] at hq1
    exact ⟨q1, hq1, fun _ => rfl⟩

theorem kept_free (a : List (Option FmThumbnailLoader)) (r : Nat) : Kept a (heapFree a r) := by
  intro i q1 hq1
  rw [heapGet_heapFree] at hq1
  by_cases hi : i = r
  · rw [if_pos hi] at hq1; cases hq1
  · rw [if_neg hi] at hq1
    exact ⟨q1, hq1, fun _ => rfl⟩

theorem cancel_frame (s : State) (req : Nat) :
    (fm_thumbnail_loader_cancel s req).ready_queue = s.ready_queue ∧
    (fm_thumbnail_loader_cancel s req).loader_queue = s.loader_queue ∧
    (fm_thumbnail_loader_cancel s req).fired = s.fired ∧
    (fm_thumbnail_loader_cancel s req).ready_idle_handler = s.ready_idle_handler ∧
    (fm_thumbnail_loader_cancel s req).cur_loading = s.cur_loading ∧
    (fm_thumbnail_loader_cancel s req).hash = s.hash := by
  unfold fm_thumbnail_loader_cancel
  split
  · exact ⟨rfl, rfl, rfl, rfl, rfl, rfl⟩
  · dsimp only
    split
    · exact ⟨rfl, rfl, rfl, rfl, rfl, rfl⟩
    · split
      · exact ⟨rfl, rfl, rfl, rfl, rfl, rfl⟩
      · split
        · split
          · exact ⟨rfl, rfl, rfl, rfl, rfl, rfl⟩
          · split
            · exact ⟨rfl, rfl, rfl, rfl, rfl, rfl⟩
            · exact ⟨rfl, rfl, rfl, rfl, rfl, rfl⟩
        · exact ⟨rfl, rfl, rfl, rfl, rfl, rfl⟩

theorem cancels_run : ∀ (cs : List Call), (∀ c ∈ cs, ∃ r, c = Call.cancel r) → ∀ s : State,
    (run_calls cs s).ready_queue = s.ready_queue ∧
    (run_calls cs s).fired = s.fired ∧
    (run_calls cs s).ready_idle_handler = s.ready_idle_handler ∧
    Kept s.reqs (run_calls cs s).reqs ∧
    (∀ i q, heapGet s.reqs i = some q → Call.cancel i ∉ cs →
      heapGet (run_calls cs s).reqs i = some q) := by
  intro cs
  induction cs with
  | nil => exact fun _ s => ⟨rfl, rfl, rfl, kept_refl _, fun _ _ h _ => h⟩
  | cons c cs ih =>
    intro hcs s
    obtain ⟨r, hr⟩ := hcs c (List.mem_cons_self _ _)
    subst hr
    obtain ⟨h1, h2, h3, h4, h5⟩ :=
      ih (fun c hc => hcs c (List.mem_cons_of_mem _ hc)) (fm_thumbnail_loader_cancel s r)
    obtain ⟨f1, _, f3, f4, _, _⟩ := cancel_frame s r
    refine ⟨?_, ?_, ?_, ?_, ?_⟩
    · show (run_calls cs (fm_thumbnail_loader_cancel s r)).ready_queue = _
      rw [h1, f1]
    · show (run_calls cs (fm_thumbnail_loader_cancel s r)).fired = _
      rw [h2, f3]
    · show (run_calls cs (fm_thumbnail_loader_cancel s r)).ready_idle_handler = _
      rw [h3, f4]
    · show Kept s.reqs (run_calls cs (fm_thumbnail_loader_cancel s r)).reqs
      refine kept_trans ?_ h4
      rw [cancel_reqs]
      exact kept_cancel _ _
    · intro i q hq hn
      show heapGet (run_calls cs (fm_thumbnail_loader_cancel s r)).reqs i = some q
      have hir : i ≠ r := fun e => hn (e ▸ List.mem_cons_self _ _)
      refine h5 i q ?_ (fun hm => hn (List.mem_cons_of_mem _ hm))
      rw [cancel_reqs, heapGet_heapMod, if_neg hir]
      exact hq

theorem idle_iteration_spec (prog : Nat → List Call) (hprog : OnlyCancels prog) (s : State)
    (r : Nat) (rest : List Nat) :
    (idle_iteration prog s r rest).ready_queue = rest ∧
    (idle_iteration prog s r rest).ready_idle_handler = s.ready_idle_handler ∧
    Kept s.reqs (idle_iteration prog s r rest).reqs ∧
    heapGet (idle_iteration prog s r rest).reqs r = none ∧
    (((idle_iteration prog s r rest).fired = s.fired ∧
        (∀ q, heapGet s.reqs r = some q → q.cancelled = true) ∧
        (∀ i q, heapGet s.reqs i = some q → i ≠ r →
          heapGet (idle_iteration prog s r rest).reqs i = some q)) ∨
      (∃ req, heapGet s.reqs r = some req ∧ req.cancelled = false ∧
        (idle_iteration prog s r rest).fired = s.fired ++ [(r, req)] ∧
        (∀ i q, heapGet s.reqs i = some q → i ≠ r → Call.cancel i ∉ prog req.callback →
          heapGet (idle_iteration prog s r rest).reqs i = some q))) := by
  have hfree : ∀ l : List (Option FmThumbnailLoader), heapGet (heapFree l r) r = none := by
    intro l; rw [heapGet_heapFree, if_pos rfl]
  have hquiet : deliver prog { s with ready_queue := rest } r = { s with ready_queue := rest } →
      (∀ q, heapGet s.reqs r = some q → q.cancelled = true) →
      (idle_iteration prog s r rest).ready_queue = rest ∧
      (idle_iteration prog s r rest).ready_idle_handler = s.ready_idle_handler ∧
      Kept s.reqs (idle_iteration prog s r rest).reqs ∧
      heapGet (idle_iteration prog s r rest).reqs r = none ∧
      (((idle_iteration prog s r rest).fired = s.fired ∧
          (∀ q, heapGet s.reqs r = some q → q.cancelled = true) ∧
          (∀ i q, heapGet s.reqs i = some q → i ≠ r →
            heapGet (idle_iteration prog s r rest).reqs i = some q)) ∨
        (∃ req, heapGet s.reqs r = some req ∧ req.cancelled = false ∧
          (idle_iteration prog s r rest).fired = s.fired ++ [(r, req)] ∧
          (∀ i q, heapGet s.reqs i = some q → i ≠ r → Call.cancel i ∉ prog req.callback →
            heapGet (idle_iteration prog s r rest).reqs i = some q))) := by
    intro hd hc
    unfold idle_iteration
    rw [hd]
    refine ⟨rfl, rfl, kept_free _ _, hfree _, Or.inl ⟨rfl, hc, ?_⟩⟩
    intro i q hq hir
    show heapGet (heapFree s.reqs r) i = some q
    rw [heapGet_heapFree, if_neg hir]
    exact hq
  have hcases : heapGet s.reqs r = none ∨ ∃ req, heapGet s.reqs r = some req := by
    cases heapGet s.reqs r with
    | none => exact Or.inl rfl
    | some req => exact Or.inr ⟨req, rfl⟩
  rcases hcases with hg | ⟨req, hg⟩
  · refine hquiet ?_ (fun q hq => by rw [hg] at hq; cases hq)
    unfold deliver
    show (match heapGet s.reqs r with
      | none => _
      | some req => _) = _
    rw [hg]
  · by_cases hc : req.cancelled = true
    · refine hquiet ?_ (fun q hq => by rw [hg] at hq; cases hq; exact hc)
      unfold deliver
      show (match heapGet s.reqs r with
        | none => _
        | some req => _) = _
      rw [hg]
      simp only [hc, if_true]
    · have hd : deliver prog { s with ready_queue := rest } r
          = run_calls (prog req.callback)
              { s with ready_queue := rest, fired := s.fired ++ [(r, req)] } := by
        unfold deliver
        show (match heapGet s.reqs r with
          | none => _
          | some req => _) = _
        rw [hg]
        simp only [hc, if_false]
        rfl
      obtain ⟨h1, h2, h3, h4, h5⟩ := cancels_run (prog req.callback) (hprog req.callback)
        { s with ready_queue := rest, fired := s.fired ++ [(r, req)] }
      unfold idle_iteration
      rw [hd]
      refine ⟨h1, h3, kept_trans h4 (kept_free _ _), hfree _, Or.inr ⟨req, hg, ?_, h2, ?_⟩⟩
      · simpa using hc
      · intro i q hq hir hn
        show heapGet (heapFree _ r) i = some q
        rw [heapGet_heapFree, if_neg hir]
        exact h5 i q hq hn

theorem on_ready_idle_loop_cons (prog : Nat → List Call) (n : Nat) (s : State) (r : Nat)
    (rest : List Nat) (hq : s.ready_queue = r :: rest) :
    on_ready_idle_loop prog (n + 1) s = on_ready_idle_loop prog n (idle_iteration prog s r rest) := by
  rw [on_ready_idle_loop, hq]
  dsimp only
  by_cases hn : n = 0
  · rw [if_pos hn, hn]; rfl
  · rw [if_neg hn]

theorem on_ready_idle_loop_spec (prog : Nat → List Call) (hprog : OnlyCancels prog) :
    ∀ (n : Nat) (s : State),
    (on_ready_idle_loop prog n s).1.ready_queue = s.ready_queue.drop n ∧
    ((on_ready_idle_loop prog n s).2 = true ↔ n ≤ s.ready_queue.length) ∧
    ((on_ready_idle_loop prog n s).2 = true →
      (on_ready_idle_loop prog n s).1.ready_idle_handler = s.ready_idle_handler) ∧
    ((on_ready_idle_loop prog n s).2 = false →
      (on_ready_idle_loop prog n s).1.ready_idle_handler = 0) ∧
    Kept s.reqs (on_ready_idle_loop prog n s).1.reqs ∧
    (∀ x ∈ s.ready_queue.take n, heapGet (on_ready_idle_loop prog n s).1.reqs x = none) ∧
    ∃ d, (on_ready_idle_loop prog n s).1.fired = s.fired ++ d ∧
      List.Sublist (d.map Prod.fst) (s.ready_queue.take n) ∧
      (∀ e ∈ d, heapGet s.reqs e.1 = some e.2 ∧ e.2.cancelled = false) ∧
      (∀ x ∈ s.ready_queue.take n, ∀ q, heapGet s.reqs x = some q → q.cancelled = false →
        (∀ e ∈ d, Call.cancel x ∉ prog e.2.callback) → x ∈ d.map Prod.fst) := by
  intro n
  induction n with
  | zero =>
    intro s
    refine ⟨rfl, ?_, fun _ => rfl, ?_, kept_refl _, ?_, [], ?_, ?_, ?_, ?_⟩
    · simp [on_ready_idle_loop]
    · intro h; simp [on_ready_idle_loop] at h
    · intro x hx; simp at hx
    · simp [on_ready_idle_loop]
    · simp
    · intro e he; cases he
    · intro x hx; simp at hx
  | succ n ih =>
    intro s
    cases hq : s.ready_queue with
    | nil =>
      have hl : on_ready_idle_loop prog (n + 1) s = ({ s with ready_idle_handler := 0 }, false) := by
        rw [on_ready_idle_loop, hq]
      rw [hl]
      refine ⟨?_, ?_, ?_, fun _ => rfl, kept_refl _, ?_, [], ?_, ?_, ?_, ?_⟩
      · simpa using hq
      · simp
      · intro h; cases h
      · intro x hx; simp at hx
      · simp
      · simp
      · intro e he; cases he
      · intro x hx; simp at hx
    | cons r rest =>
      rw [on_ready_idle_loop_cons prog n s r rest hq]
      obtain ⟨i1, i2, i3, i4, i5⟩ := idle_iteration_spec prog hprog s r rest
      obtain ⟨l1, l2, l3, l4, l5, l6, d, l7, l8, l9, l10⟩ := ih (idle_iteration prog s r rest)
      rw [i1] at l1 l2 l6 l8 l10
      rw [i2] at l3
      have hdead : heapGet (on_ready_idle_loop prog n (idle_iteration prog s r rest)).1.reqs r
          = none := by
        cases hc : heapGet (on_ready_idle_loop prog n (idle_iteration prog s r rest)).1.reqs r with
        | none => rfl
        | some q1 =>
          obtain ⟨q, hq1, _⟩ := l5 r q1 hc
          rw [i4] at hq1
          cases hq1
      have hsnap : ∀ e ∈ d, heapGet s.reqs e.1 = some e.2 ∧ e.2.cancelled = false := by
        intro e he
        obtain ⟨a1, a2⟩ := l9 e he
        obtain ⟨q, b1, b2⟩ := i3 e.1 e.2 a1
        rw [b2 a2]
        exact ⟨b1, by rw [← b2 a2]; exact a2⟩
      refine ⟨?_, ?_, l3, l4, kept_trans i3 l5, ?_, ?_⟩
      · rw [l1]; rfl
      · rw [l2]; simp
      · intro x hx
        rw [List.take_succ_cons, List.mem_cons] at hx
        rcases hx with hx | hx
        · rw [hx]; exact hdead
        · exact l6 x hx
      · rcases i5 with ⟨f1, f2, f3⟩ | ⟨req, g1, g2, g3, g4⟩
        · refine ⟨d, ?_, ?_, hsnap, ?_⟩
          · rw [l7, f1]
          · rw [List.take_succ_cons]
            exact List.Sublist.cons _ l8
          · intro x hx q hxq hxc hno
            rw [List.take_succ_cons, List.mem_cons] at hx
            by_cases hxr : x = r
            · rw [hxr] at hxq
              rw [f2 q hxq] at hxc
              cases hxc
            · rcases hx with hx | hx
              · exact absurd hx hxr
              · exact l10 x hx q (f3 x q hxq hxr) hxc hno
        · refine ⟨(r, req) :: d, ?_, ?_, ?_, ?_⟩
          · rw [l7, g3]; simp
          · rw [List.take_succ_cons, List.map_cons]
            exact List.Sublist.cons₂ _ l8
          · intro e he
            rw [List.mem_cons] at he
            rcases he with he | he
            · rw [he]; exact ⟨g1, g2⟩
            · exact hsnap e he
          · intro x hx q hxq hxc hno
            rw [List.take_succ_cons, List.mem_cons] at hx
            by_cases hxr : x = r
            · rw [hxr]; simp
            · rcases hx with hx | hx
              · exact absurd hx hxr
              · have hn : Call.cancel x ∉ prog req.callback :=
                  hno (r, req) (List.mem_cons_self _ _)
                have := l10 x hx q (g4 x q hxq hxr hn) hxc
                  (fun e he => hno e (List.mem_cons_of_mem _ he))
                rw [List.map_cons]
                exact List.mem_cons_of_mem _ this

theorem take_min_length {α : Type} (l : List α) (k : Nat) :
    l.take (min l.length k) = l.take k := by
  by_cases h : l.length ≤ k
  · rw [Nat.min_eq_left h, List.take_of_length_le h, List.take_of_length_le (le_refl _)]
  · rw [Nat.min_eq_right (by omega)]

theorem drop_min_length {α : Type} (l : List α) (k : Nat) :
    l.drop (min l.length k) = l.drop k := by
  by_cases h : l.length ≤ k
  · rw [Nat.min_eq_left h, List.drop_of_length_le h, List.drop_of_length_le (le_refl _)]
  · rw [Nat.min_eq_right (by omega)]

/-- C11: with callbacks that request no thumbnail (so put no handle on a queue), one
run of `on_ready_idle` on a ready queue of `n` handles removes and frees exactly its
first `min n 200` handles, leaves the other handles in the queue in their order, and
invokes the callbacks of exactly those removed handles that are not cancelled when
their turn comes, in queue order and once each: the handles invoked are a sublist
`d` of the removed prefix, each of them was live and not cancelled, and every
removed handle that was not cancelled and that no invoked callback cancels is
in `d`. -/
theorem on_ready_idle_drains (prog : Nat → List Call) (s : State) (hprog : OnlyCancels prog) :
    (on_ready_idle prog s).1.ready_queue
      = s.ready_queue.drop (min s.ready_queue.length 200) ∧
    (∀ x ∈ s.ready_queue.take (min s.ready_queue.length 200),
      heapGet (on_ready_idle prog s).1.reqs x = none) ∧
    ∃ d, (on_ready_idle prog s).1.fired = s.fired ++ d ∧
      List.Sublist (d.map Prod.fst) (s.ready_queue.take (min s.ready_queue.length 200)) ∧
      (∀ e ∈ d, heapGet s.reqs e.1 = some e.2 ∧ e.2.cancelled = false) ∧
      (∀ x ∈ s.ready_queue.take (min s.ready_queue.length 200), ∀ q,
        heapGet s.reqs x = some q → q.cancelled = false →
        (∀ e ∈ d, Call.cancel x ∉ prog e.2.callback) → x ∈ d.map Prod.fst) := by
  rw [take_min_length, drop_min_length]
  obtain ⟨h1, _, _, _, _, h6, d, h7, h8, h9, h10⟩ := on_ready_idle_loop_spec prog hprog 200 s
  exact ⟨h1, h6, d, h7, h8, h9, h10⟩

/-- Witness of C11: three handles 1, 2, 3 in the ready queue, the callback of handle 1
cancels handle 2; the run empties the queue and invokes the callbacks of 1 and 3, in
that order (after the callback of handle 0, invoked before). -/
theorem on_ready_idle_drains_witness :
    OnlyCancels cancelsNext ∧
    threeReady.ready_queue = [1, 2, 3] ∧
    (on_ready_idle cancelsNext threeReady).1.ready_queue
      = threeReady.ready_queue.drop (min threeReady.ready_queue.length 200) ∧
    (on_ready_idle cancelsNext threeReady).1.fired.map Prod.fst = [0, 1, 3] :=
  have h : OnlyCancels cancelsNext := by
    intro cb c hc
    unfold cancelsNext at hc
    split at hc
    · exact ⟨2, by simpa using hc⟩
    · cases hc
  ⟨h, by decide, (on_ready_idle_drains cancelsNext threeReady h).1, by decide⟩

/-- C12 (as the code has it): with callbacks that request no thumbnail, `on_ready_idle`
re-arms (returns `TRUE`, leaving `ready_idle_handler` as it is) if and only if it
reaches its cap, that is if and only if at least 200 handles were queued, whether or
not any handle is left then; otherwise it disarms (returns `FALSE` and clears
`ready_idle_handler`).  With exactly 200 handles it therefore returns `TRUE` on an
emptied queue. -/
theorem on_ready_idle_rearms (prog : Nat → List Call) (s : State) (hprog : OnlyCancels prog) :
    ((on_ready_idle prog s).2 = true ↔ 200 ≤ s.ready_queue.length) ∧
    ((on_ready_idle prog s).2 = true →
      (on_ready_idle prog s).1.ready_idle_handler = s.ready_idle_handler) ∧
    ((on_ready_idle prog s).2 = false → (on_ready_idle prog s).1.ready_idle_handler = 0) ∧
    (s.ready_queue.length = 200 →
      (on_ready_idle prog s).2 = true ∧ (on_ready_idle prog s).1.ready_queue = []) := by
  obtain ⟨h1, h2, h3, h4, _⟩ := on_ready_idle_loop_spec prog hprog 200 s
  refine ⟨h2, h3, h4, fun hl => ⟨h2.2 (by omega), ?_⟩⟩
  show (on_ready_idle_loop prog 200 s).1.ready_queue = []
  rw [h1]
  exact List.drop_of_length_le (by omega)

/-- Witness of C12: three queued handles are fewer than 200, the hook disarms. -/
theorem on_ready_idle_rearms_witness :
    OnlyCancels cancelsNext ∧
    (on_ready_idle cancelsNext threeReady).2 = false ∧
    (on_ready_idle cancelsNext threeReady).1.ready_idle_handler = 0 :=
  have h : OnlyCancels cancelsNext := by
    intro cb c hc
    unfold cancelsNext at hc
    split at hc
    · exact ⟨2, by simpa using hc⟩
    · cases hc
  have h0 : (on_ready_idle cancelsNext threeReady).2 = false := by decide
  ⟨h, h0, (on_ready_idle_rearms cancelsNext threeReady h).2.2.1 h0⟩

set_option maxRecDepth 1000000 in
/-- Counterexample to C12 as stated: with exactly 200 handles queued the cap is hit
with the queue empty, and the hook still returns `TRUE` and leaves
`ready_idle_handler` set; it is the next run, on the empty queue, that disarms. -/
theorem on_ready_idle_rearms_200 :
    fullQueue.ready_queue.length = 200 ∧
    (on_ready_idle noCalls fullQueue).2 = true ∧
    (on_ready_idle noCalls fullQueue).1.ready_queue = [] ∧
    (on_ready_idle noCalls fullQueue).1.ready_idle_handler = 1 ∧
    (on_ready_idle noCalls (on_ready_idle noCalls fullQueue).1).2 = false := by
  decide

/-! ## Order of delivery within a task (C13, C14) -/

theorem finish_request_frame (B : FmThumbnailLoaderBackend) (n l : Option GObject)
    (a : FinishLoop) (r : Nat) :
    (finish_request B n l a r).st.tasks = a.st.tasks ∧
    (finish_request B n l a r).st.ready_queue = a.st.ready_queue ∧
    (finish_request B n l a r).st.loader_queue = a.st.loader_queue ∧
    (finish_request B n l a r).st.cur_loading = a.st.cur_loading ∧
    ∀ i, (heapGet (finish_request B n l a r).st.reqs i).map (·.size)
      = (heapGet a.st.reqs i).map (·.size) := by
  have hm : ∀ (f : FmThumbnailLoader → FmThumbnailLoader), (∀ q, (f q).size = q.size) →
      ∀ i, (heapGet (heapMod a.st.reqs r f) i).map (·.size)
        = (heapGet a.st.reqs i).map (·.size) := by
    intro f hf i
    rw [heapGet_heapMod]
    by_cases hi : i = r
    · rw [if_pos hi, hi]
      cases heapGet a.st.reqs r with
      | none => rfl
      | some q => simp [hf]
    · rw [if_neg hi]
  rcases finish_request_cases B n l a r with e | ⟨req, _, _, _, ⟨_, e⟩ | ⟨p, _, e⟩ | ⟨_, e⟩⟩
  · rw [e]; exact ⟨rfl, rfl, rfl, rfl, fun _ => rfl⟩
  · rw [e]; exact ⟨rfl, rfl, rfl, rfl, hm _ (fun _ => rfl)⟩
  · rw [e]; exact ⟨rfl, rfl, rfl, rfl, hm _ (fun _ => rfl)⟩
  · rw [e]; exact ⟨rfl, rfl, rfl, rfl, hm _ (fun _ => rfl)⟩

theorem finish_fold_frame (B : FmThumbnailLoaderBackend) (n l : Option GObject) (rs : List Nat) :
    ∀ a : FinishLoop,
    (rs.foldl (finish_request B n l) a).st.tasks = a.st.tasks ∧
    (rs.foldl (finish_request B n l) a).st.ready_queue = a.st.ready_queue ∧
    (rs.foldl (finish_request B n l) a).st.loader_queue = a.st.loader_queue ∧
    (rs.foldl (finish_request B n l) a).st.cur_loading = a.st.cur_loading ∧
    ∀ i, (heapGet (rs.foldl (finish_request B n l) a).st.reqs i).map (·.size)
      = (heapGet a.st.reqs i).map (·.size) := by
  induction rs with
  | nil => exact fun a => ⟨rfl, rfl, rfl, rfl, fun _ => rfl⟩
  | cons r rs ih =>
    intro a
    rw [List.foldl_cons]
    obtain ⟨h1, h2, h3, h4, h5⟩ := ih (finish_request B n l a r)
    obtain ⟨g1, g2, g3, g4, g5⟩ := finish_request_frame B n l a r
    exact ⟨h1.trans g1, h2.trans g2, h3.trans g3, h4.trans g4, fun i => (h5 i).trans (g5 i)⟩

/-- What `thumbnail_task_finish` leaves alone, for a live task. -/
theorem thumbnail_task_finish_frame (B : FmThumbnailLoaderBackend) (s : State) (t : Nat)
    (task : ThumbnailTask) (n l : Option GObject) (ht : heapGet s.tasks t = some task) :
    (thumbnail_task_finish B s t n l).tasks
      = heapMod s.tasks t (fun k =>
          { k with requests := task.requests.insertionSort (comp_request s.reqs) }) ∧
    (thumbnail_task_finish B s t n l).ready_queue = s.ready_queue ∧
    (thumbnail_task_finish B s t n l).loader_queue = s.loader_queue ∧
    (thumbnail_task_finish B s t n l).cur_loading = s.cur_loading ∧
    ∀ i, (heapGet (thumbnail_task_finish B s t n l).reqs i).map (·.size)
      = (heapGet s.reqs i).map (·.size) := by
  unfold thumbnail_task_finish
  rw [ht]
  dsimp only
  obtain ⟨h1, h2, h3, h4, h5⟩ := finish_fold_frame B n l
    (task.requests.insertionSort (comp_request s.reqs))
    { st := { s with tasks := heapMod s.tasks t (fun k =>
        { k with requests := task.requests.insertionSort (comp_request s.reqs) }) },
      cached_pix := none, cached_size := 0 }
  exact ⟨h1, h2, h3, h4, h5⟩

theorem task_free_fold_frame (rs : List Nat) : ∀ s : State,
    (rs.foldl (fun (st : State) (req : Nat) =>
      { st with reqs := heapMod st.reqs req (fun q => { q with task := none }),
                ready_queue := st.ready_queue ++ [req],
                ready_idle_handler := arm_idle st.ready_idle_handler }) s).ready_queue
      = s.ready_queue ++ rs ∧
    (rs.foldl (fun (st : State) (req : Nat) =>
      { st with reqs := heapMod st.reqs req (fun q => { q with task := none }),
                ready_queue := st.ready_queue ++ [req],
                ready_idle_handler := arm_idle st.ready_idle_handler }) s).tasks = s.tasks ∧
    (rs.foldl (fun (st : State) (req : Nat) =>
      { st with reqs := heapMod st.reqs req (fun q => { q with task := none }),
                ready_queue := st.ready_queue ++ [req],
                ready_idle_handler := arm_idle st.ready_idle_handler }) s).loader_queue
      = s.loader_queue ∧
    (rs.foldl (fun (st : State) (req : Nat) =>
      { st with reqs := heapMod st.reqs req (fun q => { q with task := none }),
                ready_queue := st.ready_queue ++ [req],
                ready_idle_handler := arm_idle st.ready_idle_handler }) s).cur_loading
      = s.cur_loading ∧
    ∀ i, (heapGet (rs.foldl (fun (st : State) (req : Nat) =>
      { st with reqs := heapMod st.reqs req (fun q => { q with task := none }),
                ready_queue := st.ready_queue ++ [req],
                ready_idle_handler := arm_idle st.ready_idle_handler }) s).reqs i).map (·.size)
      = (heapGet s.reqs i).map (·.size) := by
  induction rs with
  | nil => exact fun s => ⟨by simp, rfl, rfl, rfl, fun _ => rfl⟩
  | cons r rs ih =>
    intro s
    rw [List.foldl_cons]
    obtain ⟨h1, h2, h3, h4, h5⟩ := ih
      { s with reqs := heapMod s.reqs r (fun q => { q with task := none }),
               ready_queue := s.ready_queue ++ [r],
               ready_idle_handler := arm_idle s.ready_idle_handler }
    refine ⟨?_, h2, h3, h4, ?_⟩
    · rw [h1]; simp
    · intro i
      rw [h5 i]
      show (heapGet (heapMod s.reqs r (fun q => { q with task := none })) i).map (·.size) = _
      rw [heapGet_heapMod]
      by_cases hi : i = r
      · rw [if_pos hi, hi]
        cases heapGet s.reqs r with
        | none => rfl
        | some q => rfl
      · rw [if_neg hi]

/-- What `thumbnail_task_free` does to the queues, for a live task. -/
theorem thumbnail_task_free_frame (s : State) (t : Nat) (task : ThumbnailTask)
    (ht : heapGet s.tasks t = some task) :
    (thumbnail_task_free s t).ready_queue = s.ready_queue ++ task.requests ∧
    (thumbnail_task_free s t).tasks = heapFree s.tasks t ∧
    (thumbnail_task_free s t).loader_queue = s.loader_queue ∧
    (thumbnail_task_free s t).cur_loading = s.cur_loading ∧
    ∀ i, (heapGet (thumbnail_task_free s t).reqs i).map (·.size)
      = (heapGet s.reqs i).map (·.size) := by
  unfold thumbnail_task_free
  rw [ht]
  dsimp only
  obtain ⟨h1, h2, h3, h4, h5⟩ := task_free_fold_frame task.requests s
  refine ⟨h1, ?_, h3, h4, h5⟩
  rw [h2]

theorem comp_request_iff (reqs : List (Option FmThumbnailLoader)) (a b : Nat) :
    comp_request reqs a b ↔
      ((heapGet reqs a).map (·.size)).getD 0 ≤ ((heapGet reqs b).map (·.size)).getD 0 := by
  unfold comp_request
  omega

/-- C13 (amended): when a task is finished and then freed (`thumbnail_task_finish`
followed by `thumbnail_task_free`), what is appended to the ready queue is a
permutation of the task's request list in which the `gshort` size fields of the
handles never decrease; and whenever the handles of the task were requested with
sizes of at most 32767 (`requested` gives the size passed to
`fm_thumbnail_loader_load`, of which the handle stores the `gshort` conversion), the
requested sizes never decrease along the appended sequence. -/
theorem finish_free_appends_sorted (B : FmThumbnailLoaderBackend) (s : State) (t : Nat)
    (task : ThumbnailTask) (n l : Option GObject) (ht : heapGet s.tasks t = some task) :
    ∃ app, (thumbnail_task_free (thumbnail_task_finish B s t n l) t).ready_queue
        = s.ready_queue ++ app ∧
      List.Perm app task.requests ∧
      List.Pairwise (fun a b => ∀ ra rb,
        heapGet (thumbnail_task_free (thumbnail_task_finish B s t n l) t).reqs a = some ra →
        heapGet (thumbnail_task_free (thumbnail_task_finish B s t n l) t).reqs b = some rb →
        ra.size ≤ rb.size) app ∧
      ∀ requested : Nat → Nat,
        (∀ h ∈ task.requests, requested h ≤ 32767 ∧
          (heapGet s.reqs h).map (·.size) = some (toGshort (requested h))) →
        List.Pairwise (fun a b => requested a ≤ requested b) app := by
  obtain ⟨f1, f2, _, _, f5⟩ := thumbnail_task_finish_frame B s t task n l ht
  have hlive : heapGet (thumbnail_task_finish B s t n l).tasks t
      = some { task with requests := task.requests.insertionSort (comp_request s.reqs) } := by
    rw [f1, heapGet_heapMod, if_pos rfl, ht]
    rfl
  obtain ⟨g1, _, _, _, g5⟩ := thumbnail_task_free_frame _ t _ hlive
  haveI : IsTotal Nat (comp_request s.reqs) :=
    ⟨fun a b => by rw [comp_request_iff, comp_request_iff]; exact le_total _ _⟩
  haveI : IsTrans Nat (comp_request s.reqs) :=
    ⟨fun a b c => by
      rw [comp_request_iff, comp_request_iff, comp_request_iff]; exact le_trans⟩
  have hsorted := List.sorted_insertionSort (comp_request s.reqs) task.requests
  refine ⟨task.requests.insertionSort (comp_request s.reqs), ?_, List.perm_insertionSort _ _,
    ?_, ?_⟩
  · rw [g1, f2]
  · refine List.Pairwise.imp ?_ hsorted
    intro a b hab ra rb ha hb
    rw [comp_request_iff] at hab
    have ha1 := (g5 a).trans (f5 a)
    have hb1 := (g5 b).trans (f5 b)
    rw [ha] at ha1
    rw [hb] at hb1
    rw [← ha1, ← hb1] at hab
    exact hab
  · intro requested hreq
    refine List.Pairwise.imp_of_mem ?_ hsorted
    intro a b ha hb hab
    rw [comp_request_iff] at hab
    obtain ⟨ha1, ha2⟩ := hreq a ((List.mem_insertionSort _).mp ha)
    obtain ⟨hb1, hb2⟩ := hreq b ((List.mem_insertionSort _).mp hb)
    rw [ha2, hb2, toGshort_of_le _ ha1, toGshort_of_le _ hb1] at hab
    simp only [Option.getD_some] at hab
    exact Int.ofNat_le.mp hab

/-- Witness of C13: task 0 lists the handles 0, 1, 2, requested with the sizes 96,
48, 64; finishing and freeing it appends them as 1, 2, 0. -/
theorem finish_free_appends_sorted_witness :
    heapGet mixedSizes.tasks 0
      = some { fi := fileA, flags := ⟨true, false, false, false⟩, cancelled := false,
               locked := true, normal_path := none, large_path := none,
               requests := [0, 1, 2] } ∧
    (thumbnail_task_free
      (thumbnail_task_finish gridBackend mixedSizes 0 (some (gridImage 128 128)) none)
      0).ready_queue = [1, 2, 0] ∧
    ∃ app, (thumbnail_task_free
        (thumbnail_task_finish gridBackend mixedSizes 0 (some (gridImage 128 128)) none)
        0).ready_queue = mixedSizes.ready_queue ++ app ∧
      List.Perm app [0, 1, 2] ∧
      List.Pairwise (fun a b => ∀ ra rb,
        heapGet (thumbnail_task_free
          (thumbnail_task_finish gridBackend mixedSizes 0 (some (gridImage 128 128)) none)
          0).reqs a = some ra →
        heapGet (thumbnail_task_free
          (thumbnail_task_finish gridBackend mixedSizes 0 (some (gridImage 128 128)) none)
          0).reqs b = some rb →
        ra.size ≤ rb.size) app ∧
      List.Pairwise (fun a b => threeSizes a ≤ threeSizes b) app :=
  ⟨by decide, by decide,
   (finish_free_appends_sorted gridBackend mixedSizes 0
     { fi := fileA, flags := ⟨true, false, false, false⟩, cancelled := false,
       locked := true, normal_path := none, large_path := none, requests := [0, 1, 2] }
     (some (gridImage 128 128)) none (by decide)).imp
     (fun _ h => ⟨h.1, h.2.1, h.2.2.1, h.2.2.2 threeSizes (by decide)⟩)⟩

set_option maxRecDepth 1000000 in
/-- C13 as stated fails for a requested size above 32767: the handles 0 and 1 of task
0 are requested with the sizes 48 and 40000; the handle 1 stores the `gshort` -25536
and `comp_request` sorts it first, so finishing and freeing the task appends the
handle of size 40000 before the handle of size 48. -/
theorem finish_free_40000_first :
    (heapGet wideSizes.tasks 0).map (·.requests) = some [0, 1] ∧
    (heapGet wideSizes.reqs 0).map (·.size) = some (toGshort 48) ∧
    (heapGet wideSizes.reqs 1).map (·.size) = some (toGshort 40000) ∧
    toGshort 48 = 48 ∧ toGshort 40000 = -25536 ∧
    (thumbnail_task_free (thumbnail_task_finish gridBackend wideSizes 0 none none) 0).ready_queue
      = [1, 0] ∧
    (run gridBackend noCalls initialised
      (Event.load fileA 48 7 0 :: Event.load fileA 40000 8 0 ::
        (serveEvents (envDecode (some (gridImage 1000 1000)))).take 6)).ready_queue = [1, 0] := by
  decide

/-- C14 (what the code does): two handles of size 48 are attached to one task for a
file that has no thumbnail on disk yet.  In the load cycle the first handle gets no
image and stays pending, the second takes the `req->size == cached_size` branch and
is marked done with no image; the generate cycle then serves only the first.  Both
callbacks run, neither handle is cancelled, and the first holds the 48 x 48
thumbnail while the second holds none. -/
theorem equal_size_handles_differ :
    (heapGet (run gridBackend noCalls initialised
        [Event.load fileA 48 7 0, Event.load fileA 48 8 0]).tasks 0).map (·.requests)
      = some [0, 1] ∧
    (run gridBackend noCalls initialised twinEvents).fired.map
        (fun e => (e.1, e.2.size, e.2.cancelled, e.2.pix))
      = [(0, 48, false, some (gridImage 48 48)), (1, 48, false, none)] := by
  decide

/-! ## Cancelling a request (C15) -/

theorem heapMod_bind_task (l : List (Option FmThumbnailLoader)) (h i : Nat) :
    (heapGet (heapMod l h (fun q => { q with cancelled := true })) i).bind (·.task)
      = (heapGet l i).bind (·.task) := by
  rw [heapGet_heapMod]
  by_cases hi : i = h
  · rw [if_pos hi, hi]
    cases heapGet l h with
    | none => rfl
    | some q => rfl
  · rw [if_neg hi]

theorem all_cancelled_iff (reqs : List (Option FmThumbnailLoader)) (rs : List Nat) :
    rs.all (fun q => ((heapGet reqs q).map (·.cancelled)).getD true) = true ↔
      ∀ q ∈ rs, ∀ rq, heapGet reqs q = some rq → rq.cancelled = true := by
  rw [List.all_eq_true]
  constructor
  · intro h q hq rq hrq
    have := h q hq
    rw [hrq] at this
    exact this
  · intro h q hq
    cases hg : heapGet reqs q with
    | none => rfl
    | some rq => exact h q hq rq hg

/-- Closed form of `fm_thumbnail_loader_cancel` for a handle attached to a live task
whose listed requests all point back to it. -/
theorem cancel_attached (s : State) (h t : Nat) (req : FmThumbnailLoader) (task : ThumbnailTask)
    (hreq : heapGet s.reqs h = some req) (hatt : req.task = some t)
    (htask : heapGet s.tasks t = some task) (hmem : h ∈ task.requests)
    (hback : ∀ q ∈ task.requests, (heapGet s.reqs q).bind (·.task) = some t) :
    fm_thumbnail_loader_cancel s h =
      if task.requests.all (fun q =>
          ((heapGet (heapMod s.reqs h (fun q => { q with cancelled := true })) q).map
            (·.cancelled)).getD true) then
        if s.cur_loading = some t ∧ s.generator_cancellable.isSome then
          { s with reqs := heapMod s.reqs h (fun q => { q with cancelled := true }),
                   tasks := heapMod s.tasks t (fun k => { k with cancelled := true }),
                   generator_cancellable := some true,
                   thumbnailer_pid := -1,
                   thumbnailer_timeout_id := 0 }
        else
          { s with reqs := heapMod s.reqs h (fun q => { q with cancelled := true }),
                   tasks := heapMod s.tasks t (fun k => { k with cancelled := true }) }
      else { s with reqs := heapMod s.reqs h (fun q => { q with cancelled := true }) } := by
  have hlast : (heapGet (heapMod s.reqs h (fun q => { q with cancelled := true }))
      (task.requests.getLast?.getD h)).bind (·.task) = some t := by
    rw [heapMod_bind_task]
    apply hback
    cases hl : task.requests.getLast? with
    | none =>
      rw [List.getLast?_eq_none_iff] at hl
      rw [hl] at hmem
      cases hmem
    | some x => exact List.mem_of_getLast?_eq_some hl
  unfold fm_thumbnail_loader_cancel
  rw [hreq]
  dsimp only
  rw [hatt]
  dsimp only
  rw [htask]
  dsimp only
  rw [hlast]

/-- C15: for a handle `h` attached to a live task `t` (every request listed by `t`
points back to `t`), `fm_thumbnail_loader_cancel h` sets `h.cancelled`, leaves every
other handle and both queues as they are and touches no task but `t`; if afterwards
every handle of `t` is cancelled it sets `t.cancelled`, and then, when `t` is the
task being processed (and the generator cancellable exists, as it does from
initialisation to clean-up), cancels the generator cancellable and clears the
thumbnailer pid and timeout slots; if some handle of `t` is not cancelled
afterwards, `t` and the generator statics stay as they are. -/
theorem cancel_effect (s : State) (h t : Nat) (req : FmThumbnailLoader) (task : ThumbnailTask)
    (hreq : heapGet s.reqs h = some req) (hatt : req.task = some t)
    (htask : heapGet s.tasks t = some task) (hmem : h ∈ task.requests)
    (hback : ∀ q ∈ task.requests, (heapGet s.reqs q).bind (·.task) = some t) :
    heapGet (fm_thumbnail_loader_cancel s h).reqs h = some { req with cancelled := true } ∧
    (∀ i, i ≠ h → heapGet (fm_thumbnail_loader_cancel s h).reqs i = heapGet s.reqs i) ∧
    (fm_thumbnail_loader_cancel s h).loader_queue = s.loader_queue ∧
    (fm_thumbnail_loader_cancel s h).ready_queue = s.ready_queue ∧
    (∀ u, u ≠ t → heapGet (fm_thumbnail_loader_cancel s h).tasks u = heapGet s.tasks u) ∧
    ((∀ q ∈ task.requests, ∀ rq,
        heapGet (fm_thumbnail_loader_cancel s h).reqs q = some rq → rq.cancelled = true) →
      heapGet (fm_thumbnail_loader_cancel s h).tasks t = some { task with cancelled := true } ∧
      (s.cur_loading = some t → s.generator_cancellable.isSome = true →
        (fm_thumbnail_loader_cancel s h).generator_cancellable = some true ∧
        (fm_thumbnail_loader_cancel s h).thumbnailer_pid = -1 ∧
        (fm_thumbnail_loader_cancel s h).thumbnailer_timeout_id = 0)) ∧
    (¬ (∀ q ∈ task.requests, ∀ rq,
        heapGet (fm_thumbnail_loader_cancel s h).reqs q = some rq → rq.cancelled = true) →
      heapGet (fm_thumbnail_loader_cancel s h).tasks t = some task ∧
      (fm_thumbnail_loader_cancel s h).generator_cancellable = s.generator_cancellable ∧
      (fm_thumbnail_loader_cancel s h).thumbnailer_pid = s.thumbnailer_pid ∧
      (fm_thumbnail_loader_cancel s h).thumbnailer_timeout_id = s.thumbnailer_timeout_id) := by
  have hr := cancel_reqs s h
  obtain ⟨f1, f2, _⟩ := cancel_frame s h
  have hform := cancel_attached s h t req task hreq hatt htask hmem hback
  have hall := all_cancelled_iff (heapMod s.reqs h (fun q => { q with cancelled := true }))
    task.requests
  rw [← hr] at hall
  refine ⟨?_, ?_, f2, f1, ?_, ?_, ?_⟩
  · rw [hr, heapGet_heapMod, if_pos rfl, hreq]; rfl
  · intro i hi
    rw [hr, heapGet_heapMod, if_neg hi]
  · intro u hu
    rw [hform]
    split
    · split
      · show heapGet (heapMod s.tasks t _) u = _
        rw [heapGet_heapMod, if_neg hu]
      · show heapGet (heapMod s.tasks t _) u = _
        rw [heapGet_heapMod, if_neg hu]
    · rfl
  · intro ha
    have ha1 := hall.2 ha
    rw [hr] at ha1
    rw [hform, if_pos ha1]
    constructor
    · split
      · show heapGet (heapMod s.tasks t _) t = _
        rw [heapGet_heapMod, if_pos rfl, htask]; rfl
      · show heapGet (heapMod s.tasks t _) t = _
        rw [heapGet_heapMod, if_pos rfl, htask]; rfl
    · intro hc hgen
      rw [if_pos ⟨hc, hgen⟩]
      exact ⟨rfl, rfl, rfl⟩
  · intro ha
    have ha1 : ¬ (task.requests.all (fun q =>
        ((heapGet (heapMod s.reqs h (fun q => { q with cancelled := true })) q).map
          (·.cancelled)).getD true) = true) := by
      rw [← hr]
      exact fun hx => ha (hall.1 hx)
    rw [hform, if_neg ha1]
    exact ⟨htask, rfl, rfl, rfl⟩

/-- Witness of C15: the task 0 being processed holds the handles 0 and 1, handle 0 is
cancelled already and a thumbnailer (pid 4242, timer 5) runs; cancelling handle 1
cancels the task and the generator cancellable and clears the pid and the timer. -/
theorem cancel_effect_witness :
    helperRunning.cur_loading = some 0 ∧
    (heapGet helperRunning.tasks 0).map (·.cancelled) = some false ∧
    (heapGet (fm_thumbnail_loader_cancel helperRunning 1).tasks 0).map (·.cancelled)
      = some true ∧
    (fm_thumbnail_loader_cancel helperRunning 1).generator_cancellable = some true ∧
    (fm_thumbnail_loader_cancel helperRunning 1).thumbnailer_pid = -1 ∧
    (fm_thumbnail_loader_cancel helperRunning 1).thumbnailer_timeout_id = 0 :=
  have h := cancel_effect helperRunning 1 0
    { fi := fileA, task := some 0, callback := 8, user_data := 0, pix := none,
      cancelled := false, size := 96, done := false }
    { fi := fileA, flags := ⟨true, false, false, false⟩, cancelled := false, locked := true,
      normal_path := none, large_path := none, requests := [0, 1] }
    (by decide) rfl (by decide) (by decide) (by decide)
  have hall := h.2.2.2.2.2.1 (by decide)
  ⟨by decide, by decide, congrArg (Option.map (·.cancelled)) hall.1,
   hall.2 (by decide) (by decide)⟩

/-! ## Tasks of one path (C20) -/

theorem tasksMono_refl (a : List (Option ThumbnailTask)) : TasksMono a a :=
  ⟨le_refl _, fun _ t1 _ h => ⟨t1, h, rfl, fun x => x, fun x => x⟩⟩

theorem tasksMono_trans {a b c : List (Option ThumbnailTask)} (h1 : TasksMono a b)
    (h2 : TasksMono b c) : TasksMono a c := by
  refine ⟨le_trans h1.1 h2.1, fun i t2 hi h => ?_⟩
  obtain ⟨t1, g1, e1, c1, l1⟩ := h2.2 i t2 (lt_of_lt_of_le hi h1.1) h
  obtain ⟨t, g, e, c, l⟩ := h1.2 i t1 hi g1
  exact ⟨t, g, e1.trans e, fun x => c1 (c x), fun x => l1 (l x)⟩

theorem tasksMono_heapMod (a : List (Option ThumbnailTask)) (i : Nat)
    (f : ThumbnailTask → ThumbnailTask)
    (hf : ∀ k, (f k).fi = k.fi ∧ (k.cancelled = true → (f k).cancelled = true) ∧
      (k.locked = true → (f k).locked = true)) : TasksMono a (heapMod a i f) := by
  refine ⟨le_of_eq (length_heapMod a i f).symm, fun j t1 _ hj => ?_⟩
  rw [heapGet_heapMod] at hj
  by_cases hji : j = i
  · subst hji
    rw [if_pos rfl] at hj
    cases hg : heapGet a j with
    | none => rw [hg] at hj; cases hj
    | some t =>
      rw [hg] at hj
      simp only [Option.map_some', Option.some.injEq] at hj
      subst hj
      exact ⟨t, rfl, (hf t).1, (hf t).2.1, (hf t).2.2⟩
  · rw [if_neg hji] at hj
    exact ⟨t1, hj, rfl, fun x => x, fun x => x⟩

theorem tasksMono_heapFree (a : List (Option ThumbnailTask)) (i : Nat) :
    TasksMono a (heapFree a i) := by
  refine ⟨le_of_eq (length_heapFree a i).symm, fun j t1 _ hj => ?_⟩
  rw [heapGet_heapFree] at hj
  by_cases hji : j = i
  · rw [if_pos hji] at hj; cases hj
  · rw [if_neg hji] at hj
    exact ⟨t1, hj, rfl, fun x => x, fun x => x⟩

theorem tasksMono_append (a : List (Option ThumbnailTask)) (x : Option ThumbnailTask) :
    TasksMono a (a ++ [x]) := by
  refine ⟨by simp, fun j t1 hlt hj => ?_⟩
  rw [heapGet_append_of_lt _ _ _ hlt] at hj
  exact ⟨t1, hj, rfl, fun x => x, fun x => x⟩

theorem tame_refl (s : State) : Tame s s := ⟨tasksMono_refl _, rfl, rfl⟩

theorem tame_trans {a b c : State} (h1 : Tame a b) (h2 : Tame b c) : Tame a c :=
  ⟨tasksMono_trans h1.1 h2.1, h2.2.1.trans h1.2.1, h2.2.2.trans h1.2.2⟩

theorem tame_of_eq {s s1 : State} (ht : s1.tasks = s.tasks) (hq : s1.loader_queue = s.loader_queue)
    (hc : s1.cur_loading = s.cur_loading) : Tame s s1 :=
  ⟨ht ▸ tasksMono_refl _, hq, hc⟩

theorem open_task_of_mono {a b : List (Option ThumbnailTask)} (h : TasksMono a b) (path : FmPath)
    (i : Nat) (hi : i < a.length) (ho : open_task b path i) : open_task a path i := by
  obtain ⟨t1, g1, c1, l1, p1⟩ := ho
  obtain ⟨t, g, e, c, l⟩ := h.2 i t1 hi g1
  refine ⟨t, g, ?_, ?_, by rw [← e]; exact p1⟩
  · cases hc : t.cancelled with
    | false => rfl
    | true => rw [c hc] at c1; cases c1
  · cases hl : t.locked with
    | false => rfl
    | true => rw [l hl] at l1; cases l1

/-- The invariant survives a transition under which tasks only close and the queue
only loses entries. -/
theorem oneOpen_shrink {s s1 : State} (h : OneOpen s) (hm : TasksMono s.tasks s1.tasks)
    (hq : List.Sublist s1.loader_queue s.loader_queue) (hc : s1.cur_loading = s.cur_loading) :
    OneOpen s1 := by
  obtain ⟨h1, h2, h3⟩ := h
  refine ⟨fun t ht => lt_of_lt_of_le (h1 t (hq.subset ht)) hm.1, ?_, ?_⟩
  · have h4 : List.Pairwise (fun a b => a < s.tasks.length ∧ b < s.tasks.length ∧
        NotBothOpen s.tasks a b) s.loader_queue := by
      rw [List.pairwise_iff_forall_sublist] at h2 ⊢
      intro a b hab
      exact ⟨h1 a (hab.subset (by simp)), h1 b (hab.subset (by simp)), h2 hab⟩
    refine List.Pairwise.imp ?_ (h4.sublist hq)
    intro a b ⟨ha, hb, hn⟩ path oa ob
    exact hn path (open_task_of_mono hm path a ha oa) (open_task_of_mono hm path b hb ob)
  · intro t ht
    rw [hc] at ht
    obtain ⟨g1, g2⟩ := h3 t ht
    refine ⟨lt_of_lt_of_le g1 hm.1, fun task hg => ?_⟩
    obtain ⟨t0, e0, _, _, l0⟩ := hm.2 t task g1 hg
    exact l0 (g2 t0 e0)

theorem oneOpen_tame {s s1 : State} (h : OneOpen s) (ht : Tame s s1) : OneOpen s1 :=
  oneOpen_shrink h ht.1 (ht.2.1 ▸ List.Sublist.refl _) ht.2.2

theorem cancel_tame (s : State) (req : Nat) : Tame s (fm_thumbnail_loader_cancel s req) := by
  obtain ⟨_, f2, _, _, f5, _⟩ := cancel_frame s req
  refine ⟨?_, f2, f5⟩
  have hm : ∀ t1, TasksMono s.tasks (heapMod s.tasks t1 (fun k => { k with cancelled := true })) :=
    fun t1 => tasksMono_heapMod _ _ _ (fun _ => ⟨rfl, fun _ => rfl, fun x => x⟩)
  unfold fm_thumbnail_loader_cancel
  split
  · exact tasksMono_refl _
  · dsimp only
    split
    · exact tasksMono_refl _
    · split
      · exact tasksMono_refl _
      · split
        · split
          · exact tasksMono_refl _
          · split
            · exact hm _
            · exact hm _
        · exact tasksMono_refl _

theorem thumbnail_task_finish_tame (B : FmThumbnailLoaderBackend) (s : State) (t : Nat)
    (n l : Option GObject) : Tame s (thumbnail_task_finish B s t n l) := by
  cases ht : heapGet s.tasks t with
  | none =>
    have : thumbnail_task_finish B s t n l = s := by
      unfold thumbnail_task_finish
      rw [ht]
    rw [this]
    exact tame_refl s
  | some task =>
    obtain ⟨h1, _, h3, h4, _⟩ := thumbnail_task_finish_frame B s t task n l ht
    refine ⟨?_, h3, h4⟩
    rw [h1]
    exact tasksMono_heapMod _ _ _ (fun _ => ⟨rfl, fun x => x, fun x => x⟩)

theorem thumbnail_task_free_tame (s : State) (t : Nat) : Tame s (thumbnail_task_free s t) := by
  cases ht : heapGet s.tasks t with
  | none =>
    have : thumbnail_task_free s t = s := by
      unfold thumbnail_task_free
      rw [ht]
    rw [this]
    exact tame_refl s
  | some task =>
    obtain ⟨_, h2, h3, h4, _⟩ := thumbnail_task_free_frame s t task ht
    refine ⟨?_, h3, h4⟩
    rw [h2]
    exact tasksMono_heapFree _ _

theorem load_thumbnails_tame (B : FmThumbnailLoaderBackend) (env : WorkerEnv) (s : State)
    (task : Nat) : Tame s (load_thumbnails B env s task) := by
  unfold load_thumbnails
  split
  · exact tame_refl s
  · split
    · exact tame_refl s
    · simp only
      have hm : ∀ f : ThumbnailTask → ThumbnailTask,
          (∀ k, (f k).fi = k.fi ∧ (k.cancelled = true → (f k).cancelled = true) ∧
            (k.locked = true → (f k).locked = true)) →
          Tame s { s with tasks := heapMod s.tasks task f } :=
        fun f hf => ⟨tasksMono_heapMod _ _ _ hf, rfl, rfl⟩
      split
      · exact hm _ (fun _ => ⟨rfl, fun x => x, fun x => x⟩)
      · refine tame_trans ?_ (thumbnail_task_finish_tame B _ _ _ _)
        exact hm _ (fun _ => ⟨rfl, fun x => x, fun x => x⟩)

theorem generate_thumbnails_tame (B : FmThumbnailLoaderBackend) (env : WorkerEnv) (s : State)
    (task : Nat) : Tame s (generate_thumbnails B env s task) := by
  unfold generate_thumbnails
  split
  · exact tame_refl s
  · refine tame_trans ?_
      ⟨tasksMono_heapMod _ _ _ (fun _ => ⟨rfl, fun _ => rfl, fun x => x⟩), rfl, rfl⟩
    split
    · split
      · unfold generate_thumbnails_with_builtin
        split
        · exact tame_refl s
        · split <;> exact thumbnail_task_finish_tame B _ _ _ _
      · exact tame_refl s
    · unfold generate_thumbnails_with_thumbnailers
      split
      · exact tame_refl s
      · exact thumbnail_task_finish_tame B _ _ _ _

theorem worker_run_tame (B : FmThumbnailLoaderBackend) (env : WorkerEnv) (s : State) :
    Tame s (worker_run B env s) := by
  unfold worker_run
  split
  · exact tame_refl s
  · split
    · exact tame_refl s
    · dsimp only
      refine tame_trans ?_
        ⟨tasksMono_heapMod _ _ _ (fun _ => ⟨rfl, fun x => x, fun x => x⟩), rfl, rfl⟩
      have h0 : ∀ (i : Nat) (f : ThumbnailTask → ThumbnailTask),
          (∀ k, (f k).fi = k.fi ∧ (k.cancelled = true → (f k).cancelled = true) ∧
            (k.locked = true → (f k).locked = true)) →
          Tame s { s with tasks := heapMod s.tasks i f } :=
        fun i f hf => ⟨tasksMono_heapMod _ _ _ hf, rfl, rfl⟩
      split
      · refine tame_trans ?_ (generate_thumbnails_tame B env _ _)
        exact h0 _ _ (fun _ => ⟨rfl, fun x => x, fun x => x⟩)
      · refine tame_trans ?_ (load_thumbnails_tame B env _ _)
        exact h0 _ _ (fun _ => ⟨rfl, fun x => x, fun x => x⟩)

theorem finalize_fold_tame (q : List Nat) : ∀ s : State, Tame s (q.foldl thumbnail_task_free s) := by
  induction q with
  | nil => exact fun s => tame_refl s
  | cons t q ih =>
    intro s
    rw [List.foldl_cons]
    exact tame_trans (thumbnail_task_free_tame s t) (ih _)

theorem load_oneOpen (s : State) (f : FmFileInfo) (size cb ud : Nat) (h : OneOpen s) :
    OneOpen (fm_thumbnail_loader_load s f size cb ud).1 := by
  unfold fm_thumbnail_loader_load
  cases s.hash with
  | none => exact h
  | some hash =>
    simp only
    cases find_thumbnail_in_hash hash f.path size with
    | some pix => exact oneOpen_tame h (tame_of_eq rfl rfl rfl)
    | none =>
      simp only
      cases hf : find_queued_task s.tasks s.loader_queue f with
      | some k =>
        simp only [Option.isSome_some, if_true, Option.getD_some]
        exact oneOpen_tame h
          ⟨tasksMono_heapMod _ _ _ (fun _ => ⟨rfl, fun x => x, fun x => x⟩), rfl, rfl⟩
      | none =>
        simp only [Option.isSome_none, Option.getD_none, Bool.false_eq_true, if_false]
        have hnone := (find_queued_task_eq_none s.tasks s.loader_queue f).1 hf
        have hm : TasksMono s.tasks
            (heapMod (s.tasks ++ [some (new_task f)]) s.tasks.length
              (attach_request size s.reqs.length)) :=
          tasksMono_trans (tasksMono_append _ _)
            (tasksMono_heapMod _ _ _ (fun _ => ⟨rfl, fun x => x, fun x => x⟩))
        have hlen : (heapMod (s.tasks ++ [some (new_task f)]) s.tasks.length
            (attach_request size s.reqs.length)).length = s.tasks.length + 1 := by
          rw [length_heapMod]; simp
        have hnew : heapGet (heapMod (s.tasks ++ [some (new_task f)]) s.tasks.length
            (attach_request size s.reqs.length)) s.tasks.length
              = some (attach_request size s.reqs.length (new_task f)) := by
          rw [heapGet_heapMod, if_pos rfl, heapGet_append_length]
          rfl
        obtain ⟨h1, h2, h3⟩ := h
        refine ⟨?_, ?_, ?_⟩
        · intro t ht
          show t < (heapMod _ _ _).length
          rw [hlen]
          have ht1 : t ∈ s.loader_queue ++ [s.tasks.length] := ht
          rw [List.mem_append, List.mem_singleton] at ht1
          rcases ht1 with ht1 | ht1
          · exact Nat.lt_succ_of_lt (h1 t ht1)
          · omega
        · show List.Pairwise (NotBothOpen (heapMod _ _ _)) (s.loader_queue ++ [s.tasks.length])
          rw [List.pairwise_append]
          refine ⟨?_, List.pairwise_singleton _ _, ?_⟩
          · have h4 : List.Pairwise (fun a b => a < s.tasks.length ∧ b < s.tasks.length ∧
                NotBothOpen s.tasks a b) s.loader_queue := by
              rw [List.pairwise_iff_forall_sublist] at h2 ⊢
              intro a b hab
              exact ⟨h1 a (hab.subset (by simp)), h1 b (hab.subset (by simp)), h2 hab⟩
            refine List.Pairwise.imp ?_ h4
            intro a b ⟨ha, hb, hn⟩ path oa ob
            exact hn path (open_task_of_mono hm path a ha oa) (open_task_of_mono hm path b hb ob)
          · intro a ha b hb path oa ob
            rw [List.mem_singleton] at hb
            subst hb
            obtain ⟨tk, g, _, _, p⟩ := ob
            rw [hnew] at g
            simp only [Option.some.injEq] at g
            subst g
            have hp : f.path = path := p
            subst hp
            exact hnone a ha (open_task_of_mono hm _ a (h1 a ha) oa)
        · intro t ht
          obtain ⟨g1, g2⟩ := h3 t ht
          refine ⟨?_, fun task hg => ?_⟩
          · show t < (heapMod _ _ _).length
            rw [hlen]; omega
          · obtain ⟨t0, e0, _, _, l0⟩ := hm.2 t task g1 hg
            exact l0 (g2 t0 e0)

theorem worker_pop_oneOpen (s : State) (h : OneOpen s) : OneOpen (worker_pop s) := by
  obtain ⟨h1, h2, _⟩ := h
  have h4 : List.Pairwise (fun a b => a < s.tasks.length ∧ b < s.tasks.length ∧
      NotBothOpen s.tasks a b) s.loader_queue := by
    rw [List.pairwise_iff_forall_sublist] at h2 ⊢
    intro a b hab
    exact ⟨h1 a (hab.subset (by simp)), h1 b (hab.subset (by simp)), h2 hab⟩
  unfold worker_pop
  cases hq : s.loader_queue with
  | nil =>
    dsimp only
    refine ⟨?_, List.Pairwise.nil, ?_⟩
    · intro t ht; cases ht
    · intro t ht; cases ht
  | cons task rest =>
    dsimp only
    rw [hq] at h1 h4
    have hm : TasksMono s.tasks (heapMod s.tasks task (fun k => { k with locked := true })) :=
      tasksMono_heapMod _ _ _ (fun _ => ⟨rfl, fun x => x, fun _ => rfl⟩)
    have ht : task < s.tasks.length := h1 task (List.mem_cons_self _ _)
    refine ⟨?_, ?_, ?_⟩
    · intro t ht1
      show t < (heapMod _ _ _).length
      rw [length_heapMod]
      exact h1 t (List.mem_cons_of_mem _ ht1)
    · show List.Pairwise (NotBothOpen (heapMod _ _ _)) rest
      refine List.Pairwise.imp ?_ (List.Pairwise.of_cons h4)
      intro a b ⟨ha, hb, hn⟩ path oa ob
      exact hn path (open_task_of_mono hm path a ha oa) (open_task_of_mono hm path b hb ob)
    · intro t hc
      have hc1 : some task = some t := hc
      simp only [Option.some.injEq] at hc1
      subst hc1
      refine ⟨?_, fun tk hg => ?_⟩
      · show task < (heapMod _ _ _).length
        rw [length_heapMod]; exact ht
      · have hg1 : heapGet (heapMod s.tasks task (fun k => { k with locked := true })) task
            = some tk := hg
        rw [heapGet_heapMod, if_pos rfl] at hg1
        cases hx : heapGet s.tasks task with
        | none => rw [hx] at hg1; cases hg1
        | some k =>
          rw [hx] at hg1
          simp only [Option.map_some', Option.some.injEq] at hg1
          rw [← hg1]

theorem oneOpen_clear {s s1 : State} (h : OneOpen s) (ht : s1.tasks = s.tasks)
    (hq : s1.loader_queue = s.loader_queue) (hc : s1.cur_loading = none) : OneOpen s1 := by
  obtain ⟨h1, h2, _⟩ := h
  refine ⟨?_, ?_, ?_⟩
  · rw [ht, hq]; exact h1
  · rw [ht, hq]; exact h2
  · intro t hx
    rw [hc] at hx
    cases hx

theorem worker_requeue_oneOpen (s : State) (h : OneOpen s) : OneOpen (worker_requeue s) := by
  unfold worker_requeue
  cases hc : s.cur_loading with
  | none => exact h
  | some task =>
    dsimp only
    cases hg : heapGet s.tasks task with
    | none => apply oneOpen_clear h <;> rfl
    | some t =>
      dsimp only
      split
      · refine oneOpen_tame ?_ (thumbnail_task_free_tame _ _)
        apply oneOpen_clear h <;> rfl
      · obtain ⟨h1, h2, h3⟩ := h
        refine ⟨?_, ?_, ?_⟩
        · intro u hu
          have hu1 : u ∈ s.loader_queue ++ [task] := hu
          rw [List.mem_append, List.mem_singleton] at hu1
          rcases hu1 with hu1 | hu1
          · exact h1 u hu1
          · rw [hu1]; exact heapGet_lt _ _ _ hg
        · show List.Pairwise (NotBothOpen s.tasks) (s.loader_queue ++ [task])
          rw [List.pairwise_append]
          refine ⟨h2, List.pairwise_singleton _ _, ?_⟩
          intro a _ b hb path _ ob
          rw [List.mem_singleton] at hb
          subst hb
          obtain ⟨tk, g, _, l, _⟩ := ob
          have := (h3 b hc).2 tk g
          rw [this] at l
          cases l
        · intro u hu
          cases hu

theorem finalize_tail_frame (s1 : State) (g : Option Bool) :
    TasksMono s1.tasks
      (s1.loader_queue.foldl thumbnail_task_free
        { s1 with generator_cancellable := g, loader_queue := [] }).tasks ∧
    (s1.loader_queue.foldl thumbnail_task_free
        { s1 with generator_cancellable := g, loader_queue := [] }).loader_queue = [] ∧
    (s1.loader_queue.foldl thumbnail_task_free
        { s1 with generator_cancellable := g, loader_queue := [] }).cur_loading
      = s1.cur_loading := by
  have h2 := finalize_fold_tame s1.loader_queue
    { s1 with generator_cancellable := g, loader_queue := [] }
  exact ⟨h2.1, h2.2.1, h2.2.2⟩

theorem finalize_oneOpen (s : State) (h : OneOpen s) : OneOpen (_fm_thumbnail_loader_finalize s) := by
  have h1 : Tame s (match s.cur_loading with
      | some task => { s with tasks := heapMod s.tasks task (fun k => { k with cancelled := true }) }
      | none => s) := by
    split
    · exact ⟨tasksMono_heapMod _ _ _ (fun _ => ⟨rfl, fun _ => rfl, fun x => x⟩), rfl, rfl⟩
    · exact tame_refl s
  have e : _fm_thumbnail_loader_finalize s
      = (fun s1 : State =>
          { (s1.loader_queue.foldl thumbnail_task_free
              { s1 with generator_cancellable := s1.generator_cancellable.map (fun _ => true),
                        loader_queue := [] }) with
            cleanup_timers := (s1.loader_queue.foldl thumbnail_task_free
              { s1 with generator_cancellable := s1.generator_cancellable.map (fun _ => true),
                        loader_queue := [] }).cleanup_timers + 1 })
        (match s.cur_loading with
          | some task =>
            { s with tasks := heapMod s.tasks task (fun k => { k with cancelled := true }) }
          | none => s) := rfl
  rw [e]
  generalize (match s.cur_loading with
      | some task => { s with tasks := heapMod s.tasks task (fun k => { k with cancelled := true }) }
      | none => s) = s1 at h1
  obtain ⟨g1, g2, g3⟩ := finalize_tail_frame s1 (s1.generator_cancellable.map (fun _ => true))
  refine oneOpen_shrink h (tasksMono_trans h1.1 g1) ?_ (g3.trans h1.2.2)
  show List.Sublist (List.foldl thumbnail_task_free _ _).loader_queue _
  rw [g2]
  exact List.nil_sublist _

theorem run_calls_oneOpen (cs : List Call) : ∀ s : State, OneOpen s → OneOpen (run_calls cs s) := by
  induction cs with
  | nil => exact fun s h => h
  | cons c cs ih =>
    intro s h
    cases c with
    | load f size cb ud => exact ih _ (load_oneOpen s f size cb ud h)
    | cancel r => exact ih _ (oneOpen_tame h (cancel_tame s r))

theorem idle_iteration_oneOpen (prog : Nat → List Call) (s : State) (r : Nat) (rest : List Nat)
    (h : OneOpen s) : OneOpen (idle_iteration prog s r rest) := by
  unfold idle_iteration
  refine oneOpen_tame ?_ (tame_of_eq rfl rfl rfl)
  have h0 : OneOpen { s with ready_queue := rest } := h
  unfold deliver
  split
  · exact h0
  · split
    · exact h0
    · exact run_calls_oneOpen _ _ h0

theorem on_ready_idle_loop_oneOpen (prog : Nat → List Call) (n : Nat) :
    ∀ s : State, OneOpen s → OneOpen (on_ready_idle_loop prog n s).1 := by
  induction n with
  | zero => exact fun s h => h
  | succ n ih =>
    intro s hg
    cases hq : s.ready_queue with
    | nil =>
      rw [on_ready_idle_loop, hq]
      exact hg
    | cons r rest =>
      rw [on_ready_idle_loop_cons prog n s r rest hq]
      exact ih _ (idle_iteration_oneOpen prog s r rest hg)

theorem step_oneOpen (B : FmThumbnailLoaderBackend) (prog : Nat → List Call) (s : State)
    (e : Event) (h : OneOpen s) : OneOpen (step B prog s e) := by
  cases e with
  | load f size cb ud => exact load_oneOpen s f size cb ud h
  | cancel r => exact oneOpen_tame h (cancel_tame s r)
  | worker_pop =>
    simp only [step]; split
    · exact worker_pop_oneOpen s h
    · exact h
  | worker_run env =>
    simp only [step]; split
    · exact oneOpen_tame h (worker_run_tame B env s)
    · exact h
  | worker_requeue =>
    simp only [step]; split
    · exact worker_requeue_oneOpen s h
    · exact h
  | idle =>
    simp only [step]; split
    · exact h
    · exact on_ready_idle_loop_oneOpen prog 200 s h
  | pixbuf_destroy path pix => exact h
  | finalize => exact finalize_oneOpen s h
  | cleanup =>
    simp only [step]; split
    · exact h
    · unfold fm_thumbnail_loader_cleanup
      split
      · split
        · exact h
        · exact h
      · split
        · exact h
        · exact h

theorem run_oneOpen (B : FmThumbnailLoaderBackend) (prog : Nat → List Call) (es : List Event) :
    ∀ s : State, OneOpen s → OneOpen (run B prog s es) := by
  induction es with
  | nil => exact fun s h => h
  | cons e es ih =>
    intro s h
    exact ih _ (step_oneOpen B prog s e h)

theorem initialised_oneOpen : OneOpen initialised := by
  refine ⟨?_, List.Pairwise.nil, ?_⟩
  · intro t ht; cases ht
  · intro t ht; cases ht

/-- C20 (as the code has it): at every instant of every interleaving of API calls,
worker phases, idle runs and shutdown, the loader queue holds at most one open task
(neither cancelled nor locked) per source path, and the task in the processing slot
is not open.  A task that is being processed, or that was put back for its generate
cycle, is locked, so it does not count: a request for its path opens a further
task. -/
theorem one_open_task_per_path (B : FmThumbnailLoaderBackend) (prog : Nat → List Call)
    (es : List Event) :
    (∀ (path : FmPath) (i j : Fin (run B prog initialised es).loader_queue.length),
      open_task (run B prog initialised es).tasks path
        ((run B prog initialised es).loader_queue.get i) →
      open_task (run B prog initialised es).tasks path
        ((run B prog initialised es).loader_queue.get j) → i = j) ∧
    (∀ t path, (run B prog initialised es).cur_loading = some t →
      ¬ open_task (run B prog initialised es).tasks path t) := by
  obtain ⟨_, h2, h3⟩ := run_oneOpen B prog es initialised initialised_oneOpen
  rw [List.pairwise_iff_get] at h2
  refine ⟨?_, ?_⟩
  · intro path i j oi oj
    rcases lt_trichotomy i j with hij | hij | hij
    · exact absurd oj (h2 i j hij path oi)
    · exact hij
    · exact absurd oi (h2 j i hij path oj)
  · intro t path hc ho
    obtain ⟨task, g, _, l, _⟩ := ho
    rw [(h3 t hc).2 task g] at l
    cases l

/-- Counterexample to C20 as stated: a request for `fileA` opens task 0, the loader
thread pops it (it is now in the processing slot, locked), and a second request for
`fileA` opens task 1 in the loader queue; two live tasks for one path exist across
the queue and the slot.  After the first cycle task 0 is put back for generation,
and both stand in the queue. -/
theorem one_open_task_two_tasks :
    (run gridBackend noCalls initialised
      [Event.load fileA 48 7 0, Event.worker_pop, Event.load fileA 96 8 0]).cur_loading
      = some 0 ∧
    (run gridBackend noCalls initialised
      [Event.load fileA 48 7 0, Event.worker_pop, Event.load fileA 96 8 0]).loader_queue
      = [1] ∧
    (run gridBackend noCalls initialised
      [Event.load fileA 48 7 0, Event.worker_pop, Event.load fileA 96 8 0]).tasks.map
        (fun t => t.map (fun k => (k.fi.path, k.cancelled, k.locked)))
      = [some ("/tmp/a.png", false, true), some ("/tmp/a.png", false, false)] ∧
    (run gridBackend noCalls initialised
      [Event.load fileA 48 7 0, Event.worker_pop, Event.load fileA 96 8 0,
       Event.worker_run (envDecode (some (gridImage 1000 1000))),
       Event.worker_requeue]).loader_queue = [1, 0] := by
  decide

/-! ## The target dimensions of `scale_pix` against exact arithmetic (C23, C29) -/

theorem roundNE_near (x d : Nat) (hd : 0 < d) :
    2 * (roundNE x d * d) ≤ 2 * x + d ∧ 2 * x ≤ 2 * (roundNE x d * d) + d := by
  have h1 := Nat.div_add_mod x d
  have h2 := Nat.mod_lt x hd
  have h3 : (x / d + 1) * d = d * (x / d) + d := by ring
  have h4 : x / d * d = d * (x / d) := Nat.mul_comm _ _
  unfold roundNE
  split
  · rw [h4]; omega
  · split
    · rw [h3]; omega
    · split
      · rw [h4]; omega
      · rw [h3]; omega

theorem lt_two_pow_bitlen (fuel : Nat) : ∀ n : Nat, n < 2 ^ fuel → n < 2 ^ bitlen fuel n := by
  induction fuel with
  | zero =>
    intro n hn
    simp at hn
    subst hn
    simp [bitlen]
  | succ f ih =>
    intro n hn
    unfold bitlen
    by_cases h0 : n = 0
    · rw [if_pos h0, h0]; simp
    · rw [if_neg h0]
      have hh : n / 2 < 2 ^ f := by
        rw [pow_succ] at hn
        omega
      have := ih (n / 2) hh
      rw [pow_succ]
      omega

/-- The exponent chosen by `fdiv` scales the quotient into `[2^52, 2^53]`. -/
theorem fdiv_scale (a b : Nat) (ha : 1 ≤ a) (hab : a < b) (hb : b < 2 ^ 64) :
    b * 2 ^ 52 ≤ a * 2 ^ (fdiv a b).2 ∧ a * 2 ^ (fdiv a b).2 ≤ 2 ^ 53 * b := by
  have la1 := bitlen_le 64 a ha
  have la2 := lt_two_pow_bitlen 64 a (by omega)
  have lb1 := bitlen_le 64 b (by omega)
  have lb2 := lt_two_pow_bitlen 64 b hb
  have hle : bitlen 64 a ≤ bitlen 64 b := by
    by_contra hc
    have : 2 ^ (bitlen 64 b + 1) ≤ 2 ^ bitlen 64 a := Nat.pow_le_pow_right (by norm_num) (by omega)
    rw [pow_succ] at this
    omega
  have hsum : 2 ^ bitlen 64 a * 2 ^ (52 + bitlen 64 b - bitlen 64 a) = 2 ^ 52 * 2 ^ bitlen 64 b := by
    rw [← pow_add, ← pow_add]
    congr 1
    omega
  unfold fdiv
  simp only
  generalize 2 ^ bitlen 64 a = A at *
  generalize 2 ^ bitlen 64 b = Bb at *
  generalize hk0 : 52 + bitlen 64 b - bitlen 64 a = k0 at *
  have hpos : 0 < 2 ^ k0 := Nat.pow_pos (by norm_num)
  have hu : a * 2 ^ k0 < A * 2 ^ k0 := Nat.mul_lt_mul_of_pos_right la2 hpos
  have hl : A * 2 ^ k0 ≤ 2 * (a * 2 ^ k0) := by
    have := Nat.mul_le_mul_right (2 ^ k0) la1
    rw [Nat.mul_assoc] at this
    exact this
  have hbb : 2 ^ 52 * b < 2 ^ 52 * Bb := Nat.mul_lt_mul_of_pos_left lb2 (by norm_num)
  have hbb2 : 2 ^ 52 * Bb ≤ 2 ^ 52 * (2 * b) := Nat.mul_le_mul_left _ lb1
  by_cases hc : b * 2 ^ 52 ≤ a * 2 ^ k0
  · rw [if_pos hc]
    refine ⟨hc, ?_⟩
    omega
  · rw [if_neg hc]
    have e1 : a * 2 ^ (k0 + 1) = 2 * (a * 2 ^ k0) := by ring
    rw [e1]
    constructor <;> omega

/-- The truncation of a value `R / K` that is within `E / 2` of `n * m`, where
`m / K` is within half a unit of `a / b`: it is the truncated quotient `n * a / b`,
or one less when the quotient is exact. -/
theorem trunc_core (n a b K m R E : Nat) (hn : n ≤ 2 ^ 15) (hab : a < b)
    (hb : b < 2 ^ 31) (hK : 2 ^ 52 ≤ K) (hm1 : 2 * (m * b) ≤ 2 * (a * K) + b)
    (hm2 : 2 * (a * K) ≤ 2 * (m * b) + b) (hE : E ≤ 2 ^ 16) (hR1 : 2 * R ≤ 2 * (n * m) + E)
    (hR2 : 2 * (n * m) ≤ 2 * R + E) :
    R / K = n * a / b ∨ (b ∣ n * a ∧ R / K + 1 = n * a / b) := by
  have hbpos : 0 < b := by omega
  have hKpos : 0 < K := by omega
  have hdiv := Nat.div_add_mod (n * a) b
  have hmod := Nat.mod_lt (n * a) hbpos
  generalize hQ : n * a / b = Q at *
  generalize hρ : n * a % b = ρ at *
  -- the products, as atoms
  have g1 : 2 * (n * m * b) ≤ 2 * (n * a * K) + n * b := by
    have := Nat.mul_le_mul_left n hm1
    have e1 : n * (2 * (m * b)) = 2 * (n * m * b) := by ring
    have e2 : n * (2 * (a * K) + b) = 2 * (n * a * K) + n * b := by ring
    rw [e1, e2] at this
    exact this
  have g2 : 2 * (n * a * K) ≤ 2 * (n * m * b) + n * b := by
    have := Nat.mul_le_mul_left n hm2
    have e1 : n * (2 * (a * K)) = 2 * (n * a * K) := by ring
    have e2 : n * (2 * (m * b) + b) = 2 * (n * m * b) + n * b := by ring
    rw [e1, e2] at this
    exact this
  have g3 : 2 * (R * b) ≤ 2 * (n * m * b) + E * b := by
    have := Nat.mul_le_mul_right b hR1
    have e1 : 2 * R * b = 2 * (R * b) := by ring
    have e2 : (2 * (n * m) + E) * b = 2 * (n * m * b) + E * b := by ring
    rw [e1, e2] at this
    exact this
  have g4 : 2 * (n * m * b) ≤ 2 * (R * b) + E * b := by
    have := Nat.mul_le_mul_right b hR2
    have e1 : 2 * (n * m) * b = 2 * (n * m * b) := by ring
    have e2 : (2 * R + E) * b = 2 * (R * b) + E * b := by ring
    rw [e1, e2] at this
    exact this
  have g5 : n * a * K = K * Q * b + K * ρ := by
    rw [← hdiv]; ring
  have g6 : K * ρ + K ≤ K * b := by
    have : K * (ρ + 1) ≤ K * b := Nat.mul_le_mul_left K (by omega)
    rw [Nat.mul_add, Nat.mul_one] at this
    exact this
  have g7 : n * b ≤ 2 ^ 15 * 2 ^ 31 := Nat.mul_le_mul hn (by omega)
  have g8 : E * b ≤ 2 ^ 16 * 2 ^ 31 := Nat.mul_le_mul hE (by omega)
  have g9 : K ≤ K * b := Nat.le_mul_of_pos_right K hbpos
  have hupper : R / K ≤ Q := by
    have h1 : R * b < K * (Q + 1) * b := by
      have e : K * (Q + 1) * b = K * Q * b + K * b := by ring
      rw [e]
      omega
    have h2 : R < K * (Q + 1) := Nat.lt_of_mul_lt_mul_right h1
    have h3 : R / K < Q + 1 := by
      rw [Nat.div_lt_iff_lt_mul hKpos, Nat.mul_comm]
      exact h2
    omega
  have hlower : Q ≤ R / K + 1 := by
    have h1 : K * Q * b ≤ (R + K) * b := by
      have e : (R + K) * b = R * b + K * b := by ring
      rw [e]
      omega
    have h2 : K * Q ≤ R + K := Nat.le_of_mul_le_mul_right h1 hbpos
    have h3 : Q ≤ (R + K) / K := by
      rw [Nat.le_div_iff_mul_le hKpos, Nat.mul_comm]
      exact h2
    rw [Nat.add_div_right R hKpos] at h3
    exact h3
  by_cases hz : ρ = 0
  · have hd : b ∣ n * a := by
      have : n * a = b * Q := by omega
      exact ⟨Q, this⟩
    by_cases he : R / K = Q
    · exact Or.inl he
    · exact Or.inr ⟨hd, by omega⟩
  · left
    have g10 : K ≤ K * ρ := Nat.le_mul_of_pos_right K (by omega)
    have h1 : K * Q * b < R * b := by omega
    have h2 : K * Q < R := Nat.lt_of_mul_lt_mul_right h1
    have h3 : Q ≤ R / K := by
      rw [Nat.le_div_iff_mul_le hKpos, Nat.mul_comm]
      exact le_of_lt h2
    omega

/-- The C computation `(int)(n * ((double)a / b))` against exact arithmetic: it is
the truncated quotient `n * a / b`, or one less when `b` divides `n * a`. -/
theorem fmul_trunc_fdiv (n a b : Nat) (hn : n ≤ 2 ^ 15) (ha : 1 ≤ a) (hab : a < b)
    (hb : b < 2 ^ 31) :
    fmul_trunc n (fdiv a b) = n * a / b ∨
      (b ∣ n * a ∧ fmul_trunc n (fdiv a b) + 1 = n * a / b) := by
  obtain ⟨hK1, hK2⟩ := fdiv_scale a b ha hab (by omega)
  have hbpos : 0 < b := by omega
  have hfst : (fdiv a b).1 = roundNE (a * 2 ^ (fdiv a b).2) b := rfl
  have hm := roundNE_near (a * 2 ^ (fdiv a b).2) b hbpos
  have hm53 : (fdiv a b).1 ≤ 2 ^ 53 := by
    rw [hfst]
    exact roundNE_le _ _ _ hbpos hK2
  rw [← hfst] at hm
  have hK : 2 ^ 52 ≤ 2 ^ (fdiv a b).2 := by
    have h1 : a * 2 ^ 52 ≤ a * 2 ^ (fdiv a b).2 := by
      have : a * 2 ^ 52 ≤ b * 2 ^ 52 := Nat.mul_le_mul_right _ (by omega)
      omega
    exact Nat.le_of_mul_le_mul_left h1 (by omega)
  unfold fmul_trunc
  generalize (fdiv a b).2 = k at *
  generalize (fdiv a b).1 = m at *
  have hP : n * m ≤ 2 ^ 15 * 2 ^ 53 := Nat.mul_le_mul hn hm53
  by_cases hbits : bitlen 128 (n * m) ≤ 53
  · rw [if_pos hbits]
    exact trunc_core n a b (2 ^ k) m (n * m) 0 hn hab hb hK hm.1 hm.2 (by norm_num) (by omega)
      (by omega)
  · rw [if_neg hbits]
    have hP1 : 1 ≤ n * m := by
      by_contra hc
      have hz : n * m = 0 := by omega
      rw [hz] at hbits
      exact hbits (by decide)
    have hbl := bitlen_le 128 (n * m) hP1
    have hsplit : 2 ^ bitlen 128 (n * m) = 2 ^ (bitlen 128 (n * m) - 53) * 2 ^ 53 := by
      rw [← pow_add]; congr 1; omega
    have hEpos : 0 < 2 ^ (bitlen 128 (n * m) - 53) := Nat.pow_pos (by norm_num)
    have hr := roundNE_near (n * m) (2 ^ (bitlen 128 (n * m) - 53)) hEpos
    generalize 2 ^ (bitlen 128 (n * m) - 53) = E at *
    have hE : E ≤ 2 ^ 16 := by
      by_contra hc
      have : (2 ^ 16 + 1) * 2 ^ 53 ≤ E * 2 ^ 53 := Nat.mul_le_mul_right _ (by omega)
      omega
    exact trunc_core n a b (2 ^ k) m (roundNE (n * m) E * E) E hn hab hb hK hm.1 hm.2 hE
      hr.1 hr.2
/-- The shorter target side of `scale_pix` against exact arithmetic, for a `gshort`
size and sides below `2^31`: the quotient `size * num / den` rounded toward zero,
or one closer to zero when the quotient is exact. -/
theorem scaled_side_trunc (s a b : Int) (hs1 : -32768 ≤ s) (hs2 : s ≤ 32767) (ha : 1 ≤ a)
    (hab : a < b) (hb : b < 2 ^ 31) :
    scaled_side s a b = (s * a).tdiv b ∨
      (b ∣ s * a ∧ scaled_side s a b = (s * a).tdiv b - s.sign) := by
  obtain ⟨a1, rfl⟩ := Int.eq_ofNat_of_zero_le (show 0 ≤ a by omega)
  obtain ⟨b1, rfl⟩ := Int.eq_ofNat_of_zero_le (show 0 ≤ b by omega)
  have hn : s.natAbs ≤ 2 ^ 15 := by omega
  have hcore := fmul_trunc_fdiv s.natAbs a1 b1 hn (by omega) (by omega) (by omega)
  have h2 : decide ((a1 : Int) < 0) = false := by simp
  have h3 : decide ((b1 : Int) < 0) = false := by simp
  unfold scaled_side
  rw [if_neg (by omega)]
  simp only [h2, h3, Int.natAbs_ofNat, Bool.bne_false]
  generalize fmul_trunc s.natAbs (fdiv a1 b1) = r at hcore
  rcases Int.natAbs_eq s with hs | hs
  · -- s is not negative
    have h1 : decide (s < 0) = false := by simp; omega
    rw [h1]
    simp only [Bool.false_eq_true, if_false]
    generalize s.natAbs = n at *
    subst hs
    have hq : ((n : Int) * (a1 : Int)).tdiv (b1 : Int) = ((n * a1 / b1 : Nat) : Int) := by
      rw [← Int.ofNat_mul]
      exact (Int.ofNat_tdiv _ _).symm
    rw [hq]
    rcases hcore with e | ⟨d, e⟩
    · left; rw [e]
    · right
      refine ⟨?_, ?_⟩
      · rw [← Int.ofNat_mul]
        exact Int.ofNat_dvd.mpr d
      · have hpos : 0 < (n : Int) := by
          rcases Nat.eq_zero_or_pos n with h0 | h0
          · subst h0
            simp at e
          · exact_mod_cast h0
        rw [Int.sign_eq_one_of_pos hpos, ← e]
        push_cast
        ring
  · by_cases hneg : s < 0
    · have h1 : decide (s < 0) = true := by simp; exact hneg
      rw [h1]
      simp only [if_true]
      generalize s.natAbs = n at *
      subst hs
      have hq : ((-(n : Int)) * (a1 : Int)).tdiv (b1 : Int) = -((n * a1 / b1 : Nat) : Int) := by
        rw [Int.neg_mul, Int.neg_tdiv, ← Int.ofNat_mul]
        congr 1
      rw [hq]
      rcases hcore with e | ⟨d, e⟩
      · left; rw [e]
      · right
        refine ⟨?_, ?_⟩
        · rw [Int.neg_mul, ← Int.ofNat_mul]
          exact (Int.dvd_neg).mpr (Int.ofNat_dvd.mpr d)
        · rw [Int.sign_eq_neg_one_of_neg hneg, ← e]
          push_cast
          ring
    · -- s = 0
      have hz : s = 0 := by omega
      subst hz
      simp at hcore
      subst hcore
      left
      simp

/-- What `scale_pix` computes: for an image of `w` by `h` pixels (both from 1 to
`2^31 - 1`) and a `gshort` size `s`, the target dimensions of `scale_pix` are
`(s, t)` when `w > h`, `(t, s)` when `w < h` and `(s, s)` when `w = h`, where the
code computes `t` in `double` arithmetic: `t` is `s * shorter / longer` rounded
toward zero, or the next integer toward zero when that quotient is exact.  The
source is returned unscaled exactly when the target equals `(w, h)` or `s` exceeds
both `w` and `h`; otherwise the backend scales to the target. -/
theorem scale_pix_dims (B : FmThumbnailLoaderBackend) (ori : GObject) (s : Int)
    (hw1 : 1 ≤ B.get_image_width ori) (hw2 : B.get_image_width ori < 2 ^ 31)
    (hh1 : 1 ≤ B.get_image_height ori) (hh2 : B.get_image_height ori < 2 ^ 31)
    (hs1 : -32768 ≤ s) (hs2 : s ≤ 32767) :
    (B.get_image_height ori < B.get_image_width ori →
      (scale_dims (B.get_image_width ori) (B.get_image_height ori) s).1 = s ∧
      ((scale_dims (B.get_image_width ori) (B.get_image_height ori) s).2
          = (s * B.get_image_height ori).tdiv (B.get_image_width ori) ∨
        (B.get_image_width ori ∣ s * B.get_image_height ori ∧
          (scale_dims (B.get_image_width ori) (B.get_image_height ori) s).2
            = (s * B.get_image_height ori).tdiv (B.get_image_width ori) - s.sign))) ∧
    (B.get_image_width ori < B.get_image_height ori →
      (scale_dims (B.get_image_width ori) (B.get_image_height ori) s).2 = s ∧
      ((scale_dims (B.get_image_width ori) (B.get_image_height ori) s).1
          = (s * B.get_image_width ori).tdiv (B.get_image_height ori) ∨
        (B.get_image_height ori ∣ s * B.get_image_width ori ∧
          (scale_dims (B.get_image_width ori) (B.get_image_height ori) s).1
            = (s * B.get_image_width ori).tdiv (B.get_image_height ori) - s.sign))) ∧
    (B.get_image_width ori = B.get_image_height ori →
      scale_dims (B.get_image_width ori) (B.get_image_height ori) s = (s, s)) ∧
    ((((scale_dims (B.get_image_width ori) (B.get_image_height ori) s).1 = B.get_image_width ori ∧
        (scale_dims (B.get_image_width ori) (B.get_image_height ori) s).2
          = B.get_image_height ori) ∨
        (s > B.get_image_width ori ∧ s > B.get_image_height ori)) →
      scale_pix B ori s = some ori) ∧
    (¬ (((scale_dims (B.get_image_width ori) (B.get_image_height ori) s).1 = B.get_image_width ori ∧
        (scale_dims (B.get_image_width ori) (B.get_image_height ori) s).2
          = B.get_image_height ori) ∨
        (s > B.get_image_width ori ∧ s > B.get_image_height ori)) →
      scale_pix B ori s
        = B.scale_image ori (scale_dims (B.get_image_width ori) (B.get_image_height ori) s).1
            (scale_dims (B.get_image_width ori) (B.get_image_height ori) s).2) := by
  generalize hw : B.get_image_width ori = w at *
  generalize hh : B.get_image_height ori = h at *
  refine ⟨?_, ?_, ?_, ?_, ?_⟩
  · intro hlt
    have e : scale_dims w h s = (s, scaled_side s h w) := by
      unfold scale_dims
      rw [if_pos hlt]
    rw [e]
    exact ⟨rfl, scaled_side_trunc s h w hs1 hs2 hh1 hlt hw2⟩
  · intro hlt
    have e : scale_dims w h s = (scaled_side s w h, s) := by
      unfold scale_dims
      rw [if_neg (by omega), if_pos hlt]
    rw [e]
    exact ⟨rfl, scaled_side_trunc s w h hs1 hs2 hw1 hlt hh2⟩
  · intro heq
    unfold scale_dims
    rw [if_neg (by omega), if_neg (by omega)]
  · intro hc
    unfold scale_pix
    simp only [hw, hh]
    rw [if_pos hc]
  · intro hc
    unfold scale_pix
    simp only [hw, hh]
    rw [if_neg hc]

/-- The example of the specification: a 129 x 128 image at size 128 is scaled to
128 x 127. -/
theorem scale_pix_dims_witness :
    scale_dims 129 128 128 = (128, 127) ∧
    scale_pix gridBackend (gridImage 129 128) 128 = some (gridImage 128 127) ∧
    ((gridBackend.get_image_height (gridImage 129 128)
        < gridBackend.get_image_width (gridImage 129 128)) →
      (scale_dims (gridBackend.get_image_width (gridImage 129 128))
        (gridBackend.get_image_height (gridImage 129 128)) 128).1 = 128 ∧
      ((scale_dims (gridBackend.get_image_width (gridImage 129 128))
          (gridBackend.get_image_height (gridImage 129 128)) 128).2
          = (128 * gridBackend.get_image_height (gridImage 129 128)).tdiv
              (gridBackend.get_image_width (gridImage 129 128)) ∨
        (gridBackend.get_image_width (gridImage 129 128)
            ∣ 128 * gridBackend.get_image_height (gridImage 129 128) ∧
          (scale_dims (gridBackend.get_image_width (gridImage 129 128))
            (gridBackend.get_image_height (gridImage 129 128)) 128).2
            = (128 * gridBackend.get_image_height (gridImage 129 128)).tdiv
                (gridBackend.get_image_width (gridImage 129 128)) - Int.sign 128))) :=
  ⟨by decide, by decide,
   (scale_pix_dims gridBackend (gridImage 129 128) 128 (by decide) (by decide) (by decide)
     (by decide) (by decide) (by decide)).1⟩

/-- C23, as the code behaves: the shorter side is computed in `double` as
`size * ((double) shorter / longer)` and truncated, which falls one short of
`size * shorter / longer` where that quotient is exact.  For a 49 x 1 image at size
49 the quotient `49 * 1 / 49` is 1, the target of the claim is `(49, 1)`, the size of
the source, and the source would be returned unscaled; the code computes
`49 * (1.0 / 49) < 1`, gets `(49, 0)` and asks the backend for a 49 x 0 image.  For
set_option maxRecDepth 1000000 in
a 200 x 29 image at size 200 the quotient is 29 and the code asks for 200 x 28
instead of returning the source: a request of size 200 for a source file of 200 x 29
pixels is delivered a 200 x 28 image. -/
theorem scale_pix_exact_quotient_short :
    (49 * 1 : Int).tdiv 49 = 1 ∧
    scale_dims 49 1 49 = (49, 0) ∧
    gridBackend.get_image_width (gridImage 49 1) = 49 ∧
    gridBackend.get_image_height (gridImage 49 1) = 1 ∧
    scale_pix gridBackend (gridImage 49 1) 49
      = gridBackend.scale_image (gridImage 49 1) 49 0 ∧
    scale_pix gridBackend (gridImage 49 1) 49 ≠ some (gridImage 49 1) ∧
    (200 * 29 : Int).tdiv 200 = 29 ∧
    scale_dims 200 29 200 = (200, 28) ∧
    gridBackend.get_image_width (gridImage 200 29) = 200 ∧
    gridBackend.get_image_height (gridImage 200 29) = 29 ∧
    scale_pix gridBackend (gridImage 200 29) 200
      = gridBackend.scale_image (gridImage 200 29) 200 28 ∧
    scale_pix gridBackend (gridImage 200 29) 200 ≠ some (gridImage 200 29) ∧
    (run gridBackend noCalls initialised
      (Event.load fileA 200 7 0 :: serveEvents (envDecode (some (gridImage 200 29))))).fired.map
        (fun e => (e.1, e.2.size, e.2.pix)) = [(0, 200, some (gridImage 200 28))] := by
  decide

/-- C29 (as the code has it): for an image of `w` by `h` pixels (both from 1 to
`2^31 - 1`) and a size `s` from 1 to 32767, when `scale_pix` calls
`backend.scale_image` the sides it passes are not negative and one of them, the one
along the longer side of the source, is `s`; the other is at least 1 when
`s * shorter >= 2 * longer`, and it is 0 when `s * shorter < longer`. -/
theorem scale_request_sides (B : FmThumbnailLoaderBackend) (ori : GObject) (s : Int)
    (hw1 : 1 ≤ B.get_image_width ori) (hw2 : B.get_image_width ori < 2 ^ 31)
    (hh1 : 1 ≤ B.get_image_height ori) (hh2 : B.get_image_height ori < 2 ^ 31)
    (hs1 : 1 ≤ s) (hs2 : s ≤ 32767)
    (hcall : ¬ (((scale_dims (B.get_image_width ori) (B.get_image_height ori) s).1
          = B.get_image_width ori ∧
        (scale_dims (B.get_image_width ori) (B.get_image_height ori) s).2
          = B.get_image_height ori) ∨
        (s > B.get_image_width ori ∧ s > B.get_image_height ori))) :
    ∃ tw th : Int, scale_pix B ori s = B.scale_image ori tw th ∧
      0 ≤ tw ∧ 0 ≤ th ∧
      (B.get_image_height ori ≤ B.get_image_width ori → tw = s) ∧
      (B.get_image_width ori ≤ B.get_image_height ori → th = s) ∧
      (B.get_image_height ori < B.get_image_width ori →
        (2 * B.get_image_width ori ≤ s * B.get_image_height ori → 1 ≤ th) ∧
        (s * B.get_image_height ori < B.get_image_width ori → th = 0)) ∧
      (B.get_image_width ori < B.get_image_height ori →
        (2 * B.get_image_height ori ≤ s * B.get_image_width ori → 1 ≤ tw) ∧
        (s * B.get_image_width ori < B.get_image_height ori → tw = 0)) := by
  have hside : ∀ a b : Int, 1 ≤ a → a < b → b < 2 ^ 31 →
      0 ≤ scaled_side s a b ∧ (2 * b ≤ s * a → 1 ≤ scaled_side s a b) ∧
        (s * a < b → scaled_side s a b = 0) := by
    intro a b ha hab hb
    have hq0 : 0 ≤ (s * a).tdiv b := Int.tdiv_nonneg (by positivity) (by omega)
    have hq : (s * a).tdiv b = s * a / b := Int.tdiv_eq_ediv (by positivity) (by omega)
    have hsign : s.sign = 1 := Int.sign_eq_one_of_pos (by omega)
    have hbpos : 0 < b := by omega
    rcases scaled_side_trunc s a b (by omega) hs2 ha hab hb with e | ⟨d, e⟩
    · rw [e, hq]
      refine ⟨by rw [← hq]; exact hq0, ?_, ?_⟩
      · intro h2
        have : 1 * b ≤ s * a := by omega
        exact Int.le_ediv_of_mul_le hbpos this
      · intro h0
        exact Int.ediv_eq_zero_of_lt (by positivity) h0
    · rw [e, hq, hsign]
      obtain ⟨c, hc⟩ := d
      have hquot : s * a / b = c := by
        rw [hc]
        exact Int.mul_ediv_cancel_left c (by omega)
      rw [hquot]
      have hsa : 0 < s * a := by positivity
      have hcpos : 0 < c := by
        by_contra hneg
        have hc0 : c ≤ 0 := by omega
        have : b * c ≤ 0 := Int.mul_nonpos_of_nonneg_of_nonpos (by omega) hc0
        omega
      refine ⟨by omega, ?_, ?_⟩
      · intro h2
        have hc2 : 2 ≤ c := by
          by_contra hlt
          have hc1 : c = 1 := by omega
          rw [hc1] at hc
          omega
        omega
      · intro h0
        exfalso
        have : b * 1 ≤ b * c := Int.mul_le_mul_of_nonneg_left (by omega) (by omega)
        omega
  generalize hw : B.get_image_width ori = w at *
  generalize hh : B.get_image_height ori = h at *
  have hpix : scale_pix B ori s = B.scale_image ori (scale_dims w h s).1 (scale_dims w h s).2 := by
    unfold scale_pix
    simp only [hw, hh]
    rw [if_neg hcall]
  refine ⟨(scale_dims w h s).1, (scale_dims w h s).2, hpix, ?_⟩
  rcases lt_trichotomy h w with hlt | heq | hgt
  · have e : scale_dims w h s = (s, scaled_side s h w) := by
      unfold scale_dims
      rw [if_pos hlt]
    rw [e]
    obtain ⟨k1, k2, k3⟩ := hside h w hh1 hlt hw2
    refine ⟨by show 0 ≤ s; omega, k1, fun _ => rfl, fun hle => absurd hlt (by omega),
      fun _ => ⟨k2, k3⟩, fun hx => absurd hx (by omega)⟩
  · have e : scale_dims w h s = (s, s) := by
      unfold scale_dims
      rw [if_neg (by omega), if_neg (by omega)]
    rw [e]
    refine ⟨by show 0 ≤ s; omega, by show 0 ≤ s; omega, fun _ => rfl, fun _ => rfl,
      fun hx => absurd hx (by omega), fun hx => absurd hx (by omega)⟩
  · have e : scale_dims w h s = (scaled_side s w h, s) := by
      unfold scale_dims
      rw [if_neg (by omega), if_pos hgt]
    rw [e]
    obtain ⟨k1, k2, k3⟩ := hside w h hw1 hgt hh2
    refine ⟨k1, by show 0 ≤ s; omega, fun hle => absurd hgt (by omega), fun _ => rfl,
      fun hx => absurd hx (by omega), fun _ => ⟨k2, k3⟩⟩

/-- Witness of C29: a 1000 x 100 image at size 128 is scaled to 128 x 12. -/
theorem scale_request_sides_witness :
    scale_pix gridBackend (gridImage 1000 100) 128 = some (gridImage 128 12) ∧
    ∃ tw th : Int, scale_pix gridBackend (gridImage 1000 100) 128
        = gridBackend.scale_image (gridImage 1000 100) tw th ∧ 0 ≤ tw ∧ 0 ≤ th :=
  have h := scale_request_sides gridBackend (gridImage 1000 100) 128 (by decide) (by decide)
    (by decide) (by decide) (by decide) (by decide) (by decide)
  ⟨by decide, h.elim (fun tw h1 => h1.elim (fun th h2 => ⟨tw, th, h2.1, h2.2.1, h2.2.2.1⟩))⟩

/-- Counterexample to C29 as stated: for a 1000 x 1 image at size 128 `scale_pix`
calls `backend.scale_image` with the target 128 x 0. -/
theorem scale_request_zero_side :
    gridBackend.get_image_width (gridImage 1000 1) = 1000 ∧
    gridBackend.get_image_height (gridImage 1000 1) = 1 ∧
    scale_dims 1000 1 128 = (128, 0) ∧
    ¬ ((128 : Int) > 1000 ∧ (128 : Int) > 1) ∧
    scale_pix gridBackend (gridImage 1000 1) 128
      = gridBackend.scale_image (gridImage 1000 1) 128 0 := by
  decide

/-! ## Invariants along runs -/

/-- A property of the statics that every primitive step keeps is kept by every
sequence of events.  While a callback runs, between the pop of a request `r` from
the ready queue and its release, the property may take the weaker form `Mid r`. -/
theorem run_invariant (B : FmThumbnailLoaderBackend) (prog : Nat → List Call)
    (Inv : State → Prop) (Mid : Nat → State → Prop)
    (h_load : ∀ s f size cb ud, Inv s → Inv (fm_thumbnail_loader_load s f size cb ud).1)
    (h_cancel : ∀ s r, Inv s → Inv (fm_thumbnail_loader_cancel s r))
    (h_pop : ∀ s : State, Inv s → s.worker_pc = WorkerPc.pop → Inv (worker_pop s))
    (h_run : ∀ env (s : State), Inv s → s.worker_pc = WorkerPc.run → Inv (worker_run B env s))
    (h_requeue : ∀ s : State, Inv s → s.worker_pc = WorkerPc.requeue → Inv (worker_requeue s))
    (h_destroy : ∀ (s : State) path pix, Inv s →
      Inv { s with hash := s.hash.map (fun h => on_pixbuf_destroy h path pix) })
    (h_finalize : ∀ s, Inv s → Inv (_fm_thumbnail_loader_finalize s))
    (h_cleanup : ∀ s, Inv s → Inv (fm_thumbnail_loader_cleanup s).1)
    (h_timers : ∀ (s : State) n, Inv s → Inv { s with cleanup_timers := n })
    (h_disarm : ∀ s : State, Inv s → Inv { s with ready_idle_handler := 0 })
    (h_take : ∀ (s : State) r rest, Inv s → s.ready_queue = r :: rest →
      Mid r { s with ready_queue := rest })
    (h_fire : ∀ r (s : State) e, Mid r s → Mid r { s with fired := s.fired ++ [e] })
    (h_mload : ∀ r s f size cb ud, Mid r s → Mid r (fm_thumbnail_loader_load s f size cb ud).1)
    (h_mcancel : ∀ r s q, Mid r s → Mid r (fm_thumbnail_loader_cancel s q))
    (h_free : ∀ r (s : State), Mid r s → Inv { s with reqs := heapFree s.reqs r }) :
    ∀ (es : List Event) (s : State), Inv s → Inv (run B prog s es) := by
  have hcalls : ∀ (r : Nat) (cs : List Call) (s : State), Mid r s → Mid r (run_calls cs s) := by
    intro r cs
    induction cs with
    | nil => exact fun s h => h
    | cons c cs ih =>
      intro s h
      cases c with
      | load f size cb ud => exact ih _ (h_mload r s f size cb ud h)
      | cancel q => exact ih _ (h_mcancel r s q h)
  have hdeliver : ∀ (r : Nat) (s : State), Mid r s → Mid r (deliver prog s r) := by
    intro r s h
    unfold deliver
    split
    · exact h
    · split
      · exact h
      · exact hcalls r _ _ (h_fire r s _ h)
  have hiter : ∀ (s : State) r rest, Inv s → s.ready_queue = r :: rest →
      Inv (idle_iteration prog s r rest) := by
    intro s r rest h hq
    unfold idle_iteration
    exact h_free r _ (hdeliver r _ (h_take s r rest h hq))
  have hloop : ∀ (n : Nat) (s : State), Inv s → Inv (on_ready_idle_loop prog n s).1 := by
    intro n
    induction n with
    | zero => exact fun s h => h
    | succ n ih =>
      intro s h
      cases hq : s.ready_queue with
      | nil =>
        have hd := h_disarm s h
        rw [on_ready_idle_loop, hq]
        rw [hq] at hd
        exact hd
      | cons r rest =>
        rw [on_ready_idle_loop_cons prog n s r rest hq]
        exact ih _ (hiter s r rest h hq)
  have hstep : ∀ (s : State) (e : Event), Inv s → Inv (step B prog s e) := by
    intro s e h
    cases e with
    | load f size cb ud => exact h_load s f size cb ud h
    | cancel r => exact h_cancel s r h
    | worker_pop =>
      simp only [step]; split
      · next hg => exact h_pop s h hg.2
      · exact h
    | worker_run env =>
      simp only [step]; split
      · next hg => exact h_run env s h hg.2
      · exact h
    | worker_requeue =>
      simp only [step]; split
      · next hg => exact h_requeue s h hg.2
      · exact h
    | idle =>
      simp only [step]; split
      · exact h
      · exact hloop 200 s h
    | pixbuf_destroy path pix => exact h_destroy s path pix h
    | finalize => exact h_finalize s h
    | cleanup =>
      simp only [step]; split
      · exact h
      · split
        · exact h_cleanup s h
        · exact h_timers _ _ (h_cleanup s h)
  intro es
  induction es with
  | nil => exact fun s h => h
  | cons e es ih =>
    intro s h
    exact ih _ (hstep s e h)

/-! ## The external-thumbnailer path (C25) -/

set_option maxRecDepth 1000000 in
/-- C25, as the code behaves: the large thumbnail of the external-thumbnailer path is
decoded from `task->normal_path`, not from `task->large_path`.  For a request of
size 256 only `large_path` is set; the thumbnailer succeeds and the file at the
large path decodes to a 256 x 256 image, yet the loop of
`generate_thumbnails_with_thumbnailers` reads the `NULL` normal path, gets no image,
and the callback of the request is invoked without an image. -/
theorem large_thumbnail_read_from_normal_path :
    envHelper.read_image_from_file largeTask.large_path = some (gridImage 256 256) ∧
    (run_thumbnailers envHelper largeTask envHelper.thumbnailers
        ⟨⟨false, false, false, false⟩, none, none⟩).large_pix
      = envHelper.read_image_from_file largeTask.normal_path ∧
    (run_thumbnailers envHelper largeTask envHelper.thumbnailers
        ⟨⟨false, false, false, false⟩, none, none⟩).large_pix = none ∧
    heapGet (run gridBackend noCalls initialised (helperEvents.take 5)).tasks 0
      = some { largeTask with large_path := none } ∧
    (run gridBackend noCalls initialised helperEvents).fired.map
        (fun e => (e.1, e.2.size, e.2.cancelled, e.2.pix)) = [(0, 256, false, none)] := by
  decide

/-! ## Shutdown (C28) -/

set_option maxRecDepth 1000000 in
/-- C28, as the code behaves: `_fm_thumbnail_loader_finalize` marks no request as
cancelled.  A request that is queued at shutdown, and one whose task the loader
thread is processing at shutdown, are both moved to the ready queue with their
`cancelled` flag clear, and the next idle drain invokes their callbacks. -/
theorem finalize_leaves_callbacks :
    (run gridBackend noCalls initialised (shutdownQueued.take 2)).ready_queue = [0] ∧
    (heapGet (run gridBackend noCalls initialised (shutdownQueued.take 2)).reqs 0).map
        (·.cancelled) = some false ∧
    (run gridBackend noCalls initialised shutdownQueued).fired.map
        (fun e => (e.1, e.2.callback, e.2.cancelled, e.2.pix)) = [(0, 7, false, none)] ∧
    (run gridBackend noCalls initialised (shutdownInFlight.take 3)).cur_loading = some 0 ∧
    (heapGet (run gridBackend noCalls initialised (shutdownInFlight.take 3)).reqs 0).map
        (·.cancelled) = some false ∧
    (run gridBackend noCalls initialised shutdownInFlight).fired.map
        (fun e => (e.1, e.2.callback, e.2.cancelled, e.2.pix)) = [(0, 7, false, none)] := by
  decide

/-! ## Properties of every request, along runs -/

theorem heapAll_heapMod {P : FmThumbnailLoader → Prop} {reqs : List (Option FmThumbnailLoader)}
    (h : HeapAll P reqs) (i : Nat) (f : FmThumbnailLoader → FmThumbnailLoader)
    (hf : ∀ q, P q → P (f q)) : HeapAll P (heapMod reqs i f) := by
  intro j r hr
  rw [heapGet_heapMod] at hr
  by_cases hj : j = i
  · rw [if_pos hj] at hr
    cases hq : heapGet reqs i with
    | none => rw [hq] at hr; cases hr
    | some q =>
      rw [hq] at hr
      simp only [Option.map_some', Option.some.injEq] at hr
      rw [← hr]
      exact hf q (h i q hq)
  · rw [if_neg hj] at hr
    exact h j r hr

theorem heapAll_heapFree {P : FmThumbnailLoader → Prop} {reqs : List (Option FmThumbnailLoader)}
    (h : HeapAll P reqs) (i : Nat) : HeapAll P (heapFree reqs i) := by
  intro j r hr
  rw [heapGet_heapFree] at hr
  by_cases hj : j = i
  · rw [if_pos hj] at hr; cases hr
  · rw [if_neg hj] at hr
    exact h j r hr

theorem heapAll_append {P : FmThumbnailLoader → Prop} {reqs : List (Option FmThumbnailLoader)}
    (h : HeapAll P reqs) (q : FmThumbnailLoader) (hq : P q) : HeapAll P (reqs ++ [some q]) := by
  intro j r hr
  rcases heapGet_append_some _ _ _ _ hr with h1 | h1
  · exact h j r h1
  · simp only [Option.some.injEq] at h1
    rw [← h1]; exact hq

theorem load_heapAll {P : FmThumbnailLoader → Prop} (hP : RequestClosed P) (s : State)
    (f : FmFileInfo) (size cb ud : Nat) (h : HeapAll P s.reqs) :
    HeapAll P (fm_thumbnail_loader_load s f size cb ud).1.reqs := by
  unfold fm_thumbnail_loader_load
  split
  · exact h
  · dsimp only
    split
    · exact heapAll_append h _ (hP.2.1 _ _ _ _ _)
    · exact heapAll_append h _ (hP.1 _ _ _ _ _)

theorem cancel_heapAll {P : FmThumbnailLoader → Prop} (hP : RequestClosed P) (s : State)
    (r : Nat) (h : HeapAll P s.reqs) : HeapAll P (fm_thumbnail_loader_cancel s r).reqs := by
  rw [cancel_reqs]
  exact heapAll_heapMod h _ _ hP.2.2.1

theorem finish_request_heapAll {P : FmThumbnailLoader → Prop} (hP : RequestClosed P)
    (B : FmThumbnailLoaderBackend) (n l : Option GObject) (a : FinishLoop) (r : Nat)
    (h : HeapAll P a.st.reqs) : HeapAll P (finish_request B n l a r).st.reqs := by
  rcases finish_request_cases B n l a r with e | ⟨req, _, _, _, ⟨_, e⟩ | ⟨p, _, e⟩ | ⟨_, e⟩⟩
  · rw [e]; exact h
  · rw [e]; exact heapAll_heapMod h _ _ (fun q hq => hP.2.2.2.2.1 q _ hq)
  · rw [e]; exact heapAll_heapMod h _ _ (fun q hq => hP.2.2.2.2.1 q _ hq)
  · rw [e]; exact heapAll_heapMod h _ _ hP.2.2.2.2.2

theorem finish_fold_heapAll {P : FmThumbnailLoader → Prop} (hP : RequestClosed P)
    (B : FmThumbnailLoaderBackend) (n l : Option GObject) (rs : List Nat) :
    ∀ a : FinishLoop, HeapAll P a.st.reqs →
      HeapAll P (rs.foldl (finish_request B n l) a).st.reqs := by
  induction rs with
  | nil => exact fun a h => h
  | cons r rs ih =>
    intro a h
    rw [List.foldl_cons]
    exact ih _ (finish_request_heapAll hP B n l a r h)

theorem thumbnail_task_finish_heapAll {P : FmThumbnailLoader → Prop} (hP : RequestClosed P)
    (B : FmThumbnailLoaderBackend) (s : State) (task : Nat) (n l : Option GObject)
    (h : HeapAll P s.reqs) : HeapAll P (thumbnail_task_finish B s task n l).reqs := by
  unfold thumbnail_task_finish
  split
  · exact h
  · dsimp only
    exact finish_fold_heapAll hP B n l _ _ h

theorem load_thumbnails_heapAll {P : FmThumbnailLoader → Prop} (hP : RequestClosed P)
    (B : FmThumbnailLoaderBackend) (env : WorkerEnv) (s : State) (task : Nat)
    (h : HeapAll P s.reqs) : HeapAll P (load_thumbnails B env s task).reqs := by
  unfold load_thumbnails
  split
  · exact h
  · split
    · exact h
    · simp only
      split
      · exact h
      · exact thumbnail_task_finish_heapAll hP B _ _ _ _ h

theorem generate_thumbnails_heapAll {P : FmThumbnailLoader → Prop} (hP : RequestClosed P)
    (B : FmThumbnailLoaderBackend) (env : WorkerEnv) (s : State) (task : Nat)
    (h : HeapAll P s.reqs) : HeapAll P (generate_thumbnails B env s task).reqs := by
  unfold generate_thumbnails
  split
  · exact h
  · show HeapAll P (ite _ _ _ : State).reqs
    split
    · split
      · unfold generate_thumbnails_with_builtin
        split
        · exact h
        · split <;> exact thumbnail_task_finish_heapAll hP B _ _ _ _ h
      · exact h
    · unfold generate_thumbnails_with_thumbnailers
      split
      · exact h
      · exact thumbnail_task_finish_heapAll hP B _ _ _ _ h

theorem worker_run_heapAll {P : FmThumbnailLoader → Prop} (hP : RequestClosed P)
    (B : FmThumbnailLoaderBackend) (env : WorkerEnv) (s : State)
    (h : HeapAll P s.reqs) : HeapAll P (worker_run B env s).reqs := by
  unfold worker_run
  split
  · exact h
  · split
    · exact h
    · show HeapAll P (ite _ _ _ : State).reqs
      split
      · exact generate_thumbnails_heapAll hP B env _ _ h
      · exact load_thumbnails_heapAll hP B env _ _ h

theorem task_free_fold_heapAll {P : FmThumbnailLoader → Prop} (hP : RequestClosed P)
    (rs : List Nat) : ∀ s : State, HeapAll P s.reqs →
    HeapAll P (rs.foldl (fun (st : State) (req : Nat) =>
      { st with reqs := heapMod st.reqs req (fun q => { q with task := none }),
                ready_queue := st.ready_queue ++ [req],
                ready_idle_handler := arm_idle st.ready_idle_handler }) s).reqs := by
  induction rs with
  | nil => exact fun s h => h
  | cons r rs ih =>
    intro s h
    rw [List.foldl_cons]
    exact ih _ (heapAll_heapMod h _ _ hP.2.2.2.1)

theorem thumbnail_task_free_heapAll {P : FmThumbnailLoader → Prop} (hP : RequestClosed P)
    (s : State) (task : Nat) (h : HeapAll P s.reqs) :
    HeapAll P (thumbnail_task_free s task).reqs := by
  unfold thumbnail_task_free
  split
  · exact h
  · exact task_free_fold_heapAll hP _ s h

theorem worker_requeue_heapAll {P : FmThumbnailLoader → Prop} (hP : RequestClosed P)
    (s : State) (h : HeapAll P s.reqs) : HeapAll P (worker_requeue s).reqs := by
  unfold worker_requeue
  split
  · exact h
  · simp only
    split
    · exact h
    · split
      · exact thumbnail_task_free_heapAll hP _ _ h
      · exact h

theorem finalize_fold_heapAll {P : FmThumbnailLoader → Prop} (hP : RequestClosed P)
    (q : List Nat) : ∀ s : State, HeapAll P s.reqs →
    HeapAll P (q.foldl thumbnail_task_free s).reqs := by
  induction q with
  | nil => exact fun s h => h
  | cons t q ih =>
    intro s h
    rw [List.foldl_cons]
    exact ih _ (thumbnail_task_free_heapAll hP s t h)

theorem finalize_heapAll {P : FmThumbnailLoader → Prop} (hP : RequestClosed P)
    (s : State) (h : HeapAll P s.reqs) : HeapAll P (_fm_thumbnail_loader_finalize s).reqs := by
  unfold _fm_thumbnail_loader_finalize
  dsimp only
  apply finalize_fold_heapAll hP
  split <;> exact h

theorem heapFree_fold_heapAll {P : FmThumbnailLoader → Prop} (q : List Nat) :
    ∀ reqs : List (Option FmThumbnailLoader), HeapAll P reqs → HeapAll P (q.foldl heapFree reqs) := by
  induction q with
  | nil => exact fun _ h => h
  | cons t q ih =>
    intro reqs h
    rw [List.foldl_cons]
    exact ih _ (heapAll_heapFree h t)

theorem cleanup_heapAll {P : FmThumbnailLoader → Prop} (s : State) (h : HeapAll P s.reqs) :
    HeapAll P (fm_thumbnail_loader_cleanup s).1.reqs := by
  unfold fm_thumbnail_loader_cleanup
  split
  · exact h
  · exact heapFree_fold_heapAll _ _ h

/-- A predicate on requests that is closed under the engine's writes holds of every
live request after every sequence of events, if it did before. -/
theorem run_heapAll {P : FmThumbnailLoader → Prop} (hP : RequestClosed P)
    (B : FmThumbnailLoaderBackend) (prog : Nat → List Call) (es : List Event) (s : State)
    (h : HeapAll P s.reqs) : HeapAll P (run B prog s es).reqs := by
  refine run_invariant B prog (fun s => HeapAll P s.reqs) (fun _ s => HeapAll P s.reqs)
    ?_ ?_ ?_ ?_ ?_ ?_ ?_ ?_ ?_ ?_ ?_ ?_ ?_ ?_ ?_ es s h
  · exact fun s f size cb ud h => load_heapAll hP s f size cb ud h
  · exact fun s r h => cancel_heapAll hP s r h
  · intro s h _
    unfold worker_pop
    split <;> exact h
  · exact fun env s h _ => worker_run_heapAll hP B env s h
  · exact fun s h _ => worker_requeue_heapAll hP s h
  · exact fun s _ _ h => h
  · exact fun s h => finalize_heapAll hP s h
  · exact fun s h => cleanup_heapAll s h
  · exact fun s _ h => h
  · exact fun s h => h
  · exact fun s _ _ h _ => h
  · exact fun _ s _ h => h
  · exact fun _ s f size cb ud h => load_heapAll hP s f size cb ud h
  · exact fun _ s q h => cancel_heapAll hP s q h
  · exact fun r s h => heapAll_heapFree h r

theorem imageDone_closed : RequestClosed ImageDone := by
  refine ⟨?_, ?_, ?_, ?_, ?_, ?_⟩
  · intro fi size cb ud t hp; exact absurd rfl hp
  · intro fi size cb ud pix _; exact Or.inr rfl
  · intro q hq hp; exact hq hp
  · intro q _ _; exact Or.inr rfl
  · intro q p _ _; exact Or.inl rfl
  · intro q _ hp; exact absurd rfl hp

/-! ## Image and done flag (C21) -/

/-! ## What `thumbnail_task_finish` does to `done` -/

/-- A request that is done, cancelled, freed or not in the list is left alone by the
loop of `thumbnail_task_finish`. -/
theorem finish_fold_untouched (B : FmThumbnailLoaderBackend) (n l : Option GObject) (j : Nat)
    (rs : List Nat) : ∀ a : FinishLoop,
    (j ∉ rs ∨ ∀ r, heapGet a.st.reqs j = some r → r.done = true ∨ r.cancelled = true) →
    heapGet (rs.foldl (finish_request B n l) a).st.reqs j = heapGet a.st.reqs j := by
  induction rs with
  | nil => exact fun _ _ => rfl
  | cons r rs ih =>
    intro a h
    rw [List.foldl_cons]
    by_cases hr : r = j
    · subst hr
      have hsk : finish_request B n l a r = a := by
        rcases h with h | h
        · exact absurd (List.mem_cons_self _ _) h
        · cases hq : heapGet a.st.reqs r with
          | none => exact finish_request_dead B n l a r hq
          | some q => exact finish_request_skip B n l a r q hq (h q hq)
      rw [hsk]
      refine ih a ?_
      rcases h with h | h
      · exact absurd (List.mem_cons_self _ _) h
      · exact Or.inr h
    · have hother := finish_request_other B n l a r j (Ne.symm hr)
      rw [ih (finish_request B n l a r) ?_, hother]
      rcases h with h | h
      · exact Or.inl (fun hm => h (List.mem_cons_of_mem _ hm))
      · exact Or.inr (fun q hq => h q (hother ▸ hq))

/-- A pending request whose class image scales is marked done by the loop of
`thumbnail_task_finish`. -/
theorem finish_fold_done (B : FmThumbnailLoaderBackend) (n l : Option GObject) (h : Nat)
    (sz : Int) (p : GObject) (hp : scaled_class B n l sz = some p) (rs : List Nat) :
    ∀ a : FinishLoop,
    (∃ r, heapGet a.st.reqs h = some r ∧ r.size = sz ∧ r.cancelled = false ∧
      (h ∈ rs ∨ r.done = true)) →
    ∃ r, heapGet (rs.foldl (finish_request B n l) a).st.reqs h = some r ∧ r.done = true := by
  induction rs with
  | nil =>
    rintro a ⟨r, hr, _, _, hd⟩
    rcases hd with hd | hd
    · cases hd
    · exact ⟨r, hr, hd⟩
  | cons r rs ih =>
    rintro a ⟨q, hq, hqs, hqc, hd⟩
    rw [List.foldl_cons]
    apply ih
    by_cases hrh : r = h
    · subst hrh
      by_cases hdone : q.done = true
      · rw [finish_request_skip B n l a r q hq (Or.inl hdone)]
        exact ⟨q, hq, hqs, hqc, Or.inr hdone⟩
      · have hd1 : q.done = false := by simpa using hdone
        by_cases hs : q.size = a.cached_size
        · rw [finish_request_hit B n l a r q hq hd1 hqc hs]
          refine ⟨{ q with pix := a.cached_pix, done := true }, ?_, hqs, hqc, Or.inr rfl⟩
          show heapGet (heapMod a.st.reqs r _) r = _
          rw [heapGet_heapMod, if_pos rfl, hq]; rfl
        · have hp1 : (class_pix q.size n l).bind (fun p => scale_pix B p q.size) = some p := by
            rw [hqs]; exact hp
          rw [finish_request_scaled B n l a r q p hq hd1 hqc hs hp1]
          refine ⟨{ q with pix := some p, done := true }, ?_, hqs, hqc, Or.inr rfl⟩
          show heapGet (heapMod a.st.reqs r _) r = _
          rw [heapGet_heapMod, if_pos rfl, hq]; rfl
    · have hother := finish_request_other B n l a r h (Ne.symm hrh)
      refine ⟨q, hother ▸ hq, hqs, hqc, ?_⟩
      rcases hd with hd | hd
      · rcases List.mem_cons.mp hd with e | e
        · exact absurd e.symm hrh
        · exact Or.inl e
      · exact Or.inr hd

/-- A pending request whose class image is missing stays pending in the loop of
`thumbnail_task_finish`, if no pending request before it in the list has its
size. -/
theorem finish_fold_pending (B : FmThumbnailLoaderBackend) (n l : Option GObject) (h : Nat)
    (sz : Int) (hp : scaled_class B n l sz = none) (rs : List Nat) :
    ∀ a : FinishLoop, rs.Nodup →
    (∃ r, heapGet a.st.reqs h = some r ∧ r.size = sz ∧ r.cancelled = false ∧ r.done = false) →
    (h ∈ rs → a.cached_size ≠ sz) →
    (∀ pre post, rs = pre ++ h :: post → ∀ j ∈ pre, ∀ rj, heapGet a.st.reqs j = some rj →
      rj.done = false → rj.cancelled = false → rj.size ≠ sz) →
    ∃ r, heapGet (rs.foldl (finish_request B n l) a).st.reqs h = some r ∧ r.done = false := by
  induction rs with
  | nil =>
    rintro a _ ⟨r, hr, _, _, hd⟩ _ _
    exact ⟨r, hr, hd⟩
  | cons r rs ih =>
    rintro a hnd ⟨q, hq, hqs, hqc, hqd⟩ hcs hpre
    obtain ⟨hrn, hnd1⟩ := List.nodup_cons.mp hnd
    rw [List.foldl_cons]
    by_cases hrh : r = h
    · subst hrh
      have hs : q.size ≠ a.cached_size := by
        rw [hqs]; exact fun e => hcs (List.mem_cons_self _ _) e.symm
      have hp1 : (class_pix q.size n l).bind (fun p => scale_pix B p q.size) = none := by
        rw [hqs]; exact hp
      rw [finish_request_failed B n l a r q hq hqd hqc hs hp1]
      refine ih _ hnd1 ⟨{ q with pix := none }, ?_, hqs, hqc, hqd⟩
        (fun hm => absurd hm hrn) (fun pre post e => ?_)
      · show heapGet (heapMod a.st.reqs r _) r = _
        rw [heapGet_heapMod, if_pos rfl, hq]; rfl
      · exfalso
        apply hrn
        rw [e]
        exact List.mem_append_right _ (List.mem_cons_self _ _)
    · have hother := finish_request_other B n l a r h (Ne.symm hrh)
      have hrsz : ∀ rq, heapGet a.st.reqs r = some rq → rq.done = false →
          rq.cancelled = false → h ∈ rs → rq.size ≠ sz := by
        intro rq hrq h1 h2 hm
        obtain ⟨pre, post, e⟩ := List.append_of_mem hm
        exact hpre (r :: pre) post (by rw [e]; rfl) r (List.mem_cons_self _ _) rq hrq h1 h2
      refine ih _ hnd1 ⟨q, hother ▸ hq, hqs, hqc, hqd⟩ (fun hm => ?_) (fun pre post e j hj rj hrj => ?_)
      · have hc0 : a.cached_size ≠ sz := hcs (List.mem_cons_of_mem _ hm)
        rcases finish_request_cases B n l a r with
          e | ⟨req, hreq, hd, hc, ⟨_, e⟩ | ⟨p, _, e⟩ | ⟨_, e⟩⟩
        · rw [e]; exact hc0
        · rw [e]; exact hc0
        · rw [e]; exact hrsz req hreq hd hc hm
        · rw [e]; exact hrsz req hreq hd hc hm
      · have hjr : j ≠ r := by
          intro e1
          apply hrn
          rw [e, ← e1]
          exact List.mem_append_left _ hj
        rw [finish_request_other B n l a r j hjr] at hrj
        exact hpre (r :: pre) post (by rw [e]; rfl) j (List.mem_cons_of_mem _ hj) rj hrj

/-- What `thumbnail_task_finish` does to a request of a live task.  A request that is
done, cancelled or not in the task's list is left as it is.  A pending request of
non-zero size whose class image scales to `p` holds `p` and is done afterwards; one
whose class image is missing holds no image afterwards, and is not done if the list
names each request once and no pending request before it in the sorted list has
its size. -/
theorem thumbnail_task_finish_done (B : FmThumbnailLoaderBackend) (s : State) (t : Nat)
    (task : ThumbnailTask) (n l : Option GObject) (h : Nat) (req : FmThumbnailLoader)
    (ht : heapGet s.tasks t = some task) (hreq : heapGet s.reqs h = some req) :
    ((h ∉ task.requests ∨ req.done = true ∨ req.cancelled = true) →
      heapGet (thumbnail_task_finish B s t n l).reqs h = some req) ∧
    (h ∈ task.requests → req.done = false → req.cancelled = false → req.size ≠ 0 →
      ∃ r, heapGet (thumbnail_task_finish B s t n l).reqs h = some r ∧
        (∀ p, scaled_class B n l req.size = some p → r.pix = some p ∧ r.done = true) ∧
        (scaled_class B n l req.size = none →
          r.pix = none ∧
          (task.requests.Nodup →
            (∀ pre post, task.requests.insertionSort (comp_request s.reqs) = pre ++ h :: post →
              ∀ j ∈ pre, ∀ rj, heapGet s.reqs j = some rj → rj.done = false →
                rj.cancelled = false → rj.size ≠ req.size) →
            r.done = false))) := by
  have hfin : (thumbnail_task_finish B s t n l).reqs
      = ((task.requests.insertionSort (comp_request s.reqs)).foldl (finish_request B n l)
          { st := { s with tasks := heapMod s.tasks t (fun k =>
              { k with requests := task.requests.insertionSort (comp_request s.reqs) }) },
            cached_pix := none, cached_size := 0 }).st.reqs := by
    unfold thumbnail_task_finish
    rw [ht]
  refine ⟨fun hcase => ?_, fun hmem hd hc hz => ?_⟩
  · rw [hfin, finish_fold_untouched B n l h _ _ ?_]
    · exact hreq
    · rcases hcase with h1 | h1
      · exact Or.inl (fun hm => h1 ((List.mem_insertionSort _).mp hm))
      · refine Or.inr (fun r hr => ?_)
        have hr0 : heapGet s.reqs h = some r := hr
        rw [hreq] at hr0
        simp only [Option.some.injEq] at hr0
        rw [← hr0]; exact h1
  · obtain ⟨r, hr, hpix⟩ := finish_fills_from_class B s t n l h req task ht hmem hreq hd hc hz
    have hsm : h ∈ task.requests.insertionSort (comp_request s.reqs) :=
      (List.mem_insertionSort _).mpr hmem
    refine ⟨r, hr, fun p hp => ?_, fun hp => ?_⟩
    · refine ⟨by rw [hpix]; exact hp, ?_⟩
      obtain ⟨r1, hr1, hd1⟩ := finish_fold_done B n l h req.size p hp
        (task.requests.insertionSort (comp_request s.reqs))
        { st := { s with tasks := heapMod s.tasks t (fun k =>
            { k with requests := task.requests.insertionSort (comp_request s.reqs) }) },
          cached_pix := none, cached_size := 0 }
        ⟨req, hreq, rfl, hc, Or.inl hsm⟩
      rw [← hfin, hr] at hr1
      simp only [Option.some.injEq] at hr1
      rw [hr1]; exact hd1
    · refine ⟨by rw [hpix]; exact hp, fun hnd hpre => ?_⟩
      obtain ⟨r1, hr1, hd1⟩ := finish_fold_pending B n l h req.size hp
        (task.requests.insertionSort (comp_request s.reqs))
        { st := { s with tasks := heapMod s.tasks t (fun k =>
            { k with requests := task.requests.insertionSort (comp_request s.reqs) }) },
          cached_pix := none, cached_size := 0 }
        ((List.perm_insertionSort _ _).nodup_iff.mpr hnd)
        ⟨req, hreq, rfl, hc, hd⟩ (fun _ e => hz e.symm) hpre
      rw [← hfin, hr] at hr1
      simp only [Option.some.injEq] at hr1
      rw [hr1]; exact hd1

/-- C21 (amended): image and `done` flag go together except on a request served from
the in-memory cache.  (1) In every state the engine reaches from its initial state, a
live request that holds an image is done, unless it is detached from any task (a
request served by a cache-hit load is detached, holds the cached image and is not
marked done).  (2) After every run of `thumbnail_task_finish` on a live task: a
request that was done, cancelled or is not in the task's list is unchanged; a pending
request of the task of non-zero size holds an image and is done when the class image
of its size is present and scales, also when several requests have that size; and
when the class image is missing it holds no image, and it is not done provided the
list names each request once and no pending request before it in the sorted list
has its size.  (Whether a request is marked done after an earlier pending request
of equal size got no image, or when its size is 0, is not stated.) -/
theorem image_set_iff_done (B : FmThumbnailLoaderBackend) (prog : Nat → List Call)
    (es : List Event) :
    (∀ (h : Nat) (req : FmThumbnailLoader),
      heapGet (run B prog initialised es).reqs h = some req → req.pix ≠ none →
      req.done = true ∨ req.task = none) ∧
    (∀ (s : State) (t : Nat) (task : ThumbnailTask) (n l : Option GObject) (h : Nat)
      (req : FmThumbnailLoader), heapGet s.tasks t = some task → heapGet s.reqs h = some req →
      ((h ∉ task.requests ∨ req.done = true ∨ req.cancelled = true) →
        heapGet (thumbnail_task_finish B s t n l).reqs h = some req) ∧
      (h ∈ task.requests → req.done = false → req.cancelled = false → req.size ≠ 0 →
        ∃ r, heapGet (thumbnail_task_finish B s t n l).reqs h = some r ∧
          (∀ p, scaled_class B n l req.size = some p → r.pix = some p ∧ r.done = true) ∧
          (scaled_class B n l req.size = none →
            r.pix = none ∧
            (task.requests.Nodup →
              (∀ pre post,
                task.requests.insertionSort (comp_request s.reqs) = pre ++ h :: post →
                ∀ j ∈ pre, ∀ rj, heapGet s.reqs j = some rj → rj.done = false →
                  rj.cancelled = false → rj.size ≠ req.size) →
              r.done = false)))) := by
  refine ⟨fun h req hr hp => ?_, fun s t task n l h req ht hreq =>
    thumbnail_task_finish_done B s t task n l h req ht hreq⟩
  have h0 : HeapAll ImageDone initialised.reqs := by
    intro i r hi
    have : heapGet initialised.reqs i = none := rfl
    rw [this] at hi; cases hi
  exact run_heapAll imageDone_closed B prog es initialised h0 h req hr hp

set_option maxRecDepth 1000000 in
/-- C21 (amended) on two inputs.  On the run `largeRequestEvents`, stopped after the
generate cycle, the request 0 is attached to task 0, holds the 256 x 256 image and
is done.  On `twinAttached`, whose task 0 lists two requests of size 48, a run of
`thumbnail_task_finish` with a 128 x 128 normal image leaves the second request,
like the first, with the 48 x 48 image and done. -/
theorem image_set_iff_done_witness :
    heapGet (run gridBackend noCalls initialised (largeRequestEvents.take 6)).reqs 0
      = some { fi := fileA, task := some 0, callback := 7, user_data := 0,
               pix := some (gridImage 256 256), cancelled := false, size := 300, done := true } ∧
    (true = true ∨ some 0 = (none : Option Nat)) ∧
    (heapGet twinAttached.tasks 0).map (·.requests) = some [0, 1] ∧
    (∃ r, heapGet (thumbnail_task_finish gridBackend twinAttached 0
          (some (gridImage 128 128)) none).reqs 0 = some r ∧
        r.pix = some (gridImage 48 48) ∧ r.done = true) ∧
    (∃ r, heapGet (thumbnail_task_finish gridBackend twinAttached 0
          (some (gridImage 128 128)) none).reqs 1 = some r ∧
        r.pix = some (gridImage 48 48) ∧ r.done = true) :=
  ⟨by decide,
   (image_set_iff_done gridBackend noCalls (largeRequestEvents.take 6)).1 0
    { fi := fileA, task := some 0, callback := 7, user_data := 0,
      pix := some (gridImage 256 256), cancelled := false, size := 300, done := true }
    (by decide) (by decide),
   by decide,
   (((image_set_iff_done gridBackend noCalls []).2 twinAttached 0
      { fi := fileA, flags := ⟨true, false, false, false⟩, cancelled := false,
        locked := true, normal_path := none, large_path := none, requests := [0, 1] }
      (some (gridImage 128 128)) none 0
      { fi := fileA, task := some 0, callback := 7, user_data := 0, pix := none,
        cancelled := false, size := 48, done := false }
      (by decide) (by decide)).2 (by decide) rfl rfl (by decide)).imp
     (fun _ hr => ⟨hr.1, hr.2.1 (gridImage 48 48) (by decide)⟩),
   (((image_set_iff_done gridBackend noCalls []).2 twinAttached 0
      { fi := fileA, flags := ⟨true, false, false, false⟩, cancelled := false,
        locked := true, normal_path := none, large_path := none, requests := [0, 1] }
      (some (gridImage 128 128)) none 1
      { fi := fileA, task := some 0, callback := 8, user_data := 0, pix := none,
        cancelled := false, size := 48, done := false }
      (by decide) (by decide)).2 (by decide) rfl rfl (by decide)).imp
     (fun _ hr => ⟨hr.1, hr.2.1 (gridImage 48 48) (by decide)⟩)⟩

set_option maxRecDepth 1000000 in
/-- C21 as stated fails after a cache-hit load: on the engine `cachedState`, whose
cache holds the 64 x 64 thumbnail of `fileA`, `fm_thumbnail_loader_load` returns the
request 1 with the cached image set, `done` false, and queued for delivery. -/
theorem cache_hit_image_not_done :
    (fm_thumbnail_loader_load cachedState fileA 64 9 0).2 = some 1 ∧
    heapGet (fm_thumbnail_loader_load cachedState fileA 64 9 0).1.reqs 1
      = some { fi := fileA, task := none, callback := 9, user_data := 0,
               pix := some (gridImage 64 64), cancelled := false, size := 64, done := false } ∧
    (fm_thumbnail_loader_load cachedState fileA 64 9 0).1.ready_queue = [1] := by
  decide

/-! ## One cache entry per size (C22) -/

theorem slotHeld_of_eq {p : Int} {s s1 : State} (h : SlotHeld p s)
    (e1 : s1.thumbnailer_pid = s.thumbnailer_pid)
    (e2 : s1.thumbnailer_timeout_id = s.thumbnailer_timeout_id) : SlotHeld p s1 := by
  unfold SlotHeld at *
  rw [e1, e2]; exact h

theorem load_slot (s : State) (f : FmFileInfo) (size cb ud : Nat) :
    (fm_thumbnail_loader_load s f size cb ud).1.thumbnailer_pid = s.thumbnailer_pid ∧
    (fm_thumbnail_loader_load s f size cb ud).1.thumbnailer_timeout_id
      = s.thumbnailer_timeout_id := by
  unfold fm_thumbnail_loader_load
  split
  · exact ⟨rfl, rfl⟩
  · dsimp only
    split <;> exact ⟨rfl, rfl⟩

theorem cancel_slot (p : Int) (s : State) (r : Nat) (h : SlotHeld p s) :
    SlotHeld p (fm_thumbnail_loader_cancel s r) := by
  unfold fm_thumbnail_loader_cancel
  split
  · exact h
  · dsimp only
    split
    · exact slotHeld_of_eq h rfl rfl
    · split
      · exact slotHeld_of_eq h rfl rfl
      · split
        · split
          · exact slotHeld_of_eq h rfl rfl
          · split
            · exact Or.inr ⟨rfl, rfl⟩
            · exact slotHeld_of_eq h rfl rfl
        · exact slotHeld_of_eq h rfl rfl

theorem finish_request_slot (B : FmThumbnailLoaderBackend) (n l : Option GObject)
    (a : FinishLoop) (r : Nat) :
    (finish_request B n l a r).st.thumbnailer_pid = a.st.thumbnailer_pid ∧
    (finish_request B n l a r).st.thumbnailer_timeout_id = a.st.thumbnailer_timeout_id := by
  rcases finish_request_cases B n l a r with e | ⟨req, _, _, _, ⟨_, e⟩ | ⟨p, _, e⟩ | ⟨_, e⟩⟩ <;>
    rw [e] <;> exact ⟨rfl, rfl⟩

theorem finish_fold_slot (B : FmThumbnailLoaderBackend) (n l : Option GObject)
    (rs : List Nat) : ∀ a : FinishLoop,
    (rs.foldl (finish_request B n l) a).st.thumbnailer_pid = a.st.thumbnailer_pid ∧
    (rs.foldl (finish_request B n l) a).st.thumbnailer_timeout_id
      = a.st.thumbnailer_timeout_id := by
  induction rs with
  | nil => exact fun a => ⟨rfl, rfl⟩
  | cons r rs ih =>
    intro a
    rw [List.foldl_cons]
    obtain ⟨h1, h2⟩ := ih (finish_request B n l a r)
    obtain ⟨h3, h4⟩ := finish_request_slot B n l a r
    exact ⟨h1.trans h3, h2.trans h4⟩

theorem thumbnail_task_finish_slot (B : FmThumbnailLoaderBackend) (s : State) (task : Nat)
    (n l : Option GObject) :
    (thumbnail_task_finish B s task n l).thumbnailer_pid = s.thumbnailer_pid ∧
    (thumbnail_task_finish B s task n l).thumbnailer_timeout_id = s.thumbnailer_timeout_id := by
  unfold thumbnail_task_finish
  split
  · exact ⟨rfl, rfl⟩
  · dsimp only
    exact finish_fold_slot B n l _ _

theorem worker_run_slot (B : FmThumbnailLoaderBackend) (env : WorkerEnv) (s : State) :
    (worker_run B env s).thumbnailer_pid = s.thumbnailer_pid ∧
    (worker_run B env s).thumbnailer_timeout_id = s.thumbnailer_timeout_id := by
  unfold worker_run
  split
  · exact ⟨rfl, rfl⟩
  · split
    · exact ⟨rfl, rfl⟩
    · dsimp only
      split
      · unfold generate_thumbnails
        split
        · exact ⟨rfl, rfl⟩
        · dsimp only
          split
          · split
            · unfold generate_thumbnails_with_builtin
              split
              · exact ⟨rfl, rfl⟩
              · split <;> exact thumbnail_task_finish_slot B _ _ _ _
            · exact ⟨rfl, rfl⟩
          · unfold generate_thumbnails_with_thumbnailers
            split
            · exact ⟨rfl, rfl⟩
            · exact thumbnail_task_finish_slot B _ _ _ _
      · unfold load_thumbnails
        split
        · exact ⟨rfl, rfl⟩
        · split
          · exact ⟨rfl, rfl⟩
          · simp only
            split
            · exact ⟨rfl, rfl⟩
            · exact thumbnail_task_finish_slot B _ _ _ _

theorem task_free_fold_slot (rs : List Nat) : ∀ s : State,
    (rs.foldl (fun (st : State) (req : Nat) =>
      { st with reqs := heapMod st.reqs req (fun q => { q with task := none }),
                ready_queue := st.ready_queue ++ [req],
                ready_idle_handler := arm_idle st.ready_idle_handler }) s).thumbnailer_pid
      = s.thumbnailer_pid ∧
    (rs.foldl (fun (st : State) (req : Nat) =>
      { st with reqs := heapMod st.reqs req (fun q => { q with task := none }),
                ready_queue := st.ready_queue ++ [req],
                ready_idle_handler := arm_idle st.ready_idle_handler }) s).thumbnailer_timeout_id
      = s.thumbnailer_timeout_id := by
  induction rs with
  | nil => exact fun s => ⟨rfl, rfl⟩
  | cons r rs ih =>
    intro s
    rw [List.foldl_cons]
    exact ih _

theorem thumbnail_task_free_slot (s : State) (task : Nat) :
    (thumbnail_task_free s task).thumbnailer_pid = s.thumbnailer_pid ∧
    (thumbnail_task_free s task).thumbnailer_timeout_id = s.thumbnailer_timeout_id := by
  unfold thumbnail_task_free
  split
  · exact ⟨rfl, rfl⟩
  · exact task_free_fold_slot _ s

theorem worker_requeue_slot (s : State) :
    (worker_requeue s).thumbnailer_pid = s.thumbnailer_pid ∧
    (worker_requeue s).thumbnailer_timeout_id = s.thumbnailer_timeout_id := by
  unfold worker_requeue
  split
  · exact ⟨rfl, rfl⟩
  · simp only
    split
    · exact ⟨rfl, rfl⟩
    · split
      · exact thumbnail_task_free_slot _ _
      · exact ⟨rfl, rfl⟩

theorem finalize_fold_slot (q : List Nat) : ∀ s : State,
    (q.foldl thumbnail_task_free s).thumbnailer_pid = s.thumbnailer_pid ∧
    (q.foldl thumbnail_task_free s).thumbnailer_timeout_id = s.thumbnailer_timeout_id := by
  induction q with
  | nil => exact fun s => ⟨rfl, rfl⟩
  | cons t q ih =>
    intro s
    rw [List.foldl_cons]
    obtain ⟨h1, h2⟩ := ih (thumbnail_task_free s t)
    obtain ⟨h3, h4⟩ := thumbnail_task_free_slot s t
    exact ⟨h1.trans h3, h2.trans h4⟩

theorem finalize_slot (s : State) :
    (_fm_thumbnail_loader_finalize s).thumbnailer_pid = s.thumbnailer_pid ∧
    (_fm_thumbnail_loader_finalize s).thumbnailer_timeout_id = s.thumbnailer_timeout_id := by
  unfold _fm_thumbnail_loader_finalize
  dsimp only
  obtain ⟨h1, h2⟩ := finalize_fold_slot
    (match s.cur_loading with
      | some task => { s with tasks := heapMod s.tasks task (fun k => { k with cancelled := true }) }
      | none => s).loader_queue
    { (match s.cur_loading with
      | some task => { s with tasks := heapMod s.tasks task (fun k => { k with cancelled := true }) }
      | none => s) with
      generator_cancellable := (match s.cur_loading with
        | some task =>
          { s with tasks := heapMod s.tasks task (fun k => { k with cancelled := true }) }
        | none => s).generator_cancellable.map (fun _ => true),
      loader_queue := [] }
  refine ⟨h1.trans ?_, h2.trans ?_⟩ <;> (dsimp only; split <;> rfl)

/-- The events of the engine keep `SlotHeld`. -/
theorem run_slotHeld (B : FmThumbnailLoaderBackend) (prog : Nat → List Call) (p : Int)
    (es : List Event) (s : State) (h : SlotHeld p s) : SlotHeld p (run B prog s es) := by
  refine run_invariant B prog (SlotHeld p) (fun _ s => SlotHeld p s)
    ?_ ?_ ?_ ?_ ?_ ?_ ?_ ?_ ?_ ?_ ?_ ?_ ?_ ?_ ?_ es s h
  · exact fun s f size cb ud h =>
      slotHeld_of_eq h (load_slot s f size cb ud).1 (load_slot s f size cb ud).2
  · exact fun s r h => cancel_slot p s r h
  · intro s h _
    unfold worker_pop
    split <;> exact slotHeld_of_eq h rfl rfl
  · exact fun env s h _ => slotHeld_of_eq h (worker_run_slot B env s).1 (worker_run_slot B env s).2
  · exact fun s h _ => slotHeld_of_eq h (worker_requeue_slot s).1 (worker_requeue_slot s).2
  · exact fun s _ _ h => slotHeld_of_eq h rfl rfl
  · exact fun s h => slotHeld_of_eq h (finalize_slot s).1 (finalize_slot s).2
  · intro s h
    unfold fm_thumbnail_loader_cleanup
    split
    · exact h
    · exact slotHeld_of_eq h rfl rfl
  · exact fun s _ h => slotHeld_of_eq h rfl rfl
  · exact fun s h => slotHeld_of_eq h rfl rfl
  · exact fun s _ _ h _ => slotHeld_of_eq h rfl rfl
  · exact fun _ s _ h => slotHeld_of_eq h rfl rfl
  · exact fun _ s f size cb ud h =>
      slotHeld_of_eq h (load_slot s f size cb ud).1 (load_slot s f size cb ud).2
  · exact fun _ s q h => cancel_slot p s q h
  · exact fun _ s h => slotHeld_of_eq h rfl rfl

theorem helper_step_slotHeld (B : FmThumbnailLoaderBackend) (prog : Nat → List Call) (p : Int)
    (hp : 0 < p) (s : State) (e : HelperEvent) (h : SlotHeld p s) :
    SlotHeld p (helper_step B prog s e) := by
  cases e with
  | timeout destroyed =>
    show SlotHeld p (on_thumbnailer_timeout s destroyed)
    unfold on_thumbnailer_timeout
    split
    · exact h
    · rcases h with h | ⟨h1, _⟩
      · refine Or.inr ⟨?_, rfl⟩
        show (if s.thumbnailer_pid > 0 then (-1 : Int) else s.thumbnailer_pid) = -1
        rw [if_pos (by rw [h]; exact hp)]
      · refine Or.inr ⟨?_, rfl⟩
        show (if s.thumbnailer_pid > 0 then (-1 : Int) else s.thumbnailer_pid) = -1
        rw [h1]; rfl
  | main e =>
    have hs : SlotHeld p (step B prog s e) := run_slotHeld B prog p [e] s h
    cases e <;> first | exact h | exact hs

theorem helper_fold_slotHeld (B : FmThumbnailLoaderBackend) (prog : Nat → List Call) (p : Int)
    (hp : 0 < p) (es : List HelperEvent) : ∀ s : State, SlotHeld p s →
    SlotHeld p (es.foldl (helper_step B prog) s) := by
  induction es with
  | nil => exact fun s h => h
  | cons e es ih =>
    intro s h
    rw [List.foldl_cons]
    exact ih _ (helper_step_slotHeld B prog p hp s e h)

/-- C26: a call of `run_thumbnailer` that launches a child (`_pid > 0`) while the pid
slot is empty returns with the slot empty (-1) and the timer identifier 0, whatever
the main thread did while the child ran: nothing (normal exit), the timeout
handler, cancellations, or any other events of the engine; the return value is
whether the child exited with status 0.  A call that finds the slot occupied
returns `FALSE` and leaves the slot, the timer identifier and all the rest
unchanged. -/
theorem run_thumbnailer_releases_slot (B : FmThumbnailLoaderBackend) (prog : Nat → List Call)
    (s : State) (_pid : Int) (timer : Nat) (during : List HelperEvent) (exit_ok : Bool) :
    (s.thumbnailer_pid = -1 → 0 < _pid →
      (run_thumbnailer B prog s _pid timer during exit_ok).1.thumbnailer_pid = -1 ∧
      (run_thumbnailer B prog s _pid timer during exit_ok).1.thumbnailer_timeout_id = 0 ∧
      (run_thumbnailer B prog s _pid timer during exit_ok).2 = exit_ok) ∧
    (s.thumbnailer_pid ≠ -1 →
      run_thumbnailer B prog s _pid timer during exit_ok = (s, false)) := by
  refine ⟨fun h0 hp => ?_, fun h0 => ?_⟩
  · have hs := helper_fold_slotHeld B prog _pid hp during
      { s with thumbnailer_pid := _pid, thumbnailer_timeout_id := timer } (Or.inl rfl)
    unfold run_thumbnailer
    rw [if_neg (by omega), if_neg (by simp [h0])]
    dsimp only
    split
    · refine ⟨rfl, ?_, rfl⟩
      dsimp only
      split
      · rfl
      · next hz => simpa using hz
    · next hne =>
      rcases hs with h1 | ⟨h1, h2⟩
      · exact absurd h1 hne
      · exact ⟨h1, h2, rfl⟩
  · unfold run_thumbnailer
    by_cases hq : _pid ≤ 0
    · rw [if_pos hq]
    · rw [if_neg hq, if_pos h0]

set_option maxRecDepth 1000000 in
/-- C26 on two calls: on the engine `twoAttached`, a child 4242 whose task is
cancelled by the main thread while it runs; and on `helperRunning`, a call that
finds the slot occupied by 4242. -/
theorem run_thumbnailer_releases_slot_witness :
    ((run_thumbnailer gridBackend noCalls twoAttached 4242 5
        [HelperEvent.main (Event.cancel 0), HelperEvent.main (Event.cancel 1)] false).1.thumbnailer_pid
        = -1 ∧
     (run_thumbnailer gridBackend noCalls twoAttached 4242 5
        [HelperEvent.main (Event.cancel 0), HelperEvent.main (Event.cancel 1)]
        false).1.thumbnailer_timeout_id = 0 ∧
     (run_thumbnailer gridBackend noCalls twoAttached 4242 5
        [HelperEvent.main (Event.cancel 0), HelperEvent.main (Event.cancel 1)] false).2 = false) ∧
    run_thumbnailer gridBackend noCalls helperRunning 77 6 [] true = (helperRunning, false) :=
  ⟨(run_thumbnailer_releases_slot gridBackend noCalls twoAttached 4242 5
      [HelperEvent.main (Event.cancel 0), HelperEvent.main (Event.cancel 1)] false).1
      (by decide) (by decide),
   (run_thumbnailer_releases_slot gridBackend noCalls helperRunning 77 6 [] true).2 (by decide)⟩

/-! ## Every task is popped at most twice (C24) -/

theorem gen_flag_heapMod (tasks : List (Option ThumbnailTask)) (i t : Nat)
    (f : ThumbnailTask → ThumbnailTask)
    (hf : ∀ k, (f k).flags.generate_normal = k.flags.generate_normal ∧
      (f k).flags.generate_large = k.flags.generate_large) :
    gen_flag (heapMod tasks i f) t = gen_flag tasks t := by
  unfold gen_flag
  rw [heapGet_heapMod]
  by_cases hi : t = i
  · rw [if_pos hi, hi]
    cases heapGet tasks i with
    | none => rfl
    | some k => simp only [Option.map_some', (hf k).1, (hf k).2]
  · rw [if_neg hi]

theorem task_cancelled_heapMod (tasks : List (Option ThumbnailTask)) (i t : Nat)
    (f : ThumbnailTask → ThumbnailTask)
    (hf : ∀ k, k.cancelled = true → (f k).cancelled = true)
    (h : task_cancelled tasks t = true) : task_cancelled (heapMod tasks i f) t = true := by
  unfold task_cancelled at *
  rw [heapGet_heapMod]
  by_cases hi : t = i
  · rw [if_pos hi]
    rw [hi] at h
    cases hk : heapGet tasks i with
    | none => rfl
    | some k =>
      rw [hk] at h
      exact hf k h
  · rw [if_neg hi]; exact h

theorem pops_left_mono (s s1 : State) (hq : s1.loader_queue = s.loader_queue)
    (hc : s1.cur_loading = s.cur_loading)
    (hpc : s1.worker_pc = s.worker_pc ∨ s1.worker_pc = WorkerPc.pop)
    (hl : s1.tasks.length = s.tasks.length)
    (hg : ∀ t, gen_flag s1.tasks t = gen_flag s.tasks t)
    (hcan : ∀ t, task_cancelled s.tasks t = true → task_cancelled s1.tasks t = true) (t : Nat) :
    pops_left s1 t ≤ pops_left s t := by
  unfold pops_left
  rw [hq, hc, hl, hg]
  split
  · exact le_refl _
  · split
    · rcases hpc with e | e
      · rw [e]
        cases s.worker_pc with
        | pop => exact le_refl _
        | run => exact le_refl _
        | requeue =>
          dsimp only
          have h1 := hcan t
          cases h2 : task_cancelled s.tasks t <;> cases h3 : task_cancelled s1.tasks t <;>
            cases h4 : gen_flag s.tasks t <;> simp_all
      · rw [e]; exact Nat.zero_le _
    · exact le_refl _

theorem queueOk_of_eq {s s1 : State} (h : QueueOk s) (hq : s1.loader_queue = s.loader_queue)
    (hc : s1.cur_loading = s.cur_loading) (hl : s1.tasks.length = s.tasks.length) :
    QueueOk s1 := by
  unfold QueueOk at *
  rw [hq, hc, hl]; exact h

theorem budget_of_le {k : Nat → Nat} {s s1 : State} (h : Budget k s) (hj : QueueOk s1)
    (hle : ∀ t, pops_left s1 t ≤ pops_left s t) : Budget k s1 :=
  ⟨hj, fun t => le_trans (Nat.add_le_add_left (hle t) _) (h.2 t)⟩

theorem budget_congr {k : Nat → Nat} {s s1 : State} (h : Budget k s)
    (hq : s1.loader_queue = s.loader_queue) (hc : s1.cur_loading = s.cur_loading)
    (hpc : s1.worker_pc = s.worker_pc ∨ s1.worker_pc = WorkerPc.pop)
    (hl : s1.tasks.length = s.tasks.length)
    (hg : ∀ t, gen_flag s1.tasks t = gen_flag s.tasks t)
    (hcan : ∀ t, task_cancelled s.tasks t = true → task_cancelled s1.tasks t = true) :
    Budget k s1 :=
  budget_of_le h (queueOk_of_eq h.1 hq hc hl) (pops_left_mono s s1 hq hc hpc hl hg hcan)

theorem budget_same_tasks {k : Nat → Nat} {s s1 : State} (h : Budget k s)
    (hq : s1.loader_queue = s.loader_queue) (hc : s1.cur_loading = s.cur_loading)
    (hpc : s1.worker_pc = s.worker_pc) (ht : s1.tasks = s.tasks) : Budget k s1 :=
  budget_congr h hq hc (Or.inl hpc) (by rw [ht]) (fun t => by rw [ht]) (fun t => by rw [ht]; exact id)

theorem cancel_tasks (s : State) (req : Nat) :
    (fm_thumbnail_loader_cancel s req).worker_pc = s.worker_pc ∧
    ((fm_thumbnail_loader_cancel s req).tasks = s.tasks ∨
     ∃ t1, (fm_thumbnail_loader_cancel s req).tasks
       = heapMod s.tasks t1 (fun k => { k with cancelled := true })) := by
  unfold fm_thumbnail_loader_cancel
  split
  · exact ⟨rfl, Or.inl rfl⟩
  · dsimp only
    split
    · exact ⟨rfl, Or.inl rfl⟩
    · split
      · exact ⟨rfl, Or.inl rfl⟩
      · split
        · split
          · exact ⟨rfl, Or.inl rfl⟩
          · split
            · exact ⟨rfl, Or.inr ⟨_, rfl⟩⟩
            · exact ⟨rfl, Or.inr ⟨_, rfl⟩⟩
        · exact ⟨rfl, Or.inl rfl⟩

theorem cancel_budget {k : Nat → Nat} (s : State) (req : Nat) (h : Budget k s) :
    Budget k (fm_thumbnail_loader_cancel s req) := by
  obtain ⟨hq1, hq, _, _, hc, _⟩ := cancel_frame s req
  obtain ⟨hpc, ht | ⟨t1, ht⟩⟩ := cancel_tasks s req
  · exact budget_same_tasks h hq hc hpc ht
  · refine budget_congr h hq hc (Or.inl hpc) ?_ ?_ ?_
    · rw [ht, length_heapMod]
    · intro t; rw [ht]; exact gen_flag_heapMod _ _ _ _ (fun _ => ⟨rfl, rfl⟩)
    · intro t hcn; rw [ht]; exact task_cancelled_heapMod _ _ _ _ (fun _ _ => rfl) hcn

theorem gen_flag_append (tasks : List (Option ThumbnailTask)) (x : Option ThumbnailTask) (t : Nat)
    (h : t < tasks.length) : gen_flag (tasks ++ [x]) t = gen_flag tasks t := by
  unfold gen_flag
  rw [heapGet_append_of_lt _ _ _ h]

theorem task_cancelled_append (tasks : List (Option ThumbnailTask)) (x : Option ThumbnailTask)
    (t : Nat) (h : t < tasks.length) :
    task_cancelled (tasks ++ [x]) t = task_cancelled tasks t := by
  unfold task_cancelled
  rw [heapGet_append_of_lt _ _ _ h]

theorem budget_new_task {k : Nat → Nat} (s : State) (fi : FmFileInfo) (h : Budget k s) :
    Budget k { s with tasks := s.tasks ++ [some (new_task fi)],
                      loader_queue := s.loader_queue ++ [s.tasks.length] } := by
  obtain ⟨⟨hn, hlt, hcur⟩, hb⟩ := h
  have hlen : s.tasks.length ∉ s.loader_queue := fun hm => Nat.lt_irrefl _ (hlt _ hm)
  refine ⟨⟨?_, ?_, ?_⟩, fun t => le_trans (Nat.add_le_add_left ?_ _) (hb t)⟩
  · refine List.nodup_append.mpr ⟨hn, List.nodup_singleton _, ?_⟩
    intro x hx hx1
    rw [List.mem_singleton] at hx1
    exact hlen (hx1 ▸ hx)
  · intro t ht
    show t < (s.tasks ++ [some (new_task fi)]).length
    rw [List.length_append, List.length_singleton]
    rcases List.mem_append.mp ht with h1 | h1
    · exact Nat.lt_succ_of_lt (hlt t h1)
    · rw [List.mem_singleton] at h1
      rw [h1]; exact Nat.lt_succ_self _
  · intro t ht
    obtain ⟨h1, h2⟩ := hcur t ht
    refine ⟨?_, ?_⟩
    · show t < (s.tasks ++ [some (new_task fi)]).length
      rw [List.length_append, List.length_singleton]; omega
    · intro hm
      rcases List.mem_append.mp hm with h3 | h3
      · exact h2 h3
      · rw [List.mem_singleton] at h3; omega
  · unfold pops_left
    dsimp only
    by_cases hq : t ∈ s.loader_queue
    · rw [if_pos (List.mem_append_left _ hq), if_pos hq, gen_flag_append _ _ _ (hlt t hq)]
    · by_cases ht : t = s.tasks.length
      · have hc : s.cur_loading ≠ some t := fun hc => by
          have := (hcur t hc).1; omega
        rw [if_pos (by rw [ht]; exact List.mem_append_right _ (List.mem_singleton_self _)),
          if_neg hq, if_neg hc, if_neg (show ¬ t < s.tasks.length by omega)]
        split <;> omega
      · have hq1 : t ∉ s.loader_queue ++ [s.tasks.length] := by
          intro hm
          rcases List.mem_append.mp hm with h3 | h3
          · exact hq h3
          · rw [List.mem_singleton] at h3; exact ht h3
        rw [if_neg hq1, if_neg hq]
        by_cases hc : s.cur_loading = some t
        · rw [if_pos hc, if_pos hc, gen_flag_append _ _ _ (hcur t hc).1,
            task_cancelled_append _ _ _ (hcur t hc).1]
        · rw [if_neg hc, if_neg hc]
          have e : (t < (s.tasks ++ [some (new_task fi)]).length) ↔ t < s.tasks.length := by
            rw [List.length_append, List.length_singleton]; omega
          simp only [e]
          exact le_refl _

theorem gen_flag_attach (tasks : List (Option ThumbnailTask)) (i t size req : Nat) :
    gen_flag (heapMod tasks i (attach_request size req)) t = gen_flag tasks t := by
  apply gen_flag_heapMod
  intro k
  unfold attach_request add_load_flag
  dsimp only
  split <;> exact ⟨rfl, rfl⟩

theorem load_budget {k : Nat → Nat} (s : State) (f : FmFileInfo) (size cb ud : Nat)
    (h : Budget k s) : Budget k (fm_thumbnail_loader_load s f size cb ud).1 := by
  unfold fm_thumbnail_loader_load
  split
  · exact h
  · dsimp only
    split
    · exact budget_same_tasks h rfl rfl rfl rfl
    · have hpc : (if s.loader_thread_id = true then s.worker_pc else WorkerPc.pop) = s.worker_pc ∨
          (if s.loader_thread_id = true then s.worker_pc else WorkerPc.pop) = WorkerPc.pop := by
        split
        · exact Or.inl rfl
        · exact Or.inr rfl
      cases hfound : find_queued_task s.tasks s.loader_queue f with
      | some t1 =>
        simp only [Option.isSome_some, Option.getD_some, if_true]
        refine budget_congr h rfl rfl hpc (length_heapMod _ _ _) ?_ ?_
        · exact fun t => gen_flag_attach _ _ _ _ _
        · exact fun t hcn => task_cancelled_heapMod _ _ _ _ (fun _ hk => hk) hcn
      | none =>
        simp only [Option.isSome_none, Option.getD_none, Bool.false_eq_true, if_false]
        refine budget_congr (budget_new_task s f h) rfl rfl hpc (length_heapMod _ _ _) ?_ ?_
        · exact fun t => gen_flag_attach _ _ _ _ _
        · exact fun t hcn => task_cancelled_heapMod _ _ _ _ (fun _ hk => hk) hcn

/-- A pop uses up one of the pops left to the popped task. -/
theorem worker_pop_budget {k : Nat → Nat} (s : State) (h : Budget k s) :
    Budget (fun t => k t + (if s.loader_queue.head? = some t then 1 else 0)) (worker_pop s) := by
  obtain ⟨⟨hn, hlt, hcur⟩, hb⟩ := h
  unfold worker_pop
  cases hq : s.loader_queue with
  | nil =>
    dsimp only
    refine ⟨⟨List.nodup_nil, ?_, ?_⟩, fun t => ?_⟩
    · intro t ht; cases ht
    · intro t ht; cases ht
    · have hbt := hb t
      unfold pops_left at hbt ⊢
      simp only [hq, List.not_mem_nil, if_false, List.head?_nil, Nat.add_zero] at hbt ⊢
      rw [if_neg (show ¬ (none : Option Nat) = some t by simp),
        if_neg (show ¬ (none : Option Nat) = some t by simp)]
      by_cases hc : s.cur_loading = some t
      · rw [if_pos (hcur t hc).1]; omega
      · rw [if_neg hc] at hbt; exact hbt
  | cons t0 rest =>
    dsimp only
    rw [hq] at hn hlt
    have hn1 := (List.nodup_cons.mp hn)
    refine ⟨⟨hn1.2, ?_, ?_⟩, fun t => ?_⟩
    · intro t ht
      show t < (heapMod s.tasks t0 _).length
      rw [length_heapMod]
      exact hlt t (List.mem_cons_of_mem _ ht)
    · intro t ht
      simp only [Option.some.injEq] at ht
      subst ht
      refine ⟨?_, hn1.1⟩
      show t0 < (heapMod s.tasks t0 _).length
      rw [length_heapMod]
      exact hlt t0 (List.mem_cons_self _ _)
    · have hbt := hb t
      have hg : gen_flag (heapMod s.tasks t0 (fun k => { k with locked := true })) t
          = gen_flag s.tasks t := gen_flag_heapMod _ _ _ _ (fun _ => ⟨rfl, rfl⟩)
      unfold pops_left at hbt ⊢
      simp only [hq, List.head?_cons, Option.some.injEq, length_heapMod, hg] at hbt ⊢
      by_cases ht : t0 = t
      · subst ht
        rw [if_pos (List.mem_cons_self _ _)] at hbt
        rw [if_neg hn1.1]
        simp only [if_true]
        split at hbt <;> simp_all
      · rw [if_neg ht, if_neg (fun e => ht e)]
        by_cases hm : t ∈ rest
        · rw [if_pos (List.mem_cons_of_mem _ hm)] at hbt
          rw [if_pos hm]
          exact hbt
        · have hm0 : t ∉ t0 :: rest := by
            intro hx
            rcases List.mem_cons.mp hx with e | e
            · exact ht e.symm
            · exact hm e
          rw [if_neg hm0] at hbt
          rw [if_neg hm]
          by_cases hc : s.cur_loading = some t
          · rw [if_pos (hcur t hc).1]; omega
          · rw [if_neg hc] at hbt; exact hbt

theorem touchesOnly_refl (t : Nat) (s : State) : TouchesOnly t s s :=
  ⟨rfl, rfl, rfl, fun _ _ => rfl, rfl⟩

theorem touchesOnly_trans {t : Nat} {a b c : State} (h1 : TouchesOnly t a b)
    (h2 : TouchesOnly t b c) : TouchesOnly t a c :=
  ⟨h2.1.trans h1.1, h2.2.1.trans h1.2.1, h2.2.2.1.trans h1.2.2.1,
    fun i hi => (h2.2.2.2.1 i hi).trans (h1.2.2.2.1 i hi), h2.2.2.2.2.trans h1.2.2.2.2⟩

theorem touchesOnly_heapMod (t : Nat) (s s1 : State) (f : ThumbnailTask → ThumbnailTask)
    (ht : s1.tasks = heapMod s.tasks t f) (hq : s1.loader_queue = s.loader_queue)
    (hc : s1.cur_loading = s.cur_loading) : TouchesOnly t s s1 := by
  refine ⟨hq, hc, ?_, fun i hi => ?_, ?_⟩
  · rw [ht, length_heapMod]
  · rw [ht, heapGet_heapMod, if_neg hi]
  · rw [ht, heapGet_heapMod, if_pos rfl, Option.isSome_map']

theorem thumbnail_task_finish_touches (B : FmThumbnailLoaderBackend) (s : State) (t : Nat)
    (n l : Option GObject) : TouchesOnly t s (thumbnail_task_finish B s t n l) := by
  cases ht : heapGet s.tasks t with
  | none =>
    have : thumbnail_task_finish B s t n l = s := by
      unfold thumbnail_task_finish
      rw [ht]
    rw [this]
    exact touchesOnly_refl t s
  | some task =>
    obtain ⟨h1, _, h3, h4, _⟩ := thumbnail_task_finish_frame B s t task n l ht
    exact touchesOnly_heapMod t s _ _ h1 h3 h4

theorem load_thumbnails_touches (B : FmThumbnailLoaderBackend) (env : WorkerEnv) (s : State)
    (t : Nat) : TouchesOnly t s (load_thumbnails B env s t) := by
  unfold load_thumbnails
  split
  · exact touchesOnly_refl t s
  · split
    · exact touchesOnly_refl t s
    · simp only
      split
      · exact touchesOnly_heapMod t s _ _ rfl rfl rfl
      · refine touchesOnly_trans ?_ (thumbnail_task_finish_touches B _ _ _ _)
        exact touchesOnly_heapMod t s _ _ rfl rfl rfl

theorem task_cancelled_set (tasks : List (Option ThumbnailTask)) (t : Nat)
    (f : ThumbnailTask → ThumbnailTask) (hf : ∀ k, (f k).cancelled = true) :
    task_cancelled (heapMod tasks t f) t = true := by
  unfold task_cancelled
  rw [heapGet_heapMod, if_pos rfl]
  cases heapGet tasks t with
  | none => rfl
  | some k => exact hf k

theorem generate_thumbnails_touches (B : FmThumbnailLoaderBackend) (env : WorkerEnv) (s : State)
    (t : Nat) : TouchesOnly t s (generate_thumbnails B env s t) ∧
      task_cancelled (generate_thumbnails B env s t).tasks t = true := by
  unfold generate_thumbnails
  cases ht : heapGet s.tasks t with
  | none =>
    refine ⟨touchesOnly_refl t s, ?_⟩
    show task_cancelled s.tasks t = true
    unfold task_cancelled
    rw [ht]
  | some task =>
    dsimp only
    refine ⟨?_, task_cancelled_set _ _ _ (fun _ => rfl)⟩
    refine touchesOnly_trans ?_ (touchesOnly_heapMod t _ _ _ rfl rfl rfl)
    split
    · split
      · unfold generate_thumbnails_with_builtin
        split
        · exact touchesOnly_refl t s
        · split <;> exact thumbnail_task_finish_touches B _ _ _ _
      · exact touchesOnly_refl t s
    · unfold generate_thumbnails_with_thumbnailers
      split
      · exact touchesOnly_refl t s
      · exact thumbnail_task_finish_touches B _ _ _ _

/-- What `worker_run` does to the tasks, for a live task in the processing slot: no
other task changes, and after a generate cycle the task is cancelled. -/
theorem worker_run_touches (B : FmThumbnailLoaderBackend) (env : WorkerEnv) (s : State)
    (t : Nat) (task : ThumbnailTask) (hc : s.cur_loading = some t)
    (ht : heapGet s.tasks t = some task) :
    TouchesOnly t s (worker_run B env s) ∧
    (worker_run B env s).worker_pc = WorkerPc.requeue ∧
    (gen_flag s.tasks t = true → task_cancelled (worker_run B env s).tasks t = true) := by
  unfold worker_run
  rw [hc]
  dsimp only
  rw [ht]
  dsimp only
  refine ⟨?_, rfl, fun hg => ?_⟩
  · refine touchesOnly_trans ?_ (touchesOnly_heapMod t _ _ _ rfl rfl rfl)
    split
    · refine touchesOnly_trans ?_ (generate_thumbnails_touches B env _ t).1
      exact touchesOnly_heapMod t s _ _ rfl rfl hc.symm
    · refine touchesOnly_trans ?_ (load_thumbnails_touches B env _ t)
      exact touchesOnly_heapMod t s _ _ rfl rfl hc.symm
  · have hgen : task.flags.generate_normal = true ∨ task.flags.generate_large = true := by
      unfold gen_flag at hg
      rw [ht] at hg
      simpa using hg
    rw [if_pos hgen]
    exact task_cancelled_heapMod _ _ _ _ (fun _ hk => hk) (generate_thumbnails_touches B env _ t).2

theorem gen_flag_congr {a b : List (Option ThumbnailTask)} {t : Nat}
    (h : heapGet b t = heapGet a t) : gen_flag b t = gen_flag a t := by
  unfold gen_flag; rw [h]

theorem task_cancelled_congr {a b : List (Option ThumbnailTask)} {t : Nat}
    (h : heapGet b t = heapGet a t) : task_cancelled b t = task_cancelled a t := by
  unfold task_cancelled; rw [h]

theorem worker_run_budget {k : Nat → Nat} (B : FmThumbnailLoaderBackend) (env : WorkerEnv)
    (s : State) (h : Budget k s) (hpc : s.worker_pc = WorkerPc.run) :
    Budget k (worker_run B env s) := by
  cases hc : s.cur_loading with
  | none =>
    have : worker_run B env s = s := by
      unfold worker_run; rw [hc]
    rw [this]; exact h
  | some t0 =>
    cases ht : heapGet s.tasks t0 with
    | none =>
      have : worker_run B env s = s := by
        unfold worker_run; rw [hc]; dsimp only; rw [ht]
      rw [this]; exact h
    | some task =>
      obtain ⟨⟨hq, hcu, hl, hoth, _⟩, hpc1, hcan⟩ := worker_run_touches B env s t0 task hc ht
      refine budget_of_le h (queueOk_of_eq h.1 hq hcu hl) (fun t => ?_)
      unfold pops_left
      rw [hq, hcu, hl, hpc1, hpc, hc]
      by_cases hm : t ∈ s.loader_queue
      · have hne : t ≠ t0 := fun e => (h.1.2.2 t0 hc).2 (e ▸ hm)
        rw [if_pos hm, if_pos hm, gen_flag_congr (hoth t hne)]
      · rw [if_neg hm, if_neg hm]
        by_cases he : t0 = t
        · subst he
          rw [if_pos rfl, if_pos rfl]
          dsimp only
          cases hg : gen_flag s.tasks t0 with
          | true =>
            rw [hcan hg]
            simp
          | false =>
            simp only [Bool.false_eq_true, if_false]
            split <;> omega
        · have hne : ¬ some t0 = some t := by simpa using he
          rw [if_neg hne, if_neg hne]

theorem task_free_fold_pc (rs : List Nat) : ∀ s : State,
    (rs.foldl (fun (st : State) (req : Nat) =>
      { st with reqs := heapMod st.reqs req (fun q => { q with task := none }),
                ready_queue := st.ready_queue ++ [req],
                ready_idle_handler := arm_idle st.ready_idle_handler }) s).worker_pc
      = s.worker_pc := by
  induction rs with
  | nil => exact fun s => rfl
  | cons r rs ih =>
    intro s
    rw [List.foldl_cons]
    exact ih _

theorem thumbnail_task_free_pc (s : State) (t : Nat) :
    (thumbnail_task_free s t).worker_pc = s.worker_pc := by
  unfold thumbnail_task_free
  split
  · rfl
  · exact task_free_fold_pc _ s

theorem free_budget {k : Nat → Nat} (s : State) (t : Nat) (h : Budget k s)
    (hq : t ∉ s.loader_queue) (hc : s.cur_loading ≠ some t) :
    Budget k (thumbnail_task_free s t) := by
  cases ht : heapGet s.tasks t with
  | none =>
    have : thumbnail_task_free s t = s := by
      unfold thumbnail_task_free
      rw [ht]
    rw [this]; exact h
  | some task =>
    obtain ⟨_, h2, h3, h4, _⟩ := thumbnail_task_free_frame s t task ht
    have hl : (thumbnail_task_free s t).tasks.length = s.tasks.length := by
      rw [h2, length_heapFree]
    refine budget_of_le h (queueOk_of_eq h.1 h3 h4 hl) (fun i => ?_)
    unfold pops_left
    rw [h3, h4, hl, thumbnail_task_free_pc, h2]
    have hoth : ∀ j, j ≠ t → heapGet (heapFree s.tasks t) j = heapGet s.tasks j := by
      intro j hj
      rw [heapGet_heapFree, if_neg hj]
    by_cases hm : i ∈ s.loader_queue
    · have hne : i ≠ t := fun e => hq (e ▸ hm)
      rw [if_pos hm, if_pos hm, gen_flag_congr (hoth i hne)]
    · rw [if_neg hm, if_neg hm]
      by_cases he : s.cur_loading = some i
      · have hne : i ≠ t := fun e => hc (e ▸ he)
        rw [if_pos he, if_pos he, gen_flag_congr (hoth i hne), task_cancelled_congr (hoth i hne)]
      · rw [if_neg he, if_neg he]

theorem budget_clear_cur {k : Nat → Nat} (s : State) (g : Option Bool) (h : Budget k s) :
    Budget k { s with cur_loading := none, generator_cancellable := g,
                      worker_pc := WorkerPc.pop } := by
  obtain ⟨⟨hn, hlt, hcur⟩, hb⟩ := h
  refine ⟨⟨hn, hlt, fun t ht => by cases ht⟩, fun t => le_trans (Nat.add_le_add_left ?_ _) (hb t)⟩
  unfold pops_left
  dsimp only
  by_cases hm : t ∈ s.loader_queue
  · rw [if_pos hm, if_pos hm]
  · rw [if_neg hm, if_neg hm, if_neg (show ¬ (none : Option Nat) = some t by simp)]
    by_cases he : s.cur_loading = some t
    · rw [if_pos (hcur t he).1]; exact Nat.zero_le _
    · rw [if_neg he]

theorem worker_requeue_budget {k : Nat → Nat} (s : State) (h : Budget k s)
    (hpc : s.worker_pc = WorkerPc.requeue) : Budget k (worker_requeue s) := by
  cases hc : s.cur_loading with
  | none =>
    have : worker_requeue s = s := by
      unfold worker_requeue; rw [hc]
    rw [this]; exact h
  | some t0 =>
    have hclear := budget_clear_cur s (s.generator_cancellable.map (fun _ => false)) h
    obtain ⟨h0lt, h0q⟩ := h.1.2.2 t0 hc
    cases ht : heapGet s.tasks t0 with
    | none =>
      have : worker_requeue s =
          { s with
            cur_loading := none,
            generator_cancellable := s.generator_cancellable.map (fun _ => false),
            worker_pc := WorkerPc.pop } := by
        unfold worker_requeue; rw [hc]; dsimp only; rw [ht]
      rw [this]; exact hclear
    | some task =>
      by_cases hcond : task.cancelled = true ∨
          (¬ task.flags.generate_normal = true ∧ ¬ task.flags.generate_large = true)
      · have : worker_requeue s = thumbnail_task_free
            { s with
              cur_loading := none,
              generator_cancellable := s.generator_cancellable.map (fun _ => false),
              worker_pc := WorkerPc.pop } t0 := by
          unfold worker_requeue; rw [hc]; dsimp only; rw [ht]; dsimp only; rw [if_pos hcond]
        rw [this]
        exact free_budget _ t0 hclear h0q (by simp)
      · have : worker_requeue s =
            { s with
              cur_loading := none,
              generator_cancellable := s.generator_cancellable.map (fun _ => false),
              worker_pc := WorkerPc.pop,
              loader_queue := s.loader_queue ++ [t0] } := by
          unfold worker_requeue; rw [hc]; dsimp only; rw [ht]; dsimp only; rw [if_neg hcond]
        rw [this]
        obtain ⟨⟨hn, hlt, hcur⟩, hb⟩ := h
        have hcn : task_cancelled s.tasks t0 = false := by
          unfold task_cancelled; rw [ht]
          cases hx : task.cancelled with
          | true => exact absurd (Or.inl hx) hcond
          | false => exact hx
        have hgf : gen_flag s.tasks t0 = true := by
          unfold gen_flag; rw [ht]
          cases hx : task.flags.generate_normal <;> cases hy : task.flags.generate_large <;>
            simp_all
        refine ⟨⟨?_, ?_, fun t ht => by cases ht⟩,
          fun t => le_trans (Nat.add_le_add_left ?_ _) (hb t)⟩
        · refine List.nodup_append.mpr ⟨hn, List.nodup_singleton _, ?_⟩
          intro x hx hx1
          rw [List.mem_singleton] at hx1
          exact h0q (hx1 ▸ hx)
        · intro t ht1
          rcases List.mem_append.mp ht1 with h1 | h1
          · exact hlt t h1
          · rw [List.mem_singleton] at h1
            rw [h1]; exact h0lt
        · unfold pops_left
          dsimp only
          rw [hc, hpc]
          by_cases hm : t ∈ s.loader_queue
          · rw [if_pos (List.mem_append_left _ hm), if_pos hm]
          · by_cases he : t = t0
            · subst he
              rw [if_pos (List.mem_append_right _ (List.mem_singleton_self _)), if_neg hm,
                if_pos rfl, hgf, hcn]
              decide
            · have hm1 : t ∉ s.loader_queue ++ [t0] := by
                intro hx
                rcases List.mem_append.mp hx with h1 | h1
                · exact hm h1
                · rw [List.mem_singleton] at h1; exact he h1
              have hne : ¬ some t0 = some t := by
                simp only [Option.some.injEq]; exact fun e => he e.symm
              rw [if_neg hm1, if_neg hm, if_neg hne,
                if_neg (show ¬ (none : Option Nat) = some t by simp)]

theorem budget_drop_queue {k : Nat → Nat} (s : State) (g : Option Bool) (h : Budget k s) :
    Budget k { s with generator_cancellable := g, loader_queue := [] } := by
  obtain ⟨⟨hn, hlt, hcur⟩, hb⟩ := h
  refine ⟨⟨List.nodup_nil, (fun t ht => by cases ht), fun t ht => ⟨(hcur t ht).1, by simp⟩⟩,
    fun t => le_trans (Nat.add_le_add_left ?_ _) (hb t)⟩
  unfold pops_left
  dsimp only
  rw [if_neg (List.not_mem_nil t)]
  by_cases hm : t ∈ s.loader_queue
  · have hne : s.cur_loading ≠ some t := fun e => (hcur t e).2 hm
    rw [if_pos hm, if_neg hne, if_pos (hlt t hm)]
    exact Nat.zero_le _
  · rw [if_neg hm]

theorem finalize_fold_budget {k : Nat → Nat} (q : List Nat) : ∀ s : State, Budget k s →
    (∀ t ∈ q, t ∉ s.loader_queue ∧ s.cur_loading ≠ some t) →
    Budget k (q.foldl thumbnail_task_free s) := by
  induction q with
  | nil => exact fun s h _ => h
  | cons t q ih =>
    intro s h hq
    rw [List.foldl_cons]
    obtain ⟨_, h2, h3⟩ := thumbnail_task_free_tame s t
    refine ih _ (free_budget s t h (hq t (List.mem_cons_self _ _)).1
      (hq t (List.mem_cons_self _ _)).2) (fun i hi => ?_)
    rw [h2, h3]
    exact hq i (List.mem_cons_of_mem _ hi)

theorem finalize_budget {k : Nat → Nat} (s : State) (h : Budget k s) :
    Budget k (_fm_thumbnail_loader_finalize s) := by
  have h1 : Budget k (match s.cur_loading with
      | some task => { s with tasks := heapMod s.tasks task (fun k => { k with cancelled := true }) }
      | none => s) ∧
      (match s.cur_loading with
      | some task => { s with tasks := heapMod s.tasks task (fun k => { k with cancelled := true }) }
      | none => s).loader_queue = s.loader_queue ∧
      (match s.cur_loading with
      | some task => { s with tasks := heapMod s.tasks task (fun k => { k with cancelled := true }) }
      | none => s).cur_loading = s.cur_loading := by
    split
    · refine ⟨budget_congr h rfl rfl (Or.inl rfl) (length_heapMod _ _ _) ?_ ?_, rfl, rfl⟩
      · exact fun t => gen_flag_heapMod _ _ _ _ (fun _ => ⟨rfl, rfl⟩)
      · exact fun t hcn => task_cancelled_heapMod _ _ _ _ (fun _ _ => rfl) hcn
    · exact ⟨h, rfl, rfl⟩
  have e : _fm_thumbnail_loader_finalize s
      = (fun s1 : State =>
          { (s1.loader_queue.foldl thumbnail_task_free
              { s1 with generator_cancellable := s1.generator_cancellable.map (fun _ => true),
                        loader_queue := [] }) with
            cleanup_timers := (s1.loader_queue.foldl thumbnail_task_free
              { s1 with generator_cancellable := s1.generator_cancellable.map (fun _ => true),
                        loader_queue := [] }).cleanup_timers + 1 })
        (match s.cur_loading with
          | some task =>
            { s with tasks := heapMod s.tasks task (fun k => { k with cancelled := true }) }
          | none => s) := rfl
  rw [e]
  generalize (match s.cur_loading with
      | some task => { s with tasks := heapMod s.tasks task (fun k => { k with cancelled := true }) }
      | none => s) = s1 at h1
  obtain ⟨hb1, hq1, hc1⟩ := h1
  refine budget_same_tasks (finalize_fold_budget s1.loader_queue _
    (budget_drop_queue s1 _ hb1) (fun t ht => ⟨List.not_mem_nil t, ?_⟩)) rfl rfl rfl rfl
  show s1.cur_loading ≠ some t
  intro hx
  exact (hb1.1.2.2 t hx).2 ht

/-- The budget of pops is kept by every sequence of events. -/
theorem run_budget {k : Nat → Nat} (B : FmThumbnailLoaderBackend) (prog : Nat → List Call)
    (es : List Event) (s : State) (h : Budget k s) : Budget k (run B prog s es) := by
  refine run_invariant B prog (Budget k) (fun _ s => Budget k s)
    ?_ ?_ ?_ ?_ ?_ ?_ ?_ ?_ ?_ ?_ ?_ ?_ ?_ ?_ ?_ es s h
  · exact fun s f size cb ud h => load_budget s f size cb ud h
  · exact fun s r h => cancel_budget s r h
  · intro s h _
    exact ⟨(worker_pop_budget s h).1, fun t =>
      le_trans (Nat.add_le_add_right (Nat.le_add_right _ _) _) ((worker_pop_budget s h).2 t)⟩
  · exact fun env s h hpc => worker_run_budget B env s h hpc
  · exact fun s h hpc => worker_requeue_budget s h hpc
  · exact fun s _ _ h => budget_same_tasks h rfl rfl rfl rfl
  · exact fun s h => finalize_budget s h
  · intro s h
    unfold fm_thumbnail_loader_cleanup
    split
    · exact h
    · exact budget_same_tasks h rfl rfl rfl rfl
  · exact fun s _ h => budget_same_tasks h rfl rfl rfl rfl
  · exact fun s h => budget_same_tasks h rfl rfl rfl rfl
  · exact fun s _ _ h _ => budget_same_tasks h rfl rfl rfl rfl
  · exact fun _ s _ h => budget_same_tasks h rfl rfl rfl rfl
  · exact fun _ s f size cb ud h => load_budget s f size cb ud h
  · exact fun _ s q h => cancel_budget s q h
  · exact fun _ s h => budget_same_tasks h rfl rfl rfl rfl

theorem pop_trace_budget (B : FmThumbnailLoaderBackend) (prog : Nat → List Call)
    (es : List Event) : ∀ (s : State) (k : Nat → Nat), Budget k s →
    ∀ t, k t + (pop_trace B prog s es).count t ≤ 2 := by
  induction es with
  | nil =>
    intro s k h t
    have := h.2 t
    simp only [pop_trace, List.count_nil]
    omega
  | cons e es ih =>
    intro s k h t
    rw [pop_trace, List.count_append]
    cases hp : popped s e with
    | none =>
      have hs : Budget k (step B prog s e) := run_budget B prog [e] s h
      have := ih _ k hs t
      simp only [Option.toList, List.count_nil]
      omega
    | some t0 =>
      cases e with
      | worker_pop =>
        simp only [popped] at hp
        split at hp
        · next hg =>
          have hstep : step B prog s Event.worker_pop = worker_pop s := by
            simp only [step]; rw [if_pos hg]
          rw [hstep]
          have := ih _ _ (worker_pop_budget s h) t
          rw [hp] at this
          simp only [Option.toList, List.count_cons, List.count_nil, Option.some.injEq] at this ⊢
          by_cases he : t0 = t
          · simp only [he, if_true, beq_self_eq_true] at this ⊢
            omega
          · have hb : (t0 == t) = false := by simpa using he
            simp only [he, if_false, hb, Bool.false_eq_true] at this ⊢
            omega
        · cases hp
      | load _ _ _ _ => simp [popped] at hp
      | cancel _ => simp [popped] at hp
      | worker_run _ => simp [popped] at hp
      | worker_requeue => simp [popped] at hp
      | idle => simp [popped] at hp
      | pixbuf_destroy _ _ => simp [popped] at hp
      | finalize => simp [popped] at hp
      | cleanup => simp [popped] at hp

/-- C24: every task is popped by the loader thread at most twice.  In every run from
the initialised engine no task occurs more than twice among the tasks popped from
the loader queue.  When the thread is done with a cycle of a live task `t`, the task
is pushed back at the tail of the loader queue exactly when it is not cancelled and
a `GENERATE_*` flag is set; otherwise it is freed and its requests are appended to
the ready queue.  A cycle that starts with a `GENERATE_*` flag set (the generate
cycle) leaves the task cancelled, so the task is then freed and the loader queue
is as before the cycle. -/
theorem task_popped_at_most_twice (B : FmThumbnailLoaderBackend) (prog : Nat → List Call)
    (es : List Event) (t : Nat) :
    (pop_trace B prog initialised es).count t ≤ 2 ∧
    (∀ (s : State) (task : ThumbnailTask), s.cur_loading = some t →
      heapGet s.tasks t = some task →
      ((task.cancelled = false ∧
          (task.flags.generate_normal = true ∨ task.flags.generate_large = true) →
        (worker_requeue s).loader_queue = s.loader_queue ++ [t] ∧
        (worker_requeue s).tasks = s.tasks ∧
        (worker_requeue s).ready_queue = s.ready_queue ∧
        (worker_requeue s).cur_loading = none) ∧
       (¬ (task.cancelled = false ∧
          (task.flags.generate_normal = true ∨ task.flags.generate_large = true)) →
        (worker_requeue s).loader_queue = s.loader_queue ∧
        heapGet (worker_requeue s).tasks t = none ∧
        (worker_requeue s).ready_queue = s.ready_queue ++ task.requests ∧
        (worker_requeue s).cur_loading = none))) ∧
    (∀ (env : WorkerEnv) (s : State) (task : ThumbnailTask), s.cur_loading = some t →
      heapGet s.tasks t = some task →
      task.flags.generate_normal = true ∨ task.flags.generate_large = true →
      (∃ task1, heapGet (worker_run B env s).tasks t = some task1 ∧ task1.cancelled = true ∧
        (worker_requeue (worker_run B env s)).ready_queue
          = (worker_run B env s).ready_queue ++ task1.requests) ∧
      (worker_requeue (worker_run B env s)).loader_queue = s.loader_queue ∧
      heapGet (worker_requeue (worker_run B env s)).tasks t = none) := by
  have hrule : ∀ (s : State) (task : ThumbnailTask), s.cur_loading = some t →
      heapGet s.tasks t = some task →
      ((task.cancelled = false ∧
          (task.flags.generate_normal = true ∨ task.flags.generate_large = true) →
        (worker_requeue s).loader_queue = s.loader_queue ++ [t] ∧
        (worker_requeue s).tasks = s.tasks ∧
        (worker_requeue s).ready_queue = s.ready_queue ∧
        (worker_requeue s).cur_loading = none) ∧
       (¬ (task.cancelled = false ∧
          (task.flags.generate_normal = true ∨ task.flags.generate_large = true)) →
        (worker_requeue s).loader_queue = s.loader_queue ∧
        heapGet (worker_requeue s).tasks t = none ∧
        (worker_requeue s).ready_queue = s.ready_queue ++ task.requests ∧
        (worker_requeue s).cur_loading = none)) := by
    intro s task hc ht
    by_cases hcond : task.cancelled = true ∨
        (¬ task.flags.generate_normal = true ∧ ¬ task.flags.generate_large = true)
    · have e : worker_requeue s = thumbnail_task_free
          { s with
            cur_loading := none,
            generator_cancellable := s.generator_cancellable.map (fun _ => false),
            worker_pc := WorkerPc.pop } t := by
        unfold worker_requeue; rw [hc]; dsimp only; rw [ht]; dsimp only; rw [if_pos hcond]
      refine ⟨fun h => ?_, fun _ => ?_⟩
      · rcases hcond with h1 | h1
        · rw [h.1] at h1; cases h1
        · rcases h.2 with h2 | h2
          · exact absurd h2 h1.1
          · exact absurd h2 h1.2
      · obtain ⟨f1, f2, f3, f4, _⟩ := thumbnail_task_free_frame
          { s with
            cur_loading := none,
            generator_cancellable := s.generator_cancellable.map (fun _ => false),
            worker_pc := WorkerPc.pop } t task ht
        rw [e]
        refine ⟨f3, ?_, f1, f4⟩
        rw [f2, heapGet_heapFree, if_pos rfl]
    · have e : worker_requeue s =
          { s with
            cur_loading := none,
            generator_cancellable := s.generator_cancellable.map (fun _ => false),
            worker_pc := WorkerPc.pop,
            loader_queue := s.loader_queue ++ [t] } := by
        unfold worker_requeue; rw [hc]; dsimp only; rw [ht]; dsimp only; rw [if_neg hcond]
      refine ⟨fun _ => ?_, fun h => ?_⟩
      · rw [e]; exact ⟨rfl, rfl, rfl, rfl⟩
      · exfalso
        apply h
        refine ⟨?_, ?_⟩
        · cases hx : task.cancelled with
          | true => exact absurd (Or.inl hx) hcond
          | false => rfl
        · by_contra hg
          exact hcond (Or.inr ⟨fun h1 => hg (Or.inl h1), fun h1 => hg (Or.inr h1)⟩)
  refine ⟨?_, hrule, ?_⟩
  · have h0 : Budget (fun _ => 0) initialised := by
      refine ⟨⟨List.nodup_nil, (fun i hi => by cases hi), fun i hi => by cases hi⟩, fun i => ?_⟩
      have e : pops_left initialised i = 2 := rfl
      rw [e]
    have := pop_trace_budget B prog es initialised (fun _ => 0) h0 t
    simpa using this
  · intro env s task hc ht hgen
    obtain ⟨⟨hq, hcu, _, _, hlive⟩, _, hcan⟩ := worker_run_touches B env s t task hc ht
    have hg : gen_flag s.tasks t = true := by
      unfold gen_flag; rw [ht]; simpa using hgen
    have hcn := hcan hg
    rw [ht] at hlive
    cases h1 : heapGet (worker_run B env s).tasks t with
    | none => rw [h1] at hlive; cases hlive
    | some task1 =>
      have hc1 : task1.cancelled = true := by
        unfold task_cancelled at hcn
        rw [h1] at hcn
        exact hcn
      have hfree := ((hrule (worker_run B env s) task1 (hcu.trans hc) h1).2
        (fun h => by rw [hc1] at h; cases h.1))
      refine ⟨⟨task1, rfl, hc1, hfree.2.2.1⟩, hfree.1.trans hq, hfree.2.1⟩

set_option maxRecDepth 1000000 in
/-- C24 on the run `largeRequestEvents`: task 0 is popped twice, for its load cycle
and for its generate cycle, which is the bound. -/
theorem task_popped_at_most_twice_witness :
    pop_trace gridBackend noCalls initialised largeRequestEvents = [0, 0] ∧
    (pop_trace gridBackend noCalls initialised largeRequestEvents).count 0 ≤ 2 :=
  ⟨by decide, (task_popped_at_most_twice gridBackend noCalls largeRequestEvents 0).1⟩

/-! ## Handle conservation (C30) -/

theorem reshapes_refl (s : State) : Reshapes s s :=
  ⟨rfl, fun _ => rfl, fun _ task h => ⟨task, h, List.Perm.refl _⟩,
    fun _ task h => ⟨task, h, List.Perm.refl _⟩⟩

theorem reshapes_trans {a b c : State} (h1 : Reshapes a b) (h2 : Reshapes b c) :
    Reshapes a c := by
  refine ⟨h2.1.trans h1.1, fun h => (h2.2.1 h).trans (h1.2.1 h), fun t task1 ht => ?_,
    fun t task ht => ?_⟩
  · obtain ⟨task2, ht2, hp2⟩ := h2.2.2.1 t task1 ht
    obtain ⟨task3, ht3, hp3⟩ := h1.2.2.1 t task2 ht2
    exact ⟨task3, ht3, hp2.trans hp3⟩
  · obtain ⟨task2, ht2, hp2⟩ := h1.2.2.2 t task ht
    obtain ⟨task3, ht3, hp3⟩ := h2.2.2.2 t task2 ht2
    exact ⟨task3, ht3, hp3.trans hp2⟩

theorem reshapes_of_eq {s s1 : State} (hq : s1.ready_queue = s.ready_queue)
    (hr : s1.reqs = s.reqs) (ht : s1.tasks = s.tasks) : Reshapes s s1 := by
  refine ⟨hq, fun h => by rw [hr], fun t task1 h => ⟨task1, by rw [← ht]; exact h, List.Perm.refl _⟩,
    fun t task h => ⟨task, by rw [ht]; exact h, List.Perm.refl _⟩⟩

theorem reshapes_reqs {s s1 : State} (i : Nat) (f : FmThumbnailLoader → FmThumbnailLoader)
    (hq : s1.ready_queue = s.ready_queue) (hr : s1.reqs = heapMod s.reqs i f)
    (ht : s1.tasks = s.tasks) (hf : ∀ q, (f q).task = q.task) : Reshapes s s1 := by
  refine ⟨hq, fun h => ?_, fun t task1 h => ⟨task1, by rw [← ht]; exact h, List.Perm.refl _⟩,
    fun t task h => ⟨task, by rw [ht]; exact h, List.Perm.refl _⟩⟩
  rw [hr, heapGet_heapMod]
  by_cases hi : h = i
  · rw [if_pos hi, hi]
    cases heapGet s.reqs i with
    | none => rfl
    | some q => simp [hf]
  · rw [if_neg hi]

theorem reshapes_tasks {s s1 : State} (i : Nat) (f : ThumbnailTask → ThumbnailTask)
    (hq : s1.ready_queue = s.ready_queue) (hr : s1.reqs = s.reqs)
    (ht : s1.tasks = heapMod s.tasks i f) (hf : ∀ k, (f k).requests.Perm k.requests) :
    Reshapes s s1 := by
  refine ⟨hq, fun h => by rw [hr], fun t task1 h => ?_, fun t task h => ?_⟩
  · rw [ht, heapGet_heapMod] at h
    by_cases hi : t = i
    · rw [if_pos hi] at h
      cases hk : heapGet s.tasks i with
      | none => rw [hk] at h; cases h
      | some k =>
        rw [hk] at h
        simp only [Option.map_some', Option.some.injEq] at h
        rw [hi, ← h]
        exact ⟨k, hk, hf k⟩
    · rw [if_neg hi] at h
      exact ⟨task1, h, List.Perm.refl _⟩
  · rw [ht, heapGet_heapMod]
    by_cases hi : t = i
    · rw [if_pos hi]
      rw [hi] at h
      rw [h]
      exact ⟨f task, rfl, hf task⟩
    · rw [if_neg hi]
      exact ⟨task, h, List.Perm.refl _⟩

theorem task_of_map_eq {a b : List (Option FmThumbnailLoader)} {h : Nat} {r : FmThumbnailLoader}
    (e : (heapGet a h).map (·.task) = (heapGet b h).map (·.task)) (hr : heapGet b h = some r) :
    ∃ r1, heapGet a h = some r1 ∧ r1.task = r.task := by
  rw [hr] at e
  cases ha : heapGet a h with
  | none => rw [ha] at e; cases e
  | some r1 =>
    rw [ha] at e
    simp only [Option.map_some', Option.some.injEq] at e
    exact ⟨r1, rfl, e⟩

/-- A reshaping transition keeps the conservation of handles. -/
theorem conserved_reshape {x : Option Nat} {s s1 : State} (h : ConservedBut x s)
    (hs : Reshapes s s1) : ConservedBut x s1 := by
  obtain ⟨ha, hb, hc, hd, he⟩ := h
  obtain ⟨hq, hr, ht1, ht2⟩ := hs
  unfold ConservedBut Conserving
  rw [hq]
  refine ⟨ha, fun i hi => ?_, fun t task1 htk => ?_, fun i r1 hi => ?_, fun i hi => ?_⟩
  · obtain ⟨h1, r, h2, h3⟩ := hb i hi
    obtain ⟨r1, h4, h5⟩ := task_of_map_eq (hr i) h2
    exact ⟨h1, r1, h4, h5.trans h3⟩
  · obtain ⟨task, h1, hp⟩ := ht1 t task1 htk
    obtain ⟨h2, h3⟩ := hc t task h1
    refine ⟨hp.nodup_iff.mpr h2, fun i hi => ?_⟩
    obtain ⟨r, h4, h5⟩ := h3 i (hp.mem_iff.mp hi)
    obtain ⟨r1, h6, h7⟩ := task_of_map_eq (hr i) h4
    exact ⟨r1, h6, h7.trans h5⟩
  · obtain ⟨r, h1, h2⟩ := task_of_map_eq (hr i).symm hi
    obtain ⟨h3, h4⟩ := hd i r h1
    refine ⟨fun hn => h3 (h2.trans hn), fun t htk => ?_⟩
    obtain ⟨task, h5, h6⟩ := h4 t (h2.trans htk)
    obtain ⟨task1, h7, hp⟩ := ht2 t task h5
    exact ⟨task1, h7, hp.mem_iff.mpr h6⟩
  · obtain ⟨r, h1, h2⟩ := he i hi
    obtain ⟨r1, h3, h4⟩ := task_of_map_eq (hr i) h1
    exact ⟨r1, h3, h4.trans h2⟩

theorem cancel_reshapes (s : State) (req : Nat) :
    Reshapes s (fm_thumbnail_loader_cancel s req) := by
  obtain ⟨hq, _, _, _, _, _⟩ := cancel_frame s req
  obtain ⟨_, ht | ⟨t1, ht⟩⟩ := cancel_tasks s req
  · exact reshapes_reqs req _ hq (cancel_reqs s req) ht (fun _ => rfl)
  · have h1 : Reshapes s
        { s with reqs := heapMod s.reqs req (fun q => { q with cancelled := true }) } :=
      reshapes_reqs req _ rfl rfl rfl (fun _ => rfl)
    refine reshapes_trans h1 ?_
    exact reshapes_tasks t1 _ hq (cancel_reqs s req) ht (fun _ => List.Perm.refl _)

theorem finish_request_task (B : FmThumbnailLoaderBackend) (n l : Option GObject)
    (a : FinishLoop) (r : Nat) :
    ∀ i, (heapGet (finish_request B n l a r).st.reqs i).map (·.task)
      = (heapGet a.st.reqs i).map (·.task) := by
  have hm : ∀ (f : FmThumbnailLoader → FmThumbnailLoader), (∀ q, (f q).task = q.task) →
      ∀ i, (heapGet (heapMod a.st.reqs r f) i).map (·.task)
        = (heapGet a.st.reqs i).map (·.task) := by
    intro f hf i
    rw [heapGet_heapMod]
    by_cases hi : i = r
    · rw [if_pos hi, hi]
      cases heapGet a.st.reqs r with
      | none => rfl
      | some q => simp [hf]
    · rw [if_neg hi]
  rcases finish_request_cases B n l a r with e | ⟨req, _, _, _, ⟨_, e⟩ | ⟨p, _, e⟩ | ⟨_, e⟩⟩
  · rw [e]; exact fun _ => rfl
  · rw [e]; exact hm _ (fun _ => rfl)
  · rw [e]; exact hm _ (fun _ => rfl)
  · rw [e]; exact hm _ (fun _ => rfl)

theorem finish_fold_task (B : FmThumbnailLoaderBackend) (n l : Option GObject) (rs : List Nat) :
    ∀ (a : FinishLoop) (i : Nat),
      (heapGet (rs.foldl (finish_request B n l) a).st.reqs i).map (·.task)
        = (heapGet a.st.reqs i).map (·.task) := by
  induction rs with
  | nil => exact fun _ _ => rfl
  | cons r rs ih =>
    intro a i
    rw [List.foldl_cons]
    exact (ih _ i).trans (finish_request_task B n l a r i)

theorem thumbnail_task_finish_reshapes (B : FmThumbnailLoaderBackend) (s : State) (t : Nat)
    (n l : Option GObject) : Reshapes s (thumbnail_task_finish B s t n l) := by
  cases ht : heapGet s.tasks t with
  | none =>
    have : thumbnail_task_finish B s t n l = s := by
      unfold thumbnail_task_finish
      rw [ht]
    rw [this]
    exact reshapes_refl s
  | some task =>
    obtain ⟨h1, h2, _, _, _⟩ := thumbnail_task_finish_frame B s t task n l ht
    have h3 : ∀ i, (heapGet (thumbnail_task_finish B s t n l).reqs i).map (·.task)
        = (heapGet s.reqs i).map (·.task) := by
      intro i
      unfold thumbnail_task_finish
      rw [ht]
      exact finish_fold_task B n l _ _ i
    have h4 : Reshapes s { s with tasks := heapMod s.tasks t (fun k =>
        { k with requests := task.requests.insertionSort (comp_request s.reqs) }) } := by
      refine ⟨rfl, fun _ => rfl, fun t1 task1 hk => ?_, fun t1 task0 hk => ?_⟩
      · rw [heapGet_heapMod] at hk
        by_cases hi : t1 = t
        · rw [if_pos hi, ht] at hk
          simp only [Option.map_some', Option.some.injEq] at hk
          rw [hi, ← hk]
          exact ⟨task, ht, List.perm_insertionSort _ _⟩
        · rw [if_neg hi] at hk
          exact ⟨task1, hk, List.Perm.refl _⟩
      · show ∃ task1, heapGet (heapMod s.tasks t _) t1 = some task1 ∧ _
        rw [heapGet_heapMod]
        by_cases hi : t1 = t
        · rw [if_pos hi, ht]
          rw [hi, ht] at hk
          simp only [Option.some.injEq] at hk
          rw [← hk]
          exact ⟨_, rfl, List.perm_insertionSort _ _⟩
        · rw [if_neg hi]
          exact ⟨task0, hk, List.Perm.refl _⟩
    refine ⟨h2, h3, fun t1 task1 hk => ?_, fun t1 task0 hk => ?_⟩
    · rw [h1] at hk
      exact h4.2.2.1 t1 task1 hk
    · rw [h1]
      exact h4.2.2.2 t1 task0 hk

theorem load_thumbnails_reshapes (B : FmThumbnailLoaderBackend) (env : WorkerEnv) (s : State)
    (t : Nat) : Reshapes s (load_thumbnails B env s t) := by
  unfold load_thumbnails
  split
  · exact reshapes_refl s
  · split
    · exact reshapes_refl s
    · simp only
      split
      · exact reshapes_tasks t _ rfl rfl rfl (fun _ => List.Perm.refl _)
      · refine reshapes_trans ?_ (thumbnail_task_finish_reshapes B _ _ _ _)
        exact reshapes_tasks t _ rfl rfl rfl (fun _ => List.Perm.refl _)

theorem generate_thumbnails_reshapes (B : FmThumbnailLoaderBackend) (env : WorkerEnv)
    (s : State) (t : Nat) : Reshapes s (generate_thumbnails B env s t) := by
  have hcan : ∀ s1 : State, Reshapes s s1 → Reshapes s
      { s1 with tasks := heapMod s1.tasks t (fun k => { k with cancelled := true }) } :=
    fun s1 h => reshapes_trans h (reshapes_tasks t _ rfl rfl rfl (fun _ => List.Perm.refl _))
  unfold generate_thumbnails
  split
  · exact reshapes_refl s
  · apply hcan
    split
    · split
      · unfold generate_thumbnails_with_builtin
        split
        · exact reshapes_refl s
        · split <;> exact thumbnail_task_finish_reshapes B _ _ _ _
      · exact reshapes_refl s
    · unfold generate_thumbnails_with_thumbnailers
      split
      · exact reshapes_refl s
      · exact thumbnail_task_finish_reshapes B _ _ _ _

theorem worker_run_reshapes (B : FmThumbnailLoaderBackend) (env : WorkerEnv) (s : State) :
    Reshapes s (worker_run B env s) := by
  unfold worker_run
  split
  · exact reshapes_refl s
  · split
    · exact reshapes_refl s
    · rename_i task _ _ _ _
      have hend : ∀ s1 : State, Reshapes s s1 → Reshapes s
          { s1 with tasks := heapMod s1.tasks task (fun k =>
                      { k with normal_path := none, large_path := none }),
                    worker_pc := WorkerPc.requeue } :=
        fun s1 h => reshapes_trans h (reshapes_tasks task _ rfl rfl rfl (fun _ => List.Perm.refl _))
      have h1 : Reshapes s { s with tasks := heapMod s.tasks task (fun k =>
          { k with
            normal_path := if k.flags.load_normal then some ThumbFile.normal else k.normal_path,
            large_path := if k.flags.load_large then some ThumbFile.large else k.large_path }) } :=
        reshapes_tasks task _ rfl rfl rfl (fun _ => List.Perm.refl _)
      apply hend
      split
      · exact reshapes_trans h1 (generate_thumbnails_reshapes B env _ _)
      · exact reshapes_trans h1 (load_thumbnails_reshapes B env _ _)

theorem worker_pop_reshapes (s : State) : Reshapes s (worker_pop s) := by
  unfold worker_pop
  split
  · exact reshapes_of_eq rfl rfl rfl
  · next task _ _ =>
    exact reshapes_tasks task _ rfl rfl rfl (fun _ => List.Perm.refl _)

theorem task_free_fold_reqs (rs : List Nat) : ∀ (s : State) (h : Nat),
    heapGet (rs.foldl (fun (st : State) (req : Nat) =>
      { st with reqs := heapMod st.reqs req (fun q => { q with task := none }),
                ready_queue := st.ready_queue ++ [req],
                ready_idle_handler := arm_idle st.ready_idle_handler }) s).reqs h
      = if h ∈ rs then (heapGet s.reqs h).map (fun q => { q with task := none })
        else heapGet s.reqs h := by
  induction rs with
  | nil => intro s h; simp
  | cons r rs ih =>
    intro s h
    rw [List.foldl_cons, ih]
    dsimp only
    rw [heapGet_heapMod]
    by_cases hr : h = r
    · subst hr
      simp only [if_true, List.mem_cons, true_or]
      split
      · cases heapGet s.reqs h <;> rfl
      · rfl
    · simp only [hr, if_false, List.mem_cons, false_or]

/-- Freeing a task keeps the conservation of handles: its requests move to the ready
queue. -/
theorem free_conserved {x : Option Nat} (s : State) (t : Nat) (h : ConservedBut x s) :
    ConservedBut x (thumbnail_task_free s t) := by
  cases ht : heapGet s.tasks t with
  | none =>
    have : thumbnail_task_free s t = s := by
      unfold thumbnail_task_free
      rw [ht]
    rw [this]; exact h
  | some task =>
    obtain ⟨f1, f2, _, _, _⟩ := thumbnail_task_free_frame s t task ht
    have f3 : ∀ i, heapGet (thumbnail_task_free s t).reqs i
        = if i ∈ task.requests then (heapGet s.reqs i).map (fun q => { q with task := none })
          else heapGet s.reqs i := by
      intro i
      unfold thumbnail_task_free
      rw [ht]
      exact task_free_fold_reqs task.requests s i
    obtain ⟨ha, hb, hc, hd, he⟩ := h
    obtain ⟨hn, hmem⟩ := hc t task ht
    have hdisj : ∀ i, i ∈ s.ready_queue → i ∉ task.requests := by
      intro i hi hi2
      obtain ⟨_, r, h1, h2⟩ := hb i hi
      obtain ⟨r2, h3, h4⟩ := hmem i hi2
      rw [h1] at h3
      simp only [Option.some.injEq] at h3
      rw [h3, h4] at h2
      cases h2
    have hx : ∀ i, x = some i → i ∉ task.requests := by
      intro i hi hi2
      obtain ⟨r, h1, h2⟩ := he i hi
      obtain ⟨r2, h3, h4⟩ := hmem i hi2
      rw [h1] at h3
      simp only [Option.some.injEq] at h3
      rw [h3, h4] at h2
      cases h2
    unfold ConservedBut Conserving
    rw [f1, f2]
    refine ⟨?_, fun i hi => ?_, fun t1 task1 htk => ?_, fun i r1 hi => ?_, fun i hi => ?_⟩
    · exact List.nodup_append.mpr ⟨ha, hn, fun i h1 h2 => hdisj i h1 h2⟩
    · rw [f3]
      rcases List.mem_append.mp hi with h1 | h1
      · rw [if_neg (hdisj i h1)]
        exact hb i h1
      · rw [if_pos h1]
        obtain ⟨r, h3, _⟩ := hmem i h1
        rw [h3]
        exact ⟨fun e => hx i e h1, _, rfl, rfl⟩
    · rw [heapGet_heapFree] at htk
      by_cases h1 : t1 = t
      · rw [if_pos h1] at htk; cases htk
      · rw [if_neg h1] at htk
        obtain ⟨h2, h3⟩ := hc t1 task1 htk
        refine ⟨h2, fun i hi => ?_⟩
        obtain ⟨r, h4, h5⟩ := h3 i hi
        have hni : i ∉ task.requests := by
          intro h6
          obtain ⟨r2, h7, h8⟩ := hmem i h6
          rw [h4] at h7
          simp only [Option.some.injEq] at h7
          rw [h7, h8] at h5
          simp only [Option.some.injEq] at h5
          exact h1 h5.symm
        rw [f3, if_neg hni]
        exact ⟨r, h4, h5⟩
    · rw [f3] at hi
      by_cases h1 : i ∈ task.requests
      · rw [if_pos h1] at hi
        obtain ⟨r, h3, _⟩ := hmem i h1
        rw [h3] at hi
        simp only [Option.map_some', Option.some.injEq] at hi
        rw [← hi]
        exact ⟨fun _ => Or.inr (List.mem_append_right _ h1), fun t1 h4 => by cases h4⟩
      · rw [if_neg h1] at hi
        obtain ⟨h2, h3⟩ := hd i r1 hi
        refine ⟨fun hn1 => ?_, fun t1 h4 => ?_⟩
        · rcases h2 hn1 with h5 | h5
          · exact Or.inl h5
          · exact Or.inr (List.mem_append_left _ h5)
        · obtain ⟨task1, h5, h6⟩ := h3 t1 h4
          have hne : t1 ≠ t := by
            intro e
            rw [e, ht] at h5
            simp only [Option.some.injEq] at h5
            rw [← h5] at h6
            exact h1 h6
          refine ⟨task1, ?_, h6⟩
          rw [heapGet_heapFree, if_neg hne]
          exact h5
    · rw [f3, if_neg (hx i hi)]
      exact he i hi

theorem worker_requeue_conserved {x : Option Nat} (s : State) (h : ConservedBut x s) :
    ConservedBut x (worker_requeue s) := by
  unfold worker_requeue
  split
  · exact h
  · simp only
    split
    · exact conserved_reshape h (reshapes_of_eq rfl rfl rfl)
    · split
      · exact free_conserved _ _ (conserved_reshape h (reshapes_of_eq rfl rfl rfl))
      · exact conserved_reshape h (reshapes_of_eq rfl rfl rfl)

theorem finalize_fold_conserved {x : Option Nat} (q : List Nat) : ∀ s : State,
    ConservedBut x s → ConservedBut x (q.foldl thumbnail_task_free s) := by
  induction q with
  | nil => exact fun s h => h
  | cons t q ih =>
    intro s h
    rw [List.foldl_cons]
    exact ih _ (free_conserved s t h)

theorem finalize_conserved {x : Option Nat} (s : State) (h : ConservedBut x s) :
    ConservedBut x (_fm_thumbnail_loader_finalize s) := by
  have h1 : ConservedBut x (match s.cur_loading with
      | some task => { s with tasks := heapMod s.tasks task (fun k => { k with cancelled := true }) }
      | none => s) := by
    split
    · next task _ =>
      exact conserved_reshape h (reshapes_tasks task _ rfl rfl rfl (fun _ => List.Perm.refl _))
    · exact h
  unfold _fm_thumbnail_loader_finalize
  dsimp only
  refine conserved_reshape (finalize_fold_conserved _ _ ?_) (reshapes_of_eq rfl rfl rfl)
  exact conserved_reshape h1 (reshapes_of_eq rfl rfl rfl)

theorem heapFree_fold_get (q : List Nat) : ∀ (a : List (Option FmThumbnailLoader)) (i : Nat),
    heapGet (q.foldl heapFree a) i = if i ∈ q then none else heapGet a i := by
  induction q with
  | nil => intro a i; simp
  | cons t q ih =>
    intro a i
    rw [List.foldl_cons, ih, heapGet_heapFree]
    by_cases hi : i = t
    · simp [hi]
    · simp [hi]

theorem cleanup_conserved (s : State) (h : Conserved s) :
    Conserved (fm_thumbnail_loader_cleanup s).1 := by
  unfold fm_thumbnail_loader_cleanup
  split
  · exact h
  · obtain ⟨ha, hb, hc, hd, he⟩ := h
    have hfree : ∀ i r, heapGet s.reqs i = some r → (∃ t, r.task = some t) →
        heapGet (s.ready_queue.foldl heapFree s.reqs) i = some r := by
      intro i r hi ⟨t, ht⟩
      rw [heapFree_fold_get, if_neg, hi]
      intro hm
      obtain ⟨_, r2, h1, h2⟩ := hb i hm
      rw [hi] at h1
      simp only [Option.some.injEq] at h1
      rw [h1, h2] at ht
      cases ht
    refine ⟨List.nodup_nil, (fun i hi => by cases hi), fun t task ht => ?_, fun i r hi => ?_,
      fun i hi => by cases hi⟩
    · obtain ⟨h1, h2⟩ := hc t task ht
      refine ⟨h1, fun i hi => ?_⟩
      obtain ⟨r, h3, h4⟩ := h2 i hi
      exact ⟨r, hfree i r h3 ⟨t, h4⟩, h4⟩
    · have hi0 : heapGet (s.ready_queue.foldl heapFree s.reqs) i = some r := hi
      rw [heapFree_fold_get] at hi0
      by_cases hm : i ∈ s.ready_queue
      · rw [if_pos hm] at hi0; cases hi0
      · rw [if_neg hm] at hi0
        obtain ⟨h1, h2⟩ := hd i r hi0
        refine ⟨fun hn => ?_, h2⟩
        rcases h1 hn with h3 | h3
        · cases h3
        · exact absurd h3 hm

/-- Attaching a new request to a task keeps the conservation of handles.  The task
`tk` is live in `tasks1`, which agrees with the task heap elsewhere; it is either a
task of the heap or a new task without requests. -/
theorem attach_conserved {x : Option Nat} (ready : List Nat)
    (reqs : List (Option FmThumbnailLoader)) (tasks tasks1 : List (Option ThumbnailTask))
    (tk : Nat) (k0 : ThumbnailTask) (req : FmThumbnailLoader) (size : Nat)
    (h : Conserving x ready reqs tasks) (hreq : req.task = some tk)
    (hk : heapGet tasks1 tk = some k0)
    (hoth : ∀ t, t ≠ tk → heapGet tasks1 t = heapGet tasks t)
    (hk0 : heapGet tasks tk = some k0 ∨ (k0.requests = [] ∧ heapGet tasks tk = none)) :
    Conserving x ready (reqs ++ [some req])
      (heapMod tasks1 tk (attach_request size reqs.length)) := by
  obtain ⟨ha, hb, hc, hd, he⟩ := h
  have hold : ∀ i r, heapGet reqs i = some r → heapGet (reqs ++ [some req]) i = some r := by
    intro i r hi
    rw [heapGet_append_of_lt _ _ _ (heapGet_lt _ _ _ hi)]
    exact hi
  have hk0req : k0.requests.Nodup ∧
      ∀ i ∈ k0.requests, ∃ r, heapGet reqs i = some r ∧ r.task = some tk := by
    rcases hk0 with h1 | ⟨h1, _⟩
    · exact hc tk k0 h1
    · rw [h1]; exact ⟨List.nodup_nil, fun i hi => by cases hi⟩
  have hattach : (attach_request size reqs.length k0).requests = k0.requests ++ [reqs.length] :=
    rfl
  refine ⟨ha, fun i hi => ?_, fun t task htk => ?_, fun i r hi => ?_, fun i hi => ?_⟩
  · obtain ⟨h1, r, h2, h3⟩ := hb i hi
    exact ⟨h1, r, hold i r h2, h3⟩
  · rw [heapGet_heapMod] at htk
    by_cases ht : t = tk
    · rw [if_pos ht, hk] at htk
      simp only [Option.map_some', Option.some.injEq] at htk
      rw [← htk, hattach, ht]
      refine ⟨?_, fun i hi => ?_⟩
      · refine List.nodup_append.mpr ⟨hk0req.1, List.nodup_singleton _, ?_⟩
        intro i h1 h2
        rw [List.mem_singleton] at h2
        obtain ⟨r, h3, _⟩ := hk0req.2 i h1
        have := heapGet_lt _ _ _ h3
        omega
      · rcases List.mem_append.mp hi with h1 | h1
        · obtain ⟨r, h3, h4⟩ := hk0req.2 i h1
          exact ⟨r, hold i r h3, h4⟩
        · rw [List.mem_singleton] at h1
          rw [h1, heapGet_append_length]
          exact ⟨req, rfl, hreq⟩
    · rw [if_neg ht, hoth t ht] at htk
      obtain ⟨h1, h2⟩ := hc t task htk
      refine ⟨h1, fun i hi => ?_⟩
      obtain ⟨r, h3, h4⟩ := h2 i hi
      exact ⟨r, hold i r h3, h4⟩
  · by_cases hlt : i < reqs.length
    · rw [heapGet_append_of_lt _ _ _ hlt] at hi
      obtain ⟨h1, h2⟩ := hd i r hi
      refine ⟨h1, fun t ht => ?_⟩
      obtain ⟨task, h3, h4⟩ := h2 t ht
      rw [heapGet_heapMod]
      by_cases htk : t = tk
      · rw [if_pos htk, hk]
        refine ⟨attach_request size reqs.length k0, rfl, ?_⟩
        rw [hattach]
        rw [htk] at h3
        rcases hk0 with h5 | ⟨_, h5⟩
        · rw [h5] at h3
          simp only [Option.some.injEq] at h3
          rw [h3]
          exact List.mem_append_left _ h4
        · rw [h5] at h3; cases h3
      · rw [if_neg htk, hoth t htk]
        exact ⟨task, h3, h4⟩
    · by_cases heq : i = reqs.length
      · rw [heq, heapGet_append_length] at hi
        simp only [Option.some.injEq] at hi
        rw [← hi, hreq]
        refine ⟨(fun h1 => by cases h1), fun t ht => ?_⟩
        simp only [Option.some.injEq] at ht
        rw [← ht, heapGet_heapMod, if_pos rfl, hk]
        refine ⟨attach_request size reqs.length k0, rfl, ?_⟩
        rw [hattach, heq]
        exact List.mem_append_right _ (List.mem_singleton_self _)
      · rw [heapGet_of_length_le _ _
          (by rw [List.length_append, List.length_singleton]; omega)] at hi
        cases hi
  · obtain ⟨r, h1, h2⟩ := he i hi
    exact ⟨r, hold i r h1, h2⟩

/-- A new request without a task, appended to the ready queue, keeps the
conservation of handles. -/
theorem hit_conserved {x : Option Nat} (ready : List Nat)
    (reqs : List (Option FmThumbnailLoader)) (tasks : List (Option ThumbnailTask))
    (req : FmThumbnailLoader) (h : Conserving x ready reqs tasks) (hreq : req.task = none) :
    Conserving x (ready ++ [reqs.length]) (reqs ++ [some req]) tasks := by
  obtain ⟨ha, hb, hc, hd, he⟩ := h
  have hold : ∀ i r, heapGet reqs i = some r → heapGet (reqs ++ [some req]) i = some r := by
    intro i r hi
    rw [heapGet_append_of_lt _ _ _ (heapGet_lt _ _ _ hi)]
    exact hi
  have hnew : reqs.length ∉ ready := by
    intro hm
    obtain ⟨_, r, h1, _⟩ := hb _ hm
    exact Nat.lt_irrefl _ (heapGet_lt _ _ _ h1)
  refine ⟨?_, fun i hi => ?_, fun t task htk => ?_, fun i r hi => ?_, fun i hi => ?_⟩
  · refine List.nodup_append.mpr ⟨ha, List.nodup_singleton _, ?_⟩
    intro i h1 h2
    rw [List.mem_singleton] at h2
    exact hnew (h2 ▸ h1)
  · rcases List.mem_append.mp hi with h1 | h1
    · obtain ⟨h2, r, h3, h4⟩ := hb i h1
      exact ⟨h2, r, hold i r h3, h4⟩
    · rw [List.mem_singleton] at h1
      rw [h1]
      refine ⟨fun e => ?_, req, heapGet_append_length _ _, hreq⟩
      obtain ⟨r, h2, _⟩ := he _ e
      exact Nat.lt_irrefl _ (heapGet_lt _ _ _ h2)
  · obtain ⟨h1, h2⟩ := hc t task htk
    refine ⟨h1, fun i hi => ?_⟩
    obtain ⟨r, h3, h4⟩ := h2 i hi
    exact ⟨r, hold i r h3, h4⟩
  · by_cases hlt : i < reqs.length
    · rw [heapGet_append_of_lt _ _ _ hlt] at hi
      obtain ⟨h1, h2⟩ := hd i r hi
      refine ⟨fun hn => ?_, h2⟩
      rcases h1 hn with h3 | h3
      · exact Or.inl h3
      · exact Or.inr (List.mem_append_left _ h3)
    · by_cases heq : i = reqs.length
      · rw [heq, heapGet_append_length] at hi
        simp only [Option.some.injEq] at hi
        rw [← hi, hreq]
        refine ⟨fun _ => Or.inr ?_, fun t ht => by cases ht⟩
        rw [heq]
        exact List.mem_append_right _ (List.mem_singleton_self _)
      · rw [heapGet_of_length_le _ _
          (by rw [List.length_append, List.length_singleton]; omega)] at hi
        cases hi
  · obtain ⟨r, h1, h2⟩ := he i hi
    exact ⟨r, hold i r h1, h2⟩

theorem load_conserved {x : Option Nat} (s : State) (f : FmFileInfo) (size cb ud : Nat)
    (h : ConservedBut x s) : ConservedBut x (fm_thumbnail_loader_load s f size cb ud).1 := by
  unfold fm_thumbnail_loader_load
  split
  · exact h
  · dsimp only
    split
    · exact hit_conserved s.ready_queue s.reqs s.tasks _ h rfl
    · cases hfound : find_queued_task s.tasks s.loader_queue f with
      | some t1 =>
        simp only [Option.isSome_some, Option.getD_some, if_true]
        obtain ⟨⟨task, h1, _⟩, _⟩ := (find_queued_task_eq_some _ _ _ _).mp hfound
        exact attach_conserved s.ready_queue s.reqs s.tasks s.tasks t1 task _ size h rfl h1
          (fun _ _ => rfl) (Or.inl h1)
      | none =>
        simp only [Option.isSome_none, Option.getD_none, Bool.false_eq_true, if_false]
        refine attach_conserved s.ready_queue s.reqs s.tasks _ s.tasks.length (new_task f) _ size
          h rfl (heapGet_append_length _ _) (fun t ht => ?_)
          (Or.inr ⟨rfl, heapGet_of_length_le _ _ (le_refl _)⟩)
        by_cases hlt : t < s.tasks.length
        · exact heapGet_append_of_lt _ _ _ hlt
        · rw [heapGet_of_length_le s.tasks _ (by omega)]
          exact heapGet_of_length_le _ _
            (by rw [List.length_append, List.length_singleton]; omega)

/-- Handle conservation is kept by every sequence of events. -/
theorem run_conserved (B : FmThumbnailLoaderBackend) (prog : Nat → List Call)
    (es : List Event) (s : State) (h : Conserved s) : Conserved (run B prog s es) := by
  refine run_invariant B prog Conserved (fun r s => ConservedBut (some r) s)
    ?_ ?_ ?_ ?_ ?_ ?_ ?_ ?_ ?_ ?_ ?_ ?_ ?_ ?_ ?_ es s h
  · exact fun s f size cb ud h => load_conserved s f size cb ud h
  · exact fun s r h => conserved_reshape h (cancel_reshapes s r)
  · exact fun s h _ => conserved_reshape h (worker_pop_reshapes s)
  · exact fun env s h _ => conserved_reshape h (worker_run_reshapes B env s)
  · exact fun s h _ => worker_requeue_conserved s h
  · exact fun s _ _ h => conserved_reshape h (reshapes_of_eq rfl rfl rfl)
  · exact fun s h => finalize_conserved s h
  · exact fun s h => cleanup_conserved s h
  · exact fun s _ h => conserved_reshape h (reshapes_of_eq rfl rfl rfl)
  · exact fun s h => conserved_reshape h (reshapes_of_eq rfl rfl rfl)
  · intro s r rest h hq
    obtain ⟨ha, hb, hc, hd, he⟩ := h
    rw [hq] at ha hb hd
    have hn := List.nodup_cons.mp ha
    refine ⟨hn.2, fun i hi => ?_, hc, fun i q hi => ?_, fun i hi => ?_⟩
    · refine ⟨fun e => ?_, (hb i (List.mem_cons_of_mem _ hi)).2⟩
      simp only [Option.some.injEq] at e
      exact hn.1 (e ▸ hi)
    · obtain ⟨h1, h2⟩ := hd i q hi
      refine ⟨fun hnone => ?_, h2⟩
      rcases h1 hnone with h3 | h3
      · cases h3
      · rcases List.mem_cons.mp h3 with h4 | h4
        · exact Or.inl (by rw [h4])
        · exact Or.inr h4
    · simp only [Option.some.injEq] at hi
      rw [← hi]
      exact (hb r (List.mem_cons_self _ _)).2
  · exact fun _ s _ h => conserved_reshape h (reshapes_of_eq rfl rfl rfl)
  · exact fun _ s f size cb ud h => load_conserved s f size cb ud h
  · exact fun _ s q h => conserved_reshape h (cancel_reshapes s q)
  · intro r s h
    obtain ⟨ha, hb, hc, hd, he⟩ := h
    obtain ⟨rx, hx1, hx2⟩ := he r rfl
    refine ⟨ha, fun i hi => ?_, fun t task htk => ?_, fun i q hi => ?_, fun i hi => by cases hi⟩
    · obtain ⟨h1, q, h2, h3⟩ := hb i hi
      have hne : i ≠ r := fun e => h1 (by rw [e])
      refine ⟨by simp, q, ?_, h3⟩
      show heapGet (heapFree s.reqs r) i = some q
      rw [heapGet_heapFree, if_neg hne]
      exact h2
    · obtain ⟨h1, h2⟩ := hc t task htk
      refine ⟨h1, fun i hi => ?_⟩
      obtain ⟨q, h3, h4⟩ := h2 i hi
      have hne : i ≠ r := by
        intro e
        rw [e, hx1] at h3
        simp only [Option.some.injEq] at h3
        rw [← h3, hx2] at h4
        cases h4
      refine ⟨q, ?_, h4⟩
      show heapGet (heapFree s.reqs r) i = some q
      rw [heapGet_heapFree, if_neg hne]
      exact h3
    · have hi0 : heapGet (heapFree s.reqs r) i = some q := hi
      rw [heapGet_heapFree] at hi0
      by_cases hne : i = r
      · rw [if_pos hne] at hi0; cases hi0
      · rw [if_neg hne] at hi0
        obtain ⟨h1, h2⟩ := hd i q hi0
        refine ⟨fun hnone => ?_, h2⟩
        rcases h1 hnone with h3 | h3
        · simp only [Option.some.injEq] at h3
          exact absurd h3.symm hne
        · exact Or.inr h3

/-- C30: handle conservation.  In every state the engine reaches from its initial
state by loads, cancellations, steps of the loader thread, shutdown, clean-up and
idle drains, every live request handle is in exactly one place, exactly once:
either it has no task, occurs once in the ready queue and in no request list; or
it has a task, that task is live, the handle occurs once in the request list of
that task, in no other request list, and not in the ready queue. -/
theorem handle_in_exactly_one_place (B : FmThumbnailLoaderBackend) (prog : Nat → List Call)
    (es : List Event) (h : Nat) (req : FmThumbnailLoader)
    (hr : heapGet (run B prog initialised es).reqs h = some req) :
    (req.task = none ∧ (run B prog initialised es).ready_queue.count h = 1 ∧
      ∀ t task, heapGet (run B prog initialised es).tasks t = some task → h ∉ task.requests) ∨
    (∃ t task, req.task = some t ∧ heapGet (run B prog initialised es).tasks t = some task ∧
      task.requests.count h = 1 ∧ h ∉ (run B prog initialised es).ready_queue ∧
      ∀ t1 task1, heapGet (run B prog initialised es).tasks t1 = some task1 →
        h ∈ task1.requests → t1 = t) := by
  have h0 : Conserved initialised := by
    refine ⟨List.nodup_nil, (fun i hi => by cases hi), fun t task ht => ?_, fun i r hi => ?_,
      fun i hi => by cases hi⟩
    · have e : heapGet initialised.tasks t = none := rfl
      rw [e] at ht; cases ht
    · have e : heapGet initialised.reqs i = none := rfl
      rw [e] at hi; cases hi
  obtain ⟨ha, hb, hc, hd, _⟩ := run_conserved B prog es initialised h0
  obtain ⟨h1, h2⟩ := hd h req hr
  have hother : ∀ t1 task1, heapGet (run B prog initialised es).tasks t1 = some task1 →
      h ∈ task1.requests → req.task = some t1 := by
    intro t1 task1 ht1 hm
    obtain ⟨r, h3, h4⟩ := (hc t1 task1 ht1).2 h hm
    rw [hr] at h3
    simp only [Option.some.injEq] at h3
    rw [h3]; exact h4
  cases htask : req.task with
  | none =>
    refine Or.inl ⟨rfl, ?_, fun t task ht hm => ?_⟩
    · rcases h1 htask with h3 | h3
      · cases h3
      · exact List.count_eq_one_of_mem ha h3
    · have := hother t task ht hm
      rw [htask] at this; cases this
  | some t =>
    obtain ⟨task, h3, h4⟩ := h2 t htask
    refine Or.inr ⟨t, task, rfl, h3, List.count_eq_one_of_mem (hc t task h3).1 h4, fun hm => ?_,
      fun t1 task1 ht1 hm => ?_⟩
    · obtain ⟨_, r, h5, h6⟩ := hb h hm
      rw [hr] at h5
      simp only [Option.some.injEq] at h5
      rw [← h5, htask] at h6
      cases h6
    · have := hother t1 task1 ht1 hm
      rw [htask] at this
      simp only [Option.some.injEq] at this
      exact this.symm

set_option maxRecDepth 1000000 in
/-- C30 on the engine `twoAttached`: the request 0 belongs to task 0, occurs once in
the request list of task 0 and nowhere else. -/
theorem handle_in_exactly_one_place_witness :
    heapGet twoAttached.reqs 0
      = some { fi := fileA, task := some 0, callback := 7, user_data := 0, pix := none,
               cancelled := false, size := 48, done := false } ∧
    ((some 0 = (none : Option Nat) ∧ twoAttached.ready_queue.count 0 = 1 ∧
      ∀ t task, heapGet twoAttached.tasks t = some task → 0 ∉ task.requests) ∨
    (∃ t task, some 0 = some t ∧ heapGet twoAttached.tasks t = some task ∧
      task.requests.count 0 = 1 ∧ 0 ∉ twoAttached.ready_queue ∧
      ∀ t1 task1, heapGet twoAttached.tasks t1 = some task1 → 0 ∈ task1.requests → t1 = t)) :=
  ⟨by decide,
   handle_in_exactly_one_place gridBackend noCalls
    [Event.load fileA 48 7 0, Event.load fileA 96 8 0, Event.worker_pop] 0
    { fi := fileA, task := some 0, callback := 7, user_data := 0, pix := none,
      cancelled := false, size := 48, done := false } (by decide)⟩

end ThumbLoader

namespace FileInfo

/-! ## Copying a file info (C16) -/

/-- C16 (what the code does): `fm_file_info_update (fi, src)` copies the path, the
`stat` fields, the display strings, the collate keys, the MIME type, the icon and
the loading flags of `src`, but not the target, the colour and the `accessible`,
`hidden` and `backup` flags: the target of `fi` is `NULL` afterwards and the others
are what `fi` had before.  Copying the hidden, readable link `.profile` into a
fresh file info gives one that has no target and is neither hidden nor
accessible. -/
theorem update_skips_fields :
    (∀ fi src : FmFileInfo,
      (fm_file_info_update fi src).path = src.path ∧
      (fm_file_info_update fi src).mode = src.mode ∧
      (fm_file_info_update fi src).dev = src.dev ∧
      (fm_file_info_update fi src).uid = src.uid ∧
      (fm_file_info_update fi src).gid = src.gid ∧
      (fm_file_info_update fi src).size = src.size ∧
      (fm_file_info_update fi src).mtime = src.mtime ∧
      (fm_file_info_update fi src).atime = src.atime ∧
      (fm_file_info_update fi src).blocks = src.blocks ∧
      (fm_file_info_update fi src).disp_name = src.disp_name ∧
      (fm_file_info_update fi src).collate_key = src.collate_key ∧
      (fm_file_info_update fi src).collate_key_case = src.collate_key_case ∧
      (fm_file_info_update fi src).disp_size = src.disp_size ∧
      (fm_file_info_update fi src).disp_mtime = src.disp_mtime ∧
      (fm_file_info_update fi src).mime_type = src.mime_type ∧
      (fm_file_info_update fi src).icon = src.icon ∧
      (fm_file_info_update fi src).target = none ∧
      (fm_file_info_update fi src).color = fi.color ∧
      (fm_file_info_update fi src).color_loaded = fi.color_loaded ∧
      (fm_file_info_update fi src).accessible = fi.accessible ∧
      (fm_file_info_update fi src).hidden = fi.hidden ∧
      (fm_file_info_update fi src).backup = fi.backup) ∧
    fm_file_info_get_target hiddenLink = some "/etc/profile".toList ∧
    fm_file_info_get_target (fm_file_info_update fm_file_info_new hiddenLink) = none ∧
    fm_file_info_is_hidden sampleEnv hiddenLink = true ∧
    fm_file_info_is_hidden sampleEnv (fm_file_info_update fm_file_info_new hiddenLink) = false ∧
    fm_file_info_is_accessible hiddenLink = true ∧
    fm_file_info_is_accessible (fm_file_info_update fm_file_info_new hiddenLink) = false := by
  refine ⟨fun fi src => ?_, by decide, by decide, by decide, by decide, by decide, by decide⟩
  exact ⟨rfl, rfl, rfl, rfl, rfl, rfl, rfl, rfl, rfl, rfl, rfl, rfl, rfl, rfl, rfl, rfl, rfl, rfl,
    rfl, rfl, rfl, rfl⟩

/-! ## Thumbnailable files (C17) -/

theorem deferred_mime_type_load_idem (env : Env) (fi : FmFileInfo) :
    deferred_mime_type_load env (deferred_mime_type_load env fi)
      = deferred_mime_type_load env fi := by
  by_cases h : fi.mime_type.isSome = true ∨ fi.deferred_mime_type_load = true ∨
      ¬ fi.from_native_file = true
  · have e : deferred_mime_type_load env fi = fi := by
      unfold deferred_mime_type_load
      rw [if_pos h]
    rw [e, e]
  · have e : deferred_mime_type_load env fi
        = { fi with deferred_mime_type_load := true,
                    mime_type :=
                      (env.fm_mime_type_from_native_file fi.native_path
                        (fm_file_info_get_disp_name fi) none) } := by
      unfold deferred_mime_type_load
      rw [if_neg h]
    rw [e]
    unfold deferred_mime_type_load
    rw [if_pos (Or.inr (Or.inl rfl))]

theorem get_mime_type_loaded (env : Env) (fi : FmFileInfo) (h : fi.mime_type.isSome = true) :
    fm_file_info_get_mime_type env fi = (fi, fi.mime_type) := by
  unfold fm_file_info_get_mime_type
  rw [if_pos h]

theorem get_mime_type_unloaded (env : Env) (fi : FmFileInfo) (h : ¬ fi.mime_type.isSome = true) :
    fm_file_info_get_mime_type env fi
      = (deferred_mime_type_load env fi, (deferred_mime_type_load env fi).mime_type) := by
  unfold fm_file_info_get_mime_type
  rw [if_neg h]

theorem get_mime_type_idem (env : Env) (fi : FmFileInfo) :
    (fm_file_info_get_mime_type env (fm_file_info_get_mime_type env fi).1).2
      = (fm_file_info_get_mime_type env fi).2 := by
  by_cases h : fi.mime_type.isSome = true
  · rw [get_mime_type_loaded env fi h]
    show (fm_file_info_get_mime_type env fi).2 = fi.mime_type
    rw [get_mime_type_loaded env fi h]
  · rw [get_mime_type_unloaded env fi h]
    show (fm_file_info_get_mime_type env (deferred_mime_type_load env fi)).2
      = (deferred_mime_type_load env fi).mime_type
    by_cases h1 : (deferred_mime_type_load env fi).mime_type.isSome = true
    · rw [get_mime_type_loaded env _ h1]
    · rw [get_mime_type_unloaded env _ h1, deferred_mime_type_load_idem]

theorem is_desktop_entry_mime (env : Env) (fi : FmFileInfo) :
    (fm_file_info_get_mime_type env (fm_file_info_is_desktop_entry env fi).1).2
      = (fm_file_info_get_mime_type env fi).2 := by
  unfold fm_file_info_is_desktop_entry
  by_cases hc : fi.from_native_file = true ∧
      ¬ g_str_has_suffix (if fi.target.isSome then fi.target else fi.native_path)
          ".desktop".toList = true
  · rw [if_pos hc]
  · rw [if_neg hc]
    exact get_mime_type_idem env fi

theorem land_S_IFREG (mode : Nat) : mode &&& S_IFREG = (mode &&& S_IFMT) &&& S_IFREG := by
  rw [Nat.land_assoc]
  rfl

/-- C17 (as the code has it): for a file info whose MIME type can be had,
`fm_file_info_can_thumbnail` returns `TRUE` if and only if the size is not zero, the
bit `S_IFREG` of the mode is set, the file is not a desktop entry and its MIME type
is not the unknown one.  Among the file types of POSIX the bit `S_IFREG` is set for
regular files, symbolic links and sockets. -/
theorem can_thumbnail_iff (env : Env) (fi : FmFileInfo) (m : FmMimeType)
    (hm : (fm_file_info_get_mime_type env fi).2 = some m) :
    (∃ b, (fm_file_info_can_thumbnail env fi).2 = some b ∧
      (b = true ↔ fi.size ≠ 0 ∧ fi.mode &&& S_IFREG ≠ 0 ∧
        (fm_file_info_is_desktop_entry env fi).2 = false ∧
        env.g_content_type_is_unknown m.type = false)) ∧
    ((fi.mode &&& S_IFMT = S_IFREG ∨ fi.mode &&& S_IFMT = S_IFDIR ∨
        fi.mode &&& S_IFMT = S_IFLNK ∨ fi.mode &&& S_IFMT = S_IFCHR ∨
        fi.mode &&& S_IFMT = S_IFBLK ∨ fi.mode &&& S_IFMT = S_IFIFO ∨
        fi.mode &&& S_IFMT = S_IFSOCK) →
      (fi.mode &&& S_IFREG ≠ 0 ↔
        S_ISREG fi.mode = true ∨ S_ISLNK fi.mode = true ∨ S_ISSOCK fi.mode = true)) := by
  constructor
  · unfold fm_file_info_can_thumbnail
    by_cases h1 : fi.size = 0 ∨ fi.mode &&& S_IFREG = 0
    · rw [if_pos h1]
      refine ⟨false, rfl, ?_⟩
      constructor
      · intro h; cases h
      · intro ⟨a, b, _⟩
        rcases h1 with h1 | h1
        · exact absurd h1 a
        · exact absurd h1 b
    · rw [if_neg h1]
      have h1a : fi.size ≠ 0 := fun h => h1 (Or.inl h)
      have h1b : fi.mode &&& S_IFREG ≠ 0 := fun h => h1 (Or.inr h)
      by_cases h2 : (fm_file_info_is_desktop_entry env fi).2 = true
      · rw [if_pos h2]
        refine ⟨false, rfl, ?_⟩
        constructor
        · intro h; cases h
        · intro ⟨_, _, c, _⟩
          rw [h2] at c
          cases c
      · rw [if_neg h2]
        have h2a : (fm_file_info_is_desktop_entry env fi).2 = false := by simpa using h2
        unfold fm_file_info_is_unknown_type
        rw [is_desktop_entry_mime, hm]
        refine ⟨! env.g_content_type_is_unknown m.type, rfl, ?_⟩
        constructor
        · intro h
          exact ⟨h1a, h1b, h2a, by simpa using h⟩
        · intro ⟨_, _, _, d⟩
          rw [d]
          rfl
  · intro ht
    rw [land_S_IFREG]
    unfold S_ISREG S_ISLNK S_ISSOCK
    rcases ht with h | h | h | h | h | h | h <;> rw [h] <;> decide

/-- Witness of C17: the symbolic link `pic.png` as `fm_file_info_set_from_native_file`
fills it (MIME type `image/png`, 9 bytes) can be thumbnailed. -/
theorem can_thumbnail_iff_witness :
    (fm_file_info_set_from_native_file sampleEnv linkToImage picInfo
      "/home/u/pic.png".toList).map (fun r => (fm_file_info_get_mime_type sampleEnv r.1).2)
      = some (some ⟨"image/png".toList⟩) ∧
    ∃ b, (fm_file_info_can_thumbnail sampleEnv
        { picInfo with mode := 0o120777, size := 9,
                       mime_type := some ⟨"image/png".toList⟩ }).2 = some b ∧
      (b = true ↔ (9 : Int) ≠ 0 ∧ 0o120777 &&& S_IFREG ≠ 0 ∧
        (fm_file_info_is_desktop_entry sampleEnv
          { picInfo with mode := 0o120777, size := 9,
                         mime_type := some ⟨"image/png".toList⟩ }).2 = false ∧
        sampleEnv.g_content_type_is_unknown "image/png".toList = false) :=
  ⟨by decide,
   (can_thumbnail_iff sampleEnv
     { picInfo with mode := 0o120777, size := 9, mime_type := some ⟨"image/png".toList⟩ }
     ⟨"image/png".toList⟩ (by decide)).1⟩

/-- Counterexample to C17 as stated: `pic.png` is a symbolic link, not a regular file
(`S_ISREG` of its mode is false), it has 9 bytes, is no desktop entry and has the
known MIME type `image/png`; `fm_file_info_can_thumbnail` returns `TRUE` for it. -/
theorem can_thumbnail_symlink :
    ((fm_file_info_set_from_native_file sampleEnv linkToImage picInfo
        "/home/u/pic.png".toList).map (fun r => S_ISREG r.1.mode)) = some false ∧
    ((fm_file_info_set_from_native_file sampleEnv linkToImage picInfo
        "/home/u/pic.png".toList).bind
      (fun r => (fm_file_info_can_thumbnail sampleEnv r.1).2)) = some true := by
  decide

/-! ## Hidden files (C18) -/

theorem deferred_mime_type_load_path (env : Env) (fi : FmFileInfo) :
    (deferred_mime_type_load env fi).path = fi.path := by
  unfold deferred_mime_type_load
  split <;> rfl

theorem get_mime_type_path (env : Env) (fi : FmFileInfo) :
    (fm_file_info_get_mime_type env fi).1.path = fi.path := by
  unfold fm_file_info_get_mime_type
  split
  · rfl
  · exact deferred_mime_type_load_path env fi

theorem is_desktop_entry_path (env : Env) (fi : FmFileInfo) :
    (fm_file_info_is_desktop_entry env fi).1.path = fi.path := by
  unfold fm_file_info_is_desktop_entry
  by_cases hc : fi.from_native_file = true ∧
      ¬ g_str_has_suffix (if fi.target.isSome then fi.target else fi.native_path)
          ".desktop".toList = true
  · rw [if_pos hc]
  · rw [if_neg hc]
    exact get_mime_type_path env fi

theorem desktop_entry_fields_path (file : NativeFile) (fi : FmFileInfo) :
    (desktop_entry_fields file fi).path = fi.path := by
  unfold desktop_entry_fields
  split <;> rfl

theorem ite_path (c : Prop) [Decidable c] (a b : FmFileInfo) (p : Option FmPath)
    (ha : a.path = p) (hb : b.path = p) : (if c then a else b).path = p := by
  split
  · exact ha
  · exact hb

theorem native_file_fields_path (env : Env) (file : NativeFile) (fi : FmFileInfo)
    (path : List Char) (st0 : Stat) :
    (native_file_fields env file fi path st0).path = fi.path := by
  unfold native_file_fields
  lift_lets
  intro fi1 fi2 fi3 fi4 de fi5
  have h2 : fi2.path = fi.path := ite_path _ _ _ _ rfl rfl
  have h3 : fi3.path = fi.path := ite_path _ _ _ _ h2 h2
  have h4 : fi4.path = fi.path := h3
  have hd : de.1.path = fi.path := (is_desktop_entry_path env fi4).trans h4
  have h5 : fi5.path = fi.path :=
    ite_path _ _ _ _ ((desktop_entry_fields_path file de.1).trans hd) hd
  exact ite_path _ _ _ _ h5 h5

/-- C18 (as the code has it): for a file info with a path that is filled by
`fm_file_info_set_from_native_file` (the `lstat` succeeds), the call succeeds and
`fm_file_info_is_hidden` returns `TRUE` if and only if the base name starts with
`.`, or `backup_as_hidden` is set, the base name ends with `~` and the file (for a
symbolic link: what it points to) is not a directory. -/
theorem is_hidden_native_iff (env : Env) (file : NativeFile) (fi : FmFileInfo)
    (path : List Char) (p : FmPath) (st0 : Stat) (hp : fi.path = some p)
    (hst : file.lstat = some st0) :
    ∃ fi1, fm_file_info_set_from_native_file env file fi path = some (fi1, true) ∧
      (fm_file_info_is_hidden env fi1 = true ↔
        p.basename.head? = some '.' ∨
        (env.backup_as_hidden = true ∧ S_ISDIR (followed_stat file st0).st_mode = false ∧
          List.isSuffixOf ['~'] p.basename = true)) := by
  have hpath := native_file_fields_path env file fi path st0
  rw [hp] at hpath
  unfold fm_file_info_set_from_native_file
  simp only [hst, hpath]
  refine ⟨_, rfl, ?_⟩
  unfold fm_file_info_is_hidden g_str_has_suffix
  simp only [Bool.or_eq_true, Bool.and_eq_true, decide_eq_true_eq, Bool.not_eq_true']

/-- Witness of C18: the link `pic.png` is not hidden. -/
theorem is_hidden_native_iff_witness :
    ∃ fi1, fm_file_info_set_from_native_file sampleEnv linkToImage picInfo
        "/home/u/pic.png".toList = some (fi1, true) ∧
      (fm_file_info_is_hidden sampleEnv fi1 = true ↔
        "pic.png".toList.head? = some '.' ∨
        (sampleEnv.backup_as_hidden = true ∧
          S_ISDIR (followed_stat linkToImage ⟨0o120777, 1000, 1000, 9, 2049, 1000, 1000⟩).st_mode
            = false ∧
          List.isSuffixOf ['~'] "pic.png".toList = true)) :=
  is_hidden_native_iff sampleEnv linkToImage picInfo "/home/u/pic.png".toList
    ⟨"pic.png".toList, true⟩ ⟨0o120777, 1000, 1000, 9, 2049, 1000, 1000⟩ rfl rfl

/-- Counterexample to C18 as stated: `backup_as_hidden` is set and the base name of
the directory `cache~` ends with `~`, yet `fm_file_info_is_hidden` returns `FALSE`
for it: the `backup` flag is not set for directories. -/
theorem is_hidden_backup_dir :
    sampleEnv.backup_as_hidden = true ∧
    List.isSuffixOf ['~'] "cache~".toList = true ∧
    (fm_file_info_set_from_native_file sampleEnv backupDir cacheInfo
        "/home/u/cache~".toList).map (fun r => (r.2, fm_file_info_is_hidden sampleEnv r.1))
      = some (true, false) := by
  decide

/-! ## Collate keys (C19) -/

/-- C19 (what the code does): on a file info without a cached key, each getter
returns its own key, the filename collation key of the case-folded display name
for `fm_file_info_get_collate_key` and that of the display name itself for
`fm_file_info_get_collate_key_nocasefold`; but both fill and read the one field
`collate_key`, so after either getter has run the other returns the key of the
first. -/
theorem collate_key_cache_shared (env : Env) (fi : FmFileInfo) (name : List Char)
    (hfresh : fi.collate_key = CollateKey.null)
    (hname : fm_file_info_get_disp_name fi = some name) :
    ∃ fi1 fi2,
      fm_file_info_get_collate_key env fi
        = some (fi1, env.g_utf8_collate_key_for_filename (env.g_utf8_casefold name)) ∧
      fm_file_info_get_collate_key_nocasefold env fi
        = some (fi2, env.g_utf8_collate_key_for_filename name) ∧
      fm_file_info_get_collate_key_nocasefold env fi1
        = some (fi1, env.g_utf8_collate_key_for_filename (env.g_utf8_casefold name)) ∧
      fm_file_info_get_collate_key env fi2
        = some (fi2, env.g_utf8_collate_key_for_filename name) := by
  have hget : ∀ k, fm_file_info_get_disp_name { fi with collate_key := k } = some name :=
    fun _ => hname
  have hcached : ∀ (k : CollateKey) (v : List Char), k ≠ CollateKey.null →
      collate_key_value { fi with collate_key := k } k = some v →
      fm_file_info_get_collate_key env { fi with collate_key := k }
          = some ({ fi with collate_key := k }, v) ∧
        fm_file_info_get_collate_key_nocasefold env { fi with collate_key := k }
          = some ({ fi with collate_key := k }, v) := by
    intro k v hk hv
    unfold fm_file_info_get_collate_key fm_file_info_get_collate_key_nocasefold
    simp only [hk, if_false, hv, Option.map_some']
    exact ⟨trivial, trivial⟩
  have hfill : ∀ key : List Char, ∃ k, k ≠ CollateKey.null ∧
      collate_key_value { fi with collate_key := k } k = some key ∧
      (if key ≠ name then some ({ fi with collate_key := CollateKey.key key }, key)
        else some ({ fi with collate_key := CollateKey.using_display_name }, name))
        = some ({ fi with collate_key := k }, key) := by
    intro key
    by_cases hk : key ≠ name
    · refine ⟨CollateKey.key key, ?_, rfl, ?_⟩
      · intro h; cases h
      · rw [if_pos hk]
    · have hk1 : key = name := by simpa using hk
      refine ⟨CollateKey.using_display_name, ?_, ?_, ?_⟩
      · intro h; cases h
      · show fm_file_info_get_disp_name { fi with collate_key := _ } = some key
        rw [hget, hk1]
      · rw [if_neg hk, hk1]
  obtain ⟨k1, n1, v1, e1⟩ := hfill (env.g_utf8_collate_key_for_filename (env.g_utf8_casefold name))
  obtain ⟨k2, n2, v2, e2⟩ := hfill (env.g_utf8_collate_key_for_filename name)
  refine ⟨{ fi with collate_key := k1 }, { fi with collate_key := k2 }, ?_, ?_,
    (hcached k1 _ n1 v1).2, (hcached k2 _ n2 v2).1⟩
  · unfold fm_file_info_get_collate_key
    rw [if_pos hfresh, hname]
    exact e1
  · unfold fm_file_info_get_collate_key_nocasefold
    rw [if_pos hfresh, hname]
    exact e2

/-- Witness of C19: for the file `Readme` the case-folded key is `kreadme` and the
case-sensitive key is `kReadme`; asked after `fm_file_info_get_collate_key`,
`fm_file_info_get_collate_key_nocasefold` returns `kreadme`. -/
theorem collate_key_cache_shared_witness :
    (fm_file_info_get_collate_key_nocasefold sampleEnv readmeInfo).map (·.2)
      = some "kReadme".toList ∧
    ((fm_file_info_get_collate_key sampleEnv readmeInfo).bind
      (fun r => (fm_file_info_get_collate_key_nocasefold sampleEnv r.1).map (·.2)))
      = some "kreadme".toList ∧
    ∃ fi1 fi2,
      fm_file_info_get_collate_key sampleEnv readmeInfo
        = some (fi1, sampleEnv.g_utf8_collate_key_for_filename
            (sampleEnv.g_utf8_casefold "Readme".toList)) ∧
      fm_file_info_get_collate_key_nocasefold sampleEnv readmeInfo
        = some (fi2, sampleEnv.g_utf8_collate_key_for_filename "Readme".toList) ∧
      fm_file_info_get_collate_key_nocasefold sampleEnv fi1
        = some (fi1, sampleEnv.g_utf8_collate_key_for_filename
            (sampleEnv.g_utf8_casefold "Readme".toList)) ∧
      fm_file_info_get_collate_key sampleEnv fi2
        = some (fi2, sampleEnv.g_utf8_collate_key_for_filename "Readme".toList) :=
  ⟨by decide, by decide,
   collate_key_cache_shared sampleEnv readmeInfo "Readme".toList rfl rfl⟩

/-! ## Icon names of desktop entries (C27) -/

theorem strrchr_none (s : List Char) (c : Char) (h : c ∉ s) : strrchr s c = none := by
  unfold strrchr
  have : s.reverse.indexOf? c = none := by
    unfold List.indexOf?
    rw [List.findIdx?_eq_none_iff]
    intro x hx
    rw [List.mem_reverse] at hx
    have hne : x ≠ c := fun e => h (e ▸ hx)
    simpa using hne
  rw [this]
  rfl

theorem strrchr_last (pre ext : List Char) (c : Char) (h : c ∉ ext) :
    strrchr (pre ++ c :: ext) c = some pre.length := by
  unfold strrchr
  have hrev : (pre ++ c :: ext).reverse = ext.reverse ++ c :: pre.reverse := by simp
  have hnone : ext.reverse.findIdx? (fun x => x == c) = none := by
    rw [List.findIdx?_eq_none_iff]
    intro x hx
    rw [List.mem_reverse] at hx
    have hne : x ≠ c := fun e => h (e ▸ hx)
    simpa using hne
  have : (pre ++ c :: ext).reverse.indexOf? c = some ext.length := by
    unfold List.indexOf?
    rw [hrev, List.findIdx?_append, hnone]
    simp [List.findIdx?_cons]
  rw [this]
  have hlen : (pre ++ c :: ext).length - 1 - ext.length = pre.length := by
    rw [List.length_append, List.length_cons]
    omega
  rw [Option.map_some', hlen]

theorem menu_cache_icon_name_eq (name : List Char) :
    menu_cache_icon_name name = strip_icon_extension name := by
  unfold menu_cache_icon_name strip_icon_extension g_strndup
  rfl

theorem menu_cache_item_icon (fi : FmFileInfo) (item : MenuCacheItem) (name : List Char)
    (hi : item.icon = some name) :
    (fm_file_info_set_from_menu_cache_item fi item).icon = some ⟨menu_cache_icon_name name⟩ := by
  unfold fm_file_info_set_from_menu_cache_item
  rw [hi]
  by_cases h1 : item.type = MenuCacheType.dir
  · simp only [h1, if_true]
  · by_cases h2 : item.type = MenuCacheType.app
    · simp only [h2]
      split <;> rfl
    · simp only [h1, h2, if_false]

/-- C27: an icon name that starts with `/` is used unchanged; any other name whose
text after its last `.` is `png`, `svg` or `xpm` is cut just before that `.`; every
other name (another extension, no `.` at all) is used unchanged; and the copying
variant of `fm_file_info_set_from_menu_cache_item` yields the same name as the
in-place variant of `fm_file_info_set_from_native_file` for every input. -/
theorem strip_icon_extension_spec :
    (∀ name : List Char, name.head? = some '/' → strip_icon_extension name = name) ∧
    (∀ pre ext : List Char, '.' ∉ ext → (pre ++ '.' :: ext).head? ≠ some '/' →
      strip_icon_extension (pre ++ '.' :: ext)
        = if ext = "png".toList ∨ ext = "svg".toList ∨ ext = "xpm".toList then pre
          else pre ++ '.' :: ext) ∧
    (∀ name : List Char, '.' ∉ name → strip_icon_extension name = name) ∧
    (∀ name : List Char, menu_cache_icon_name name = strip_icon_extension name) ∧
    (∀ (file : NativeFile) (fi : FmFileInfo) (name : List Char)
        (title : Option (List Char)) (item : MenuCacheItem),
      file.key_file = some (some name, title) → item.icon = some name →
      (desktop_entry_fields file fi).icon
        = (fm_file_info_set_from_menu_cache_item fi item).icon) := by
  refine ⟨?_, ?_, ?_, menu_cache_icon_name_eq, ?_⟩
  · intro name h
    unfold strip_icon_extension
    rw [if_neg (by simp [h])]
  · intro pre ext hext hhead
    unfold strip_icon_extension
    rw [if_pos hhead, strrchr_last pre ext '.' hext]
    have hd : List.drop (pre.length + 1) (pre ++ '.' :: ext) = ext := by simp
    have ht : List.take pre.length (pre ++ '.' :: ext) = pre := by simp
    simp only [hd, ht]
  · intro name h
    unfold strip_icon_extension
    rw [strrchr_none name '.' h]
    simp
  · intro file fi name title item hk hi
    rw [menu_cache_item_icon fi item name hi, menu_cache_icon_name_eq]
    unfold desktop_entry_fields
    rw [hk]

end FileInfo
